import Mathlib

/-! # BSON codec of `external-libs/bson/bson.cc`

A shallow embedding of the size estimator (`BSON::calculate_object_size`), the
encoder (`BSON::serialize`, `BSON::BSONSerialize`,
`BSON::SerializeWithBufferAndIndex`), the key validator (`BSON::check_key`)
and the decoder (`BSON::deserialize`, `BSON::decodeLong`).

Conventions of the embedding.

* A byte is a natural number below 256; every store into memory keeps the low
  eight bits of what is stored, and every load from a byte region does too.
* `uint32_t`, `int32_t`, `int64_t` quantities are `Nat` or `Int`, with the
  wrap-around written out where the source converts or where the decoder adds
  to its cursor.  The encoder's cursor is bounded by the estimated size.
* The output buffer is addressed memory (`Memory`), written in place at
  `serialized_object + index`, so that rewrites of an earlier byte (the tag of
  a number, the total size of a code element) and the zero padding are the
  stores the source performs.
* A host string is a `String`; `WriteUtf8` is standard UTF-8, `Length` counts
  UTF-16 code units, and the `BINARY` encoding keeps the low byte of every
  UTF-16 code unit.
* A host number is the bit pattern of an IEEE 754 binary64 value.
-/

namespace BSON

/-! ## Machine integers and bytes -/

/-- Conversion of an integer to `uint32_t`. -/
def toUint32 (i : Int) : Nat := (i % 4294967296).toNat

/-- Conversion of an unsigned value to `int32_t` (two's complement). -/
def toInt32 (n : Nat) : Int :=
  if n % 4294967296 < 2147483648 then ((n % 4294967296 : Nat) : Int)
  else ((n % 4294967296 : Nat) : Int) - 4294967296

/-- Conversion of an integer to its 64-bit two's complement pattern. -/
def toUint64 (i : Int) : Nat := (i % 18446744073709551616).toNat

/-- Conversion of a 64-bit pattern to `int64_t`. -/
def toInt64 (n : Nat) : Int :=
  if n % 18446744073709551616 < 9223372036854775808 then ((n % 18446744073709551616 : Nat) : Int)
  else ((n % 18446744073709551616 : Nat) : Int) - 18446744073709551616

/-- Subtraction of two `uint32_t` values. -/
def uint32Sub (a b : Nat) : Nat := (a % 4294967296 + 4294967296 - b % 4294967296) % 4294967296

/-- Addition of `uint32_t` values. -/
def uint32Add (a b : Nat) : Nat := (a + b) % 4294967296

/-- The `count` low bytes of `value`, least significant first (what `memcpy`
from an integer stores on a little-endian machine). -/
def leBytes : Nat → Nat → List Nat
  | 0, _ => []
  | count + 1, value => value % 256 :: leBytes count (value / 256)

/-- The unsigned integer whose little-endian bytes are given. -/
def leValue : List Nat → Nat
  | [] => 0
  | b :: bs => b % 256 + 256 * leValue bs

/-- Equality of results is decidable when that of values and failures is. -/
instance instDecidableEqExcept {ε α : Type} [DecidableEq ε] [DecidableEq α] :
    DecidableEq (Except ε α)
  | .ok a, .ok b => if h : a = b then isTrue (by rw [h]) else isFalse (by intro h2; cases h2; exact h rfl)
  | .error a, .error b => if h : a = b then isTrue (by rw [h]) else isFalse (by intro h2; cases h2; exact h rfl)
  | .ok _, .error _ => isFalse (by intro h; cases h)
  | .error _, .ok _ => isFalse (by intro h; cases h)

/-! ## Memory written by the encoder -/

/-- Addressed bytes. -/
abbrev Memory := Nat → Nat

/-- The store `*(p) = b` of one `char`. -/
def store (mem : Memory) (p : Nat) (b : Nat) : Memory :=
  fun a => if a = p then b % 256 else mem a

/-- The stores of consecutive bytes from `p` on (`memcpy`, `DecodeWrite`). -/
def storeBytes (mem : Memory) (p : Nat) : List Nat → Memory
  | [] => mem
  | b :: bs => storeBytes (store mem p b) (p + 1) bs

/-- The `count` bytes of memory from `p` on. -/
def loadBytes (mem : Memory) (p : Nat) (count : Nat) : List Nat :=
  (List.range count).map (fun i => mem (p + i))

/-- `BSON::write_int32(char *data, uint32_t value)`. -/
def write_int32 (mem : Memory) (data : Nat) (value : Nat) : Memory :=
  storeBytes mem data (leBytes 4 (value % 4294967296))

/-- `BSON::write_double(char *data, double value)`; the value is its bit pattern. -/
def write_double (mem : Memory) (data : Nat) (value : Nat) : Memory :=
  storeBytes mem data (leBytes 8 (value % 18446744073709551616))

/-- `BSON::write_int64(char *data, int64_t value)`. -/
def write_int64 (mem : Memory) (data : Nat) (value : Int) : Memory :=
  storeBytes mem data (leBytes 8 (toUint64 value))

/-! ## Host strings -/

/-- The UTF-8 bytes of one character. -/
def utf8EncodeChar (c : Char) : List Nat :=
  let v := c.toNat
  if v ≤ 127 then [v]
  else if v ≤ 2047 then [192 + v / 64, 128 + v % 64]
  else if v ≤ 65535 then [224 + v / 4096, 128 + v / 64 % 64, 128 + v % 64]
  else [240 + v / 262144, 128 + v / 4096 % 64, 128 + v / 64 % 64, 128 + v % 64]

/-- The UTF-16 code units of one character. -/
def utf16EncodeChar (c : Char) : List Nat :=
  let v := c.toNat
  if v ≤ 65535 then [v]
  else [55296 + (v - 65536) / 1024, 56320 + (v - 65536) % 1024]

/-- `String::WriteUtf8`, also `DecodeWrite(.., UTF8)`: the UTF-8 bytes of a string. -/
def WriteUtf8 (s : String) : List Nat := s.toList.flatMap utf8EncodeChar

/-- `String::Utf8Length`, also `DecodeBytes(.., UTF8)`. -/
def Utf8Length (s : String) : Nat := (WriteUtf8 s).length

/-- `String::Length`, also `DecodeBytes(.., BINARY)`: the number of UTF-16 code units. -/
def Length (s : String) : Nat := (s.toList.flatMap utf16EncodeChar).length

/-- `DecodeWrite(.., BINARY)`: the low byte of every UTF-16 code unit. -/
def DecodeWriteBINARY (s : String) : List Nat :=
  (s.toList.flatMap utf16EncodeChar).map (fun u => u % 256)

/-- `strlen`: the number of bytes before the first NUL of a C string whose
bytes (followed by a terminator) are given. -/
def strlen (bytes : List Nat) : Nat := (bytes.takeWhile (fun b => b % 256 != 0)).length

/-- The bytes of a C string up to, not including, its first NUL. -/
def cString (bytes : List Nat) : List Nat := bytes.takeWhile (fun b => b % 256 != 0)

/-- `strchr(s, c)` on the bytes from the pointer `s` to the end of the region
it points into: the offset of the first byte equal to `c` (`some (some _)`),
`NULL` when the terminating NUL comes first (`some none`), and `none` when the
scan leaves the region, which the source leaves undefined.  With `c` the NUL
itself the terminator is what is found. -/
def strchr : List Nat → Nat → Option (Option Nat)
  | [], _ => none
  | b :: bs, c =>
    if b % 256 = c then some (some 0)
    else if b % 256 = 0 then some none
    else (strchr bs c).map (fun r => r.map (fun offset => offset + 1))

/-- The decoding of one UTF-8 sequence at the head of `bytes`: the character
and the number of bytes it takes.  A byte that starts no well-formed sequence
decodes to U+FFFD and takes one byte. -/
def utf8DecodeChar (bytes : List Nat) : Char × Nat :=
  match bytes with
  | [] => (Char.ofNat 65533, 1)
  | b0 :: rest =>
    if b0 < 128 then (Char.ofNat b0, 1)
    else if 192 ≤ b0 ∧ b0 < 224 then
      match rest with
      | b1 :: _ =>
        if 128 ≤ b1 ∧ b1 < 192 ∧ 128 ≤ (b0 - 192) * 64 + (b1 - 128) then
          (Char.ofNat ((b0 - 192) * 64 + (b1 - 128)), 2)
        else (Char.ofNat 65533, 1)
      | _ => (Char.ofNat 65533, 1)
    else if 224 ≤ b0 ∧ b0 < 240 then
      match rest with
      | b1 :: b2 :: _ =>
        if 128 ≤ b1 ∧ b1 < 192 ∧ 128 ≤ b2 ∧ b2 < 192
            ∧ 2048 ≤ (b0 - 224) * 4096 + (b1 - 128) * 64 + (b2 - 128) then
          (Char.ofNat ((b0 - 224) * 4096 + (b1 - 128) * 64 + (b2 - 128)), 3)
        else (Char.ofNat 65533, 1)
      | _ => (Char.ofNat 65533, 1)
    else if 240 ≤ b0 ∧ b0 < 248 then
      match rest with
      | b1 :: b2 :: b3 :: _ =>
        if 128 ≤ b1 ∧ b1 < 192 ∧ 128 ≤ b2 ∧ b2 < 192 ∧ 128 ≤ b3 ∧ b3 < 192
            ∧ 65536 ≤ (b0 - 240) * 262144 + (b1 - 128) * 4096 + (b2 - 128) * 64 + (b3 - 128) then
          (Char.ofNat ((b0 - 240) * 262144 + (b1 - 128) * 4096 + (b2 - 128) * 64 + (b3 - 128)), 4)
        else (Char.ofNat 65533, 1)
      | _ => (Char.ofNat 65533, 1)
    else (Char.ofNat 65533, 1)

/-- The characters of a UTF-8 byte sequence, `fuel` bounding the number of characters. -/
def utf8DecodeChars : Nat → List Nat → List Char
  | 0, _ => []
  | _, [] => []
  | fuel + 1, b :: bs =>
    let r := utf8DecodeChar (b :: bs)
    r.1 :: utf8DecodeChars fuel ((b :: bs).drop r.2)

/-- `Encode(buf, len, UTF8)->ToString()`, also `String::New(buf)` on the bytes
of a C string: the host string decoded from UTF-8 bytes. -/
def EncodeUTF8 (bytes : List Nat) : String :=
  String.mk (utf8DecodeChars bytes.length (bytes.map (fun b => b % 256)))

/-! ## Host numbers

A number is the bit pattern of a binary64 value: sign bit, eleven exponent
bits, fifty-two mantissa bits. -/

/-- The sign bit of a double. -/
def doubleSign (d : Nat) : Nat := d / 9223372036854775808 % 2

/-- The biased exponent field of a double. -/
def doubleExponent (d : Nat) : Nat := d / 4503599627370496 % 2048

/-- The mantissa field of a double. -/
def doubleMantissa (d : Nat) : Nat := d % 4503599627370496

/-- Whether a double is a NaN. -/
def doubleIsNaN (d : Nat) : Bool := doubleExponent d == 2047 && doubleMantissa d != 0

/-- The significand of a finite double, the implicit leading bit included. -/
def doubleSignificand (d : Nat) : Nat :=
  if doubleExponent d = 0 then doubleMantissa d else doubleMantissa d + 4503599627370496

/-- The exponent `e` for which the magnitude of a finite double is
`doubleSignificand d * 2 ^ e / 2 ^ 1075`. -/
def doubleShift (d : Nat) : Nat := if doubleExponent d = 0 then 1 else doubleExponent d

/-- The magnitude of a finite double rounded toward zero. -/
def doubleTruncateMagnitude (d : Nat) : Nat :=
  if 1075 ≤ doubleShift d then doubleSignificand d * 2 ^ (doubleShift d - 1075)
  else doubleSignificand d / 2 ^ (1075 - doubleShift d)

/-- A finite double rounded toward zero, as an unbounded integer. -/
def doubleTruncate (d : Nat) : Int :=
  if doubleSign d = 1 then -((doubleTruncateMagnitude d : Nat) : Int)
  else ((doubleTruncateMagnitude d : Nat) : Int)

/-- Whether a finite double has a non-zero fractional part. -/
def doubleHasFraction (d : Nat) : Bool :=
  decide (doubleShift d < 1075) && doubleSignificand d % 2 ^ (1075 - doubleShift d) != 0

/-- `Number::IntegerValue()`, a `static_cast<int64_t>` of the double: the
truncation when it fits 64 bits, and the x86-64 result `INT64_MIN` for a NaN,
an infinity and a value out of range. -/
def IntegerValue (d : Nat) : Int :=
  if doubleExponent d = 2047 then -9223372036854775808
  else if -9223372036854775808 ≤ doubleTruncate d ∧ doubleTruncate d ≤ 9223372036854775807 then
    doubleTruncate d
  else -9223372036854775808

/-- The test `d_result > 0 || d_result < 0` on `d_result = d_number - l_number`.
The subtraction of two finite doubles is zero only when they are equal, and
`l_number` (the truncation of `d_number`, or `INT64_MIN`) converts to a double
exactly, so the test compares the exact values; a NaN compares false and an
infinity gives an infinite difference. -/
def differenceIsNonZero (d_number : Nat) (l_number : Int) : Bool :=
  if doubleIsNaN d_number then false
  else if doubleExponent d_number = 2047 then true
  else doubleHasFraction d_number || doubleTruncate d_number != l_number

/-- `Value::ToInt32()->Value()` of a number: zero for a NaN or an infinity, else
the truncation modulo `2 ^ 32` as a signed value. -/
def ToInt32 (d : Nat) : Int :=
  if doubleExponent d = 2047 then 0 else toInt32 (toUint32 (doubleTruncate d))

/-- The number of binary digits of `n`, for `n` below `2 ^ fuel`. -/
def bitLengthAux : Nat → Nat → Nat
  | 0, _ => 0
  | fuel + 1, n => if n = 0 then 0 else bitLengthAux fuel (n / 2) + 1

/-- The number of binary digits of a magnitude below `2 ^ 64`. -/
def bitLength (n : Nat) : Nat := bitLengthAux 64 n

/-- The double nearest to a magnitude below `2 ^ 64` (ties to even). -/
def doubleOfNat (a : Nat) : Nat :=
  if a = 0 then 0
  else
    let k := bitLength a - 1
    if k ≤ 52 then (1023 + k) * 4503599627370496 + (a * 2 ^ (52 - k) - 4503599627370496)
    else
      let q := a / 2 ^ (k - 52)
      let r := a % 2 ^ (k - 52)
      let half := 2 ^ (k - 53)
      let rounded := if r > half ∨ (r = half ∧ q % 2 = 1) then q + 1 else q
      (1023 + k) * 4503599627370496 + (rounded - 4503599627370496)

/-- `Number::New(v)`, `Integer::New(v)` and `(double)v` for a 64-bit integer `v`. -/
def doubleOfInt (v : Int) : Nat :=
  if v < 0 then 9223372036854775808 + doubleOfNat v.natAbs else doubleOfNat v.natAbs

/-! ## Host values -/

/-- The values the codec receives and produces.  The first eight and `MinKey`,
`MaxKey` are instances of the wrapper classes (`Long::HasInstance` and so on),
holding the fields the source reads from the unwrapped object (their
constructors are declared in headers that are not part of the sources, and a
wrapper the decoder builds is taken to hold the arguments it is built from); the others
are host primitives, dates, regular expressions, arrays, functions, and every
other object, with its constructor name and its own properties in enumeration order. -/
inductive Value where
  | Long (low_bits high_bits : Int)
  | Timestamp (low_bits high_bits : Int)
  | ObjectID (oid : String)
  | Binary (sub_type : Nat) (data : List Nat)
  | DBRef (ns : Value) (oid : Value) (db : Option Value)
  | Code (code : String) (scope_object : Value)
  | Double (value : Nat)
  | Symbol (value : String)
  | String (str : String)
  | MinKey
  | MaxKey
  | Null
  | Undefined
  | Number (number : Nat)
  | Boolean (b : Bool)
  | Date (time : Nat)
  | RegExp (source : String) (flags : Nat)
  | Array (elements : List Value)
  | Function (source : String)
  | Object (constructorName : String) (properties : List (String × Value))

/-- `value->IsFunction()`. -/
def IsFunction : Value → Bool
  | .Function _ => true
  | _ => false

/-! ## Tags and limits -/

def BSON_DATA_NUMBER : Nat := 1
def BSON_DATA_STRING : Nat := 2
def BSON_DATA_OBJECT : Nat := 3
def BSON_DATA_ARRAY : Nat := 4
def BSON_DATA_BINARY : Nat := 5
def BSON_DATA_OID : Nat := 7
def BSON_DATA_BOOLEAN : Nat := 8
def BSON_DATA_DATE : Nat := 9
def BSON_DATA_NULL : Nat := 10
def BSON_DATA_REGEXP : Nat := 11
def BSON_DATA_CODE : Nat := 13
def BSON_DATA_SYMBOL : Nat := 14
def BSON_DATA_CODE_W_SCOPE : Nat := 15
def BSON_DATA_INT : Nat := 16
def BSON_DATA_TIMESTAMP : Nat := 17
def BSON_DATA_LONG : Nat := 18
def BSON_DATA_MIN_KEY : Nat := 255
def BSON_DATA_MAX_KEY : Nat := 127

def BSON_INT32_MAX : Int := 2147483647
def BSON_INT32_MIN : Int := -1 * 2147483648

/-! ## Failures of the encoder -/

/-- The messages `serialize` and `calculate_object_size` throw. -/
inductive EncodeError where
  /-- The message "key %s must not start with '$'". -/
  | keyStartsWithDollar (key : String)
  /-- The message "key %s must not contain '.'". -/
  | keyContainsDot (key : String)
  /-- The message "BSON Specific classes must be instances of the C++ versions
  not the JS versions when using the native bson parser, [%s]". -/
  | wrongClass (constructorName : String)
  deriving DecidableEq, Repr

/-- The failures of kind `InvalidFieldName`. -/
def EncodeError.isInvalidFieldName : EncodeError → Bool
  | .keyStartsWithDollar _ => true
  | .keyContainsDot _ => true
  | .wrongClass _ => false

/-- The failures of kind `ReservedTypeMismatch`. -/
def EncodeError.isReservedTypeMismatch : EncodeError → Bool
  | .wrongClass _ => true
  | _ => false

/-! ## The key validator -/

/-- `BSON::check_key` on a block of NUL bytes.  The buffer `key_str` has
`Utf8Length + 1` bytes; the key is written into it in the `BINARY` encoding
(`Length` bytes), a NUL is stored at offset `Utf8Length`, and the bytes in
between, which the source does not write, are taken as NUL here.  For a name
of characters below U+0080 there are no such bytes; for another name the
source reads there what the block held when `malloc` returned it, which
`check_key_block` takes as a parameter (`check_key` is `check_key_block` on
the block of NUL bytes).  The source returns `NULL` when it does not throw. -/
def check_key (key : String) : Except EncodeError Unit :=
  let key_str := DecodeWriteBINARY key ++ List.replicate (Utf8Length key - Length key) 0 ++ [0]
  if Utf8Length key > 0 ∧ key_str.head? = some 36 then
    .error (.keyStartsWithDollar key)
  else if Utf8Length key > 0 ∧ strchr key_str 46 ≠ some none then
    .error (.keyContainsDot key)
  else .ok ()

/-! ## The size estimator -/

/-- The string a name handle converts to: `DecodeBytes` and `DecodeWrite`
apply the host's `ToString`, which gives "null" for the `Null()` handle the
top-level call passes. -/
def nameString : Option String → String
  | none => "null"
  | some name => name

/-- The size both passes compute for a string value: the `Utf8Length` branch
and the `Length` branch of the source. -/
def stringSize (str : String) : Nat :=
  let utf8_length := Utf8Length str
  if utf8_length != Length str then Utf8Length str + 1 + 4 else Length str + 1 + 4

/-- `Object::HasRealNamedProperty`, on the own properties of an object. -/
def HasRealNamedProperty (properties : List (String × Value)) (key : String) : Bool :=
  properties.any (fun p => p.1 == key)

/-- The test of `serialize` and `calculate_object_size` for an object that
carries the name of a wrapper class without being an instance of it. -/
def isWrongClass (constructorString : String) (properties : List (String × Value)) : Bool :=
  constructorString == "exports.Long"
    || constructorString == "exports.Timestamp"
    || (HasRealNamedProperty properties "toHexString" || constructorString == "ObjectID")
    || constructorString == "Binary"
    || constructorString == "exports.DBRef"
    || constructorString == "exports.Code"
    || constructorString == "exports.Double"
    || constructorString == "exports.MinKey"
    || constructorString == "exports.MaxKey"
    || constructorString == "exports.Symbol"

mutual
/-- `BSON::calculate_object_size`, with the sums taken in the natural
numbers.  The source returns a `uint32_t`: what it returns is this sum modulo
`2 ^ 32`, which `calculate_object_size_uint32` computes with the arithmetic of
the source.  The object built for a `DBRef` has the properties `$ref`, `$id`
and, when `db` is set, `$db`; its size is that of the last branch on these
properties. -/
def calculate_object_size (value : Value) (serializeFunctions : Bool) : Except EncodeError Nat :=
  match value with
  | .Long _ _ => pure 8
  | .Timestamp _ _ => pure 8
  | .ObjectID _ => pure 12
  | .Binary _ data => pure (data.length + 4 + 1)
  | .Code code scope_object => do
    let scope_size ← calculate_object_size scope_object serializeFunctions
    pure (strlen (WriteUtf8 code) + 4 + scope_size + 4 + 1)
  | .DBRef ns oid db => do
    let ref_size ←
      (if !IsFunction ns || (IsFunction ns && serializeFunctions) then do
        let s ← calculate_object_size ns serializeFunctions
        pure (s + Utf8Length "$ref" + 1 + 1)
      else pure 0)
    let id_size ←
      (if !IsFunction oid || (IsFunction oid && serializeFunctions) then do
        let s ← calculate_object_size oid serializeFunctions
        pure (s + Utf8Length "$id" + 1 + 1)
      else pure 0)
    let db_size ← calculate_db_size db serializeFunctions
    pure (ref_size + id_size + db_size + 4 + 1)
  | .MinKey => pure 0
  | .MaxKey => pure 0
  | .Symbol str => pure (stringSize str)
  | .String str => pure (stringSize str)
  | .Null => pure 0
  | .Double _ => pure 8
  | .Number number =>
    let d_number := number
    let l_number := IntegerValue number
    if differenceIsNonZero d_number l_number then pure 8
    else if l_number ≤ BSON_INT32_MAX ∧ l_number ≥ BSON_INT32_MIN then pure 4
    else pure 8
  | .Boolean _ => pure 1
  | .Date _ => pure 8
  | .RegExp source flags =>
    let len := Utf8Length source
    let len := if flags / 2 % 2 != 0 then len + 1 else len
    let len := if flags / 4 % 2 != 0 then len + 1 else len
    pure (len + 2)
  | .Array elements => do
    let object_size ← calculate_array_size elements 0 serializeFunctions
    pure (object_size + 4 + 1)
  | .Function source =>
    if serializeFunctions then pure (Utf8Length source + 1 + 4) else pure 0
  | .Object constructorString properties =>
    if isWrongClass constructorString properties then
      throw (.wrongClass constructorString)
    else do
      let object_size ← calculate_properties_size properties serializeFunctions
      pure (object_size + 4 + 1)
  | .Undefined => pure 0
/-- The contribution of the `$db` property of the object built for a `DBRef`. -/
def calculate_db_size (db : Option Value) (serializeFunctions : Bool) : Except EncodeError Nat :=
  match db with
  | none => pure 0
  | some property =>
    if !IsFunction property || (IsFunction property && serializeFunctions) then do
      let s ← calculate_object_size property serializeFunctions
      pure (s + Utf8Length "$db" + 1 + 1)
    else pure 0
/-- The loop of `calculate_object_size` over the elements of an array, from position `i` on. -/
def calculate_array_size (elements : List Value) (i : Nat) (serializeFunctions : Bool) :
    Except EncodeError Nat :=
  match elements with
  | [] => pure 0
  | element :: rest => do
    let label_length := strlen (WriteUtf8 (toString i)) + 1
    let object_length ← calculate_object_size element serializeFunctions
    let rest_size ← calculate_array_size rest (i + 1) serializeFunctions
    pure (label_length + 1 + object_length + rest_size)
/-- The loop of `calculate_object_size` over the own properties of an object. -/
def calculate_properties_size (properties : List (String × Value)) (serializeFunctions : Bool) :
    Except EncodeError Nat :=
  match properties with
  | [] => pure 0
  | (property_name, property) :: rest =>
    if !IsFunction property || (IsFunction property && serializeFunctions) then do
      let len := Utf8Length property_name
      let s ← calculate_object_size property serializeFunctions
      let rest_size ← calculate_properties_size rest serializeFunctions
      pure (s + len + 1 + 1 + rest_size)
    else calculate_properties_size rest serializeFunctions
end

/-! ## The encoder -/

/-- The statements every branch of `serialize` runs for a named element: store
the tag at `index`, write the name in UTF-8 after it, store the terminating
NUL, and advance `index` past them. -/
def writeTagAndName (mem : Memory) (serialized_object index : Nat) (tag : Nat)
    (name : Option String) : Memory × Nat :=
  let mem := store mem (serialized_object + index) tag
  let index := index + 1
  let len := Utf8Length (nameString name)
  let mem := storeBytes mem (serialized_object + index) (WriteUtf8 (nameString name))
  let mem := store mem (serialized_object + index + len) 0
  (mem, index + len + 1)

/-- The statements of the string, symbol and function branches that write the
length, the characters and the terminating NUL of a string. -/
def writeString (mem : Memory) (serialized_object index : Nat) (str : String) : Memory × Nat :=
  let utf8_length := Utf8Length str
  if utf8_length != Length str then
    let mem := write_int32 mem (serialized_object + index) (utf8_length + 1)
    let index := index + 4
    let mem := storeBytes mem (serialized_object + index) (WriteUtf8 str)
    let mem := store mem (serialized_object + index + utf8_length) 0
    (mem, index + utf8_length + 1)
  else
    let mem := write_int32 mem (serialized_object + index) (Length str + 1)
    let index := index + 4
    let mem := storeBytes mem (serialized_object + index) (DecodeWriteBINARY str)
    let mem := store mem (serialized_object + index + Length str) 0
    (mem, index + Length str + 1)

/-- The value of one hexadecimal digit, zero for any other character. -/
def hexDigitValue (c : Char) : Nat :=
  let v := c.toNat
  if 48 ≤ v ∧ v ≤ 57 then v - 48
  else if 97 ≤ v ∧ v ≤ 102 then v - 87
  else if 65 ≤ v ∧ v ≤ 70 then v - 55
  else 0

/-- The bytes of consecutive pairs of hexadecimal digits. -/
def hexPairs : List Char → List Nat
  | hi :: lo :: rest => (hexDigitValue hi * 16 + hexDigitValue lo) :: hexPairs rest
  | _ => []

/-- Modelled from the spec: `ObjectID::convert_hex_oid_to_bin` is declared in
objectid.h, which is not part of the sources; an ObjectId is 12 raw bytes
interconvertible with a 24-character hexadecimal string, so the 12 bytes are
those of the 12 digit pairs (zero where the string is too short). -/
def convert_hex_oid_to_bin (oid : String) : List Nat :=
  (hexPairs oid.toList ++ List.replicate 12 0).take 12

/-- `Value::IntegerValue()` of a date: the host converts the date to its time
value, a NaN to zero, before the cast. -/
def DateIntegerValue (time : Nat) : Int :=
  if doubleIsNaN time then 0 else IntegerValue time

mutual
/-- `BSON::serialize`.  The result is the memory after the stores and the new
`index`; a thrown message is an error.  The branch of a `DBRef` runs the last
branch on the object it builds, with `check_key` false. -/
def serialize (mem : Memory) (serialized_object index : Nat) (name : Option String)
    (value : Value) (check_key serializeFunctions : Bool) : Except EncodeError (Memory × Nat) := do
  (if name.isSome && check_key then BSON.check_key (nameString name) else pure ())
  match value with
  | .Long low_bits high_bits =>
    let (mem, index) := writeTagAndName mem serialized_object index BSON_DATA_LONG name
    let mem := write_int32 mem (serialized_object + index) (toUint32 low_bits)
    let mem := write_int32 mem (serialized_object + index + 4) (toUint32 high_bits)
    pure (mem, index + 8)
  | .Timestamp low_bits high_bits =>
    let startIndex := index
    let index := index + 1
    let len := Utf8Length (nameString name)
    let mem := storeBytes mem (serialized_object + index) (WriteUtf8 (nameString name))
    let mem := store mem (serialized_object + index + len) 0
    let index := index + len + 1
    let mem := store mem (serialized_object + startIndex) BSON_DATA_TIMESTAMP
    let mem := write_int32 mem (serialized_object + index) (toUint32 low_bits)
    let mem := write_int32 mem (serialized_object + index + 4) (toUint32 high_bits)
    pure (mem, index + 8)
  | .ObjectID oid =>
    let (mem, index) := writeTagAndName mem serialized_object index BSON_DATA_OID name
    let binary_oid := convert_hex_oid_to_bin oid
    let mem := storeBytes mem (serialized_object + index) (binary_oid.take 12)
    pure (mem, index + 12)
  | .Binary sub_type data =>
    let (mem, index) := writeTagAndName mem serialized_object index BSON_DATA_BINARY name
    let mem := write_int32 mem (serialized_object + index) data.length
    let index := index + 4
    let mem := store mem (serialized_object + index) sub_type
    let index := index + 1
    let mem := storeBytes mem (serialized_object + index) data
    pure (mem, index + data.length)
  | .DBRef ns oid db => do
    let (mem, index) :=
      if name.isSome then writeTagAndName mem serialized_object index BSON_DATA_OBJECT name
      else (mem, index)
    let object_size ← calculate_object_size (.DBRef ns oid db) serializeFunctions
    let mem := write_int32 mem (serialized_object + index) object_size
    let index := index + 4
    let (mem, index) ←
      (if !IsFunction ns || (IsFunction ns && serializeFunctions) then
        serialize mem serialized_object index (some "$ref") ns false serializeFunctions
      else pure (mem, index))
    let (mem, index) ←
      (if !IsFunction oid || (IsFunction oid && serializeFunctions) then
        serialize mem serialized_object index (some "$id") oid false serializeFunctions
      else pure (mem, index))
    let (mem, index) ← serialize_db mem serialized_object index db serializeFunctions
    let mem := store mem (serialized_object + index) 0
    let index := index + 1
    let mem :=
      if name.isNone then
        storeBytes mem (serialized_object + index) (List.replicate (uint32Sub object_size index) 0)
      else mem
    pure (mem, index)
  | .Code code scope_object => do
    let (mem, index) := writeTagAndName mem serialized_object index BSON_DATA_CODE_W_SCOPE name
    let first_pointer := index
    let index := index + 4
    let mem := write_int32 mem (serialized_object + index) (strlen (WriteUtf8 code) + 1)
    let index := index + 4
    let mem := storeBytes mem (serialized_object + index) (cString (WriteUtf8 code))
    let mem := store mem (serialized_object + index + strlen (WriteUtf8 code)) 0
    let index := index + strlen (WriteUtf8 code) + 1
    let scope_object_size ← calculate_object_size scope_object serializeFunctions
    let (mem, _) ←
      serialize mem (serialized_object + index) 0 none scope_object check_key serializeFunctions
    let index := index + scope_object_size
    let mem := write_int32 mem (serialized_object + first_pointer) (index - first_pointer)
    pure (mem, index)
  | .Double value =>
    let (mem, index) := writeTagAndName mem serialized_object index BSON_DATA_NUMBER name
    let d_number := value
    let mem := write_double mem (serialized_object + index) d_number
    pure (mem, index + 8)
  | .Symbol value =>
    let (mem, index) := writeTagAndName mem serialized_object index BSON_DATA_SYMBOL name
    pure (writeString mem serialized_object index value)
  | .String str =>
    let (mem, index) := writeTagAndName mem serialized_object index BSON_DATA_STRING name
    pure (writeString mem serialized_object index str)
  | .MinKey => pure (writeTagAndName mem serialized_object index BSON_DATA_MIN_KEY name)
  | .MaxKey => pure (writeTagAndName mem serialized_object index BSON_DATA_MAX_KEY name)
  | .Null => pure (writeTagAndName mem serialized_object index BSON_DATA_NULL name)
  | .Undefined => pure (writeTagAndName mem serialized_object index BSON_DATA_NULL name)
  | .Number number =>
    let first_pointer := index
    let (mem, index) := writeTagAndName mem serialized_object index BSON_DATA_INT name
    let d_number := number
    let l_number := IntegerValue number
    if differenceIsNonZero d_number l_number then
      let mem := write_double mem (serialized_object + index) d_number
      let mem := store mem (serialized_object + first_pointer) BSON_DATA_NUMBER
      pure (mem, index + 8)
    else if l_number ≤ BSON_INT32_MAX ∧ l_number ≥ BSON_INT32_MIN then
      let mem := write_int32 mem (serialized_object + index) (toUint32 (ToInt32 number))
      pure (mem, index + 4)
    else if l_number ≤ Int.xor 2 53 ∧ l_number ≥ Int.xor (-2) 53 then
      let mem := write_double mem (serialized_object + index) d_number
      let mem := store mem (serialized_object + first_pointer) BSON_DATA_NUMBER
      pure (mem, index + 8)
    else
      let mem := write_double mem (serialized_object + index) d_number
      let mem := store mem (serialized_object + first_pointer) BSON_DATA_NUMBER
      pure (mem, index + 8)
  | .Boolean b =>
    let (mem, index) := writeTagAndName mem serialized_object index BSON_DATA_BOOLEAN name
    let mem := store mem (serialized_object + index) (if b then 1 else 0)
    pure (mem, index + 1)
  | .Date time =>
    let (mem, index) := writeTagAndName mem serialized_object index BSON_DATA_DATE name
    let integer_value := DateIntegerValue time
    let mem := write_int64 mem (serialized_object + index) integer_value
    pure (mem, index + 8)
  | .RegExp source flags =>
    let (mem, index) := writeTagAndName mem serialized_object index BSON_DATA_REGEXP name
    let len := Utf8Length source
    let mem := storeBytes mem (serialized_object + index) (WriteUtf8 source)
    let mem := store mem (serialized_object + index + len) 0
    let index := index + len + 1
    let (mem, index) :=
      if flags / 2 % 2 != 0 then (store mem (serialized_object + index) 105, index + 1)
      else (mem, index)
    let (mem, index) :=
      if flags / 4 % 2 != 0 then (store mem (serialized_object + index) 109, index + 1)
      else (mem, index)
    let mem := store mem (serialized_object + index) 0
    pure (mem, index + 1)
  | .Array elements => do
    let (mem, index) := writeTagAndName mem serialized_object index BSON_DATA_ARRAY name
    let object_size ← calculate_object_size (.Array elements) serializeFunctions
    let mem := write_int32 mem (serialized_object + index) object_size
    let index := index + 4
    let (mem, index) ←
      serialize_elements mem serialized_object index elements 0 check_key serializeFunctions
    let mem := store mem (serialized_object + index) 0
    pure (mem, index + 1)
  | .Function source =>
    if serializeFunctions then
      let (mem, index) := writeTagAndName mem serialized_object index BSON_DATA_CODE name
      pure (writeString mem serialized_object index source)
    else pure (mem, index)
  | .Object constructorString properties =>
    if isWrongClass constructorString properties then
      throw (.wrongClass constructorString)
    else do
      let (mem, index) :=
        if name.isSome then writeTagAndName mem serialized_object index BSON_DATA_OBJECT name
        else (mem, index)
      let object_size ←
        calculate_object_size (.Object constructorString properties) serializeFunctions
      let mem := write_int32 mem (serialized_object + index) object_size
      let index := index + 4
      let (mem, index) ←
        serialize_properties mem serialized_object index properties check_key serializeFunctions
      let mem := store mem (serialized_object + index) 0
      let index := index + 1
      let mem :=
        if name.isNone then
          storeBytes mem (serialized_object + index)
            (List.replicate (uint32Sub object_size index) 0)
        else mem
      pure (mem, index)
/-- The step of the property loop for the `$db` property of the object built for a `DBRef`. -/
def serialize_db (mem : Memory) (serialized_object index : Nat) (db : Option Value)
    (serializeFunctions : Bool) : Except EncodeError (Memory × Nat) :=
  match db with
  | none => pure (mem, index)
  | some property =>
    if !IsFunction property || (IsFunction property && serializeFunctions) then
      serialize mem serialized_object index (some "$db") property false serializeFunctions
    else pure (mem, index)
/-- The loop of the array branch of `serialize`, from position `i` on. -/
def serialize_elements (mem : Memory) (serialized_object index : Nat) (elements : List Value)
    (i : Nat) (check_key serializeFunctions : Bool) : Except EncodeError (Memory × Nat) :=
  match elements with
  | [] => pure (mem, index)
  | element :: rest => do
    let length_str := toString i
    let (mem, index) ←
      serialize mem serialized_object index (some length_str) element check_key serializeFunctions
    let mem := store mem (serialized_object + index) 0
    serialize_elements mem serialized_object index rest (i + 1) check_key serializeFunctions
/-- The loop of the last branch of `serialize` over the own properties of an object. -/
def serialize_properties (mem : Memory) (serialized_object index : Nat)
    (properties : List (String × Value)) (check_key serializeFunctions : Bool) :
    Except EncodeError (Memory × Nat) :=
  match properties with
  | [] => pure (mem, index)
  | (property_name, property) :: rest =>
    if !IsFunction property || (IsFunction property && serializeFunctions) then do
      let (mem, index) ←
        serialize mem serialized_object index (some property_name) property check_key
          serializeFunctions
      serialize_properties mem serialized_object index rest check_key serializeFunctions
    else serialize_properties mem serialized_object index rest check_key serializeFunctions
end

/-- `BSON::BSONSerialize` once its arguments are unpacked: the size is
computed, a block of that size is allocated (`heap` is what the block holds
before), the object is serialized from offset 0 with no name, the size is
written over the first four bytes, and the block is returned. -/
def BSONSerialize (heap : Memory) (value : Value) (check_key serializeFunctions : Bool) :
    Except EncodeError (List Nat) := do
  let object_size ← calculate_object_size value serializeFunctions
  let (mem, _) ← serialize heap 0 0 none value check_key serializeFunctions
  let mem := write_int32 mem 0 object_size
  pure (loadBytes mem 0 object_size)

/-! ## The decoder -/

/-- The failures of the decoder: the exception the source throws, a load that
leaves the byte region (undefined in the source, which checks no bound), and
the exhaustion of the fuel that bounds the loop of the embedding. -/
inductive DecodeError where
  /-- The message "Invalid C String found.". -/
  | invalidCString
  | readOutOfBounds
  | outOfFuel
  deriving DecidableEq, Repr

/-- The `count` bytes of the region from `offset` on (`memcpy` out of the region). -/
def readBytes (data : List Nat) (offset count : Nat) : Except DecodeError (List Nat) :=
  if offset + count ≤ data.length then
    pure (((data.drop offset).take count).map (fun b => b % 256))
  else throw .readOutOfBounds

/-- `BSON::deserialize_int32`. -/
def deserialize_int32 (data : List Nat) (offset : Nat) : Except DecodeError Nat := do
  let bytes ← readBytes data offset 4
  pure (leValue bytes)

/-- `BSON::deserialize_int8`: the `char` at the offset is or-ed, sign extended,
into a `uint16_t`. -/
def deserialize_int8 (data : List Nat) (offset : Nat) : Except DecodeError Nat := do
  let bytes ← readBytes data offset 1
  let b := leValue bytes
  pure (if b < 128 then b else 65280 + b)

/-- `BSON::extract_string`: the bytes of the C string at the offset, or `NULL`
(`none`) when `strchr` returns `NULL`. -/
def extract_string (data : List Nat) (offset : Nat) : Except DecodeError (Option (List Nat)) :=
  match strchr (data.drop offset) 0 with
  | none => throw .readOutOfBounds
  | some none => pure none
  | some (some length) => pure (some (((data.drop offset).take length).map (fun b => b % 256)))

/-- `strncpy(dest, src, n)`: the `n` bytes left in `dest`, the bytes of `src`
up to its first NUL and NUL from there on; `none` when the scan of `src`
leaves the region. -/
def strncpy : List Nat → Nat → Option (List Nat)
  | _, 0 => some []
  | [], _ + 1 => none
  | b :: bs, n + 1 =>
    if b % 256 = 0 then some (List.replicate (n + 1) 0)
    else (strncpy bs n).map (fun copied => b % 256 :: copied)

/-- Whether a byte is white space for `atoi`. -/
def isSpace (b : Nat) : Bool := b == 32 || (9 ≤ b && b ≤ 13)

/-- The value of the leading decimal digits of a byte string, after the digits `acc`. -/
def atoiDigits : List Nat → Nat → Nat
  | [], acc => acc
  | b :: bs, acc => if 48 ≤ b ∧ b ≤ 57 then atoiDigits bs (acc * 10 + (b - 48)) else acc

/-- `atoi`: white space is skipped, a sign is read, and the leading digits give the value. -/
def atoi (string_name : List Nat) : Int :=
  match string_name.dropWhile isSpace with
  | [] => 0
  | b :: bs =>
    if b = 45 then -((atoiDigits bs 0 : Nat) : Int)
    else if b = 43 then ((atoiDigits bs 0 : Nat) : Int)
    else ((atoiDigits (b :: bs) 0 : Nat) : Int)

/-- `Object::Set` on the own properties of an object: the value of an existing
key is replaced, a new key is added last. -/
def objectSet : List (String × Value) → String → Value → List (String × Value)
  | [], key, value => [(key, value)]
  | (k, v) :: rest, key, value =>
    if k = key then (k, value) :: rest else (k, v) :: objectSet rest key value

/-- `Object::Has` on the own properties of an object. -/
def objectHas (properties : List (String × Value)) (key : String) : Bool :=
  properties.any (fun p => p.1 == key)

/-- `Object::Get` on the own properties of an object; a missing key gives `undefined`. -/
def objectGet : List (String × Value) → String → Value
  | [], _ => .Undefined
  | (k, v) :: rest, key => if k = key then v else objectGet rest key

/-- `Array::Set` at an index: the element is replaced, or the array grows to
hold it, the positions in between being holes that read as `undefined`. -/
def arraySet (elements : List Value) (insert_index : Nat) (value : Value) : List Value :=
  if insert_index < elements.length then elements.set insert_index value
  else elements ++ List.replicate (insert_index - elements.length) Value.Undefined ++ [value]

/-- The lower-case hexadecimal digit of a value below 16. -/
def hexDigit (n : Nat) : Char :=
  if n < 10 then Char.ofNat (48 + n) else Char.ofNat (87 + n)

/-- The loop of `sprintf(pbuffer, "%02x", byte)` over the bytes of an ObjectId. -/
def oidToHex (bytes : List Nat) : String :=
  String.mk (bytes.flatMap (fun b => [hexDigit (b % 256 / 16), hexDigit (b % 16)]))

/-- `BSON::decodeLong`. -/
def decodeLong (data : List Nat) (index : Nat) : Except DecodeError Value := do
  let lowBits := toInt32 (leValue (← readBytes data index 4))
  let highBits := toInt32 (leValue (← readBytes data (index + 4) 4))
  if (highBits < 2097152 ∨ (highBits = 2097152 ∧ lowBits = 0)) ∧ highBits ≥ -2097152 then
    let finalValue := toInt64 (leValue (← readBytes data index 8))
    pure (.Number (doubleOfInt finalValue))
  else
    pure (.Long lowBits highBits)

/-- Modelled from the spec: the constructor of `Timestamp` is declared in
timestamp.h, which is not part of the sources.  `BSON::decodeTimestamp` hands
it `Number::New(value)`, the double nearest to the 64-bit value read; a
Timestamp holds the low and high 32-bit halves, here those of that double. -/
def decodeTimestamp (value : Int) : Value :=
  let number := doubleOfInt value
  let bits := toUint64 (IntegerValue number)
  .Timestamp (toInt32 (bits % 4294967296)) (toInt32 (bits / 4294967296))

/-- `BSON::decodeCode`: the source text is the C string in `code`. -/
def decodeCode (code : List Nat) (scope_object : Value) : Value :=
  .Code (EncodeUTF8 (cString code)) scope_object

/-- Modelled from the spec: the constructor of `DBRef` is declared in dbref.h,
which is not part of the sources.  `BSON::decodeDBref` hands it the values of
`$ref`, `$id` and `$db`; the DBRef holds the first two, and the third when the
document has it. -/
def decodeDBref (ref oid db : Value) (hasDb : Bool) : Value :=
  .DBRef ref oid (if hasDb then some db else none)

/-- The tags for which `deserialize` has a branch. -/
def isElementType (type : Nat) : Bool :=
  type == BSON_DATA_STRING || type == BSON_DATA_INT || type == BSON_DATA_TIMESTAMP
    || type == BSON_DATA_LONG || type == BSON_DATA_NUMBER || type == BSON_DATA_MIN_KEY
    || type == BSON_DATA_MAX_KEY || type == BSON_DATA_NULL || type == BSON_DATA_BOOLEAN
    || type == BSON_DATA_DATE || type == BSON_DATA_REGEXP || type == BSON_DATA_OID
    || type == BSON_DATA_BINARY || type == BSON_DATA_SYMBOL || type == BSON_DATA_CODE
    || type == BSON_DATA_CODE_W_SCOPE || type == BSON_DATA_OBJECT || type == BSON_DATA_ARRAY

/-- The string a `String` or `Symbol` element holds: `string_size` bytes are
copied with `strncpy` and `string_size - 1` of them are decoded. -/
def decodeStringValue (data : List Nat) (index string_size : Nat) : Except DecodeError String :=
  match strncpy (data.drop index) string_size with
  | none => throw .readOutOfBounds
  | some value =>
    if uint32Sub string_size 1 ≤ value.length then
      pure (EncodeUTF8 (value.take (uint32Sub string_size 1)))
    else throw .readOutOfBounds

/-- The branches of `deserialize` that decode a value without a nested call,
after the name is read: the value and the new `index`. -/
def deserialize_scalar (type : Nat) (data : List Nat) (index : Nat) :
    Except DecodeError (Value × Nat) :=
  if type = BSON_DATA_STRING then do
    let string_size ← deserialize_int32 data index
    let index := (index + 4) % 4294967296
    let utf8_encoded_str ← decodeStringValue data index string_size
    pure (.String utf8_encoded_str, (index + string_size) % 4294967296)
  else if type = BSON_DATA_INT then do
    let value ← deserialize_int32 data index
    pure (.Number (doubleOfInt (toInt32 value)), (index + 4) % 4294967296)
  else if type = BSON_DATA_TIMESTAMP then do
    let value := toInt64 (leValue (← readBytes data index 8))
    pure (decodeTimestamp value, (index + 8) % 4294967296)
  else if type = BSON_DATA_LONG then do
    let value ← decodeLong data index
    pure (value, (index + 8) % 4294967296)
  else if type = BSON_DATA_NUMBER then do
    let value := leValue (← readBytes data index 8)
    pure (.Number value, (index + 8) % 4294967296)
  else if type = BSON_DATA_MIN_KEY then pure (.MinKey, index)
  else if type = BSON_DATA_MAX_KEY then pure (.MaxKey, index)
  else if type = BSON_DATA_NULL then pure (.Null, index)
  else if type = BSON_DATA_BOOLEAN then do
    let bool_value := leValue (← readBytes data index 1)
    pure (.Boolean (bool_value == 1), (index + 1) % 4294967296)
  else if type = BSON_DATA_DATE then do
    let value := toInt64 (leValue (← readBytes data index 8))
    pure (.Date (doubleOfInt value), (index + 8) % 4294967296)
  else if type = BSON_DATA_REGEXP then do
    match strchr (data.drop index) 0 with
    | some (some length_regexp) =>
      let reg_exp ← readBytes data index length_regexp
      let index := (index + length_regexp + 1) % 4294967296
      match strchr (data.drop index) 0 with
      | some (some options_length) =>
        let options ← readBytes data index options_length
        let index := (index + options_length + 1) % 4294967296
        let flag := (if options.contains 109 then 4 else 0) + (if options.contains 105 then 2 else 0)
        pure (.RegExp (EncodeUTF8 reg_exp) flag, index)
      | _ => throw .readOutOfBounds
    | _ => throw .readOutOfBounds
  else if type = BSON_DATA_OID then do
    let bytes ← readBytes data index 12
    pure (.ObjectID (oidToHex bytes), (index + 12) % 4294967296)
  else if type = BSON_DATA_BINARY then do
    let number_of_bytes ← deserialize_int32 data index
    let index := (index + 4) % 4294967296
    let sub_type := leValue (← readBytes data index 1)
    let index := (index + 1) % 4294967296
    let buffer ← readBytes data index number_of_bytes
    pure (.Binary sub_type buffer, (index + number_of_bytes) % 4294967296)
  else if type = BSON_DATA_SYMBOL then do
    let string_size ← deserialize_int32 data index
    let index := (index + 4) % 4294967296
    let utf8_encoded_str ← decodeStringValue data index string_size
    pure (.Symbol utf8_encoded_str, (index + string_size) % 4294967296)
  else if type = BSON_DATA_CODE then do
    let string_size ← deserialize_int32 data index
    let index := (index + 4) % 4294967296
    let code ← readBytes data index string_size
    if strlen code < code.length then
      pure (decodeCode code (.Object "Object" []), index)
    else throw .readOutOfBounds
  else throw .readOutOfBounds

mutual
/-- `BSON::deserialize` on the byte region `data` points into.  `fuel` bounds
the number of loop iterations and nested calls of the embedding. -/
def deserialize (fuel : Nat) (data : List Nat) (is_array_item : Bool) :
    Except DecodeError Value :=
  match fuel with
  | 0 => throw .outOfFuel
  | fuel + 1 => do
    let size ← deserialize_int32 data 0
    deserialize_loop fuel data is_array_item size 4 [] []
/-- The `while(index < size)` loop of `deserialize` and the statements after it. -/
def deserialize_loop (fuel : Nat) (data : List Nat) (is_array_item : Bool) (size index : Nat)
    (return_data : List (String × Value)) (return_array : List Value) :
    Except DecodeError Value :=
  match fuel with
  | 0 => throw .outOfFuel
  | fuel + 1 =>
    if index < size then do
      let type := (← deserialize_int8 data index) % 256
      let index := (index + 1) % 4294967296
      if isElementType type then do
        match (← extract_string data index) with
        | none => throw .invalidCString
        | some string_name =>
          let index := (index + strlen string_name + 1) % 4294967296
          let insert_index := if is_array_item then toUint32 (atoi string_name) else 0
          let (value, index) ←
            (if type = BSON_DATA_CODE_W_SCOPE then do
              let total_code_size ← deserialize_int32 data index
              let index := (index + 4) % 4294967296
              let string_size ← deserialize_int32 data index
              let index := (index + 4) % 4294967296
              let code ← readBytes data index string_size
              let index := (index + string_size) % 4294967296
              let bson_object_size := uint32Sub (uint32Sub total_code_size string_size) 8
              let bson_buffer ← readBytes data index bson_object_size
              let index := (index + bson_object_size) % 4294967296
              let scope_object ← deserialize fuel bson_buffer false
              if strlen code < code.length then
                pure (decodeCode code scope_object, index)
              else throw .readOutOfBounds
            else if type = BSON_DATA_OBJECT then do
              let bson_object_size ← deserialize_int32 data index
              let obj ← deserialize fuel (data.drop index) false
              pure (obj, (index + bson_object_size) % 4294967296)
            else if type = BSON_DATA_ARRAY then do
              let array_size ← deserialize_int32 data index
              let obj ← deserialize fuel (data.drop index) true
              pure (obj, (index + array_size) % 4294967296)
            else deserialize_scalar type data index)
          if is_array_item then
            deserialize_loop fuel data is_array_item size index return_data
              (arraySet return_array insert_index value)
          else
            deserialize_loop fuel data is_array_item size index
              (objectSet return_data (EncodeUTF8 string_name) value) return_array
      else deserialize_loop fuel data is_array_item size index return_data return_array
    else if !is_array_item && objectHas return_data "$ref" && objectHas return_data "$id" then
      pure (decodeDBref (objectGet return_data "$ref") (objectGet return_data "$id")
        (objectGet return_data "$db") (objectHas return_data "$db"))
    else if is_array_item then pure (.Array return_array)
    else pure (.Object "Object" return_data)
end

/-- `BSON::BSONDeserialize` on a buffer: `BSON::deserialize(data, NULL)`. -/
def BSONDeserialize (fuel : Nat) (data : List Nat) : Except DecodeError Value :=
  deserialize fuel data false

/-! ## The bytes of an encoding

The stores of `serialize` for one value fill consecutive addresses; the
definitions below give the bytes stored, as lists, so that what the decoder
reads can be stated.  The theorems relate them to `serialize`. -/

/-- The size `calculate_object_size` returns, zero when it throws. -/
def objectSize (value : Value) (serializeFunctions : Bool) : Nat :=
  match calculate_object_size value serializeFunctions with
  | .ok object_size => object_size
  | .error _ => 0

/-- The bytes `writeTagAndName` stores: the tag, the name, a NUL. -/
def headerBytes (tag : Nat) (name : Option String) : List Nat :=
  tag :: (WriteUtf8 (nameString name) ++ [0])

/-- The bytes `writeString` stores: the length, the characters, a NUL. -/
def stringBytes (str : String) : List Nat :=
  leBytes 4 ((Utf8Length str + 1) % 4294967296) ++ (WriteUtf8 str ++ [0])

/-- Whether a value takes the last branch of `serialize`, directly or as the
object built for a `DBRef`. -/
def isDocument : Value → Bool
  | .Object _ _ => true
  | .DBRef _ _ _ => true
  | _ => false

/-- The bytes stored for a number. -/
def numberBytes (name : Option String) (number : Nat) : List Nat :=
  if differenceIsNonZero number (IntegerValue number) then
    headerBytes BSON_DATA_NUMBER name ++ leBytes 8 (number % 18446744073709551616)
  else if IntegerValue number ≤ BSON_INT32_MAX ∧ IntegerValue number ≥ BSON_INT32_MIN then
    headerBytes BSON_DATA_INT name ++ leBytes 4 (toUint32 (ToInt32 number) % 4294967296)
  else headerBytes BSON_DATA_NUMBER name ++ leBytes 8 (number % 18446744073709551616)

/-- The bytes stored for a regular expression after its header. -/
def regExpBytes (source : String) (flags : Nat) : List Nat :=
  WriteUtf8 source ++ [0] ++ (if flags / 2 % 2 != 0 then [105] else [])
    ++ (if flags / 4 % 2 != 0 then [109] else []) ++ [0]

mutual
/-- The bytes `serialize` stores from `serialized_object + index` on for a
value under a name, the zero padding of a top-level object left out. -/
def elementBytes (name : Option String) (value : Value) (serializeFunctions : Bool) : List Nat :=
  match value with
  | .Long low_bits high_bits =>
    headerBytes BSON_DATA_LONG name ++ (leBytes 4 (toUint32 low_bits % 4294967296)
      ++ leBytes 4 (toUint32 high_bits % 4294967296))
  | .Timestamp low_bits high_bits =>
    headerBytes BSON_DATA_TIMESTAMP name ++ (leBytes 4 (toUint32 low_bits % 4294967296)
      ++ leBytes 4 (toUint32 high_bits % 4294967296))
  | .ObjectID oid => headerBytes BSON_DATA_OID name ++ (convert_hex_oid_to_bin oid).take 12
  | .Binary sub_type data =>
    headerBytes BSON_DATA_BINARY name ++ (leBytes 4 (data.length % 4294967296)
      ++ (sub_type :: data))
  | .DBRef ns oid db =>
    (if name.isSome then headerBytes BSON_DATA_OBJECT name else [])
      ++ (leBytes 4 (objectSize (.DBRef ns oid db) serializeFunctions % 4294967296)
      ++ ((if !IsFunction ns || (IsFunction ns && serializeFunctions) then
            elementBytes (some "$ref") ns serializeFunctions else [])
      ++ ((if !IsFunction oid || (IsFunction oid && serializeFunctions) then
            elementBytes (some "$id") oid serializeFunctions else [])
      ++ (dbBytes db serializeFunctions ++ [0]))))
  | .Code code scope_object =>
    headerBytes BSON_DATA_CODE_W_SCOPE name
      ++ (leBytes 4 ((4 + 4 + strlen (WriteUtf8 code) + 1
            + objectSize scope_object serializeFunctions) % 4294967296)
      ++ (leBytes 4 ((strlen (WriteUtf8 code) + 1) % 4294967296)
      ++ (cString (WriteUtf8 code) ++ (0 :: (elementBytes none scope_object serializeFunctions
      ++ List.replicate (objectSize scope_object serializeFunctions
            - (elementBytes none scope_object serializeFunctions).length) 0)))))
  | .Double value =>
    headerBytes BSON_DATA_NUMBER name ++ leBytes 8 (value % 18446744073709551616)
  | .Symbol value => headerBytes BSON_DATA_SYMBOL name ++ stringBytes value
  | .String str => headerBytes BSON_DATA_STRING name ++ stringBytes str
  | .MinKey => headerBytes BSON_DATA_MIN_KEY name
  | .MaxKey => headerBytes BSON_DATA_MAX_KEY name
  | .Null => headerBytes BSON_DATA_NULL name
  | .Undefined => headerBytes BSON_DATA_NULL name
  | .Number number => numberBytes name number
  | .Boolean b => headerBytes BSON_DATA_BOOLEAN name ++ [if b then 1 else 0]
  | .Date time => headerBytes BSON_DATA_DATE name ++ leBytes 8 (toUint64 (DateIntegerValue time))
  | .RegExp source flags => headerBytes BSON_DATA_REGEXP name ++ regExpBytes source flags
  | .Array elements =>
    headerBytes BSON_DATA_ARRAY name
      ++ (leBytes 4 (objectSize (.Array elements) serializeFunctions % 4294967296)
      ++ (elementsBytes elements 0 serializeFunctions ++ [0]))
  | .Function source =>
    if serializeFunctions then headerBytes BSON_DATA_CODE name ++ stringBytes source else []
  | .Object constructorString properties =>
    (if name.isSome then headerBytes BSON_DATA_OBJECT name else [])
      ++ (leBytes 4 (objectSize (.Object constructorString properties) serializeFunctions
            % 4294967296)
      ++ (propertiesBytes properties serializeFunctions ++ [0]))
/-- The bytes stored for the `$db` property of the object built for a `DBRef`. -/
def dbBytes (db : Option Value) (serializeFunctions : Bool) : List Nat :=
  match db with
  | none => []
  | some property =>
    if !IsFunction property || (IsFunction property && serializeFunctions) then
      elementBytes (some "$db") property serializeFunctions
    else []
/-- The bytes stored for the elements of an array from position `i` on. -/
def elementsBytes (elements : List Value) (i : Nat) (serializeFunctions : Bool) : List Nat :=
  match elements with
  | [] => []
  | element :: rest =>
    elementBytes (some (toString i)) element serializeFunctions
      ++ elementsBytes rest (i + 1) serializeFunctions
/-- The bytes stored for the own properties of an object. -/
def propertiesBytes (properties : List (String × Value)) (serializeFunctions : Bool) : List Nat :=
  match properties with
  | [] => []
  | (property_name, property) :: rest =>
    if !IsFunction property || (IsFunction property && serializeFunctions) then
      elementBytes (some property_name) property serializeFunctions
        ++ propertiesBytes rest serializeFunctions
    else propertiesBytes rest serializeFunctions
end

/-- The zero padding `serialize` stores after a top-level object when `index`
has the given value. -/
def paddingBytes (name : Option String) (value : Value) (serializeFunctions : Bool)
    (index : Nat) : List Nat :=
  if name.isNone && isDocument value then
    List.replicate (uint32Sub (objectSize value serializeFunctions) index) 0
  else []

mutual
/-- Every scope object of a `Code` inside the value is a document whose
estimated size fits 32 bits. -/
def scopesAreDocuments (value : Value) (serializeFunctions : Bool) : Bool :=
  match value with
  | .DBRef ns oid db =>
    scopesAreDocuments ns serializeFunctions && scopesAreDocuments oid serializeFunctions
      && scopesAreDocumentsDb db serializeFunctions
  | .Code _ scope_object =>
    isDocument scope_object && decide (objectSize scope_object serializeFunctions < 4294967296)
      && scopesAreDocuments scope_object serializeFunctions
  | .Array elements => scopesAreDocumentsList elements serializeFunctions
  | .Object _ properties => scopesAreDocumentsProperties properties serializeFunctions
  | _ => true
/-- The condition `scopesAreDocuments` on the `db` value of a `DBRef`. -/
def scopesAreDocumentsDb (db : Option Value) (serializeFunctions : Bool) : Bool :=
  match db with
  | none => true
  | some property => scopesAreDocuments property serializeFunctions
/-- The condition `scopesAreDocuments` on every element of an array. -/
def scopesAreDocumentsList (elements : List Value) (serializeFunctions : Bool) : Bool :=
  match elements with
  | [] => true
  | element :: rest =>
    scopesAreDocuments element serializeFunctions && scopesAreDocumentsList rest serializeFunctions
/-- The condition `scopesAreDocuments` on every property of an object. -/
def scopesAreDocumentsProperties (properties : List (String × Value))
    (serializeFunctions : Bool) : Bool :=
  match properties with
  | [] => true
  | (_, property) :: rest =>
    scopesAreDocuments property serializeFunctions
      && scopesAreDocumentsProperties rest serializeFunctions
end

mutual
/-- No array inside the value holds a function (the values for which the
size estimated with `serializeFunctions` false is the size written). -/
def noFunctionInArray (value : Value) : Bool :=
  match value with
  | .DBRef ns oid db => noFunctionInArray ns && noFunctionInArray oid && noFunctionInArrayDb db
  | .Code _ scope_object => noFunctionInArray scope_object
  | .Array elements => noFunctionInArrayList elements
  | .Object _ properties => noFunctionInArrayProperties properties
  | _ => true
/-- The condition `noFunctionInArray` on the `db` value of a `DBRef`. -/
def noFunctionInArrayDb (db : Option Value) : Bool :=
  match db with
  | none => true
  | some property => noFunctionInArray property
/-- The elements of an array are no functions and satisfy `noFunctionInArray`. -/
def noFunctionInArrayList (elements : List Value) : Bool :=
  match elements with
  | [] => true
  | element :: rest =>
    !IsFunction element && noFunctionInArray element && noFunctionInArrayList rest
/-- The condition `noFunctionInArray` on every property of an object. -/
def noFunctionInArrayProperties (properties : List (String × Value)) : Bool :=
  match properties with
  | [] => true
  | (_, property) :: rest => noFunctionInArray property && noFunctionInArrayProperties rest
end

mutual
/-- Whether an element `serialize` emits for the value under the name, or for
a value nested in it through objects, arrays and scope objects, has a name
`check_key` rejects.  The values nested in a `DBRef` are not looked at. -/
def hasInvalidName (name : Option String) (value : Value) (serializeFunctions : Bool) : Bool :=
  (match name with
    | some key => decide (check_key key ≠ .ok ())
    | none => false)
  || (match value with
    | .Code _ scope_object => hasInvalidName none scope_object serializeFunctions
    | .Array elements => hasInvalidNameElements elements 0 serializeFunctions
    | .Object _ properties => hasInvalidNameProperties properties serializeFunctions
    | _ => false)
/-- The condition `hasInvalidName` on the elements of an array from position `i` on. -/
def hasInvalidNameElements (elements : List Value) (i : Nat) (serializeFunctions : Bool) :
    Bool :=
  match elements with
  | [] => false
  | element :: rest =>
    hasInvalidName (some (toString i)) element serializeFunctions
      || hasInvalidNameElements rest (i + 1) serializeFunctions
/-- The condition `hasInvalidName` on the properties of an object that are emitted. -/
def hasInvalidNameProperties (properties : List (String × Value)) (serializeFunctions : Bool) :
    Bool :=
  match properties with
  | [] => false
  | (property_name, property) :: rest =>
    if !IsFunction property || (IsFunction property && serializeFunctions) then
      hasInvalidName (some property_name) property serializeFunctions
        || hasInvalidNameProperties rest serializeFunctions
    else hasInvalidNameProperties rest serializeFunctions
end

/-- A computation of the encoder that fails, if it does, with a failure that
is not of kind `InvalidFieldName`. -/
def NoKeyFailure {α : Type} (x : Except EncodeError α) : Prop :=
  ∀ e, x = .error e → e.isInvalidFieldName = false

/-- The relation between a computation run without key validation and the
same run with it: when the first succeeds, the second fails with an
`InvalidFieldName` failure if `invalid` is set and has the same result if not. -/
def KeyChecked {α : Type} (invalid : Bool) (unchecked checked : Except EncodeError α) : Prop :=
  ∀ r, unchecked = .ok r →
    (invalid = true → ∃ e, checked = .error e ∧ e.isInvalidFieldName = true)
    ∧ (invalid = false → checked = .ok r)

/-- The number of bytes of the tag and the name of an element: none for a
document serialized without a name. -/
def tagAndNameLength (name : Option String) (value : Value) : Nat :=
  if name.isNone && isDocument value then 0 else Utf8Length (nameString name) + 2

/-- The values `serialize` writes without a nested call. -/
def isLeaf : Value → Bool
  | .DBRef _ _ _ => false
  | .Code _ _ => false
  | .Array _ => false
  | .Object _ _ => false
  | _ => true

/-! ## Values that decode to themselves -/

/-- A string without the character NUL. -/
def hasNoNul (s : String) : Bool := s.toList.all (fun c => c.toNat != 0)

/-- A number that is decoded to itself: a 64-bit pattern other than negative zero. -/
def numberRoundTrips (number : Nat) : Bool :=
  decide (number < 18446744073709551616) && number != 9223372036854775808

/-- A date that is decoded to itself: a finite whole number of milliseconds of
magnitude below `2 ^ 53`, other than negative zero. -/
def dateRoundTrips (time : Nat) : Bool :=
  decide (time < 18446744073709551616) && time != 9223372036854775808
    && decide (doubleExponent time ≠ 2047) && !doubleHasFraction time
    && decide (doubleTruncateMagnitude time < 9007199254740992)

/-- A `Timestamp` that is decoded to itself: its halves are 32-bit values and
its value is within `-2 ^ 53 .. 2 ^ 53`. -/
def timestampRoundTrips (low_bits high_bits : Int) : Bool :=
  decide (-2147483648 ≤ low_bits ∧ low_bits ≤ 2147483647)
    && decide (-2147483648 ≤ high_bits ∧ high_bits ≤ 2147483647)
    && decide (-9007199254740992 ≤ high_bits * 4294967296 + (toUint32 low_bits : Int)
          ∧ high_bits * 4294967296 + (toUint32 low_bits : Int) ≤ 9007199254740992)

/-- A decimal digit or a letter `a` to `f`. -/
def isLowerHexDigit (c : Char) : Bool :=
  decide ((48 ≤ c.toNat ∧ c.toNat ≤ 57) ∨ (97 ≤ c.toNat ∧ c.toNat ≤ 102))

/-- A `Long` that is decoded to a `Long`: its halves are 32-bit values and its
value is outside `-2 ^ 53 .. 2 ^ 53`. -/
def longRoundTrips (low_bits high_bits : Int) : Bool :=
  decide (-2147483648 ≤ low_bits ∧ low_bits ≤ 2147483647)
    && decide (-2147483648 ≤ high_bits ∧ high_bits ≤ 2147483647)
    && !decide (-9007199254740992 ≤ high_bits * 4294967296 + (toUint32 low_bits : Int)
          ∧ high_bits * 4294967296 + (toUint32 low_bits : Int) ≤ 9007199254740992)

/-- The names of the properties of a document that is decoded to itself: no
name holds a NUL, no name occurs twice, and `$ref` and `$id` are not both
present. -/
def keysRoundTrip (properties : List (String × Value)) : Bool :=
  properties.all (fun p => hasNoNul p.1)
    && decide ((properties.map Prod.fst).Nodup)
    && !(objectHas properties "$ref" && objectHas properties "$id")

/-- A plain object: neither a wrapper nor an array. -/
def isPlainObject : Value → Bool
  | .Object _ _ => true
  | _ => false

mutual
/-- The values for which decoding the encoding gives the value back: null,
booleans, the numbers of `numberRoundTrips`, strings and symbols without NUL,
the `Long`s of `longRoundTrips`, the `Timestamp`s of `timestampRoundTrips`,
object ids of 24 lower-case hexadecimal digits, binaries of bytes with a
subtype below 256,
the dates of `dateRoundTrips`, regular expressions with a source without NUL
and the flags `i` and `m` at most, `MinKey`, `MaxKey`, arrays of such values,
plain objects of such values with the names of `keysRoundTrip`, `DBRef`s of
such values, and `Code`s with a source without NUL and such a plain object, of
an estimated size below `2 ^ 32`, as scope. -/
def roundTrips : Value → Bool
  | .Null => true
  | .MinKey => true
  | .MaxKey => true
  | .Boolean _ => true
  | .Number number => numberRoundTrips number
  | .String str => hasNoNul str
  | .Symbol value => hasNoNul value
  | .Long low_bits high_bits => longRoundTrips low_bits high_bits
  | .Timestamp low_bits high_bits => timestampRoundTrips low_bits high_bits
  | .ObjectID oid => oid.toList.length == 24 && oid.toList.all isLowerHexDigit
  | .Binary sub_type data => decide (sub_type < 256) && data.all (fun b => decide (b < 256))
  | .Date time => dateRoundTrips time
  | .RegExp source flags =>
    hasNoNul source && (flags == 0 || flags == 2 || flags == 4 || flags == 6)
  | .Array elements => roundTripsList elements
  | .Object constructorString properties =>
    constructorString == "Object" && !isWrongClass constructorString properties
      && keysRoundTrip properties && roundTripsProperties properties
  | .DBRef ns oid db => roundTrips ns && roundTrips oid && roundTripsDb db
  | .Code code scope_object =>
    hasNoNul code && isPlainObject scope_object
      && decide (objectSize scope_object false < 4294967296)
      && decide (objectSize scope_object true < 4294967296)
      && roundTrips scope_object
  | _ => false
/-- The condition `roundTrips` on the `db` value of a `DBRef`. -/
def roundTripsDb : Option Value → Bool
  | none => true
  | some property => roundTrips property
/-- The condition `roundTrips` on every element of an array. -/
def roundTripsList : List Value → Bool
  | [] => true
  | element :: rest => roundTrips element && roundTripsList rest
/-- The condition `roundTrips` on every property of an object. -/
def roundTripsProperties : List (String × Value) → Bool
  | [] => true
  | (_, property) :: rest => roundTrips property && roundTripsProperties rest
end

/-- What the loop of `deserialize` returns for an object once it has ended. -/
def finishObject (return_data : List (String × Value)) : Value :=
  if objectHas return_data "$ref" && objectHas return_data "$id" then
    decodeDBref (objectGet return_data "$ref") (objectGet return_data "$id")
      (objectGet return_data "$db") (objectHas return_data "$db")
  else .Object "Object" return_data

/-! ## Arrays of scalars, wrong classes, outcomes of a call, tags -/

/-- The number of an integer of the 32-bit range: a double whose truncation
lies within the range and converts back to it. -/
def isInt32Integer (number : Nat) : Bool :=
  decide (-2147483648 ≤ doubleTruncate number ∧ doubleTruncate number ≤ 2147483647)
    && number == doubleOfInt (doubleTruncate number)

/-- The number of an integer of the 32-bit range, a string without NUL, or a boolean. -/
def isInt32StringOrBoolean : Value → Bool
  | .Number number => isInt32Integer number
  | .String str => hasNoNul str
  | .Boolean _ => true
  | _ => false

mutual
/-- Whether the value is, or holds at some depth reached through properties,
array elements, scope objects and the fields of a `DBRef`, an object that
carries the name of a wrapper class without being an instance of it (the
objects for which `isWrongClass` holds). -/
def hasWrongClass : Value → Bool
  | .Object constructorString properties =>
    isWrongClass constructorString properties || hasWrongClassProperties properties
  | .Array elements => hasWrongClassList elements
  | .Code _ scope_object => hasWrongClass scope_object
  | .DBRef ns oid db => hasWrongClass ns || hasWrongClass oid || hasWrongClassDb db
  | _ => false
/-- The condition `hasWrongClass` on the `db` value of a `DBRef`. -/
def hasWrongClassDb : Option Value → Bool
  | none => false
  | some property => hasWrongClass property
/-- The condition `hasWrongClass` on some element of an array. -/
def hasWrongClassList : List Value → Bool
  | [] => false
  | element :: rest => hasWrongClass element || hasWrongClassList rest
/-- The condition `hasWrongClass` on some property of an object. -/
def hasWrongClassProperties : List (String × Value) → Bool
  | [] => false
  | (_, property) :: rest => hasWrongClass property || hasWrongClassProperties rest
end

/-- How a call of a method the host invokes ends: a value is handed back, the
host exception that `VException` builds from a caught message is handed back
(the `return error` of a `catch` block), or the message is thrown by a
statement that no `try` block encloses and leaves the method as a C++
exception. -/
inductive CallResult (α : Type) where
  | returned (value : α)
  | hostException (e : EncodeError)
  | uncaught (e : EncodeError)

/-- `BSON::SerializeWithBufferAndIndex` once its arguments are unpacked.
`data` is what the buffer of the caller holds, addressed from its start, and
`heap` what the block that `malloc` returns holds.  The size is computed
before the `try` block; `serialize` runs inside it, on the block; after it
`object_size` bytes of the block are copied into the buffer from `index` on,
and `index + object_size - 1`, a `uint32_t`, is returned.  The result is how
the call ends and what the buffer holds then. -/
def SerializeWithBufferAndIndex (heap data : Memory) (object : Value) (check_key : Bool)
    (index : Nat) (serializeFunctions : Bool) : CallResult Nat × Memory :=
  match calculate_object_size object serializeFunctions with
  | .error err_msg => (.uncaught err_msg, data)
  | .ok object_size =>
    match serialize heap 0 0 none object check_key serializeFunctions with
    | .error err_msg => (.hostException err_msg, data)
    | .ok (serialized_object, _) =>
      (.returned ((index + object_size + 4294967295) % 4294967296),
        storeBytes data index (loadBytes serialized_object 0 object_size))

/-- A computation of the decoder that does not fail with the message
"Invalid C String found.". -/
def NoCStringFailure {α : Type} (x : Except DecodeError α) : Prop :=
  x ≠ .error .invalidCString

/-- The tag the branch of `serialize` for the value stores at the first byte
of the element: a number gets `BSON_DATA_INT` when it is written as a 32-bit
integer and `BSON_DATA_NUMBER` when it is written as a double; undefined gets
the tag of null; the object built for a `DBRef` gets the tag of a document;
a function, written only when functions are serialized, gets `BSON_DATA_CODE`. -/
def wireTag : Value → Nat
  | .Long _ _ => BSON_DATA_LONG
  | .Timestamp _ _ => BSON_DATA_TIMESTAMP
  | .ObjectID _ => BSON_DATA_OID
  | .Binary _ _ => BSON_DATA_BINARY
  | .DBRef _ _ _ => BSON_DATA_OBJECT
  | .Code _ _ => BSON_DATA_CODE_W_SCOPE
  | .Double _ => BSON_DATA_NUMBER
  | .Symbol _ => BSON_DATA_SYMBOL
  | .String _ => BSON_DATA_STRING
  | .MinKey => BSON_DATA_MIN_KEY
  | .MaxKey => BSON_DATA_MAX_KEY
  | .Null => BSON_DATA_NULL
  | .Undefined => BSON_DATA_NULL
  | .Number number =>
    if differenceIsNonZero number (IntegerValue number) then BSON_DATA_NUMBER
    else if IntegerValue number ≤ BSON_INT32_MAX ∧ IntegerValue number ≥ BSON_INT32_MIN then
      BSON_DATA_INT
    else BSON_DATA_NUMBER
  | .Boolean _ => BSON_DATA_BOOLEAN
  | .Date _ => BSON_DATA_DATE
  | .RegExp _ _ => BSON_DATA_REGEXP
  | .Array _ => BSON_DATA_ARRAY
  | .Function _ => BSON_DATA_CODE
  | .Object _ _ => BSON_DATA_OBJECT

/-- The wire types a tag byte stands for in the tag table, as the kinds of
value the decoder builds: 0x01 double, 0x10 32-bit integer and 0x12 64-bit
integer within `2 ^ 53` give a number, 0x12 otherwise a `Long`; 0x02 a
string; 0x03 a document or the `DBRef` made of it; 0x04 an array; 0x05 a
`Binary`; 0x07 an `ObjectID`; 0x08 a boolean; 0x09 a date; 0x0A null; 0x0B a
regular expression; 0x0D and 0x0F a `Code`; 0x0E a `Symbol`; 0x11 a
`Timestamp`; 0x7F `MaxKey`; 0xFF `MinKey`. -/
def tagDecodesTo (tag : Nat) : Value → Bool
  | .Number _ => tag == 1 || tag == 16 || tag == 18
  | .String _ => tag == 2
  | .Object _ _ => tag == 3
  | .DBRef _ _ _ => tag == 3
  | .Array _ => tag == 4
  | .Binary _ _ => tag == 5
  | .ObjectID _ => tag == 7
  | .Boolean _ => tag == 8
  | .Date _ => tag == 9
  | .Null => tag == 10
  | .RegExp _ _ => tag == 11
  | .Code _ _ => tag == 13 || tag == 15
  | .Symbol _ => tag == 14
  | .Timestamp _ _ => tag == 17
  | .Long _ _ => tag == 18
  | .MaxKey => tag == 127
  | .MinKey => tag == 255
  | _ => false

/-- What `strncpy(value, src, n)` leaves in `value` when the `n` bytes at
`src` are `payload`: the bytes before the first NUL, and NUL from there on. -/
def strncpyResult (payload : List Nat) : List Nat :=
  (cString payload).map (fun b => b % 256)
    ++ List.replicate (payload.length - (cString payload).length) 0

/-- The bytes `serialize` leaves in the block for a document serialized from
offset 0 without a name: those of the document, and the zero padding of the
top level up to the estimated size. -/
def documentEncoding (value : Value) (serializeFunctions : Bool) : List Nat :=
  elementBytes none value serializeFunctions
    ++ List.replicate (objectSize value serializeFunctions
        - (elementBytes none value serializeFunctions).length) 0

/-- The plain document the specification gives for a `DBRef`: the fields
`$ref` and `$id` and, only when `db` is present, `$db`, in that order. -/
def dbRefDocument (ns oid : Value) (db : Option Value) : Value :=
  .Object "Object"
    ([("$ref", ns), ("$id", oid)] ++ (match db with
      | some property => [("$db", property)]
      | none => []))

/-- The properties of an object that are not function-valued. -/
def withoutFunctions (properties : List (String × Value)) : List (String × Value) :=
  properties.filter (fun p => !IsFunction p.2)

/-- The value of `RegExp::GetFlags()` for a regular expression with the flags
`i` (bit 1) and `m` (bit 2) set or not, and no other flag. -/
def regExpFlags (ignoreCase multiline : Bool) : Nat :=
  (if ignoreCase then 2 else 0) + (if multiline then 4 else 0)

/-- `BSON::check_key`, with what the block that `malloc` returns for `key_str`
holds as the parameter `block`, addressed from the start of the block.  The
block has `Utf8Length + 1` bytes; the key is written into it in the `BINARY`
encoding (`Length` bytes, the low byte of every UTF-16 code unit), and a NUL
is stored at offset `Utf8Length`.  The bytes in between are not written: the
tests read there what the block held.  The scan of `strchr` ends at the NUL
at offset `Utf8Length` at the latest. -/
def check_key_block (block : Memory) (key : String) : Except EncodeError Unit :=
  let mem := storeBytes block 0 (DecodeWriteBINARY key)
  let mem := store mem (Utf8Length key) 0
  let key_str := loadBytes mem 0 (Utf8Length key + 1)
  if Utf8Length key > 0 ∧ key_str.head? = some 36 then
    .error (.keyStartsWithDollar key)
  else if Utf8Length key > 0 ∧ strchr key_str 46 ≠ some none then
    .error (.keyContainsDot key)
  else .ok ()

/-! ## The stores of a run of the encoder that throws -/

/-- A computation of the encoder whose failure is kept together with the
memory at the statement that runs it. -/
def throwAt {α : Type} (mem : Memory) (x : Except EncodeError α) :
    Except (EncodeError × Memory) α :=
  match x with
  | .ok a => .ok a
  | .error e => .error (e, mem)

/-- The computation without the memory kept in its failure. -/
def withoutStores {α : Type} (x : Except (EncodeError × Memory) α) : Except EncodeError α :=
  match x with
  | .ok a => .ok a
  | .error e => .error e.1

mutual
/-- `BSON::serialize` with what the embedding `serialize` leaves out: a
thrown message is kept together with the memory at the throw, which holds the
stores made before it, and the key validator reads what its block held when
`malloc` returned it.  `blocks` gives that contents for the call of
`check_key` made for the element at an address under a name.  The statements
are those of `serialize`. -/
def serialize_stores (blocks : Nat → String → Memory) (mem : Memory)
    (serialized_object index : Nat) (name : Option String) (value : Value)
    (check_key serializeFunctions : Bool) : Except (EncodeError × Memory) (Memory × Nat) := do
  (if name.isSome && check_key then
    throwAt mem
      (check_key_block (blocks (serialized_object + index) (nameString name)) (nameString name))
  else pure ())
  match value with
  | .Long low_bits high_bits =>
    let (mem, index) := writeTagAndName mem serialized_object index BSON_DATA_LONG name
    let mem := write_int32 mem (serialized_object + index) (toUint32 low_bits)
    let mem := write_int32 mem (serialized_object + index + 4) (toUint32 high_bits)
    pure (mem, index + 8)
  | .Timestamp low_bits high_bits =>
    let startIndex := index
    let index := index + 1
    let len := Utf8Length (nameString name)
    let mem := storeBytes mem (serialized_object + index) (WriteUtf8 (nameString name))
    let mem := store mem (serialized_object + index + len) 0
    let index := index + len + 1
    let mem := store mem (serialized_object + startIndex) BSON_DATA_TIMESTAMP
    let mem := write_int32 mem (serialized_object + index) (toUint32 low_bits)
    let mem := write_int32 mem (serialized_object + index + 4) (toUint32 high_bits)
    pure (mem, index + 8)
  | .ObjectID oid =>
    let (mem, index) := writeTagAndName mem serialized_object index BSON_DATA_OID name
    let binary_oid := convert_hex_oid_to_bin oid
    let mem := storeBytes mem (serialized_object + index) (binary_oid.take 12)
    pure (mem, index + 12)
  | .Binary sub_type data =>
    let (mem, index) := writeTagAndName mem serialized_object index BSON_DATA_BINARY name
    let mem := write_int32 mem (serialized_object + index) data.length
    let index := index + 4
    let mem := store mem (serialized_object + index) sub_type
    let index := index + 1
    let mem := storeBytes mem (serialized_object + index) data
    pure (mem, index + data.length)
  | .DBRef ns oid db => do
    let (mem, index) :=
      if name.isSome then writeTagAndName mem serialized_object index BSON_DATA_OBJECT name
      else (mem, index)
    let object_size ← throwAt mem (calculate_object_size (.DBRef ns oid db) serializeFunctions)
    let mem := write_int32 mem (serialized_object + index) object_size
    let index := index + 4
    let (mem, index) ←
      (if !IsFunction ns || (IsFunction ns && serializeFunctions) then
        serialize_stores blocks mem serialized_object index (some "$ref") ns
          false serializeFunctions
      else pure (mem, index))
    let (mem, index) ←
      (if !IsFunction oid || (IsFunction oid && serializeFunctions) then
        serialize_stores blocks mem serialized_object index (some "$id") oid
          false serializeFunctions
      else pure (mem, index))
    let (mem, index) ← serialize_db_stores blocks mem serialized_object index db serializeFunctions
    let mem := store mem (serialized_object + index) 0
    let index := index + 1
    let mem :=
      if name.isNone then
        storeBytes mem (serialized_object + index) (List.replicate (uint32Sub object_size index) 0)
      else mem
    pure (mem, index)
  | .Code code scope_object => do
    let (mem, index) := writeTagAndName mem serialized_object index BSON_DATA_CODE_W_SCOPE name
    let first_pointer := index
    let index := index + 4
    let mem := write_int32 mem (serialized_object + index) (strlen (WriteUtf8 code) + 1)
    let index := index + 4
    let mem := storeBytes mem (serialized_object + index) (cString (WriteUtf8 code))
    let mem := store mem (serialized_object + index + strlen (WriteUtf8 code)) 0
    let index := index + strlen (WriteUtf8 code) + 1
    let scope_object_size ← throwAt mem (calculate_object_size scope_object serializeFunctions)
    let (mem, _) ←
      serialize_stores blocks mem (serialized_object + index) 0 none scope_object
        check_key serializeFunctions
    let index := index + scope_object_size
    let mem := write_int32 mem (serialized_object + first_pointer) (index - first_pointer)
    pure (mem, index)
  | .Double value =>
    let (mem, index) := writeTagAndName mem serialized_object index BSON_DATA_NUMBER name
    let d_number := value
    let mem := write_double mem (serialized_object + index) d_number
    pure (mem, index + 8)
  | .Symbol value =>
    let (mem, index) := writeTagAndName mem serialized_object index BSON_DATA_SYMBOL name
    pure (writeString mem serialized_object index value)
  | .String str =>
    let (mem, index) := writeTagAndName mem serialized_object index BSON_DATA_STRING name
    pure (writeString mem serialized_object index str)
  | .MinKey => pure (writeTagAndName mem serialized_object index BSON_DATA_MIN_KEY name)
  | .MaxKey => pure (writeTagAndName mem serialized_object index BSON_DATA_MAX_KEY name)
  | .Null => pure (writeTagAndName mem serialized_object index BSON_DATA_NULL name)
  | .Undefined => pure (writeTagAndName mem serialized_object index BSON_DATA_NULL name)
  | .Number number =>
    let first_pointer := index
    let (mem, index) := writeTagAndName mem serialized_object index BSON_DATA_INT name
    let d_number := number
    let l_number := IntegerValue number
    if differenceIsNonZero d_number l_number then
      let mem := write_double mem (serialized_object + index) d_number
      let mem := store mem (serialized_object + first_pointer) BSON_DATA_NUMBER
      pure (mem, index + 8)
    else if l_number ≤ BSON_INT32_MAX ∧ l_number ≥ BSON_INT32_MIN then
      let mem := write_int32 mem (serialized_object + index) (toUint32 (ToInt32 number))
      pure (mem, index + 4)
    else if l_number ≤ Int.xor 2 53 ∧ l_number ≥ Int.xor (-2) 53 then
      let mem := write_double mem (serialized_object + index) d_number
      let mem := store mem (serialized_object + first_pointer) BSON_DATA_NUMBER
      pure (mem, index + 8)
    else
      let mem := write_double mem (serialized_object + index) d_number
      let mem := store mem (serialized_object + first_pointer) BSON_DATA_NUMBER
      pure (mem, index + 8)
  | .Boolean b =>
    let (mem, index) := writeTagAndName mem serialized_object index BSON_DATA_BOOLEAN name
    let mem := store mem (serialized_object + index) (if b then 1 else 0)
    pure (mem, index + 1)
  | .Date time =>
    let (mem, index) := writeTagAndName mem serialized_object index BSON_DATA_DATE name
    let integer_value := DateIntegerValue time
    let mem := write_int64 mem (serialized_object + index) integer_value
    pure (mem, index + 8)
  | .RegExp source flags =>
    let (mem, index) := writeTagAndName mem serialized_object index BSON_DATA_REGEXP name
    let len := Utf8Length source
    let mem := storeBytes mem (serialized_object + index) (WriteUtf8 source)
    let mem := store mem (serialized_object + index + len) 0
    let index := index + len + 1
    let (mem, index) :=
      if flags / 2 % 2 != 0 then (store mem (serialized_object + index) 105, index + 1)
      else (mem, index)
    let (mem, index) :=
      if flags / 4 % 2 != 0 then (store mem (serialized_object + index) 109, index + 1)
      else (mem, index)
    let mem := store mem (serialized_object + index) 0
    pure (mem, index + 1)
  | .Array elements => do
    let (mem, index) := writeTagAndName mem serialized_object index BSON_DATA_ARRAY name
    let object_size ← throwAt mem (calculate_object_size (.Array elements) serializeFunctions)
    let mem := write_int32 mem (serialized_object + index) object_size
    let index := index + 4
    let (mem, index) ←
      serialize_elements_stores blocks mem serialized_object index elements 0
        check_key serializeFunctions
    let mem := store mem (serialized_object + index) 0
    pure (mem, index + 1)
  | .Function source =>
    if serializeFunctions then
      let (mem, index) := writeTagAndName mem serialized_object index BSON_DATA_CODE name
      pure (writeString mem serialized_object index source)
    else pure (mem, index)
  | .Object constructorString properties =>
    if isWrongClass constructorString properties then
      throw (.wrongClass constructorString, mem)
    else do
      let (mem, index) :=
        if name.isSome then writeTagAndName mem serialized_object index BSON_DATA_OBJECT name
        else (mem, index)
      let object_size ←
        throwAt mem
          (calculate_object_size (.Object constructorString properties) serializeFunctions)
      let mem := write_int32 mem (serialized_object + index) object_size
      let index := index + 4
      let (mem, index) ←
        serialize_properties_stores blocks mem serialized_object index properties
          check_key serializeFunctions
      let mem := store mem (serialized_object + index) 0
      let index := index + 1
      let mem :=
        if name.isNone then
          storeBytes mem (serialized_object + index)
            (List.replicate (uint32Sub object_size index) 0)
        else mem
      pure (mem, index)
/-- The step of the property loop for the `$db` property of the object built for a `DBRef`. -/
def serialize_db_stores (blocks : Nat → String → Memory) (mem : Memory)
    (serialized_object index : Nat) (db : Option Value) (serializeFunctions : Bool) :
    Except (EncodeError × Memory) (Memory × Nat) :=
  match db with
  | none => pure (mem, index)
  | some property =>
    if !IsFunction property || (IsFunction property && serializeFunctions) then
      serialize_stores blocks mem serialized_object index (some "$db") property
        false serializeFunctions
    else pure (mem, index)
/-- The loop of the array branch of `serialize_stores`, from position `i` on. -/
def serialize_elements_stores (blocks : Nat → String → Memory) (mem : Memory)
    (serialized_object index : Nat) (elements : List Value) (i : Nat)
    (check_key serializeFunctions : Bool) : Except (EncodeError × Memory) (Memory × Nat) :=
  match elements with
  | [] => pure (mem, index)
  | element :: rest => do
    let length_str := toString i
    let (mem, index) ←
      serialize_stores blocks mem serialized_object index (some length_str) element
        check_key serializeFunctions
    let mem := store mem (serialized_object + index) 0
    serialize_elements_stores blocks mem serialized_object index rest (i + 1)
      check_key serializeFunctions
/-- The loop of the last branch of `serialize_stores` over the own properties of an object. -/
def serialize_properties_stores (blocks : Nat → String → Memory) (mem : Memory)
    (serialized_object index : Nat)
    (properties : List (String × Value)) (check_key serializeFunctions : Bool) :
    Except (EncodeError × Memory) (Memory × Nat) :=
  match properties with
  | [] => pure (mem, index)
  | (property_name, property) :: rest =>
    if !IsFunction property || (IsFunction property && serializeFunctions) then do
      let (mem, index) ←
        serialize_stores blocks mem serialized_object index (some property_name) property check_key
          serializeFunctions
      serialize_properties_stores blocks mem serialized_object index rest
        check_key serializeFunctions
    else serialize_properties_stores blocks mem serialized_object index rest
      check_key serializeFunctions
end

/-! ## Names of emitted elements -/

/-- The names the specification excludes when names are validated: a name
that starts with `$` or contains `.` (the empty name does neither).  This
follows the words of the specification; the key validator of the source is
`check_key`. -/
def specInvalidFieldName (key : String) : Bool :=
  decide (key.toList.head? = some '$') || decide ('.' ∈ key.toList)

mutual
/-- The names `serialize` hands to the key validator for a value under a
name: the name itself and, through objects, array elements and scope
objects, the names of the elements inside, in the order of the calls.  The
object built for a `DBRef` is serialized with validation off. -/
def emittedNames (name : Option String) (value : Value) (serializeFunctions : Bool) :
    List String :=
  (match name with
    | some key => [key]
    | none => [])
  ++ (match value with
    | .Code _ scope_object => emittedNames none scope_object serializeFunctions
    | .Array elements => emittedNamesElements elements 0 serializeFunctions
    | .Object _ properties => emittedNamesProperties properties serializeFunctions
    | _ => [])
/-- The names of `emittedNames` for the elements of an array from position `i` on. -/
def emittedNamesElements (elements : List Value) (i : Nat) (serializeFunctions : Bool) :
    List String :=
  match elements with
  | [] => []
  | element :: rest =>
    emittedNames (some (toString i)) element serializeFunctions
      ++ emittedNamesElements rest (i + 1) serializeFunctions
/-- The names of `emittedNames` for the properties of an object that are emitted. -/
def emittedNamesProperties (properties : List (String × Value)) (serializeFunctions : Bool) :
    List String :=
  match properties with
  | [] => []
  | (property_name, property) :: rest =>
    if !IsFunction property || (IsFunction property && serializeFunctions) then
      emittedNames (some property_name) property serializeFunctions
        ++ emittedNamesProperties rest serializeFunctions
    else emittedNamesProperties rest serializeFunctions
end

/-! ## The estimate as the source computes it -/

mutual
/-- `BSON::calculate_object_size` with the arithmetic of the source: the
function returns a `uint32_t`, `object_size` and the sizes of the nested calls
are `uint32_t` variables, and every assignment to one of them is taken modulo
`2 ^ 32`.  `calculate_object_size` is the same computation with the sums
taken in the natural numbers. -/
def calculate_object_size_uint32 (value : Value) (serializeFunctions : Bool) :
    Except EncodeError Nat :=
  match value with
  | .Long _ _ => pure (uint32Add 0 8)
  | .Timestamp _ _ => pure (uint32Add 0 8)
  | .ObjectID _ => pure (uint32Add 0 12)
  | .Binary _ data => pure (uint32Add 0 (data.length + 4 + 1))
  | .Code code scope_object => do
    let scope_size ← calculate_object_size_uint32 scope_object serializeFunctions
    pure (uint32Add 0 (strlen (WriteUtf8 code) + 4 + scope_size + 4 + 1))
  | .DBRef ns oid db => do
    let ref_size ←
      (if !IsFunction ns || (IsFunction ns && serializeFunctions) then do
        let s ← calculate_object_size_uint32 ns serializeFunctions
        pure (uint32Add 0 (s + Utf8Length "$ref" + 1 + 1))
      else pure 0)
    let id_size ←
      (if !IsFunction oid || (IsFunction oid && serializeFunctions) then do
        let s ← calculate_object_size_uint32 oid serializeFunctions
        pure (uint32Add ref_size (s + Utf8Length "$id" + 1 + 1))
      else pure ref_size)
    let db_size ← calculate_db_size_uint32 id_size db serializeFunctions
    pure (uint32Add 0 (uint32Add db_size (4 + 1)))
  | .MinKey => pure 0
  | .MaxKey => pure 0
  | .Symbol str => pure (uint32Add 0 (stringSize str))
  | .String str => pure (uint32Add 0 (stringSize str))
  | .Null => pure 0
  | .Double _ => pure (uint32Add 0 8)
  | .Number number =>
    let d_number := number
    let l_number := IntegerValue number
    if differenceIsNonZero d_number l_number then pure (uint32Add 0 8)
    else if l_number ≤ BSON_INT32_MAX ∧ l_number ≥ BSON_INT32_MIN then pure (uint32Add 0 4)
    else pure (uint32Add 0 8)
  | .Boolean _ => pure (uint32Add 0 1)
  | .Date _ => pure (uint32Add 0 8)
  | .RegExp source flags =>
    let len := Utf8Length source
    let len := if flags / 2 % 2 != 0 then len + 1 else len
    let len := if flags / 4 % 2 != 0 then len + 1 else len
    pure (uint32Add 0 (len + 2))
  | .Array elements => do
    let object_size ← calculate_array_size_uint32 0 elements 0 serializeFunctions
    pure (uint32Add object_size (4 + 1))
  | .Function source =>
    if serializeFunctions then pure (uint32Add 0 (Utf8Length source + 1 + 4)) else pure 0
  | .Object constructorString properties =>
    if isWrongClass constructorString properties then
      throw (.wrongClass constructorString)
    else do
      let object_size ← calculate_properties_size_uint32 0 properties serializeFunctions
      pure (uint32Add object_size (4 + 1))
  | .Undefined => pure 0
/-- The step of the property loop of `calculate_object_size` for the `$db`
property of the object built for a `DBRef`, from the `object_size` reached. -/
def calculate_db_size_uint32 (object_size : Nat) (db : Option Value) (serializeFunctions : Bool) :
    Except EncodeError Nat :=
  match db with
  | none => pure object_size
  | some property =>
    if !IsFunction property || (IsFunction property && serializeFunctions) then do
      let s ← calculate_object_size_uint32 property serializeFunctions
      pure (uint32Add object_size (s + Utf8Length "$db" + 1 + 1))
    else pure object_size
/-- The loop of `calculate_object_size` over the elements of an array, from
position `i` on and from the `object_size` reached. -/
def calculate_array_size_uint32 (object_size : Nat) (elements : List Value) (i : Nat)
    (serializeFunctions : Bool) : Except EncodeError Nat :=
  match elements with
  | [] => pure object_size
  | element :: rest => do
    let label_length := uint32Add (strlen (WriteUtf8 (toString i))) 1
    let object_size := uint32Add (uint32Add object_size label_length) 1
    let object_length ← calculate_object_size_uint32 element serializeFunctions
    let object_size := uint32Add object_size object_length
    calculate_array_size_uint32 object_size rest (i + 1) serializeFunctions
/-- The loop of `calculate_object_size` over the own properties of an object,
from the `object_size` reached. -/
def calculate_properties_size_uint32 (object_size : Nat) (properties : List (String × Value))
    (serializeFunctions : Bool) : Except EncodeError Nat :=
  match properties with
  | [] => pure object_size
  | (property_name, property) :: rest =>
    if !IsFunction property || (IsFunction property && serializeFunctions) then do
      let len := Utf8Length property_name
      let s ← calculate_object_size_uint32 property serializeFunctions
      let object_size := uint32Add object_size (s + len + 1 + 1)
      calculate_properties_size_uint32 object_size rest serializeFunctions
    else calculate_properties_size_uint32 object_size rest serializeFunctions
end

/-- The memory `after` holds what `before` holds at every address below `lo`
and from `hi` on. -/
def StoresWithin (before after : Memory) (lo hi : Nat) : Prop :=
  ∀ a, a < lo ∨ hi ≤ a → after a = before a

/-- A value whose branch of `serialize` hands `check_key` to no nested call. -/
def validatesNameOnly : Value → Bool
  | .Code _ _ => false
  | .Array _ => false
  | .Object _ _ => false
  | _ => true

/-- The document whose thirty-two fields `a` to `z` and `A` to `F` hold one
and the same string. -/
def thirtyTwoStrings (s : String) : Value :=
  .Object "Object"
    [("a", .String s), ("b", .String s), ("c", .String s), ("d", .String s),
     ("e", .String s), ("f", .String s), ("g", .String s), ("h", .String s),
     ("i", .String s), ("j", .String s), ("k", .String s), ("l", .String s),
     ("m", .String s), ("n", .String s), ("o", .String s), ("p", .String s),
     ("q", .String s), ("r", .String s), ("s", .String s), ("t", .String s),
     ("u", .String s), ("v", .String s), ("w", .String s), ("x", .String s),
     ("y", .String s), ("z", .String s), ("A", .String s), ("B", .String s),
     ("C", .String s), ("D", .String s), ("E", .String s), ("F", .String s)]

/-! # Theorems -/

/-! ## Memory -/

theorem storeBytes_apply (mem : Memory) (p : Nat) (xs : List Nat) (a : Nat) :
    storeBytes mem p xs a
      = if p ≤ a ∧ a < p + xs.length then xs.getD (a - p) 0 % 256 else mem a := by
  induction xs generalizing mem p with
  | nil =>
    simp only [storeBytes, List.length_nil, Nat.add_zero]
    rw [if_neg (by omega)]
  | cons x xs ih =>
    simp only [storeBytes, ih, store, List.length_cons]
    by_cases h1 : a = p
    · subst h1; simp
    · by_cases h2 : p + 1 ≤ a ∧ a < p + 1 + xs.length
      · have h3 : p ≤ a ∧ a < p + (xs.length + 1) := by omega
        rw [if_pos h2, if_pos h3]
        have : a - p = (a - (p + 1)) + 1 := by omega
        rw [this, List.getD_cons_succ]
      · have h3 : ¬ (p ≤ a ∧ a < p + (xs.length + 1)) := by omega
        rw [if_neg h2, if_neg h3, if_neg h1]

theorem storeBytes_append (mem : Memory) (p : Nat) (xs ys : List Nat) :
    storeBytes mem p (xs ++ ys) = storeBytes (storeBytes mem p xs) (p + xs.length) ys := by
  induction xs generalizing mem p with
  | nil => simp [storeBytes]
  | cons x xs ih =>
    show storeBytes (store mem p x) (p + 1) (xs ++ ys) = _
    rw [ih]
    simp only [storeBytes, List.length_cons]
    rw [show p + 1 + xs.length = p + (xs.length + 1) by omega]

/-- Stores that follow a stored block extend it. -/
theorem storeBytes_seq (mem : Memory) (p q : Nat) (xs ys : List Nat) (h : q = p + xs.length) :
    storeBytes (storeBytes mem p xs) q ys = storeBytes mem p (xs ++ ys) := by
  rw [h, storeBytes_append]

/-- Stores over the start of a stored block replace that start. -/
theorem storeBytes_overwrite (mem : Memory) (p : Nat) (xs xs2 ys : List Nat)
    (h : xs2.length = xs.length) :
    storeBytes (storeBytes mem p (xs ++ ys)) p xs2 = storeBytes mem p (xs2 ++ ys) := by
  funext a
  simp only [storeBytes_apply, List.length_append, h]
  by_cases h1 : p ≤ a ∧ a < p + xs.length
  · rw [if_pos h1, if_pos (by omega)]
    rw [List.getD_append _ _ _ _ (by omega)]
  · rw [if_neg h1]
    by_cases h2 : p ≤ a ∧ a < p + (xs.length + ys.length)
    · rw [if_pos h2, if_pos h2]
      rw [List.getD_append_right _ _ _ _ (by omega), List.getD_append_right _ _ _ _ (by omega), h]
    · rw [if_neg h2, if_neg h2]

/-- Stores just before a stored block extend it to the front. -/
theorem storeBytes_before (mem : Memory) (p q : Nat) (xs ys : List Nat) (h : q = p + xs.length) :
    storeBytes (storeBytes mem q ys) p xs = storeBytes mem p (xs ++ ys) := by
  subst h
  funext a
  simp only [storeBytes_apply, List.length_append]
  by_cases h1 : p ≤ a ∧ a < p + xs.length
  · rw [if_pos h1, if_pos (by omega)]
    rw [List.getD_append _ _ _ _ (by omega)]
  · rw [if_neg h1]
    by_cases h2 : p + xs.length ≤ a ∧ a < p + xs.length + ys.length
    · rw [if_pos h2, if_pos (by omega)]
      rw [List.getD_append_right _ _ _ _ (by omega)]
      congr 2; omega
    · rw [if_neg h2, if_neg (by omega)]

theorem store_eq_storeBytes (mem : Memory) (p b : Nat) : store mem p b = storeBytes mem p [b] :=
  rfl

theorem loadBytes_storeBytes (mem : Memory) (p : Nat) (xs : List Nat) :
    loadBytes (storeBytes mem p xs) p xs.length = xs.map (fun b => b % 256) := by
  apply List.ext_getElem
  · simp [loadBytes]
  · intro i h1 h2
    simp only [loadBytes, List.getElem_map, List.getElem_range, storeBytes_apply]
    simp only [loadBytes, List.length_map, List.length_range] at h1
    rw [if_pos (by omega)]
    simp [List.getD_eq_getElem?_getD, h1]

/-! ## Small facts -/

theorem leBytes_length (n v : Nat) : (leBytes n v).length = n := by
  induction n generalizing v with
  | zero => rfl
  | succ n ih => simp [leBytes, ih]

theorem toUint32_lt (i : Int) : toUint32 i < 4294967296 := by
  unfold toUint32
  omega

theorem toUint32_mod (i : Int) : toUint32 i % 4294967296 = toUint32 i :=
  Nat.mod_eq_of_lt (toUint32_lt i)

theorem bind_eq_ok {ε α β : Type} (x : Except ε α) (f : α → Except ε β) (r : β) :
    (x >>= f) = .ok r ↔ ∃ a, x = .ok a ∧ f a = .ok r := by
  cases x with
  | error e => simp [bind, Except.bind]
  | ok a => simp [bind, Except.bind]

theorem bind_eq_error {ε α β : Type} (x : Except ε α) (f : α → Except ε β) (e : ε) :
    (x >>= f) = .error e ↔ x = .error e ∨ ∃ a, x = .ok a ∧ f a = .error e := by
  cases x with
  | error e2 => simp [bind, Except.bind]
  | ok a => simp [bind, Except.bind]

theorem writeTagAndName_eq (mem : Memory) (so idx tag : Nat) (name : Option String) :
    writeTagAndName mem so idx tag name
      = (storeBytes mem (so + idx) (headerBytes tag name),
          idx + (headerBytes tag name).length) := by
  simp only [writeTagAndName, headerBytes, store_eq_storeBytes, Utf8Length]
  simp [storeBytes_append, storeBytes, Nat.add_assoc]
  omega

/-! ## The key validator on ASCII names -/

theorem char_eq_of_toNat {c : Char} {n : Nat} (h : c.toNat = n) : c = Char.ofNat n := by
  rw [← h, Char.ofNat_toNat]

theorem utf8EncodeChar_ascii {c : Char} (h : c.toNat < 128) : utf8EncodeChar c = [c.toNat] := by
  simp only [utf8EncodeChar]
  rw [if_pos (by omega)]

theorem utf16EncodeChar_ascii {c : Char} (h : c.toNat < 128) : utf16EncodeChar c = [c.toNat] := by
  simp only [utf16EncodeChar]
  rw [if_pos (by omega)]

theorem flatMap_utf8_ascii (cs : List Char) (h : ∀ c ∈ cs, c.toNat < 128) :
    cs.flatMap utf8EncodeChar = cs.map Char.toNat := by
  induction cs with
  | nil => rfl
  | cons c cs ih =>
    simp only [List.flatMap_cons, List.map_cons]
    rw [utf8EncodeChar_ascii (h c (List.mem_cons_self _ _)),
      ih (fun d hd => h d (List.mem_cons_of_mem _ hd))]
    rfl

theorem flatMap_utf16_ascii (cs : List Char) (h : ∀ c ∈ cs, c.toNat < 128) :
    cs.flatMap utf16EncodeChar = cs.map Char.toNat := by
  induction cs with
  | nil => rfl
  | cons c cs ih =>
    simp only [List.flatMap_cons, List.map_cons]
    rw [utf16EncodeChar_ascii (h c (List.mem_cons_self _ _)),
      ih (fun d hd => h d (List.mem_cons_of_mem _ hd))]
    rfl

theorem strchr_ascii (cs : List Char) (h : ∀ c ∈ cs, 0 < c.toNat ∧ c.toNat < 128) :
    strchr (cs.map Char.toNat ++ [0]) 46 ≠ some none ↔ '.' ∈ cs := by
  induction cs with
  | nil => simp [strchr]
  | cons c cs ih =>
    have hc := h c (List.mem_cons_self _ _)
    have ih2 := ih (fun d hd => h d (List.mem_cons_of_mem _ hd))
    simp only [List.map_cons, List.cons_append, strchr]
    rw [Nat.mod_eq_of_lt (by omega : c.toNat < 256)]
    by_cases h46 : c.toNat = 46
    · rw [if_pos h46]
      have : c = '.' := char_eq_of_toNat h46
      simp [this]
    · rw [if_neg h46, if_neg (by omega)]
      have hne : ¬ ('.' = c) := by
        intro h2; apply h46; rw [← h2]; rfl
      simp only [List.mem_cons, hne, false_or]
      rw [← ih2]
      cases strchr (List.map Char.toNat cs ++ [0]) 46 with
      | none => simp
      | some r => cases r <;> simp

theorem check_key_ascii (key : String) (h : ∀ c ∈ key.toList, 0 < c.toNat ∧ c.toNat < 128) :
    check_key key =
      if key.toList.head? = some '$' then .error (.keyStartsWithDollar key)
      else if '.' ∈ key.toList then .error (.keyContainsDot key)
      else .ok () := by
  have h8 := flatMap_utf8_ascii key.toList (fun c hc => (h c hc).2)
  have h16 := flatMap_utf16_ascii key.toList (fun c hc => (h c hc).2)
  have hs := strchr_ascii key.toList h
  simp only [check_key, DecodeWriteBINARY, Utf8Length, Length, WriteUtf8, h8, h16,
    List.length_map, Nat.sub_self, List.replicate_zero, List.append_nil]
  have hmap : List.map (fun u => u % 256) (List.map Char.toNat key.toList)
      = List.map Char.toNat key.toList := by
    rw [List.map_map]
    apply List.map_congr_left
    intro c hc
    exact Nat.mod_eq_of_lt (by have := (h c hc).2; omega)
  rw [hmap]
  cases hk : key.toList with
  | nil => simp [strchr]
  | cons c cs =>
    rw [hk] at hs
    have hc := h c (by rw [hk]; exact List.mem_cons_self _ _)
    simp only [List.map_cons, List.cons_append, List.head?_cons, List.length_cons,
      Option.some.injEq]
    by_cases h36 : c.toNat = 36
    · have : c = '$' := char_eq_of_toNat h36
      simp [h36, this]
    · have hne : ¬ (c = '$') := by
        intro h2; apply h36; rw [h2]; rfl
      rw [if_neg (by simp [h36]), if_neg hne]
      simp only [List.map_cons, List.cons_append] at hs
      by_cases hdot : '.' ∈ c :: cs
      · rw [if_pos ⟨by omega, hs.mpr hdot⟩, if_pos hdot]
      · rw [if_neg (by intro h2; exact hdot (hs.mp h2.2)), if_neg hdot]

/-! ## Integers as doubles -/

theorem bitLengthAux_spec (fuel n : Nat) (h : n < 2 ^ fuel) (hn : 0 < n) :
    2 ^ (bitLengthAux fuel n - 1) ≤ n ∧ n < 2 ^ bitLengthAux fuel n ∧ 0 < bitLengthAux fuel n := by
  induction fuel generalizing n with
  | zero => simp at h; omega
  | succ fuel ih =>
    simp only [bitLengthAux]
    rw [if_neg (by omega)]
    by_cases h2 : n / 2 = 0
    · have : n = 1 := by omega
      subst this
      cases fuel <;> simp [bitLengthAux]
    · have hlt : n / 2 < 2 ^ fuel := by
        rw [Nat.pow_succ] at h; omega
      obtain ⟨a, b, c⟩ := ih (n / 2) hlt (by omega)
      refine ⟨?_, ?_, by omega⟩
      · simp only [Nat.add_sub_cancel]
        have : bitLengthAux fuel (n / 2) = (bitLengthAux fuel (n / 2) - 1) + 1 := by omega
        rw [this, Nat.pow_succ]
        omega
      · rw [Nat.pow_succ]; omega

theorem bitLength_spec (n : Nat) (h : n < 18446744073709551616) (hn : 0 < n) :
    2 ^ (bitLength n - 1) ≤ n ∧ n < 2 ^ bitLength n ∧ 0 < bitLength n :=
  bitLengthAux_spec 64 n (by norm_num; exact h) hn

theorem double_fields (s k r : Nat) (hs : s ≤ 1) (hk : k ≤ 53) (hr : r < 4503599627370496) :
    doubleSign (s * 9223372036854775808 + ((1023 + k) * 4503599627370496 + r)) = s
    ∧ doubleExponent (s * 9223372036854775808 + ((1023 + k) * 4503599627370496 + r)) = 1023 + k
    ∧ doubleMantissa (s * 9223372036854775808 + ((1023 + k) * 4503599627370496 + r)) = r := by
  unfold doubleSign doubleExponent doubleMantissa
  refine ⟨?_, ?_, ?_⟩ <;> omega

/-- The fields of the double of a positive magnitude up to `2 ^ 53`: the
double is `(1023 + k) * 2 ^ 52 + r` with `r + 2 ^ 52` times `2 ^ k` equal to
the magnitude times `2 ^ 52`. -/
theorem doubleOfNat_form (a : Nat) (ha : 0 < a) (hle : a ≤ 9007199254740992) :
    ∃ k r, k ≤ 53 ∧ r < 4503599627370496
      ∧ doubleOfNat a = (1023 + k) * 4503599627370496 + r
      ∧ ((k ≤ 52 ∧ r + 4503599627370496 = a * 2 ^ (52 - k)) ∨ (k = 53 ∧ r = 0 ∧ a = 9007199254740992)) := by
  obtain ⟨h1, h2, h3⟩ := bitLength_spec a (by omega) ha
  have hk : bitLength a - 1 ≤ 53 := by
    by_contra hc
    have : 2 ^ 54 ≤ 2 ^ (bitLength a - 1) := Nat.pow_le_pow_right (by norm_num) (by omega)
    have h54 : (2:Nat) ^ 54 = 18014398509481984 := by norm_num
    omega
  by_cases hk52 : bitLength a - 1 ≤ 52
  · have hP : 2 ^ (bitLength a - 1) * 2 ^ (52 - (bitLength a - 1)) = 4503599627370496 := by
      rw [← Nat.pow_add]
      have : bitLength a - 1 + (52 - (bitLength a - 1)) = 52 := by omega
      rw [this]
    have hP2 : 2 ^ bitLength a * 2 ^ (52 - (bitLength a - 1)) = 9007199254740992 := by
      rw [← Nat.pow_add]
      have : bitLength a + (52 - (bitLength a - 1)) = 53 := by omega
      rw [this]
    have hPpos : 0 < 2 ^ (52 - (bitLength a - 1)) := Nat.two_pow_pos _
    have hlo : 4503599627370496 ≤ a * 2 ^ (52 - (bitLength a - 1)) := by
      rw [← hP]; exact Nat.mul_le_mul_right _ h1
    have hhi : a * 2 ^ (52 - (bitLength a - 1)) < 9007199254740992 := by
      rw [← hP2]; exact Nat.mul_lt_mul_of_pos_right h2 hPpos
    refine ⟨bitLength a - 1, a * 2 ^ (52 - (bitLength a - 1)) - 4503599627370496, hk, by omega, ?_,
      Or.inl ⟨hk52, by omega⟩⟩
    simp only [doubleOfNat]
    rw [if_neg (by omega), if_pos hk52]
  · have hk53 : bitLength a - 1 = 53 := by omega
    have h53 : (2:Nat) ^ 53 = 9007199254740992 := by norm_num
    rw [hk53, h53] at h1
    have ha53 : a = 9007199254740992 := by omega
    refine ⟨53, 0, by omega, by omega, ?_, Or.inr ⟨rfl, rfl, ha53⟩⟩
    subst ha53
    decide

theorem doubleOfInt_exact (v : Int) (h1 : -9007199254740992 ≤ v) (h2 : v ≤ 9007199254740992) :
    doubleExponent (doubleOfInt v) ≠ 2047 ∧ doubleTruncate (doubleOfInt v) = v
      ∧ doubleHasFraction (doubleOfInt v) = false := by
  by_cases h0 : v = 0
  · subst h0
    have hz : doubleOfInt 0 = 0 := by decide
    rw [hz]
    refine ⟨by decide, ?_, ?_⟩
    · simp [doubleTruncate, doubleSign, doubleTruncateMagnitude, doubleShift, doubleSignificand,
        doubleMantissa, doubleExponent]
    · simp [doubleHasFraction, doubleShift, doubleSignificand, doubleMantissa, doubleExponent]
  · have hpos : 0 < v.natAbs := by omega
    obtain ⟨k, r, hk, hr, hform, hcase⟩ := doubleOfNat_form v.natAbs hpos (by omega)
    have hbits : ∃ s, s ≤ 1 ∧ (s = 1 ↔ v < 0)
        ∧ doubleOfInt v = s * 9223372036854775808 + ((1023 + k) * 4503599627370496 + r) := by
      by_cases hneg : v < 0
      · exact ⟨1, by omega, by simp [hneg], by simp [doubleOfInt, hneg, hform]⟩
      · exact ⟨0, by omega, by simp [hneg], by simp [doubleOfInt, hneg, hform]⟩
    obtain ⟨s, hs, hsv, hb⟩ := hbits
    obtain ⟨f1, f2, f3⟩ := double_fields s k r hs hk hr
    rw [← hb] at f1 f2 f3
    have hsig : doubleSignificand (doubleOfInt v) = r + 4503599627370496 := by
      simp only [doubleSignificand, f2, f3]; rw [if_neg (by omega)]
    have hshift : doubleShift (doubleOfInt v) = 1023 + k := by
      simp only [doubleShift, f2]; rw [if_neg (by omega)]
    have hmag : doubleTruncateMagnitude (doubleOfInt v) = v.natAbs
        ∧ doubleHasFraction (doubleOfInt v) = false := by
      simp only [doubleTruncateMagnitude, doubleHasFraction, hsig, hshift]
      rcases hcase with ⟨hk52, hm⟩ | ⟨hk53, hr0, ha⟩
      · by_cases hk' : k = 52
        · subst hk'
          simp at hm
          simp; omega
        · rw [if_neg (by omega)]
          have he : 1075 - (1023 + k) = 52 - k := by omega
          have hPpos : 0 < 2 ^ (52 - k) := Nat.two_pow_pos _
          rw [he, hm]
          refine ⟨Nat.mul_div_cancel _ hPpos, ?_⟩
          simp [Nat.mul_mod_left]
      · subst hk53; subst hr0
        simp; omega
    refine ⟨by omega, ?_, hmag.2⟩
    simp only [doubleTruncate, f1, hmag.1]
    by_cases hneg : v < 0
    · have : s = 1 := hsv.mpr hneg
      rw [if_pos this]; omega
    · have : ¬ s = 1 := fun h => hneg (hsv.mp h)
      rw [if_neg this]; omega

/-! ## Little-endian integers and `decodeLong` -/

theorem leBytes_lt (n x : Nat) : ∀ b ∈ leBytes n x, b < 256 := by
  induction n generalizing x with
  | zero => simp [leBytes]
  | succ n ih =>
    intro b hb
    simp only [leBytes, List.mem_cons] at hb
    rcases hb with h | h
    · omega
    · exact ih _ b h

theorem map_mod_eq_self (xs : List Nat) (h : ∀ b ∈ xs, b < 256) :
    xs.map (fun b => b % 256) = xs := by
  induction xs with
  | nil => rfl
  | cons x xs ih =>
    simp only [List.map_cons]
    rw [ih (fun b hb => h b (List.mem_cons_of_mem _ hb)),
      Nat.mod_eq_of_lt (h x (List.mem_cons_self _ _))]

theorem leValue_leBytes (n x : Nat) (h : x < 256 ^ n) : leValue (leBytes n x) = x := by
  induction n generalizing x with
  | zero => simp at h; simp [leBytes, leValue, h]
  | succ n ih =>
    simp only [leBytes, leValue]
    rw [ih (x / 256) (by rw [Nat.pow_succ] at h; omega)]
    omega

theorem leValue_append (xs ys : List Nat) :
    leValue (xs ++ ys) = leValue xs + 256 ^ xs.length * leValue ys := by
  induction xs with
  | nil => simp [leValue]
  | cons x xs ih =>
    show x % 256 + 256 * leValue (xs ++ ys) = _
    rw [ih]
    simp only [leValue, List.length_cons, Nat.pow_succ]
    ring

theorem readBytes_eq (data : List Nat) (offset count : Nat) (bytes : List Nat)
    (hlen : bytes.length = count) (hpos : 0 < count) (hb : ∀ b ∈ bytes, b < 256)
    (h : (data.drop offset).take count = bytes) :
    readBytes data offset count = .ok bytes := by
  have hl : offset + count ≤ data.length := by
    have := congrArg List.length h
    simp only [List.length_take, List.length_drop, hlen] at this
    omega
  simp only [readBytes]
  rw [if_pos hl, h, map_mod_eq_self _ hb]
  rfl

theorem decodeLong_spec (data : List Nat) (index : Nat) (low high : Int)
    (hlow : -2147483648 ≤ low ∧ low ≤ 2147483647)
    (hhigh : -2147483648 ≤ high ∧ high ≤ 2147483647)
    (hdata : (data.drop index).take 8 = leBytes 4 (toUint32 low) ++ leBytes 4 (toUint32 high)) :
    decodeLong data index =
      .ok (if -9007199254740992 ≤ high * 4294967296 + (toUint32 low : Int)
              ∧ high * 4294967296 + (toUint32 low : Int) ≤ 9007199254740992
           then .Number (doubleOfInt (high * 4294967296 + (toUint32 low : Int)))
           else .Long low high) := by
  have h4a : (data.drop index).take 4 = leBytes 4 (toUint32 low) := by
    have := congrArg (List.take 4) hdata
    rw [List.take_take] at this
    simpa [List.take_append_of_le_length, leBytes_length] using this
  have h4b : (data.drop (index + 4)).take 4 = leBytes 4 (toUint32 high) := by
    have := congrArg (List.drop 4) hdata
    rw [List.drop_take] at this
    simpa [List.drop_append_of_le_length, leBytes_length, Nat.add_comm] using this
  have r1 := readBytes_eq data index 4 _ (leBytes_length _ _) (by omega) (leBytes_lt _ _) h4a
  have r2 := readBytes_eq data (index + 4) 4 _ (leBytes_length _ _) (by omega) (leBytes_lt _ _) h4b
  have r3 := readBytes_eq data index 8 _ (by simp [leBytes_length]) (by omega)
    (by intro b hb; rcases List.mem_append.mp hb with h | h <;> exact leBytes_lt _ _ b h) hdata
  have hl := toUint32_lt low
  have hh := toUint32_lt high
  have v1 : leValue (leBytes 4 (toUint32 low)) = toUint32 low :=
    leValue_leBytes 4 _ (by norm_num; exact hl)
  have v2 : leValue (leBytes 4 (toUint32 high)) = toUint32 high :=
    leValue_leBytes 4 _ (by norm_num; exact hh)
  have i1 : toInt32 (toUint32 low) = low := by unfold toInt32 toUint32; omega
  have i2 : toInt32 (toUint32 high) = high := by unfold toInt32 toUint32; omega
  have i3 : toInt64 (toUint32 low + 4294967296 * toUint32 high)
      = high * 4294967296 + (toUint32 low : Int) := by
    unfold toInt64; unfold toUint32 at *; omega
  have hz : (toUint32 low = 0 ↔ low = 0) := by unfold toUint32; omega
  simp only [decodeLong, r1, r2, r3, bind, Except.bind, v1, v2, i1, i2, leValue_append,
    leBytes_length]
  norm_num
  rw [i3]
  by_cases hc : (high < 2097152 ∨ high = 2097152 ∧ low = 0) ∧ -2097152 ≤ high
  · rw [if_pos hc, if_pos (by omega)]; rfl
  · rw [if_neg hc, if_neg (by omega)]; rfl

/-! ## Decimal labels -/

theorem digitChar_isDigit (m : Nat) (h : m < 10) :
    48 ≤ (Nat.digitChar m).toNat ∧ (Nat.digitChar m).toNat ≤ 57 := by
  interval_cases m <;> decide

theorem toDigitsCore_isDigit (fuel n : Nat) (ds : List Char)
    (h : ∀ c ∈ ds, 48 ≤ c.toNat ∧ c.toNat ≤ 57) :
    ∀ c ∈ Nat.toDigitsCore 10 fuel n ds, 48 ≤ c.toNat ∧ c.toNat ≤ 57 := by
  induction fuel generalizing n ds with
  | zero => simpa [Nat.toDigitsCore] using h
  | succ fuel ih =>
    have hd := digitChar_isDigit (n % 10) (Nat.mod_lt _ (by norm_num))
    have hcons : ∀ c ∈ Nat.digitChar (n % 10) :: ds, 48 ≤ c.toNat ∧ c.toNat ≤ 57 := by
      intro c hc
      rcases List.mem_cons.mp hc with h1 | h1
      · rw [h1]; exact hd
      · exact h c h1
    simp only [Nat.toDigitsCore]
    split
    · exact hcons
    · exact ih _ _ hcons

theorem toString_isDigit (i : Nat) : ∀ c ∈ (toString i).toList, 48 ≤ c.toNat ∧ c.toNat ≤ 57 := by
  show ∀ c ∈ (Nat.toDigits 10 i), _
  exact toDigitsCore_isDigit _ _ _ (by simp)

theorem takeWhile_nonzero (xs : List Nat) (h : ∀ b ∈ xs, 0 < b ∧ b < 256) :
    xs.takeWhile (fun b => b % 256 != 0) = xs := by
  induction xs with
  | nil => rfl
  | cons x xs ih =>
    have hx := h x (List.mem_cons_self _ _)
    rw [List.takeWhile_cons, ih (fun b hb => h b (List.mem_cons_of_mem _ hb))]
    have : (x % 256 != 0) = true := by
      rw [Nat.mod_eq_of_lt hx.2]; simp; omega
    rw [this]; rfl

theorem WriteUtf8_toString (i : Nat) :
    WriteUtf8 (toString i) = (toString i).toList.map Char.toNat :=
  flatMap_utf8_ascii _ (fun c hc => by have := toString_isDigit i c hc; omega)

theorem cString_toString (i : Nat) : cString (WriteUtf8 (toString i)) = WriteUtf8 (toString i) := by
  apply takeWhile_nonzero
  rw [WriteUtf8_toString]
  intro b hb
  obtain ⟨c, hc, rfl⟩ := List.mem_map.mp hb
  have := toString_isDigit i c hc
  omega

theorem strlen_toString (i : Nat) : strlen (WriteUtf8 (toString i)) = Utf8Length (toString i) := by
  have := cString_toString i
  unfold cString at this
  unfold strlen Utf8Length
  rw [this]

/-! ## Strings and numbers in the encoder -/

theorem utf16_le_utf8 (c : Char) :
    (utf16EncodeChar c).length ≤ (utf8EncodeChar c).length
      ∧ ((utf8EncodeChar c).length = (utf16EncodeChar c).length → c.toNat < 128) := by
  simp only [utf16EncodeChar, utf8EncodeChar]
  split <;> split <;> (try split) <;> (try split) <;> simp <;> omega

theorem flatMap_utf16_le_utf8 (cs : List Char) :
    (cs.flatMap utf16EncodeChar).length ≤ (cs.flatMap utf8EncodeChar).length
      ∧ ((cs.flatMap utf8EncodeChar).length = (cs.flatMap utf16EncodeChar).length
          → ∀ c ∈ cs, c.toNat < 128) := by
  induction cs with
  | nil => simp
  | cons c cs ih =>
    have hc := utf16_le_utf8 c
    simp only [List.flatMap_cons, List.length_append]
    refine ⟨by omega, ?_⟩
    intro h d hd
    rcases List.mem_cons.mp hd with h1 | h1
    · rw [h1]; exact hc.2 (by omega)
    · exact ih.2 (by omega) d h1

theorem binary_eq_utf8 (str : String) (h : Utf8Length str = Length str) :
    DecodeWriteBINARY str = WriteUtf8 str := by
  have hascii := (flatMap_utf16_le_utf8 str.toList).2 h
  simp only [DecodeWriteBINARY, WriteUtf8]
  rw [flatMap_utf16_ascii _ hascii, flatMap_utf8_ascii _ hascii, List.map_map]
  apply List.map_congr_left
  intro c hc
  exact Nat.mod_eq_of_lt (by have := hascii c hc; omega)

theorem writeString_eq (mem : Memory) (so idx : Nat) (str : String) :
    writeString mem so idx str
      = (storeBytes mem (so + idx) (stringBytes str), idx + (stringBytes str).length) := by
  simp only [writeString, write_int32, store_eq_storeBytes]
  by_cases h : Utf8Length str = Length str
  · rw [if_neg (by simp [h]), ← h, binary_eq_utf8 str h]
    refine Prod.ext ?_ ?_
    · simp only []
      repeat rw [storeBytes_seq]
      · simp [stringBytes]
      all_goals (simp [leBytes_length, Utf8Length] <;> omega)
    · simp [stringBytes, leBytes_length, Utf8Length]; omega
  · rw [if_pos (by simp [h])]
    refine Prod.ext ?_ ?_
    · simp only []
      repeat rw [storeBytes_seq]
      · simp [stringBytes]
      all_goals (simp [leBytes_length, Utf8Length] <;> omega)
    · simp [stringBytes, leBytes_length, Utf8Length]; omega

theorem store_overwrite_head (mem : Memory) (p x b : Nat) (ys : List Nat) :
    store (storeBytes mem p (x :: ys)) p b = storeBytes mem p (b :: ys) :=
  storeBytes_overwrite mem p [x] [b] ys rfl

theorem headerBytes_length (tag : Nat) (name : Option String) :
    (headerBytes tag name).length = Utf8Length (nameString name) + 2 := by
  simp [headerBytes, Utf8Length]

/-- The stores of the number branch. -/
theorem serialize_Number (mem : Memory) (so idx : Nat) (name : Option String) (number : Nat)
    (sf : Bool) :
    serialize mem so idx name (.Number number) false sf
      = .ok (storeBytes mem (so + idx) (numberBytes name number),
          idx + (numberBytes name number).length) := by
  have hd : ∀ tag, (storeBytes (storeBytes
        (storeBytes mem (so + idx) (headerBytes BSON_DATA_INT name))
          (so + (idx + (headerBytes BSON_DATA_INT name).length))
          (leBytes 8 (number % 18446744073709551616))) (so + idx) [tag],
        idx + (headerBytes BSON_DATA_INT name).length + 8)
      = (storeBytes mem (so + idx)
          (headerBytes tag name ++ leBytes 8 (number % 18446744073709551616)),
        idx + (headerBytes tag name ++ leBytes 8 (number % 18446744073709551616)).length) := by
    intro tag
    refine Prod.ext ?_ ?_
    · simp only []
      rw [storeBytes_seq mem (so + idx) _ (headerBytes BSON_DATA_INT name) _ (by omega)]
      exact storeBytes_overwrite mem (so + idx) [BSON_DATA_INT] [tag] _ rfl
    · simp [headerBytes_length, leBytes_length]; omega
  simp only [serialize, Bool.and_false, Bool.false_eq_true, reduceIte, writeTagAndName_eq,
    write_double, write_int32, store_eq_storeBytes, numberBytes, bind, Except.bind, pure,
    Except.pure]
  split
  · rw [hd]
  · split
    · refine congrArg Except.ok (Prod.ext ?_ ?_)
      · simp only []
        rw [storeBytes_seq _ _ _ _ _ (by omega)]
      · simp [headerBytes_length, leBytes_length]; omega
    · split <;> rw [hd]

theorem number_classification (number : Nat) (hfinite : doubleExponent number ≠ 2047)
    (hintegral : doubleHasFraction number = false) (name : Option String) (sf : Bool) :
    (-2147483648 ≤ doubleTruncate number ∧ doubleTruncate number ≤ 2147483647 →
      calculate_object_size (.Number number) sf = .ok 4
      ∧ numberBytes name number
          = headerBytes 16 name ++ leBytes 4 (toUint32 (doubleTruncate number)))
    ∧ (¬ (-2147483648 ≤ doubleTruncate number ∧ doubleTruncate number ≤ 2147483647) →
      calculate_object_size (.Number number) sf = .ok 8
      ∧ numberBytes name number
          = headerBytes 1 name ++ leBytes 8 (number % 18446744073709551616)) := by
  have hnan : doubleIsNaN number = false := by
    simp [doubleIsNaN, hfinite]
  have hmin : BSON_INT32_MIN = -2147483648 := by decide
  have hmax : BSON_INT32_MAX = 2147483647 := by decide
  have hsize : calculate_object_size (.Number number) sf
      = if differenceIsNonZero number (IntegerValue number) = true then .ok 8
        else if IntegerValue number ≤ BSON_INT32_MAX ∧ IntegerValue number ≥ BSON_INT32_MIN
          then .ok 4 else .ok 8 := by
    simp only [calculate_object_size]; rfl
  rw [hsize]
  unfold numberBytes
  constructor
  · intro hr
    have hiv : IntegerValue number = doubleTruncate number := by
      simp only [IntegerValue]
      rw [if_neg hfinite, if_pos (by omega)]
    have hdiff : differenceIsNonZero number (IntegerValue number) = false := by
      simp [differenceIsNonZero, hnan, hfinite, hintegral, hiv]
    have hto : ToInt32 number = doubleTruncate number := by
      simp only [ToInt32]
      rw [if_neg hfinite]
      generalize doubleTruncate number = n at hr
      unfold toInt32 toUint32; omega
    have hin : IntegerValue number ≤ BSON_INT32_MAX ∧ IntegerValue number ≥ BSON_INT32_MIN := by
      rw [hiv, hmin, hmax]; omega
    simp only [hdiff, Bool.false_eq_true, if_false, if_pos hin, hto, toUint32_mod]
    exact ⟨trivial, rfl⟩
  · intro hr
    by_cases h64 : -9223372036854775808 ≤ doubleTruncate number
        ∧ doubleTruncate number ≤ 9223372036854775807
    · have hiv : IntegerValue number = doubleTruncate number := by
        simp only [IntegerValue]
        rw [if_neg hfinite, if_pos h64]
      have hdiff : differenceIsNonZero number (IntegerValue number) = false := by
        simp [differenceIsNonZero, hnan, hfinite, hintegral, hiv]
      have hin : ¬ (IntegerValue number ≤ BSON_INT32_MAX
          ∧ IntegerValue number ≥ BSON_INT32_MIN) := by
        rw [hiv, hmin, hmax]; omega
      simp only [hdiff, Bool.false_eq_true, if_false, if_neg hin]
      exact ⟨trivial, rfl⟩
    · have hiv : IntegerValue number = -9223372036854775808 := by
        simp only [IntegerValue]
        rw [if_neg hfinite, if_neg h64]
      have hdiff : differenceIsNonZero number (IntegerValue number) = true := by
        simp only [differenceIsNonZero, hnan, hiv, hintegral]
        rw [if_neg hfinite]
        simp
        omega
      simp only [hdiff, if_true]
      exact ⟨trivial, rfl⟩

/-! ## Key validation in the encoder -/

theorem check_key_error (key : String) (e : EncodeError) (h : check_key key = .error e) :
    e.isInvalidFieldName = true := by
  unfold check_key at h
  simp only [] at h
  split at h
  · cases h; rfl
  · split at h
    · cases h; rfl
    · cases h

theorem noKeyFailure_pure {α : Type} (a : α) : NoKeyFailure (pure a : Except EncodeError α) := by
  intro e h; cases h

theorem noKeyFailure_ok {α : Type} (a : α) : NoKeyFailure (.ok a : Except EncodeError α) := by
  intro e h; cases h

theorem noKeyFailure_wrongClass {α : Type} (c : String) :
    NoKeyFailure (throw (EncodeError.wrongClass c) : Except EncodeError α) := by
  intro e h; cases h; rfl

theorem noKeyFailure_bind {α β : Type} (x : Except EncodeError α) (f : α → Except EncodeError β)
    (hx : NoKeyFailure x) (hf : ∀ a, NoKeyFailure (f a)) : NoKeyFailure (x >>= f) := by
  intro e h
  rcases (bind_eq_error x f e).mp h with h1 | ⟨a, _, h2⟩
  · exact hx e h1
  · exact hf a e h2

theorem noKeyFailure_ite {α : Type} (c : Prop) [Decidable c] (x y : Except EncodeError α)
    (hx : NoKeyFailure x) (hy : NoKeyFailure y) : NoKeyFailure (if c then x else y) := by
  split
  · exact hx
  · exact hy

mutual
theorem calculate_object_size_noKeyFailure : ∀ (v : Value) (sf : Bool),
    NoKeyFailure (calculate_object_size v sf)
  | .Long _ _, sf => by simp only [calculate_object_size]; exact noKeyFailure_pure _
  | .Timestamp _ _, sf => by simp only [calculate_object_size]; exact noKeyFailure_pure _
  | .ObjectID _, sf => by simp only [calculate_object_size]; exact noKeyFailure_pure _
  | .Binary _ _, sf => by simp only [calculate_object_size]; exact noKeyFailure_pure _
  | .DBRef ns oid db, sf => by
    have h1 := calculate_object_size_noKeyFailure ns sf
    have h2 := calculate_object_size_noKeyFailure oid sf
    have h3 := calculate_db_size_noKeyFailure db sf
    simp only [calculate_object_size]
    apply noKeyFailure_bind
    · split
      · exact noKeyFailure_bind _ _ h1 (fun _ => noKeyFailure_pure _)
      · exact noKeyFailure_pure _
    · intro _
      apply noKeyFailure_bind
      · split
        · exact noKeyFailure_bind _ _ h2 (fun _ => noKeyFailure_pure _)
        · exact noKeyFailure_pure _
      · intro _
        exact noKeyFailure_bind _ _ h3 (fun _ => noKeyFailure_pure _)
  | .Code _ s, sf => by
    have h1 := calculate_object_size_noKeyFailure s sf
    simp only [calculate_object_size]
    exact noKeyFailure_bind _ _ h1 (fun _ => noKeyFailure_pure _)
  | .Double _, sf => by simp only [calculate_object_size]; exact noKeyFailure_pure _
  | .Symbol _, sf => by simp only [calculate_object_size]; exact noKeyFailure_pure _
  | .String _, sf => by simp only [calculate_object_size]; exact noKeyFailure_pure _
  | .MinKey, sf => by simp only [calculate_object_size]; exact noKeyFailure_pure _
  | .MaxKey, sf => by simp only [calculate_object_size]; exact noKeyFailure_pure _
  | .Null, sf => by simp only [calculate_object_size]; exact noKeyFailure_pure _
  | .Undefined, sf => by simp only [calculate_object_size]; exact noKeyFailure_pure _
  | .Number _, sf => by
    simp only [calculate_object_size]
    split
    · exact noKeyFailure_pure _
    · split <;> exact noKeyFailure_pure _
  | .Boolean _, sf => by simp only [calculate_object_size]; exact noKeyFailure_pure _
  | .Date _, sf => by simp only [calculate_object_size]; exact noKeyFailure_pure _
  | .RegExp _ _, sf => by simp only [calculate_object_size]; exact noKeyFailure_pure _
  | .Array es, sf => by
    have h1 := calculate_array_size_noKeyFailure es 0 sf
    simp only [calculate_object_size]
    exact noKeyFailure_bind _ _ h1 (fun _ => noKeyFailure_pure _)
  | .Function _, sf => by
    simp only [calculate_object_size]
    split <;> exact noKeyFailure_pure _
  | .Object c ps, sf => by
    have h1 := calculate_properties_size_noKeyFailure ps sf
    simp only [calculate_object_size]
    split
    · exact noKeyFailure_wrongClass _
    · exact noKeyFailure_bind _ _ h1 (fun _ => noKeyFailure_pure _)
theorem calculate_db_size_noKeyFailure : ∀ (db : Option Value) (sf : Bool),
    NoKeyFailure (calculate_db_size db sf)
  | none, sf => by simp only [calculate_db_size]; exact noKeyFailure_pure _
  | some v, sf => by
    have h1 := calculate_object_size_noKeyFailure v sf
    simp only [calculate_db_size]
    split
    · exact noKeyFailure_bind _ _ h1 (fun _ => noKeyFailure_pure _)
    · exact noKeyFailure_pure _
theorem calculate_array_size_noKeyFailure : ∀ (es : List Value) (i : Nat) (sf : Bool),
    NoKeyFailure (calculate_array_size es i sf)
  | [], i, sf => by simp only [calculate_array_size]; exact noKeyFailure_pure _
  | v :: rest, i, sf => by
    have h1 := calculate_object_size_noKeyFailure v sf
    have h2 := calculate_array_size_noKeyFailure rest (i + 1) sf
    simp only [calculate_array_size]
    exact noKeyFailure_bind _ _ h1 (fun _ => noKeyFailure_bind _ _ h2
      (fun _ => noKeyFailure_pure _))
theorem calculate_properties_size_noKeyFailure : ∀ (ps : List (String × Value)) (sf : Bool),
    NoKeyFailure (calculate_properties_size ps sf)
  | [], sf => by simp only [calculate_properties_size]; exact noKeyFailure_pure _
  | (k, v) :: rest, sf => by
    have h1 := calculate_object_size_noKeyFailure v sf
    have h2 := calculate_properties_size_noKeyFailure rest sf
    simp only [calculate_properties_size]
    split
    · exact noKeyFailure_bind _ _ h1 (fun _ => noKeyFailure_bind _ _ h2
        (fun _ => noKeyFailure_pure _))
    · exact h2
end

theorem keyChecked_refl {α : Type} (x : Except EncodeError α) : KeyChecked false x x := by
  intro r h
  exact ⟨fun h2 => (by cases h2), fun _ => h⟩

theorem keyChecked_bind {α β : Type} (i1 i2 : Bool) (x y : Except EncodeError α)
    (f g : α → Except EncodeError β) (h1 : KeyChecked i1 x y)
    (h2 : ∀ a, KeyChecked i2 (f a) (g a)) : KeyChecked (i1 || i2) (x >>= f) (y >>= g) := by
  intro r h
  obtain ⟨a, ha, hfa⟩ := (bind_eq_ok x f r).mp h
  obtain ⟨p1, p2⟩ := h1 a ha
  obtain ⟨q1, q2⟩ := h2 a r hfa
  cases hi1 : i1 with
  | true =>
    obtain ⟨e, he, hinv⟩ := p1 hi1
    refine ⟨fun _ => ⟨e, ?_, hinv⟩, fun h3 => (by simp at h3)⟩
    rw [he]; rfl
  | false =>
    have hy := p2 hi1
    constructor
    · intro h3
      simp only [Bool.false_or] at h3
      obtain ⟨e, he, hinv⟩ := q1 h3
      exact ⟨e, by rw [hy]; exact he, hinv⟩
    · intro h3
      simp only [Bool.false_or] at h3
      rw [hy]; exact q2 h3

theorem keyChecked_congr {α : Type} (i j : Bool) (x y : Except EncodeError α) (h : i = j)
    (hk : KeyChecked i x y) : KeyChecked j x y := h ▸ hk

theorem keyChecked_nameCheck (name : Option String) :
    KeyChecked (match name with
        | some key => decide (check_key key ≠ .ok ())
        | none => false)
      (if (name.isSome && false) = true then check_key (nameString name) else pure ())
      (if (name.isSome && true) = true then check_key (nameString name) else pure ()) := by
  intro r _
  cases name with
  | none => exact ⟨fun h => (by cases h), fun _ => rfl⟩
  | some key =>
    simp only [Option.isSome_some, Bool.and_true, if_true, nameString]
    cases hk : check_key key with
    | error e =>
      refine ⟨fun _ => ⟨e, rfl, check_key_error key e hk⟩, fun h => ?_⟩
      simp at h
    | ok u =>
      refine ⟨fun h => ?_, fun _ => rfl⟩
      simp at h

mutual
theorem serialize_noKeyFailure : ∀ (v : Value) (sf : Bool) (mem : Memory) (so idx : Nat)
    (name : Option String), NoKeyFailure (serialize mem so idx name v false sf)
  | .Long _ _, sf, mem, so, idx, name => by
    simp only [serialize, Bool.and_false, Bool.false_eq_true, if_false, writeTagAndName_eq]
    exact noKeyFailure_bind _ _ (noKeyFailure_pure _) (fun _ => noKeyFailure_pure _)
  | .Timestamp _ _, sf, mem, so, idx, name => by
    simp only [serialize, Bool.and_false, Bool.false_eq_true, if_false, writeTagAndName_eq]
    exact noKeyFailure_bind _ _ (noKeyFailure_pure _) (fun _ => noKeyFailure_pure _)
  | .ObjectID _, sf, mem, so, idx, name => by
    simp only [serialize, Bool.and_false, Bool.false_eq_true, if_false, writeTagAndName_eq]
    exact noKeyFailure_bind _ _ (noKeyFailure_pure _) (fun _ => noKeyFailure_pure _)
  | .Binary _ _, sf, mem, so, idx, name => by
    simp only [serialize, Bool.and_false, Bool.false_eq_true, if_false, writeTagAndName_eq]
    exact noKeyFailure_bind _ _ (noKeyFailure_pure _) (fun _ => noKeyFailure_pure _)
  | .DBRef ns oid db, sf, mem, so, idx, name => by
    have h0 := calculate_object_size_noKeyFailure (.DBRef ns oid db) sf
    have h1 := fun mem idx => serialize_noKeyFailure ns sf mem so idx (some "$ref")
    have h2 := fun mem idx => serialize_noKeyFailure oid sf mem so idx (some "$id")
    have h3 := fun mem idx => serialize_db_noKeyFailure db sf mem so idx
    simp only [serialize, Bool.and_false, Bool.false_eq_true, if_false, writeTagAndName_eq]
    refine noKeyFailure_bind _ _ (noKeyFailure_pure _) (fun _ => ?_)
    refine noKeyFailure_bind _ _ h0 (fun _ => ?_)
    apply noKeyFailure_bind
    · split
      · exact h1 _ _
      · exact noKeyFailure_pure _
    · intro _
      apply noKeyFailure_bind
      · split
        · exact h2 _ _
        · exact noKeyFailure_pure _
      · intro _
        exact noKeyFailure_bind _ _ (h3 _ _) (fun _ => noKeyFailure_pure _)
  | .Code _ s, sf, mem, so, idx, name => by
    have h0 := calculate_object_size_noKeyFailure s sf
    have h1 := fun mem so => serialize_noKeyFailure s sf mem so 0 none
    simp only [serialize, Bool.and_false, Bool.false_eq_true, if_false, writeTagAndName_eq]
    refine noKeyFailure_bind _ _ (noKeyFailure_pure _) (fun _ => ?_)
    refine noKeyFailure_bind _ _ h0 (fun _ => ?_)
    exact noKeyFailure_bind _ _ (h1 _ _) (fun _ => noKeyFailure_pure _)
  | .Double _, sf, mem, so, idx, name => by
    simp only [serialize, Bool.and_false, Bool.false_eq_true, if_false, writeTagAndName_eq]
    exact noKeyFailure_bind _ _ (noKeyFailure_pure _) (fun _ => noKeyFailure_pure _)
  | .Symbol _, sf, mem, so, idx, name => by
    simp only [serialize, Bool.and_false, Bool.false_eq_true, if_false, writeTagAndName_eq]
    exact noKeyFailure_bind _ _ (noKeyFailure_pure _) (fun _ => noKeyFailure_pure _)
  | .String _, sf, mem, so, idx, name => by
    simp only [serialize, Bool.and_false, Bool.false_eq_true, if_false, writeTagAndName_eq]
    exact noKeyFailure_bind _ _ (noKeyFailure_pure _) (fun _ => noKeyFailure_pure _)
  | .MinKey, sf, mem, so, idx, name => by
    simp only [serialize, Bool.and_false, Bool.false_eq_true, if_false, writeTagAndName_eq]
    exact noKeyFailure_bind _ _ (noKeyFailure_pure _) (fun _ => noKeyFailure_pure _)
  | .MaxKey, sf, mem, so, idx, name => by
    simp only [serialize, Bool.and_false, Bool.false_eq_true, if_false, writeTagAndName_eq]
    exact noKeyFailure_bind _ _ (noKeyFailure_pure _) (fun _ => noKeyFailure_pure _)
  | .Null, sf, mem, so, idx, name => by
    simp only [serialize, Bool.and_false, Bool.false_eq_true, if_false, writeTagAndName_eq]
    exact noKeyFailure_bind _ _ (noKeyFailure_pure _) (fun _ => noKeyFailure_pure _)
  | .Undefined, sf, mem, so, idx, name => by
    simp only [serialize, Bool.and_false, Bool.false_eq_true, if_false, writeTagAndName_eq]
    exact noKeyFailure_bind _ _ (noKeyFailure_pure _) (fun _ => noKeyFailure_pure _)
  | .Number _, sf, mem, so, idx, name => by
    rw [serialize_Number]
    exact noKeyFailure_ok _
  | .Boolean _, sf, mem, so, idx, name => by
    simp only [serialize, Bool.and_false, Bool.false_eq_true, if_false, writeTagAndName_eq]
    exact noKeyFailure_bind _ _ (noKeyFailure_pure _) (fun _ => noKeyFailure_pure _)
  | .Date _, sf, mem, so, idx, name => by
    simp only [serialize, Bool.and_false, Bool.false_eq_true, if_false, writeTagAndName_eq]
    exact noKeyFailure_bind _ _ (noKeyFailure_pure _) (fun _ => noKeyFailure_pure _)
  | .RegExp _ _, sf, mem, so, idx, name => by
    simp only [serialize, Bool.and_false, Bool.false_eq_true, if_false, writeTagAndName_eq]
    exact noKeyFailure_bind _ _ (noKeyFailure_pure _) (fun _ => noKeyFailure_pure _)
  | .Array es, sf, mem, so, idx, name => by
    have h0 := calculate_object_size_noKeyFailure (.Array es) sf
    have h1 := fun mem idx => serialize_elements_noKeyFailure es 0 sf mem so idx
    simp only [serialize, Bool.and_false, Bool.false_eq_true, if_false, writeTagAndName_eq]
    refine noKeyFailure_bind _ _ (noKeyFailure_pure _) (fun _ => ?_)
    refine noKeyFailure_bind _ _ h0 (fun _ => ?_)
    exact noKeyFailure_bind _ _ (h1 _ _) (fun _ => noKeyFailure_pure _)
  | .Function _, sf, mem, so, idx, name => by
    simp only [serialize, Bool.and_false, Bool.false_eq_true, if_false, writeTagAndName_eq]
    refine noKeyFailure_bind _ _ (noKeyFailure_pure _) (fun _ => ?_)
    split <;> exact noKeyFailure_pure _
  | .Object c ps, sf, mem, so, idx, name => by
    have h0 := calculate_object_size_noKeyFailure (.Object c ps) sf
    have h1 := fun mem idx => serialize_properties_noKeyFailure ps sf mem so idx
    simp only [serialize, Bool.and_false, Bool.false_eq_true, if_false, writeTagAndName_eq]
    refine noKeyFailure_bind _ _ (noKeyFailure_pure _) (fun _ => ?_)
    split
    · exact noKeyFailure_wrongClass _
    · refine noKeyFailure_bind _ _ h0 (fun _ => ?_)
      exact noKeyFailure_bind _ _ (h1 _ _) (fun _ => noKeyFailure_pure _)
theorem serialize_db_noKeyFailure : ∀ (db : Option Value) (sf : Bool) (mem : Memory)
    (so idx : Nat), NoKeyFailure (serialize_db mem so idx db sf)
  | none, sf, mem, so, idx => by simp only [serialize_db]; exact noKeyFailure_pure _
  | some v, sf, mem, so, idx => by
    have h1 := serialize_noKeyFailure v sf mem so idx (some "$db")
    simp only [serialize_db]
    split
    · exact h1
    · exact noKeyFailure_pure _
theorem serialize_elements_noKeyFailure : ∀ (es : List Value) (i : Nat) (sf : Bool)
    (mem : Memory) (so idx : Nat), NoKeyFailure (serialize_elements mem so idx es i false sf)
  | [], i, sf, mem, so, idx => by simp only [serialize_elements]; exact noKeyFailure_pure _
  | v :: rest, i, sf, mem, so, idx => by
    have h1 := serialize_noKeyFailure v sf mem so idx (some (toString i))
    have h2 := fun mem idx => serialize_elements_noKeyFailure rest (i + 1) sf mem so idx
    simp only [serialize_elements]
    exact noKeyFailure_bind _ _ h1 (fun _ => h2 _ _)
theorem serialize_properties_noKeyFailure : ∀ (ps : List (String × Value)) (sf : Bool)
    (mem : Memory) (so idx : Nat), NoKeyFailure (serialize_properties mem so idx ps false sf)
  | [], sf, mem, so, idx => by simp only [serialize_properties]; exact noKeyFailure_pure _
  | (k, v) :: rest, sf, mem, so, idx => by
    have h1 := serialize_noKeyFailure v sf mem so idx (some k)
    have h2 := fun mem idx => serialize_properties_noKeyFailure rest sf mem so idx
    simp only [serialize_properties]
    split
    · exact noKeyFailure_bind _ _ h1 (fun _ => h2 _ _)
    · exact h2 _ _
end

theorem keyChecked_throw {α : Type} (i : Bool) (e : EncodeError) (y : Except EncodeError α) :
    KeyChecked i (throw e) y := by
  intro r h; cases h

theorem keyChecked_serialize_leaf {α : Type} (name : Option String)
    (body : Except EncodeError α) :
    KeyChecked ((match name with
        | some key => decide (check_key key ≠ .ok ())
        | none => false) || false)
      ((if (name.isSome && false) = true then check_key (nameString name) else pure ())
        >>= fun _ => body)
      ((if (name.isSome && true) = true then check_key (nameString name) else pure ())
        >>= fun _ => body) :=
  keyChecked_bind _ _ _ _ _ _ (keyChecked_nameCheck name) (fun _ => keyChecked_refl _)

mutual
theorem serialize_keyChecked : ∀ (v : Value) (sf : Bool) (mem : Memory) (so idx : Nat)
    (name : Option String),
    KeyChecked (hasInvalidName name v sf) (serialize mem so idx name v false sf)
      (serialize mem so idx name v true sf)
  | .Long _ _, sf, mem, so, idx, name => by
    simp only [serialize, hasInvalidName]; exact keyChecked_serialize_leaf name _
  | .Timestamp _ _, sf, mem, so, idx, name => by
    simp only [serialize, hasInvalidName]; exact keyChecked_serialize_leaf name _
  | .ObjectID _, sf, mem, so, idx, name => by
    simp only [serialize, hasInvalidName]; exact keyChecked_serialize_leaf name _
  | .Binary _ _, sf, mem, so, idx, name => by
    simp only [serialize, hasInvalidName]; exact keyChecked_serialize_leaf name _
  | .DBRef _ _ _, sf, mem, so, idx, name => by
    simp only [serialize, hasInvalidName]; exact keyChecked_serialize_leaf name _
  | .Code _ s, sf, mem, so, idx, name => by
    have h1 := fun mem so => serialize_keyChecked s sf mem so 0 none
    simp only [serialize, hasInvalidName, writeTagAndName_eq]
    refine keyChecked_bind _ _ _ _ _ _ (keyChecked_nameCheck name) (fun _ => ?_)
    refine keyChecked_congr (false || (hasInvalidName none s sf || false)) _ _ _ (by simp) ?_
    refine keyChecked_bind _ _ _ _ _ _ (keyChecked_refl _) (fun _ => ?_)
    exact keyChecked_bind _ _ _ _ _ _ (h1 _ _) (fun _ => keyChecked_refl _)
  | .Double _, sf, mem, so, idx, name => by
    simp only [serialize, hasInvalidName]; exact keyChecked_serialize_leaf name _
  | .Symbol _, sf, mem, so, idx, name => by
    simp only [serialize, hasInvalidName]; exact keyChecked_serialize_leaf name _
  | .String _, sf, mem, so, idx, name => by
    simp only [serialize, hasInvalidName]; exact keyChecked_serialize_leaf name _
  | .MinKey, sf, mem, so, idx, name => by
    simp only [serialize, hasInvalidName]; exact keyChecked_serialize_leaf name _
  | .MaxKey, sf, mem, so, idx, name => by
    simp only [serialize, hasInvalidName]; exact keyChecked_serialize_leaf name _
  | .Null, sf, mem, so, idx, name => by
    simp only [serialize, hasInvalidName]; exact keyChecked_serialize_leaf name _
  | .Undefined, sf, mem, so, idx, name => by
    simp only [serialize, hasInvalidName]; exact keyChecked_serialize_leaf name _
  | .Number _, sf, mem, so, idx, name => by
    simp only [serialize, hasInvalidName]; exact keyChecked_serialize_leaf name _
  | .Boolean _, sf, mem, so, idx, name => by
    simp only [serialize, hasInvalidName]; exact keyChecked_serialize_leaf name _
  | .Date _, sf, mem, so, idx, name => by
    simp only [serialize, hasInvalidName]; exact keyChecked_serialize_leaf name _
  | .RegExp _ _, sf, mem, so, idx, name => by
    simp only [serialize, hasInvalidName]; exact keyChecked_serialize_leaf name _
  | .Array es, sf, mem, so, idx, name => by
    have h1 := fun mem idx => serialize_elements_keyChecked es 0 sf mem so idx
    simp only [serialize, hasInvalidName, writeTagAndName_eq]
    refine keyChecked_bind _ _ _ _ _ _ (keyChecked_nameCheck name) (fun _ => ?_)
    refine keyChecked_congr (false || (hasInvalidNameElements es 0 sf || false)) _ _ _
      (by simp) ?_
    refine keyChecked_bind _ _ _ _ _ _ (keyChecked_refl _) (fun _ => ?_)
    exact keyChecked_bind _ _ _ _ _ _ (h1 _ _) (fun _ => keyChecked_refl _)
  | .Function _, sf, mem, so, idx, name => by
    simp only [serialize, hasInvalidName]; exact keyChecked_serialize_leaf name _
  | .Object c ps, sf, mem, so, idx, name => by
    have h1 := fun mem idx => serialize_properties_keyChecked ps sf mem so idx
    simp only [serialize, hasInvalidName, writeTagAndName_eq]
    refine keyChecked_bind _ _ _ _ _ _ (keyChecked_nameCheck name) (fun _ => ?_)
    split
    · exact keyChecked_throw _ _ _
    · refine keyChecked_congr (false || (hasInvalidNameProperties ps sf || false)) _ _ _
        (by simp) ?_
      refine keyChecked_bind _ _ _ _ _ _ (keyChecked_refl _) (fun _ => ?_)
      exact keyChecked_bind _ _ _ _ _ _ (h1 _ _) (fun _ => keyChecked_refl _)
theorem serialize_elements_keyChecked : ∀ (es : List Value) (i : Nat) (sf : Bool)
    (mem : Memory) (so idx : Nat),
    KeyChecked (hasInvalidNameElements es i sf) (serialize_elements mem so idx es i false sf)
      (serialize_elements mem so idx es i true sf)
  | [], i, sf, mem, so, idx => by
    simp only [serialize_elements, hasInvalidNameElements]; exact keyChecked_refl _
  | v :: rest, i, sf, mem, so, idx => by
    have h1 := serialize_keyChecked v sf mem so idx (some (toString i))
    have h2 := fun mem idx => serialize_elements_keyChecked rest (i + 1) sf mem so idx
    simp only [serialize_elements, hasInvalidNameElements]
    exact keyChecked_bind _ _ _ _ _ _ h1 (fun _ => h2 _ _)
theorem serialize_properties_keyChecked : ∀ (ps : List (String × Value)) (sf : Bool)
    (mem : Memory) (so idx : Nat),
    KeyChecked (hasInvalidNameProperties ps sf) (serialize_properties mem so idx ps false sf)
      (serialize_properties mem so idx ps true sf)
  | [], sf, mem, so, idx => by
    simp only [serialize_properties, hasInvalidNameProperties]; exact keyChecked_refl _
  | (k, v) :: rest, sf, mem, so, idx => by
    have h1 := serialize_keyChecked v sf mem so idx (some k)
    have h2 := fun mem idx => serialize_properties_keyChecked rest sf mem so idx
    simp only [serialize_properties, hasInvalidNameProperties]
    split
    · exact keyChecked_bind _ _ _ _ _ _ h1 (fun _ => h2 _ _)
    · exact h2 _ _
end

/-! ## The length of an encoding and the estimate -/

/-- The number of bytes of the header of an element: none for a top-level document. -/
theorem stringBytes_length (str : String) : (stringBytes str).length = Utf8Length str + 5 := by
  simp [stringBytes, leBytes_length, Utf8Length]; omega

theorem stringSize_eq (str : String) : stringSize str = Utf8Length str + 5 := by
  simp only [stringSize]
  split
  · rfl
  · rename_i h
    simp at h
    omega

theorem convert_hex_oid_to_bin_length (oid : String) :
    ((convert_hex_oid_to_bin oid).take 12).length = 12 := by
  simp [convert_hex_oid_to_bin]

theorem regExpBytes_length (source : String) (flags : Nat) :
    (regExpBytes source flags).length
      = (if flags / 4 % 2 != 0 then (if flags / 2 % 2 != 0 then Utf8Length source + 1
          else Utf8Length source) + 1
        else (if flags / 2 % 2 != 0 then Utf8Length source + 1 else Utf8Length source)) + 2 := by
  simp only [regExpBytes, Utf8Length]
  split <;> split <;> simp <;> omega

theorem numberBytes_length (name : Option String) (number : Nat) (sf : Bool) (n : Nat)
    (h : calculate_object_size (.Number number) sf = .ok n) :
    (numberBytes name number).length = Utf8Length (nameString name) + 2 + n := by
  simp only [calculate_object_size] at h
  simp only [numberBytes]
  split at h
  · cases h
    rename_i hd
    rw [if_pos hd]
    simp [headerBytes_length, leBytes_length]
  · rename_i hd
    rw [if_neg hd]
    split at h
    · cases h
      rename_i hr
      rw [if_pos hr]
      simp [headerBytes_length, leBytes_length]
    · cases h
      rename_i hr
      rw [if_neg hr]
      simp [headerBytes_length, leBytes_length]

theorem pure_eq_ok {α : Type} (a b : α) :
    ((pure a : Except EncodeError α) = .ok b) ↔ a = b := by
  constructor
  · intro h; cases h; rfl
  · intro h; rw [h]; rfl

theorem tagAndNameLength_some (key : String) (v : Value) :
    tagAndNameLength (some key) v = Utf8Length key + 2 := by
  simp [tagAndNameLength, nameString]

/-- The length of the bytes of a property that is emitted unless it is a
function that is not serialized, given the length for the property itself. -/
theorem optional_length (v : Value) (sf : Bool) (key : String) (n : Nat)
    (ih : ∀ m, calculate_object_size v sf = .ok m →
      (elementBytes (some key) v sf).length ≤ tagAndNameLength (some key) v + m
      ∧ ((sf = true ∨ (noFunctionInArray v = true ∧ IsFunction v = false)) →
          (elementBytes (some key) v sf).length = tagAndNameLength (some key) v + m))
    (h : (if (!IsFunction v || (IsFunction v && sf)) = true then
            (calculate_object_size v sf >>= fun s => pure (s + Utf8Length key + 1 + 1))
          else pure 0) = .ok n) :
    (if (!IsFunction v || (IsFunction v && sf)) = true then
        (elementBytes (some key) v sf).length else 0) ≤ n
    ∧ ((sf = true ∨ noFunctionInArray v = true) →
        (if (!IsFunction v || (IsFunction v && sf)) = true then
          (elementBytes (some key) v sf).length else 0) = n) := by
  by_cases hc : (!IsFunction v || (IsFunction v && sf)) = true
  · rw [if_pos hc] at h ⊢
    obtain ⟨m, hm, hmn⟩ := (bind_eq_ok _ _ _).mp h
    rw [pure_eq_ok] at hmn
    have := ih m hm
    rw [tagAndNameLength_some] at this
    constructor
    · omega
    · intro hq
      have hq2 : sf = true ∨ (noFunctionInArray v = true ∧ IsFunction v = false) := by
        rcases hq with hq | hq
        · exact Or.inl hq
        · cases hsf : sf
          · right; simp [hsf] at hc; exact ⟨hq, hc⟩
          · left; rfl
      have := this.2 hq2
      omega
  · rw [if_neg hc] at h ⊢
    rw [pure_eq_ok] at h; subst h; simp

mutual
theorem elementBytes_length : ∀ (v : Value) (sf : Bool) (name : Option String) (n : Nat),
    calculate_object_size v sf = .ok n → scopesAreDocuments v sf = true →
    (elementBytes name v sf).length ≤ tagAndNameLength name v + n
    ∧ ((sf = true ∨ (noFunctionInArray v = true ∧ IsFunction v = false)) →
        (elementBytes name v sf).length = tagAndNameLength name v + n)
  | .Long _ _, sf, name, n, h, _ => by
    simp only [calculate_object_size, pure_eq_ok] at h; subst h
    simp [elementBytes, tagAndNameLength, isDocument, headerBytes_length, leBytes_length]
  | .Timestamp _ _, sf, name, n, h, _ => by
    simp only [calculate_object_size, pure_eq_ok] at h; subst h
    simp [elementBytes, tagAndNameLength, isDocument, headerBytes_length, leBytes_length]
  | .ObjectID _, sf, name, n, h, _ => by
    simp only [calculate_object_size, pure_eq_ok] at h; subst h
    simp only [elementBytes, tagAndNameLength, isDocument, headerBytes_length,
      List.length_append, convert_hex_oid_to_bin_length]
    simp
  | .Binary _ _, sf, name, n, h, _ => by
    simp only [calculate_object_size, pure_eq_ok] at h; subst h
    simp [elementBytes, tagAndNameLength, isDocument, headerBytes_length, leBytes_length]
    omega
  | .DBRef ns oid db, sf, name, n, h, hs => by
    simp only [calculate_object_size, bind_eq_ok, pure_eq_ok] at h
    obtain ⟨n1, h1, n2, h2, n3, h3, hn⟩ := h
    simp only [scopesAreDocuments, Bool.and_eq_true] at hs
    have ih1 := fun m hm => elementBytes_length ns sf (some "$ref") m hm hs.1.1
    have ih2 := fun m hm => elementBytes_length oid sf (some "$id") m hm hs.1.2
    have ih3 := dbBytes_length db sf n3 h3 hs.2
    have hlen : (elementBytes name (.DBRef ns oid db) sf).length
        = (if name.isSome then Utf8Length (nameString name) + 2 else 0) + 4
          + (if !IsFunction ns || (IsFunction ns && sf) then
              (elementBytes (some "$ref") ns sf).length else 0)
          + (if !IsFunction oid || (IsFunction oid && sf) then
              (elementBytes (some "$id") oid sf).length else 0)
          + (dbBytes db sf).length + 1 := by
      simp only [elementBytes, List.length_append, leBytes_length]
      split <;> split <;> split <;>
        simp [headerBytes_length] <;> omega
    have hhdr : tagAndNameLength name (.DBRef ns oid db)
        = (if name.isSome then Utf8Length (nameString name) + 2 else 0) := by
      cases name <;> simp [tagAndNameLength, isDocument]
    rw [hlen, hhdr]
    have e1 := optional_length ns sf "$ref" n1 ih1 h1
    have e2 := optional_length oid sf "$id" n2 ih2 h2
    constructor
    · omega
    · intro hq
      have hq' : sf = true ∨ (noFunctionInArray ns = true ∧ noFunctionInArray oid = true
          ∧ noFunctionInArrayDb db = true) := by
        rcases hq with hq | hq
        · exact Or.inl hq
        · right
          have := hq.1
          simp only [noFunctionInArray, Bool.and_eq_true] at this
          exact ⟨this.1.1, this.1.2, this.2⟩
      have q1 := e1.2 (by rcases hq' with h | h; exact Or.inl h; exact Or.inr h.1)
      have q2 := e2.2 (by rcases hq' with h | h; exact Or.inl h; exact Or.inr h.2.1)
      have q3 := ih3.2 (by rcases hq' with h | h; exact Or.inl h; exact Or.inr h.2.2)
      omega
  | .Code code s, sf, name, n, h, hs => by
    simp only [calculate_object_size, bind_eq_ok, pure_eq_ok] at h
    obtain ⟨m, hm, hn⟩ := h
    simp only [scopesAreDocuments, Bool.and_eq_true, decide_eq_true_eq] at hs
    have ih := elementBytes_length s sf none m hm hs.2
    have hdoc : tagAndNameLength none s = 0 := by
      simp [tagAndNameLength, hs.1.1]
    rw [hdoc] at ih
    have hos : objectSize s sf = m := by simp [objectSize, hm]
    have hlen : (elementBytes name (.Code code s) sf).length
        = Utf8Length (nameString name) + 2 + (strlen (WriteUtf8 code) + 4 + m + 4 + 1) := by
      simp only [elementBytes, List.length_append, List.length_cons, leBytes_length,
        headerBytes_length, List.length_replicate, hos, cString, strlen]
      omega
    rw [hlen, ← hn]
    simp [tagAndNameLength, isDocument]
  | .Double _, sf, name, n, h, _ => by
    simp only [calculate_object_size, pure_eq_ok] at h; subst h
    simp [elementBytes, tagAndNameLength, isDocument, headerBytes_length, leBytes_length]
  | .Symbol _, sf, name, n, h, _ => by
    simp only [calculate_object_size, pure_eq_ok, stringSize_eq] at h; subst h
    simp [elementBytes, tagAndNameLength, isDocument, headerBytes_length, stringBytes_length]
  | .String _, sf, name, n, h, _ => by
    simp only [calculate_object_size, pure_eq_ok, stringSize_eq] at h; subst h
    simp [elementBytes, tagAndNameLength, isDocument, headerBytes_length, stringBytes_length]
  | .MinKey, sf, name, n, h, _ => by
    simp only [calculate_object_size, pure_eq_ok] at h; subst h
    simp [elementBytes, tagAndNameLength, isDocument, headerBytes_length]
  | .MaxKey, sf, name, n, h, _ => by
    simp only [calculate_object_size, pure_eq_ok] at h; subst h
    simp [elementBytes, tagAndNameLength, isDocument, headerBytes_length]
  | .Null, sf, name, n, h, _ => by
    simp only [calculate_object_size, pure_eq_ok] at h; subst h
    simp [elementBytes, tagAndNameLength, isDocument, headerBytes_length]
  | .Undefined, sf, name, n, h, _ => by
    simp only [calculate_object_size, pure_eq_ok] at h; subst h
    simp [elementBytes, tagAndNameLength, isDocument, headerBytes_length]
  | .Number number, sf, name, n, h, _ => by
    have := numberBytes_length name number sf n h
    simp only [elementBytes, this, tagAndNameLength, isDocument, Bool.and_false]
    simp
  | .Boolean _, sf, name, n, h, _ => by
    simp only [calculate_object_size, pure_eq_ok] at h; subst h
    simp [elementBytes, tagAndNameLength, isDocument, headerBytes_length]
  | .Date _, sf, name, n, h, _ => by
    simp only [calculate_object_size, pure_eq_ok] at h; subst h
    simp [elementBytes, tagAndNameLength, isDocument, headerBytes_length, leBytes_length]
  | .RegExp source flags, sf, name, n, h, _ => by
    simp only [calculate_object_size, pure_eq_ok] at h; subst h
    simp only [elementBytes, tagAndNameLength, isDocument, headerBytes_length,
      List.length_append, regExpBytes_length]
    simp
  | .Array es, sf, name, n, h, hs => by
    simp only [calculate_object_size, bind_eq_ok, pure_eq_ok] at h
    obtain ⟨m, hm, hn⟩ := h
    simp only [scopesAreDocuments] at hs
    have ih := elementsBytes_length es 0 sf m hm hs
    have hlen : (elementBytes name (.Array es) sf).length
        = Utf8Length (nameString name) + 2 + 4 + (elementsBytes es 0 sf).length + 1 := by
      simp only [elementBytes, List.length_append, List.length_cons, leBytes_length,
        headerBytes_length, List.length_nil]
      omega
    rw [hlen, ← hn]
    simp only [tagAndNameLength, isDocument, Bool.and_false, Bool.false_eq_true, if_false]
    constructor
    · omega
    · intro hq
      have := ih.2 (by
        rcases hq with hq | hq
        · exact Or.inl hq
        · right; have := hq.1; simpa [noFunctionInArray] using this)
      omega
  | .Function source, sf, name, n, h, _ => by
    simp only [calculate_object_size] at h
    cases sf with
    | false =>
      simp only [Bool.false_eq_true, if_false, pure_eq_ok] at h; subst h
      simp [elementBytes, IsFunction]
    | true =>
      simp only [if_true, pure_eq_ok] at h; subst h
      simp [elementBytes, tagAndNameLength, isDocument, headerBytes_length, stringBytes_length]
  | .Object c ps, sf, name, n, h, hs => by
    simp only [calculate_object_size] at h
    split at h
    · cases h
    · simp only [bind_eq_ok, pure_eq_ok] at h
      obtain ⟨m, hm, hn⟩ := h
      simp only [scopesAreDocuments] at hs
      have ih := propertiesBytes_length ps sf m hm hs
      have hlen : (elementBytes name (.Object c ps) sf).length
          = (if name.isSome then Utf8Length (nameString name) + 2 else 0) + 4
            + (propertiesBytes ps sf).length + 1 := by
        simp only [elementBytes, List.length_append, leBytes_length]
        split <;> simp [headerBytes_length] <;> omega
      have hhdr : tagAndNameLength name (.Object c ps)
          = (if name.isSome then Utf8Length (nameString name) + 2 else 0) := by
        cases name <;> simp [tagAndNameLength, isDocument]
      rw [hlen, hhdr, ← hn]
      constructor
      · omega
      · intro hq
        have := ih.2 (by
          rcases hq with hq | hq
          · exact Or.inl hq
          · right; have := hq.1; simpa [noFunctionInArray] using this)
        omega
theorem dbBytes_length : ∀ (db : Option Value) (sf : Bool) (n : Nat),
    calculate_db_size db sf = .ok n → scopesAreDocumentsDb db sf = true →
    (dbBytes db sf).length ≤ n
    ∧ ((sf = true ∨ noFunctionInArrayDb db = true) → (dbBytes db sf).length = n)
  | none, sf, n, h, _ => by
    simp only [calculate_db_size, pure_eq_ok] at h; subst h
    simp [dbBytes]
  | some v, sf, n, h, hs => by
    simp only [scopesAreDocumentsDb] at hs
    have ih := fun m hm => elementBytes_length v sf (some "$db") m hm hs
    simp only [calculate_db_size] at h
    have e := optional_length v sf "$db" n ih h
    simp only [dbBytes, noFunctionInArrayDb]
    constructor
    · split <;> simp_all
    · intro hq
      have := e.2 hq
      split <;> simp_all
theorem elementsBytes_length : ∀ (es : List Value) (i : Nat) (sf : Bool) (n : Nat),
    calculate_array_size es i sf = .ok n → scopesAreDocumentsList es sf = true →
    (elementsBytes es i sf).length ≤ n
    ∧ ((sf = true ∨ noFunctionInArrayList es = true) → (elementsBytes es i sf).length = n)
  | [], i, sf, n, h, _ => by
    simp only [calculate_array_size, pure_eq_ok] at h; subst h
    simp [elementsBytes]
  | v :: rest, i, sf, n, h, hs => by
    simp only [scopesAreDocumentsList, Bool.and_eq_true] at hs
    simp only [calculate_array_size, bind_eq_ok, pure_eq_ok, strlen_toString] at h
    obtain ⟨m1, h1, m2, h2, hn⟩ := h
    have ih1 := elementBytes_length v sf (some (toString i)) m1 h1 hs.1
    have ih2 := elementsBytes_length rest (i + 1) sf m2 h2 hs.2
    simp only [tagAndNameLength, Option.isNone_some, Bool.false_and, nameString] at ih1
    simp only [elementsBytes, List.length_append]
    simp at ih1
    constructor
    · omega
    · intro hq
      have q1 := ih1.2 (by
        rcases hq with hq | hq
        · exact Or.inl hq
        · right
          simp only [noFunctionInArrayList, Bool.and_eq_true, Bool.not_eq_true'] at hq
          exact ⟨hq.1.2, hq.1.1⟩)
      have q2 := ih2.2 (by
        rcases hq with hq | hq
        · exact Or.inl hq
        · right
          simp only [noFunctionInArrayList, Bool.and_eq_true] at hq
          exact hq.2)
      omega
theorem propertiesBytes_length : ∀ (ps : List (String × Value)) (sf : Bool) (n : Nat),
    calculate_properties_size ps sf = .ok n → scopesAreDocumentsProperties ps sf = true →
    (propertiesBytes ps sf).length ≤ n
    ∧ ((sf = true ∨ noFunctionInArrayProperties ps = true) →
        (propertiesBytes ps sf).length = n)
  | [], sf, n, h, _ => by
    simp only [calculate_properties_size, pure_eq_ok] at h; subst h
    simp [propertiesBytes]
  | (k, v) :: rest, sf, n, h, hs => by
    simp only [scopesAreDocumentsProperties, Bool.and_eq_true] at hs
    have ih1 := fun m hm => elementBytes_length v sf (some k) m hm hs.1
    have ih2 := fun m hm => propertiesBytes_length rest sf m hm hs.2
    simp only [calculate_properties_size] at h
    simp only [propertiesBytes]
    split at h
    · rename_i hc
      rw [if_pos hc]
      simp only [bind_eq_ok, pure_eq_ok] at h
      obtain ⟨m1, h1, m2, h2, hn⟩ := h
      have i1 := ih1 m1 h1
      have i2 := ih2 m2 h2
      simp only [tagAndNameLength, Option.isNone_some, Bool.false_and, nameString] at i1
      simp only [List.length_append]
      simp at i1
      constructor
      · omega
      · intro hq
        have q1 := i1.2 (by
          rcases hq with hq | hq
          · exact Or.inl hq
          · cases hsf : sf
            · right
              simp only [noFunctionInArrayProperties, Bool.and_eq_true] at hq
              simp [hsf] at hc
              exact ⟨hq.1, hc⟩
            · left; rfl)
        have q2 := i2.2 (by
          rcases hq with hq | hq
          · exact Or.inl hq
          · right
            simp only [noFunctionInArrayProperties, Bool.and_eq_true] at hq
            exact hq.2)
        omega
    · rename_i hc
      rw [if_neg hc]
      have i2 := ih2 n h
      constructor
      · exact i2.1
      · intro hq
        exact i2.2 (by
          rcases hq with hq | hq
          · exact Or.inl hq
          · right
            simp only [noFunctionInArrayProperties, Bool.and_eq_true] at hq
            exact hq.2)
end

/-! ## The encoder stores the bytes of the pure layer -/

theorem storeBytes_replace (mem : Memory) (p : Nat) (xs ys : List Nat)
    (h : xs.length ≤ ys.length) :
    storeBytes (storeBytes mem p xs) p ys = storeBytes mem p ys := by
  funext a
  simp only [storeBytes_apply]
  by_cases h1 : p ≤ a ∧ a < p + ys.length
  · rw [if_pos h1, if_pos h1]
  · rw [if_neg h1, if_neg h1, if_neg (by omega)]

/-- The stores of `serialize` for a value written without a nested call. -/
theorem serialize_leaf (v : Value) (hleaf : isLeaf v = true) (mem : Memory) (so idx : Nat)
    (name : Option String) (ck sf : Bool) :
    serialize mem so idx name v ck sf
      = (if (name.isSome && ck) = true then check_key (nameString name) else pure ()) >>=
          fun _ => pure (storeBytes mem (so + idx) (elementBytes name v sf),
            idx + (elementBytes name v sf).length) := by
  cases v with
  | Long l h =>
    simp only [serialize, writeTagAndName_eq, write_int32, elementBytes]
    congr 1; funext _; congr 1
    refine Prod.ext ?_ ?_
    · simp only []
      repeat rw [storeBytes_seq]
      all_goals first | rfl | omega | (simp [leBytes_length, Utf8Length, headerBytes_length] <;> omega)
    · simp [leBytes_length]; omega
  | Timestamp l h =>
    simp only [serialize, write_int32, elementBytes, store_eq_storeBytes, headerBytes]
    congr 1; funext _; congr 1
    refine Prod.ext ?_ ?_
    · simp only []
      rw [storeBytes_seq mem (so + (idx + 1)) _ (WriteUtf8 (nameString name)) [0]
        (by simp [Utf8Length]),
        storeBytes_before mem (so + idx) (so + (idx + 1)) [BSON_DATA_TIMESTAMP] _ (by simp; omega)]
      repeat rw [storeBytes_seq]
      all_goals first | rfl | omega | (simp [leBytes_length, Utf8Length, headerBytes_length] <;> omega)
    · simp [leBytes_length, Utf8Length]; omega
  | ObjectID oid =>
    simp only [serialize, writeTagAndName_eq, elementBytes]
    congr 1; funext _; congr 1
    refine Prod.ext ?_ ?_
    · simp only []
      repeat rw [storeBytes_seq]
      all_goals first | rfl | omega | (simp [leBytes_length, Utf8Length, headerBytes_length] <;> omega)
    · simp only [List.length_append, convert_hex_oid_to_bin_length]; omega
  | Binary sub_type data =>
    simp only [serialize, writeTagAndName_eq, write_int32, elementBytes, store_eq_storeBytes]
    congr 1; funext _; congr 1
    refine Prod.ext ?_ ?_
    · simp only []
      repeat rw [storeBytes_seq]
      all_goals first | rfl | omega | (simp [leBytes_length, Utf8Length, headerBytes_length] <;> omega)
    · simp [leBytes_length]; omega
  | Double value =>
    simp only [serialize, writeTagAndName_eq, write_double, elementBytes]
    congr 1; funext _; congr 1
    refine Prod.ext ?_ ?_
    · simp only []
      repeat rw [storeBytes_seq]
      all_goals first | rfl | omega | (simp [leBytes_length, Utf8Length, headerBytes_length] <;> omega)
    · simp [leBytes_length]; omega
  | Symbol value =>
    simp only [serialize, writeTagAndName_eq, writeString_eq, elementBytes]
    congr 1; funext _; congr 1
    refine Prod.ext ?_ ?_
    · simp only []
      repeat rw [storeBytes_seq]
      all_goals first | rfl | omega | (simp [leBytes_length, Utf8Length, headerBytes_length] <;> omega)
    · simp; omega
  | String str =>
    simp only [serialize, writeTagAndName_eq, writeString_eq, elementBytes]
    congr 1; funext _; congr 1
    refine Prod.ext ?_ ?_
    · simp only []
      repeat rw [storeBytes_seq]
      all_goals first | rfl | omega | (simp [leBytes_length, Utf8Length, headerBytes_length] <;> omega)
    · simp; omega
  | MinKey => simp only [serialize, writeTagAndName_eq, elementBytes]
  | MaxKey => simp only [serialize, writeTagAndName_eq, elementBytes]
  | Null => simp only [serialize, writeTagAndName_eq, elementBytes]
  | Undefined => simp only [serialize, writeTagAndName_eq, elementBytes]
  | Number number =>
    have hd : ∀ tag, (storeBytes (storeBytes
          (storeBytes mem (so + idx) (headerBytes BSON_DATA_INT name))
            (so + (idx + (headerBytes BSON_DATA_INT name).length))
            (leBytes 8 (number % 18446744073709551616))) (so + idx) [tag],
          idx + (headerBytes BSON_DATA_INT name).length + 8)
        = (storeBytes mem (so + idx)
            (headerBytes tag name ++ leBytes 8 (number % 18446744073709551616)),
          idx + (headerBytes tag name ++ leBytes 8 (number % 18446744073709551616)).length) := by
      intro tag
      refine Prod.ext ?_ ?_
      · simp only []
        rw [storeBytes_seq mem (so + idx) _ (headerBytes BSON_DATA_INT name) _ (by omega)]
        exact storeBytes_overwrite mem (so + idx) [BSON_DATA_INT] [tag] _ rfl
      · simp [headerBytes_length, leBytes_length]; omega
    simp only [serialize, writeTagAndName_eq, write_double, write_int32, store_eq_storeBytes,
      elementBytes, numberBytes]
    congr 1; funext _
    split
    · rw [hd]
    · split
      · congr 1
        refine Prod.ext ?_ ?_
        · simp only []
          rw [storeBytes_seq _ _ _ _ _ (by omega)]
        · simp [headerBytes_length, leBytes_length]; omega
      · split <;> rw [hd]
  | Boolean b =>
    simp only [serialize, writeTagAndName_eq, elementBytes, store_eq_storeBytes]
    congr 1; funext _; congr 1
    refine Prod.ext ?_ ?_
    · simp only []
      repeat rw [storeBytes_seq]
      all_goals first | rfl | omega | (simp [leBytes_length, Utf8Length, headerBytes_length] <;> omega)
    · simp; omega
  | Date time =>
    simp only [serialize, writeTagAndName_eq, write_int64, elementBytes]
    congr 1; funext _; congr 1
    refine Prod.ext ?_ ?_
    · simp only []
      repeat rw [storeBytes_seq]
      all_goals first | rfl | omega | (simp [leBytes_length, Utf8Length, headerBytes_length] <;> omega)
    · simp [leBytes_length]; omega
  | RegExp source flags =>
    simp only [serialize, writeTagAndName_eq, elementBytes, store_eq_storeBytes, regExpBytes]
    congr 1; funext _; congr 1
    by_cases h1 : (flags / 2 % 2 != 0) = true <;> by_cases h2 : (flags / 4 % 2 != 0) = true <;>
      simp only [h1, h2, if_true, if_false, Bool.false_eq_true] <;>
      refine Prod.ext ?_ ?_
    all_goals first
      | (simp only []
         repeat rw [storeBytes_seq]
         all_goals first | rfl | omega | (simp [leBytes_length, Utf8Length, headerBytes_length] <;> omega))
      | (simp [Utf8Length, headerBytes_length]; omega)
  | Function source =>
    simp only [serialize, writeTagAndName_eq, writeString_eq, elementBytes]
    congr 1; funext _
    cases sf with
    | false => simp [storeBytes]
    | true =>
      simp only [if_true]
      congr 1
      refine Prod.ext ?_ ?_
      · simp only []
        repeat rw [storeBytes_seq]
        all_goals first | rfl | omega | (simp [leBytes_length, Utf8Length, headerBytes_length] <;> omega)
      · simp; omega
  | DBRef _ _ _ => simp [isLeaf] at hleaf
  | Code _ _ => simp [isLeaf] at hleaf
  | Array _ => simp [isLeaf] at hleaf
  | Object _ _ => simp [isLeaf] at hleaf

theorem objectSize_eq (v : Value) (sf : Bool) (n : Nat) (h : calculate_object_size v sf = .ok n) :
    objectSize v sf = n := by
  simp [objectSize, h]

theorem paddingBytes_some (key : String) (v : Value) (sf : Bool) (index : Nat) :
    paddingBytes (some key) v sf index = [] := by
  simp [paddingBytes]

theorem uint32Sub_eq (a b : Nat) (h1 : b ≤ a) (h2 : a < 4294967296) : uint32Sub a b = a - b := by
  unfold uint32Sub
  omega


theorem optional_bytes (c : Prop) [Decidable c] (x : Except EncodeError (Memory × Nat))
    (mem : Memory) (p idx : Nat) (B : List Nat) (r : Memory × Nat)
    (hx : x = .ok r → r = (storeBytes mem p B, idx + B.length))
    (h : (if c then x else pure (mem, idx)) = .ok r) :
    r = (storeBytes mem p (if c then B else []), idx + (if c then B else []).length) := by
  split at h
  · rename_i hc
    rw [if_pos hc]
    exact hx h
  · rename_i hc
    rw [if_neg hc]
    rw [pure_eq_ok] at h
    subst h
    simp [storeBytes]

/-- The stores of the last branch of `serialize` around the properties: the
optional header, the size, the terminator and the zero fill. -/
theorem document_shell (mem : Memory) (so idx : Nat) (name : Option String) (os : Nat)
    (body : List Nat) (r1 r : Memory × Nat)
    (hr1 : r1 = (storeBytes (storeBytes
          (if name.isSome = true then
            (storeBytes mem (so + idx) (headerBytes BSON_DATA_OBJECT name),
              idx + (headerBytes BSON_DATA_OBJECT name).length)
           else (mem, idx)).1
          (so + (if name.isSome = true then
            (storeBytes mem (so + idx) (headerBytes BSON_DATA_OBJECT name),
              idx + (headerBytes BSON_DATA_OBJECT name).length)
           else (mem, idx)).2) (leBytes 4 (os % 4294967296)))
          (so + ((if name.isSome = true then
            (storeBytes mem (so + idx) (headerBytes BSON_DATA_OBJECT name),
              idx + (headerBytes BSON_DATA_OBJECT name).length)
           else (mem, idx)).2 + 4)) body,
        (if name.isSome = true then
            (storeBytes mem (so + idx) (headerBytes BSON_DATA_OBJECT name),
              idx + (headerBytes BSON_DATA_OBJECT name).length)
           else (mem, idx)).2 + 4 + body.length))
    (h : (pure (if name.isNone = true then
            storeBytes (store r1.1 (so + r1.2) 0) (so + (r1.2 + 1))
              (List.replicate (uint32Sub os (r1.2 + 1)) 0)
          else store r1.1 (so + r1.2) 0, r1.2 + 1) : Except EncodeError (Memory × Nat))
          = .ok r) :
    r = (storeBytes mem (so + idx)
          (((if name.isSome = true then headerBytes BSON_DATA_OBJECT name else [])
              ++ (leBytes 4 (os % 4294967296) ++ (body ++ [0])))
            ++ (if name.isNone = true then
                  List.replicate (uint32Sub os (idx
                    + ((if name.isSome = true then headerBytes BSON_DATA_OBJECT name else [])
                        ++ (leBytes 4 (os % 4294967296) ++ (body ++ [0]))).length)) 0
                else [])),
        idx + ((if name.isSome = true then headerBytes BSON_DATA_OBJECT name else [])
              ++ (leBytes 4 (os % 4294967296) ++ (body ++ [0]))).length) := by
  rw [pure_eq_ok] at h
  subst h
  subst hr1
  cases name with
  | none =>
    simp only [Option.isSome_none, Option.isNone_none, Bool.false_eq_true, if_false, if_true,
      List.nil_append, List.length_append, leBytes_length, List.length_singleton,
      store_eq_storeBytes]
    have e : idx + 4 + body.length + 1 = idx + (4 + (body.length + 1)) := by omega
    rw [e]
    refine Prod.ext ?_ rfl
    simp only []
    rw [storeBytes_seq mem (so + idx) _ _ body (by simp [leBytes_length]; omega),
      storeBytes_seq mem (so + idx) _ _ [0] (by simp [leBytes_length]; omega),
      storeBytes_seq mem (so + idx) _ _ _ (by simp [leBytes_length]; omega)]
    simp
  | some nm =>
    simp only [Option.isSome_some, Option.isNone_some, Bool.false_eq_true, if_false, if_true,
      List.append_nil, store_eq_storeBytes]
    refine Prod.ext ?_ ?_
    · simp only []
      rw [storeBytes_seq mem (so + idx) _ _ _ (by omega),
        storeBytes_seq mem (so + idx) _ _ body (by simp [leBytes_length]; omega),
        storeBytes_seq mem (so + idx) _ _ [0] (by simp [leBytes_length]; omega)]
      simp
    · simp [leBytes_length]; omega

theorem storeBytes_three (M : Memory) (so i : Nat) (B1 B2 B3 : List Nat)
    (r1 r2 r3 : Memory × Nat)
    (e1 : r1 = (storeBytes M (so + i) B1, i + B1.length))
    (e2 : r2 = (storeBytes r1.1 (so + r1.2) B2, r1.2 + B2.length))
    (e3 : r3 = (storeBytes r2.1 (so + r2.2) B3, r2.2 + B3.length)) :
    r3 = (storeBytes M (so + i) (B1 ++ (B2 ++ B3)), i + (B1 ++ (B2 ++ B3)).length) := by
  subst e1
  subst e2
  subst e3
  refine Prod.ext ?_ ?_
  · simp only []
    rw [storeBytes_seq M (so + i) _ _ _ (by omega), storeBytes_seq M (so + i) _ _ _ (by simp; omega),
      List.append_assoc]
  · simp; omega

theorem cString_length (bytes : List Nat) : (cString bytes).length = strlen bytes := rfl

/-- The result of a leaf in the form of the main statement. -/
theorem serialize_leaf_bytes (v : Value) (hleaf : isLeaf v = true) (sf : Bool) (mem : Memory)
    (so idx : Nat) (name : Option String) (ck : Bool) (r : Memory × Nat)
    (h : serialize mem so idx name v ck sf = .ok r) :
    r = (storeBytes mem (so + idx) (elementBytes name v sf
          ++ paddingBytes name v sf (idx + (elementBytes name v sf).length)),
        idx + (elementBytes name v sf).length) := by
  rw [serialize_leaf v hleaf] at h
  obtain ⟨_, _, h⟩ := (bind_eq_ok _ _ _).mp h
  rw [pure_eq_ok] at h
  have hp : paddingBytes name v sf (idx + (elementBytes name v sf).length) = [] := by
    cases v <;> first | rfl | (simp [isLeaf] at hleaf; done) | simp [paddingBytes, isDocument]
  rw [hp, List.append_nil, ← h]

mutual
theorem serialize_bytes : ∀ (v : Value) (sf : Bool) (mem : Memory) (so idx : Nat)
    (name : Option String) (ck : Bool) (r : Memory × Nat),
    scopesAreDocuments v sf = true → serialize mem so idx name v ck sf = .ok r →
    r = (storeBytes mem (so + idx) (elementBytes name v sf
          ++ paddingBytes name v sf (idx + (elementBytes name v sf).length)),
        idx + (elementBytes name v sf).length)
  | .Long l hb, sf, mem, so, idx, name, ck, r, _, h =>
    serialize_leaf_bytes (.Long l hb) rfl sf mem so idx name ck r h
  | .Timestamp l hb, sf, mem, so, idx, name, ck, r, _, h =>
    serialize_leaf_bytes (.Timestamp l hb) rfl sf mem so idx name ck r h
  | .ObjectID _, sf, mem, so, idx, name, ck, r, _, h =>
    serialize_leaf_bytes (.ObjectID _) rfl sf mem so idx name ck r h
  | .Binary _ _, sf, mem, so, idx, name, ck, r, _, h =>
    serialize_leaf_bytes (.Binary _ _) rfl sf mem so idx name ck r h
  | .Double _, sf, mem, so, idx, name, ck, r, _, h =>
    serialize_leaf_bytes (.Double _) rfl sf mem so idx name ck r h
  | .Symbol _, sf, mem, so, idx, name, ck, r, _, h =>
    serialize_leaf_bytes (.Symbol _) rfl sf mem so idx name ck r h
  | .String _, sf, mem, so, idx, name, ck, r, _, h =>
    serialize_leaf_bytes (.String _) rfl sf mem so idx name ck r h
  | .MinKey, sf, mem, so, idx, name, ck, r, _, h =>
    serialize_leaf_bytes (.MinKey) rfl sf mem so idx name ck r h
  | .MaxKey, sf, mem, so, idx, name, ck, r, _, h =>
    serialize_leaf_bytes (.MaxKey) rfl sf mem so idx name ck r h
  | .Null, sf, mem, so, idx, name, ck, r, _, h =>
    serialize_leaf_bytes (.Null) rfl sf mem so idx name ck r h
  | .Undefined, sf, mem, so, idx, name, ck, r, _, h =>
    serialize_leaf_bytes (.Undefined) rfl sf mem so idx name ck r h
  | .Number _, sf, mem, so, idx, name, ck, r, _, h =>
    serialize_leaf_bytes (.Number _) rfl sf mem so idx name ck r h
  | .Boolean _, sf, mem, so, idx, name, ck, r, _, h =>
    serialize_leaf_bytes (.Boolean _) rfl sf mem so idx name ck r h
  | .Date _, sf, mem, so, idx, name, ck, r, _, h =>
    serialize_leaf_bytes (.Date _) rfl sf mem so idx name ck r h
  | .RegExp _ _, sf, mem, so, idx, name, ck, r, _, h =>
    serialize_leaf_bytes (.RegExp _ _) rfl sf mem so idx name ck r h
  | .Function _, sf, mem, so, idx, name, ck, r, _, h =>
    serialize_leaf_bytes (.Function _) rfl sf mem so idx name ck r h
  | .DBRef ns oid db, sf, mem, so, idx, name, ck, r, hs, h => by
    simp only [scopesAreDocuments, Bool.and_eq_true] at hs
    have ih1 := fun mem idx r => serialize_bytes ns sf mem so idx (some "$ref") false r hs.1.1
    have ih2 := fun mem idx r => serialize_bytes oid sf mem so idx (some "$id") false r hs.1.2
    have ih3 := fun mem idx r => serialize_db_bytes db sf mem so idx r hs.2
    simp only [serialize, bind_eq_ok, writeTagAndName_eq, write_int32] at h
    obtain ⟨_, _, object_size, hsize, r1, hr1, r2, hr2, r3, hr3, h⟩ := h
    have hos := objectSize_eq _ _ _ hsize
    have e1 := optional_bytes _ _ _ _ _ _ r1 (fun hx => by
      have := ih1 _ _ _ hx
      rw [paddingBytes_some, List.append_nil] at this
      exact this) hr1
    have e2 := optional_bytes _ _ _ _ _ _ r2 (fun hx => by
      have := ih2 _ _ _ hx
      rw [paddingBytes_some, List.append_nil] at this
      exact this) hr2
    have e3 := ih3 _ _ _ hr3
    have e := storeBytes_three _ _ _ _ _ _ _ _ _ e1 e2 e3
    have := document_shell mem so idx name object_size _ r3 r e h
    rw [this]
    simp only [elementBytes, paddingBytes, isDocument, hos, Bool.and_true, List.append_assoc]
  | .Code code s, sf, mem, so, idx, name, ck, r, hs, h => by
    simp only [scopesAreDocuments, Bool.and_eq_true, decide_eq_true_eq] at hs
    have ih := fun mem so r => serialize_bytes s sf mem so 0 none ck r hs.2
    simp only [serialize, bind_eq_ok, writeTagAndName_eq, write_int32] at h
    obtain ⟨_, _, scope_size, hsize, r1, hr1, h⟩ := h
    have hos := objectSize_eq _ _ _ hsize
    have hlen := (elementBytes_length s sf none scope_size hsize hs.2).1
    have htag : tagAndNameLength none s = 0 := by simp [tagAndNameLength, hs.1.1]
    rw [htag, Nat.zero_add] at hlen
    rw [hos] at hs
    have e1 := ih _ _ _ hr1
    have hpad : paddingBytes none s sf (0 + (elementBytes none s sf).length)
        = List.replicate (scope_size - (elementBytes none s sf).length) 0 := by
      simp only [paddingBytes, Option.isNone_none, hs.1.1, Bool.and_true, if_true, hos,
        Nat.zero_add]
      rw [uint32Sub_eq _ _ hlen hs.1.2]
    rw [hpad] at e1
    rw [pure_eq_ok] at h
    subst h
    subst e1
    simp only [elementBytes, paddingBytes, isDocument, Bool.and_false, Bool.false_eq_true,
      if_false, List.append_nil, hos, store_eq_storeBytes]
    refine Prod.ext ?_ ?_
    · simp only []
      rw [storeBytes_append mem (so + idx) (headerBytes BSON_DATA_CODE_W_SCOPE name)]
      generalize storeBytes mem (so + idx) (headerBytes BSON_DATA_CODE_W_SCOPE name) = M0
      have hinner : ∀ (p2 p3 p4 p5 : Nat) (A B C : List Nat), p3 = p2 + A.length →
          p4 = p3 + B.length → p5 = p4 + 1 →
          storeBytes (storeBytes (storeBytes (storeBytes M0 p2 A) p3 B) p4 [0]) p5 C
            = storeBytes M0 p2 (A ++ (B ++ (0 :: C))) := by
        intro p2 p3 p4 p5 A B C h3 h4 h5
        rw [storeBytes_seq M0 p2 _ _ _ h3, storeBytes_seq M0 p2 _ _ _ (by simp; omega),
          storeBytes_seq M0 p2 _ _ _ (by simp; omega)]
        simp
      rw [hinner _ _ _ _ _ _ _ (by simp [leBytes_length]; omega)
        (by simp [cString_length]) (by omega)]
      rw [storeBytes_before M0 _ _ _ _ (by simp [leBytes_length]; omega)]
      have hv : ∀ X Y : Nat, X + 4 + 4 + Y + 1 + scope_size - X = 4 + 4 + Y + 1 + scope_size := by
        intros; omega
      rw [hv, Nat.add_assoc so idx]
    · simp [leBytes_length, cString_length]; omega
  | .Array es, sf, mem, so, idx, name, ck, r, hs, h => by
    simp only [scopesAreDocuments] at hs
    have ih := fun mem idx r => serialize_elements_bytes es 0 sf mem so idx ck r hs
    simp only [serialize, bind_eq_ok, writeTagAndName_eq, write_int32] at h
    obtain ⟨_, _, object_size, hsize, r1, hr1, h⟩ := h
    obtain ⟨i1, i2⟩ := ih _ _ _ hr1
    rw [pure_eq_ok] at h
    subst h
    rw [i1, i2]
    have hos := objectSize_eq _ _ _ hsize
    refine Prod.ext ?_ ?_
    · simp only [elementBytes, paddingBytes, isDocument, Bool.and_false, Bool.false_eq_true,
        if_false, List.append_nil, hos]
      repeat rw [storeBytes_seq]
      all_goals first | rfl | omega | (simp [leBytes_length, Utf8Length, headerBytes_length] <;> omega)
    · simp [elementBytes, leBytes_length, headerBytes_length]; omega
  | .Object c ps, sf, mem, so, idx, name, ck, r, hs, h => by
    simp only [scopesAreDocuments] at hs
    have ih := fun mem idx r => serialize_properties_bytes ps sf mem so idx ck r hs
    simp only [serialize, bind_eq_ok, writeTagAndName_eq, write_int32] at h
    obtain ⟨_, _, h⟩ := h
    split at h
    · cases h
    · simp only [bind_eq_ok] at h
      obtain ⟨object_size, hsize, r1, hr1, h⟩ := h
      have hos := objectSize_eq _ _ _ hsize
      have e1 := ih _ _ _ hr1
      have := document_shell mem so idx name object_size _ r1 r e1 h
      rw [this]
      simp only [elementBytes, paddingBytes, isDocument, hos, Bool.and_true]
theorem serialize_db_bytes : ∀ (db : Option Value) (sf : Bool) (mem : Memory) (so idx : Nat)
    (r : Memory × Nat),
    scopesAreDocumentsDb db sf = true → serialize_db mem so idx db sf = .ok r →
    r = (storeBytes mem (so + idx) (dbBytes db sf), idx + (dbBytes db sf).length)
  | none, sf, mem, so, idx, r, _, h => by
    simp only [serialize_db, pure_eq_ok] at h
    subst h
    simp [dbBytes, storeBytes]
  | some v, sf, mem, so, idx, r, hs, h => by
    simp only [scopesAreDocumentsDb] at hs
    have ih := serialize_bytes v sf mem so idx (some "$db") false r hs
    simp only [serialize_db] at h
    simp only [dbBytes]
    split at h
    · rename_i hc
      rw [if_pos hc]
      have := ih h
      rw [paddingBytes_some, List.append_nil] at this
      exact this
    · rename_i hc
      rw [if_neg hc]
      rw [pure_eq_ok] at h
      subst h
      simp [storeBytes]
theorem serialize_elements_bytes : ∀ (es : List Value) (i : Nat) (sf : Bool) (mem : Memory)
    (so idx : Nat) (ck : Bool) (r : Memory × Nat),
    scopesAreDocumentsList es sf = true → serialize_elements mem so idx es i ck sf = .ok r →
    store r.1 (so + r.2) 0 = storeBytes mem (so + idx) (elementsBytes es i sf ++ [0])
    ∧ r.2 = idx + (elementsBytes es i sf).length
  | [], i, sf, mem, so, idx, ck, r, _, h => by
    simp only [serialize_elements, pure_eq_ok] at h
    subst h
    simp [elementsBytes, store_eq_storeBytes]
  | v :: rest, i, sf, mem, so, idx, ck, r, hs, h => by
    simp only [scopesAreDocumentsList, Bool.and_eq_true] at hs
    have ih1 := fun r => serialize_bytes v sf mem so idx (some (toString i)) ck r hs.1
    have ih2 := fun mem idx r => serialize_elements_bytes rest (i + 1) sf mem so idx ck r hs.2
    simp only [serialize_elements, bind_eq_ok] at h
    obtain ⟨r1, hr1, h⟩ := h
    have e1 := ih1 r1 hr1
    rw [paddingBytes_some, List.append_nil] at e1
    obtain ⟨j1, j2⟩ := ih2 _ _ _ h
    rw [e1] at j1 j2
    simp only [] at j1 j2
    rw [j1, j2]
    constructor
    · simp only [elementsBytes, store_eq_storeBytes]
      rw [storeBytes_replace _ _ [0] _ (by simp),
        storeBytes_seq _ (so + idx) _ _ _ (by omega), List.append_assoc]
    · simp [elementsBytes]; omega
theorem serialize_properties_bytes : ∀ (ps : List (String × Value)) (sf : Bool) (mem : Memory)
    (so idx : Nat) (ck : Bool) (r : Memory × Nat),
    scopesAreDocumentsProperties ps sf = true →
    serialize_properties mem so idx ps ck sf = .ok r →
    r = (storeBytes mem (so + idx) (propertiesBytes ps sf), idx + (propertiesBytes ps sf).length)
  | [], sf, mem, so, idx, ck, r, _, h => by
    simp only [serialize_properties, pure_eq_ok] at h
    subst h
    simp [propertiesBytes, storeBytes]
  | (k, v) :: rest, sf, mem, so, idx, ck, r, hs, h => by
    simp only [scopesAreDocumentsProperties, Bool.and_eq_true] at hs
    have ih1 := fun r => serialize_bytes v sf mem so idx (some k) ck r hs.1
    have ih2 := fun mem idx r => serialize_properties_bytes rest sf mem so idx ck r hs.2
    simp only [serialize_properties] at h
    simp only [propertiesBytes]
    split at h
    · rename_i hc
      rw [if_pos hc]
      simp only [bind_eq_ok] at h
      obtain ⟨r1, hr1, h⟩ := h
      have e1 := ih1 r1 hr1
      rw [paddingBytes_some, List.append_nil] at e1
      have e2 := ih2 _ _ _ h
      rw [e1] at e2
      simp only [] at e2
      rw [e2]
      refine Prod.ext ?_ ?_
      · simp only []
        rw [storeBytes_seq _ (so + idx) _ _ _ (by omega)]
      · simp; omega
    · rename_i hc
      rw [if_neg hc]
      exact ih2 _ _ _ h
end

theorem headerBytes_append (tag : Nat) (key : String) (payload : List Nat) :
    headerBytes tag (some key) ++ payload = tag :: (WriteUtf8 key ++ 0 :: payload) := by
  simp [headerBytes, nameString]

/-- The bytes of an element that is emitted start with a tag, the name and a NUL. -/
theorem elementBytes_header (key : String) (v : Value) (sf : Bool)
    (h : IsFunction v = false ∨ sf = true) :
    ∃ tag payload, elementBytes (some key) v sf = tag :: (WriteUtf8 key ++ 0 :: payload) := by
  cases v with
  | Number number =>
    simp only [elementBytes, numberBytes]
    split
    · exact ⟨_, _, headerBytes_append _ _ _⟩
    · split
      · exact ⟨_, _, headerBytes_append _ _ _⟩
      · exact ⟨_, _, headerBytes_append _ _ _⟩
  | Function source =>
    rcases h with h | h
    · simp [IsFunction] at h
    · subst h
      simp only [elementBytes, if_true]
      exact ⟨_, _, headerBytes_append _ _ _⟩
  | _ =>
    simp only [elementBytes, Option.isSome_some, if_true]
    first
      | exact ⟨_, _, headerBytes_append _ _ _⟩
      | exact ⟨_, [], (headerBytes_append _ _ []).symm ▸ (List.append_nil _).symm⟩

/-- A function element is not emitted when functions are not serialized. -/
theorem elementBytes_function (name : Option String) (v : Value) (h : IsFunction v = true) :
    elementBytes name v false = [] := by
  cases v <;> first | (simp [IsFunction] at h; done) | simp [elementBytes]

/-- The bytes of the elements of an array are the concatenation, in the order
of the positions, of the bytes of each element under the decimal string of
its position. -/
theorem elementsBytes_eq_flatten (es : List Value) (i : Nat) (sf : Bool) :
    elementsBytes es i sf
      = ((es.enumFrom i).map (fun p => elementBytes (some (toString p.1)) p.2 sf)).flatten := by
  induction es generalizing i with
  | nil => simp [elementsBytes]
  | cons e es ih => simp [elementsBytes, List.enumFrom, ih]

/-! ## Reads of the decoder on known bytes -/

theorem readBytes_drop (data : List Nat) (offset : Nat) (bytes tail : List Nat)
    (hdrop : data.drop offset = bytes ++ tail) (hpos : 0 < bytes.length)
    (hb : ∀ b ∈ bytes, b < 256) :
    readBytes data offset bytes.length = .ok bytes :=
  readBytes_eq data offset bytes.length bytes rfl hpos hb (by rw [hdrop]; simp)

theorem drop_add_of_drop (data : List Nat) (offset : Nat) (xs ys : List Nat)
    (hdrop : data.drop offset = xs ++ ys) : data.drop (offset + xs.length) = ys := by
  rw [← List.drop_drop, hdrop]
  simp

theorem deserialize_int32_drop (data : List Nat) (offset x : Nat) (tail : List Nat)
    (hdrop : data.drop offset = leBytes 4 x ++ tail) (hx : x < 4294967296) :
    deserialize_int32 data offset = .ok x := by
  have h := readBytes_drop data offset (leBytes 4 x) tail hdrop (by simp [leBytes_length])
    (leBytes_lt 4 x)
  rw [leBytes_length] at h
  simp only [deserialize_int32, h]
  show Except.ok (leValue (leBytes 4 x)) = _
  rw [leValue_leBytes 4 x (by norm_num; exact hx)]

theorem deserialize_int8_drop (data : List Nat) (offset t : Nat) (tail : List Nat)
    (hdrop : data.drop offset = t :: tail) (ht : t < 256) :
    (deserialize_int8 data offset).map (fun b => b % 256) = .ok t := by
  have h := readBytes_drop data offset [t] tail hdrop (by simp) (by simpa using ht)
  simp only [List.length_singleton] at h
  simp only [deserialize_int8, h]
  show Except.ok ((if leValue [t] < 128 then leValue [t] else 65280 + leValue [t]) % 256) = _
  have : leValue [t] = t := by simp [leValue]; omega
  rw [this]
  have h2 : (if t < 128 then t else 65280 + t) % 256 = t := by split <;> omega
  rw [h2]

theorem strchr_nul (bs tail : List Nat) (hb : ∀ b ∈ bs, 0 < b ∧ b < 256) :
    strchr (bs ++ 0 :: tail) 0 = some (some bs.length) := by
  induction bs with
  | nil => simp [strchr]
  | cons b bs ih =>
    have h1 := hb b (List.mem_cons_self _ _)
    have ih2 := ih (fun c hc => hb c (List.mem_cons_of_mem _ hc))
    show strchr (b :: (bs ++ 0 :: tail)) 0 = _
    simp only [strchr]
    rw [Nat.mod_eq_of_lt h1.2, if_neg (by omega), if_neg (by omega), ih2]
    rfl

theorem extract_string_drop (data : List Nat) (offset : Nat) (bs tail : List Nat)
    (hdrop : data.drop offset = bs ++ 0 :: tail) (hb : ∀ b ∈ bs, 0 < b ∧ b < 256) :
    extract_string data offset = .ok (some bs) := by
  simp only [extract_string, hdrop, strchr_nul bs tail hb]
  rw [List.take_left' rfl, map_mod_eq_self bs (fun b h => (hb b h).2)]
  rfl

theorem strlen_nonzero (bs : List Nat) (hb : ∀ b ∈ bs, 0 < b ∧ b < 256) :
    strlen bs = bs.length := by
  unfold strlen
  rw [takeWhile_nonzero bs hb]

/-! ## UTF-8 -/

theorem utf8EncodeChar_bounds (c : Char) : ∀ b ∈ utf8EncodeChar c, b < 256 := by
  have hv := c.valid
  have hlt : c.toNat < 1114112 := by
    rcases hv with h | h
    · exact Nat.lt_trans h (by decide)
    · exact h.2
  intro b hb
  simp only [utf8EncodeChar] at hb
  split at hb
  · simp at hb; omega
  · split at hb
    · simp at hb; omega
    · split at hb
      · simp at hb; omega
      · simp at hb; omega

theorem utf8EncodeChar_pos (c : Char) (hc : c.toNat ≠ 0) : ∀ b ∈ utf8EncodeChar c, 0 < b := by
  intro b hb
  simp only [utf8EncodeChar] at hb
  split at hb
  · simp at hb; omega
  · split at hb
    · simp at hb; omega
    · split at hb
      · simp at hb; omega
      · simp at hb; omega

/-- The strings without the character NUL. -/
theorem WriteUtf8_bounds (s : String) (h : ∀ c ∈ s.toList, c.toNat ≠ 0) :
    ∀ b ∈ WriteUtf8 s, 0 < b ∧ b < 256 := by
  intro b hb
  simp only [WriteUtf8, List.mem_flatMap] at hb
  obtain ⟨c, hc, hbc⟩ := hb
  exact ⟨utf8EncodeChar_pos c (h c hc) b hbc, utf8EncodeChar_bounds c b hbc⟩

theorem WriteUtf8_lt (s : String) : ∀ b ∈ WriteUtf8 s, b < 256 := by
  intro b hb
  simp only [WriteUtf8, List.mem_flatMap] at hb
  obtain ⟨c, _, hbc⟩ := hb
  exact utf8EncodeChar_bounds c b hbc

theorem utf8DecodeChar_encode (c : Char) (tail : List Nat) :
    utf8DecodeChar (utf8EncodeChar c ++ tail) = (c, (utf8EncodeChar c).length) := by
  have hv := c.valid
  have hlt : c.toNat < 1114112 := by
    rcases hv with h | h
    · exact Nat.lt_trans h (by decide)
    · exact h.2
  have hc : Char.ofNat c.toNat = c := Char.ofNat_toNat c
  simp only [utf8EncodeChar]
  split
  · rename_i h1
    simp only [List.cons_append, List.nil_append, utf8DecodeChar]
    rw [if_pos (by omega), hc]
    rfl
  · split
    · rename_i h1 h2
      simp only [List.cons_append, List.nil_append, utf8DecodeChar]
      rw [if_neg (by omega), if_pos (by omega), if_pos (by omega)]
      have : (192 + c.toNat / 64 - 192) * 64 + (128 + c.toNat % 64 - 128) = c.toNat := by omega
      rw [this, hc]
      rfl
    · split
      · rename_i h1 h2 h3
        simp only [List.cons_append, List.nil_append, utf8DecodeChar]
        rw [if_neg (by omega), if_neg (by omega), if_pos (by omega), if_pos (by omega)]
        have : (224 + c.toNat / 4096 - 224) * 4096 + (128 + c.toNat / 64 % 64 - 128) * 64
            + (128 + c.toNat % 64 - 128) = c.toNat := by omega
        rw [this, hc]
        rfl
      · rename_i h1 h2 h3
        simp only [List.cons_append, List.nil_append, utf8DecodeChar]
        rw [if_neg (by omega), if_neg (by omega), if_neg (by omega), if_pos (by omega),
          if_pos (by omega)]
        have : (240 + c.toNat / 262144 - 240) * 262144 + (128 + c.toNat / 4096 % 64 - 128) * 4096
            + (128 + c.toNat / 64 % 64 - 128) * 64 + (128 + c.toNat % 64 - 128) = c.toNat := by
          omega
        rw [this, hc]
        rfl

theorem utf8EncodeChar_length_pos (c : Char) : 0 < (utf8EncodeChar c).length := by
  simp only [utf8EncodeChar]
  split
  · simp
  · split
    · simp
    · split <;> simp

theorem utf8DecodeChars_encode (cs : List Char) (fuel : Nat) (h : cs.length ≤ fuel) :
    utf8DecodeChars fuel (cs.flatMap utf8EncodeChar) = cs := by
  induction cs generalizing fuel with
  | nil => cases fuel <;> simp [utf8DecodeChars]
  | cons c cs ih =>
    cases fuel with
    | zero => simp at h
    | succ fuel =>
      simp only [List.flatMap_cons]
      have hpos := utf8EncodeChar_length_pos c
      cases hb : utf8EncodeChar c with
      | nil => rw [hb] at hpos; simp at hpos
      | cons b bs =>
        have hd := utf8DecodeChar_encode c (cs.flatMap utf8EncodeChar)
        rw [hb] at hd
        have hdrop : ((b :: bs) ++ cs.flatMap utf8EncodeChar).drop (b :: bs).length
            = cs.flatMap utf8EncodeChar := by simp
        show (utf8DecodeChar ((b :: bs) ++ cs.flatMap utf8EncodeChar)).1 ::
          utf8DecodeChars fuel (((b :: bs) ++ cs.flatMap utf8EncodeChar).drop
            (utf8DecodeChar ((b :: bs) ++ cs.flatMap utf8EncodeChar)).2) = _
        rw [hd]
        simp only []
        rw [hdrop, ih fuel (by simpa using h)]

theorem utf8_length_ge (cs : List Char) : cs.length ≤ (cs.flatMap utf8EncodeChar).length := by
  induction cs with
  | nil => simp
  | cons c cs ih =>
    have := utf8EncodeChar_length_pos c
    simp only [List.flatMap_cons, List.length_append, List.length_cons]
    omega

theorem EncodeUTF8_WriteUtf8 (s : String) : EncodeUTF8 (WriteUtf8 s) = s := by
  unfold EncodeUTF8
  rw [map_mod_eq_self _ (WriteUtf8_lt s)]
  unfold WriteUtf8
  rw [utf8DecodeChars_encode _ _ (utf8_length_ge _)]
  rfl

/-! ## Array labels -/

theorem digitChar_value (m : Nat) (h : m < 10) : (Nat.digitChar m).toNat - 48 = m := by
  interval_cases m <;> decide

theorem atoiDigits_toDigitsCore (fuel n : Nat) (ds : List Char) (h : n < fuel) :
    atoiDigits ((Nat.toDigitsCore 10 fuel n ds).map Char.toNat) 0
      = atoiDigits (ds.map Char.toNat) n := by
  induction fuel generalizing n ds with
  | zero => omega
  | succ fuel ih =>
    have hd := digitChar_isDigit (n % 10) (Nat.mod_lt _ (by norm_num))
    have hv := digitChar_value (n % 10) (Nat.mod_lt _ (by norm_num))
    simp only [Nat.toDigitsCore]
    split
    · rename_i h0
      simp only [List.map_cons, atoiDigits]
      rw [if_pos hd, hv]
      congr 1
      omega
    · rename_i h0
      rw [ih (n / 10) _ (by omega)]
      simp only [List.map_cons, atoiDigits]
      rw [if_pos hd, hv]
      congr 1
      omega

theorem atoi_toString (i : Nat) : atoi (WriteUtf8 (toString i)) = (i : Int) := by
  rw [WriteUtf8_toString]
  have hdig := toString_isDigit i
  have hval : atoiDigits ((toString i).toList.map Char.toNat) 0 = i := by
    show atoiDigits ((Nat.toDigitsCore 10 (i + 1) i []).map Char.toNat) 0 = i
    rw [atoiDigits_toDigitsCore _ _ _ (by omega)]
    rfl
  cases hl : (toString i).toList with
  | nil =>
    rw [hl] at hval
    simp only [List.map_nil, atoiDigits] at hval
    simp [atoi, ← hval]
  | cons c cs =>
    rw [hl] at hval hdig
    have hc := hdig c (List.mem_cons_self _ _)
    simp only [List.map_cons] at hval ⊢
    have hsp : isSpace c.toNat = false := by
      simp only [isSpace, Bool.or_eq_false_iff, beq_eq_false_iff_ne, Bool.and_eq_false_iff,
        decide_eq_false_iff_not]
      omega
    simp only [atoi, List.dropWhile, hsp]
    rw [if_neg (by omega), if_neg (by omega), hval]

/-! ## The decoder on the bytes of the encoder -/

theorem hasNoNul_spec (s : String) (h : hasNoNul s = true) : ∀ c ∈ s.toList, c.toNat ≠ 0 := by
  intro c hc
  simp only [hasNoNul, List.all_eq_true] at h
  simpa using h c hc

theorem strncpy_nul (bs tail : List Nat) (hb : ∀ b ∈ bs, 0 < b ∧ b < 256) :
    strncpy (bs ++ 0 :: tail) (bs.length + 1) = some (bs ++ [0]) := by
  induction bs with
  | nil => simp [strncpy]
  | cons b bs ih =>
    have h1 := hb b (List.mem_cons_self _ _)
    have ih2 := ih (fun c hc => hb c (List.mem_cons_of_mem _ hc))
    show strncpy (b :: (bs ++ 0 :: tail)) (bs.length + 1 + 1) = _
    simp only [strncpy]
    rw [Nat.mod_eq_of_lt h1.2, if_neg (by omega), ih2]
    rfl

theorem decodeStringValue_drop (data : List Nat) (index : Nat) (s : String) (tail : List Nat)
    (hs : hasNoNul s = true) (hsize : Utf8Length s + 1 < 4294967296)
    (hdrop : data.drop index = WriteUtf8 s ++ 0 :: tail) :
    decodeStringValue data index (Utf8Length s + 1) = .ok s := by
  have hb := WriteUtf8_bounds s (hasNoNul_spec s hs)
  simp only [decodeStringValue, hdrop]
  have := strncpy_nul (WriteUtf8 s) tail hb
  simp only [Utf8Length] at hsize ⊢
  rw [this]
  have hsub : uint32Sub ((WriteUtf8 s).length + 1) 1 = (WriteUtf8 s).length := by
    unfold uint32Sub; omega
  simp only [hsub]
  rw [if_pos (by simp)]
  rw [List.take_left' rfl, EncodeUTF8_WriteUtf8]
  rfl

theorem ok_bind {ε α β : Type} (a : α) (f : α → Except ε β) : (Except.ok a >>= f) = f a := rfl

theorem deserialize_int8_tag (data : List Nat) (offset t : Nat) (tail : List Nat)
    (hdrop : data.drop offset = t :: tail) (ht : t < 256) :
    ∃ b, deserialize_int8 data offset = .ok b ∧ b % 256 = t := by
  have h := deserialize_int8_drop data offset t tail hdrop ht
  cases hd : deserialize_int8 data offset with
  | error e => rw [hd] at h; cases h
  | ok b =>
    rw [hd] at h
    refine ⟨b, rfl, ?_⟩
    simpa [Except.map] using h


/-- One iteration of the loop of `deserialize` on an element whose value is
decoded without a nested call. -/
theorem loop_step_scalar (fuel : Nat) (data : List Nat) (isArr : Bool) (size index : Nat)
    (acc : List (String × Value)) (arr : List Value) (tag : Nat) (key : String)
    (payload tail : List Nat) (v : Value)
    (hdrop : data.drop index = headerBytes tag (some key) ++ (payload ++ tail))
    (hlt : index < size) (htag : isElementType tag = true)
    (hn1 : tag ≠ BSON_DATA_CODE_W_SCOPE) (hn2 : tag ≠ BSON_DATA_OBJECT)
    (hn3 : tag ≠ BSON_DATA_ARRAY) (ht : tag < 256) (hkey : hasNoNul key = true)
    (hbound : index + (Utf8Length key + 2) + payload.length < 4294967296)
    (hscalar : deserialize_scalar tag data (index + (Utf8Length key + 2))
        = .ok (v, index + (Utf8Length key + 2) + payload.length)) :
    deserialize_loop (fuel + 1) data isArr size index acc arr =
      if isArr = true then
        deserialize_loop fuel data isArr size (index + (Utf8Length key + 2) + payload.length) acc
          (arraySet arr (toUint32 (atoi (WriteUtf8 key))) v)
      else
        deserialize_loop fuel data isArr size (index + (Utf8Length key + 2) + payload.length)
          (objectSet acc key v) arr := by
  have hb := WriteUtf8_bounds key (hasNoNul_spec key hkey)
  obtain ⟨t, h8, h8t⟩ := deserialize_int8_tag data index tag _ (by rw [hdrop]; rfl) ht
  have hname : extract_string data (index + 1) = .ok (some (WriteUtf8 key)) := by
    apply extract_string_drop data (index + 1) (WriteUtf8 key) (payload ++ tail) _ hb
    have := drop_add_of_drop data index [tag] _ (by rw [hdrop]; rfl)
    simpa [nameString] using this
  have hm1 : (index + 1) % 4294967296 = index + 1 := Nat.mod_eq_of_lt (by omega)
  have hlen : strlen (WriteUtf8 key) = Utf8Length key := strlen_nonzero _ hb
  have hm2 : (index + 1 + Utf8Length key + 1) % 4294967296 = index + (Utf8Length key + 2) := by
    rw [Nat.mod_eq_of_lt (by omega)]; omega
  rw [deserialize_loop, if_pos hlt]
  simp only [h8, ok_bind, h8t, htag, if_true, hm1, hname, hlen, hm2, if_neg hn1, if_neg hn2,
    if_neg hn3, hscalar, EncodeUTF8_WriteUtf8]
  cases isArr <;> simp

/-- One iteration of the loop of `deserialize` on an element that holds a
document (`nested` false) or an array (`nested` true). -/
theorem loop_step_nested (fuel : Nat) (data : List Nat) (isArr : Bool) (size index : Nat)
    (acc : List (String × Value)) (arr : List Value) (nested : Bool) (key : String)
    (m : Nat) (tail : List Nat) (v : Value)
    (hdrop : data.drop index
      = headerBytes (if nested then BSON_DATA_ARRAY else BSON_DATA_OBJECT) (some key)
          ++ (leBytes 4 m ++ tail))
    (hlt : index < size) (hkey : hasNoNul key = true)
    (hbound : index + (Utf8Length key + 2) + m < 4294967296)
    (hdoc : deserialize fuel (data.drop (index + (Utf8Length key + 2))) nested = .ok v) :
    deserialize_loop (fuel + 1) data isArr size index acc arr =
      if isArr = true then
        deserialize_loop fuel data isArr size (index + (Utf8Length key + 2) + m) acc
          (arraySet arr (toUint32 (atoi (WriteUtf8 key))) v)
      else
        deserialize_loop fuel data isArr size (index + (Utf8Length key + 2) + m)
          (objectSet acc key v) arr := by
  have hb := WriteUtf8_bounds key (hasNoNul_spec key hkey)
  obtain ⟨t, h8, h8t⟩ := deserialize_int8_tag data index
    (if nested then BSON_DATA_ARRAY else BSON_DATA_OBJECT) _ (by rw [hdrop]; rfl)
    (by cases nested <;> decide)
  have hname : extract_string data (index + 1) = .ok (some (WriteUtf8 key)) := by
    apply extract_string_drop data (index + 1) (WriteUtf8 key) (leBytes 4 m ++ tail) _ hb
    have := drop_add_of_drop data index [if nested then BSON_DATA_ARRAY else BSON_DATA_OBJECT] _
      (by rw [hdrop]; rfl)
    simpa [nameString] using this
  have hm1 : (index + 1) % 4294967296 = index + 1 := Nat.mod_eq_of_lt (by omega)
  have hlen : strlen (WriteUtf8 key) = Utf8Length key := strlen_nonzero _ hb
  have hm2 : (index + 1 + Utf8Length key + 1) % 4294967296 = index + (Utf8Length key + 2) := by
    rw [Nat.mod_eq_of_lt (by omega)]; omega
  have hsz : deserialize_int32 data (index + (Utf8Length key + 2)) = .ok m := by
    apply deserialize_int32_drop data _ m tail _ (by omega)
    have := drop_add_of_drop data index _ _ hdrop
    rw [headerBytes_length] at this
    simpa [nameString] using this
  have hm3 : (index + (Utf8Length key + 2) + m) % 4294967296 = index + (Utf8Length key + 2) + m :=
    Nat.mod_eq_of_lt hbound
  rw [deserialize_loop, if_pos hlt]
  cases nested with
  | false =>
    have htag : isElementType BSON_DATA_OBJECT = true := by decide
    have hn1 : BSON_DATA_OBJECT ≠ BSON_DATA_CODE_W_SCOPE := by decide
    simp only [Bool.false_eq_true, if_false] at h8t
    simp only [h8, ok_bind, h8t, htag, if_true, hm1, hname, hlen, hm2, if_neg hn1, hsz, hdoc, hm3,
      EncodeUTF8_WriteUtf8]
    cases isArr <;> simp
  | true =>
    have htag : isElementType BSON_DATA_ARRAY = true := by decide
    have hn1 : BSON_DATA_ARRAY ≠ BSON_DATA_CODE_W_SCOPE := by decide
    have hn2 : BSON_DATA_ARRAY ≠ BSON_DATA_OBJECT := by decide
    simp only [if_true] at h8t
    simp only [h8, ok_bind, h8t, htag, if_true, hm1, hname, hlen, hm2, if_neg hn1, if_neg hn2, hsz,
      hdoc, hm3, EncodeUTF8_WriteUtf8]
    cases isArr <;> simp

/-- The last iterations of the loop of `deserialize`: the terminator of the
document is read as a tag that is no element type, and the loop ends. -/
theorem loop_end (fuel : Nat) (data : List Nat) (isArr : Bool) (size index : Nat)
    (acc : List (String × Value)) (arr : List Value) (tail : List Nat)
    (hdrop : data.drop index = 0 :: tail) (hsize : size = index + 1)
    (hbound : size < 4294967296) :
    deserialize_loop (fuel + 2) data isArr size index acc arr
      = .ok (if isArr = true then .Array arr else finishObject acc) := by
  obtain ⟨t, h8, h8t⟩ := deserialize_int8_tag data index 0 _ hdrop (by decide)
  have hm1 : (index + 1) % 4294967296 = index + 1 := Nat.mod_eq_of_lt (by omega)
  have htag : isElementType 0 = false := by decide
  rw [deserialize_loop, if_pos (by omega)]
  simp only [h8, ok_bind, h8t, htag, hm1, Bool.false_eq_true, if_false]
  rw [deserialize_loop, if_neg (by omega)]
  cases isArr <;> simp [finishObject] <;> (try split) <;> rfl


theorem toInt32_toUint32 (k : Int) (h1 : -2147483648 ≤ k) (h2 : k ≤ 2147483647) :
    toInt32 (toUint32 k) = k := by
  unfold toInt32 toUint32
  split <;> omega

theorem bitLength_unique (a j : Nat) (h1 : 2 ^ j ≤ a) (h2 : a < 2 ^ (j + 1))
    (h64 : a < 18446744073709551616) : bitLength a = j + 1 := by
  have ha : 0 < a := lt_of_lt_of_le (Nat.two_pow_pos j) h1
  obtain ⟨b1, b2, b3⟩ := bitLength_spec a h64 ha
  by_contra hne
  rcases Nat.lt_or_gt_of_ne hne with h | h
  · have := Nat.pow_le_pow_right (by norm_num : 0 < 2) (by omega : bitLength a ≤ j)
    omega
  · have := Nat.pow_le_pow_right (by norm_num : 0 < 2) (by omega : j + 1 ≤ bitLength a - 1)
    omega

/-- A finite double without fractional part, of magnitude below `2 ^ 53` and
other than negative zero, is the double of its integer value. -/
theorem doubleOfInt_doubleTruncate (n : Nat) (hlt : n < 18446744073709551616)
    (hz : n ≠ 9223372036854775808) (hfrac : doubleHasFraction n = false)
    (hsmall : doubleTruncateMagnitude n < 9007199254740992) :
    doubleOfInt (doubleTruncate n) = n := by
  have hm : doubleMantissa n < 4503599627370496 := by unfold doubleMantissa; omega
  have hshift : doubleShift n ≤ 1075 := by
    by_contra hc
    have hc2 : 1075 ≤ doubleShift n := by omega
    have he : doubleExponent n ≠ 0 := by
      intro h0
      simp [doubleShift, h0] at hc2
    have hsig : 4503599627370496 ≤ doubleSignificand n := by
      simp only [doubleSignificand]
      rw [if_neg he]
      omega
    have h2 : 2 ^ 1 ≤ 2 ^ (doubleShift n - 1075) := Nat.pow_le_pow_right (by norm_num) (by omega)
    have : doubleSignificand n * 2 ^ 1 ≤ doubleTruncateMagnitude n := by
      simp only [doubleTruncateMagnitude]
      rw [if_pos hc2]
      exact Nat.mul_le_mul_left _ h2
    omega
  have hsig : doubleSignificand n
      = doubleTruncateMagnitude n * 2 ^ (1075 - doubleShift n) := by
    by_cases h75 : doubleShift n = 1075
    · simp only [doubleTruncateMagnitude, h75]
      simp
    · have hmag : doubleTruncateMagnitude n
          = doubleSignificand n / 2 ^ (1075 - doubleShift n) := by
        simp only [doubleTruncateMagnitude]
        rw [if_neg (by omega)]
      have hmod : doubleSignificand n % 2 ^ (1075 - doubleShift n) = 0 := by
        have hlt2 : doubleShift n < 1075 := by omega
        simp only [doubleHasFraction, hlt2, decide_True, Bool.true_and,
          bne_eq_false_iff_eq] at hfrac
        exact hfrac
      rw [hmag]
      exact (Nat.div_mul_cancel (Nat.dvd_of_mod_eq_zero hmod)).symm
  by_cases ha : doubleTruncateMagnitude n = 0
  · rw [ha, Nat.zero_mul] at hsig
    have hn0 : n = 0 := by
      simp only [doubleSignificand] at hsig
      split at hsig
      · rename_i h0
        unfold doubleExponent at h0
        unfold doubleMantissa at hsig
        omega
      · omega
    subst hn0
    have h1 : doubleTruncate 0 = 0 := by
      simp [doubleTruncate, doubleSign, doubleTruncateMagnitude, doubleShift, doubleSignificand,
        doubleMantissa, doubleExponent]
    rw [h1]
    decide
  · have hapos : 0 < doubleTruncateMagnitude n := Nat.pos_of_ne_zero ha
    have hge : 2 ^ (1075 - doubleShift n)
        ≤ doubleTruncateMagnitude n * 2 ^ (1075 - doubleShift n) :=
      Nat.le_mul_of_pos_left _ hapos
    have he : doubleExponent n ≠ 0 := by
      intro h0
      have hs1 : doubleShift n = 1 := by simp [doubleShift, h0]
      have hs2 : doubleSignificand n = doubleMantissa n := by simp [doubleSignificand, h0]
      have h2 : 2 ^ 52 ≤ 2 ^ (1075 - doubleShift n) :=
        Nat.pow_le_pow_right (by norm_num) (by omega)
      norm_num at h2
      omega
    have hsigv : doubleSignificand n = doubleMantissa n + 4503599627370496 := by
      simp only [doubleSignificand]
      rw [if_neg he]
    have hsh : doubleShift n = doubleExponent n := by
      simp only [doubleShift]
      rw [if_neg he]
    rw [hsh] at hsig hge hshift
    have ht52 : 1075 - doubleExponent n ≤ 52 := by
      by_contra hc
      have h2 : 2 ^ 53 ≤ 2 ^ (1075 - doubleExponent n) :=
        Nat.pow_le_pow_right (by norm_num) (by omega)
      norm_num at h2
      omega
    have hP : 2 ^ (52 - (1075 - doubleExponent n)) * 2 ^ (1075 - doubleExponent n)
        = 4503599627370496 := by
      rw [← Nat.pow_add]
      have : 52 - (1075 - doubleExponent n) + (1075 - doubleExponent n) = 52 := by omega
      rw [this]
    have hP2 : 2 ^ (52 - (1075 - doubleExponent n) + 1) * 2 ^ (1075 - doubleExponent n)
        = 9007199254740992 := by
      rw [← Nat.pow_add]
      have : 52 - (1075 - doubleExponent n) + 1 + (1075 - doubleExponent n) = 53 := by omega
      rw [this]
    have hlo : 2 ^ (52 - (1075 - doubleExponent n)) ≤ doubleTruncateMagnitude n := by
      by_contra hc
      have := Nat.mul_lt_mul_of_pos_right (Nat.lt_of_not_le hc)
        (Nat.two_pow_pos (1075 - doubleExponent n))
      omega
    have hhi : doubleTruncateMagnitude n < 2 ^ (52 - (1075 - doubleExponent n) + 1) := by
      by_contra hc
      have := Nat.mul_le_mul_right (2 ^ (1075 - doubleExponent n)) (Nat.le_of_not_lt hc)
      omega
    have hbl := bitLength_unique _ _ hlo hhi (by omega)
    have hdn : doubleOfNat (doubleTruncateMagnitude n)
        = doubleExponent n * 4503599627370496 + doubleMantissa n := by
      simp only [doubleOfNat]
      rw [if_neg ha]
      simp only [hbl, Nat.add_sub_cancel]
      rw [if_pos (by omega)]
      have : 52 - (52 - (1075 - doubleExponent n)) = 1075 - doubleExponent n := by omega
      rw [this, ← hsig, hsigv]
      have : 1023 + (52 - (1075 - doubleExponent n)) = doubleExponent n := by omega
      rw [this]
      omega
    have hfields : n = doubleSign n * 9223372036854775808
        + (doubleExponent n * 4503599627370496 + doubleMantissa n) := by
      unfold doubleSign doubleExponent doubleMantissa
      omega
    have hsign : doubleSign n ≤ 1 := by unfold doubleSign; omega
    simp only [doubleTruncate]
    by_cases hs : doubleSign n = 1
    · rw [if_pos hs]
      simp only [doubleOfInt]
      rw [if_pos (by omega)]
      have : (-((doubleTruncateMagnitude n : Nat) : Int)).natAbs = doubleTruncateMagnitude n := by
        omega
      rw [this, hdn]
      omega
    · rw [if_neg hs]
      simp only [doubleOfInt]
      rw [if_neg (by omega)]
      have : (((doubleTruncateMagnitude n : Nat) : Int)).natAbs = doubleTruncateMagnitude n := by
        omega
      rw [this, hdn]
      omega



/-- A number the encoder writes as an Int32, other than negative zero, is the
double of that Int32. -/
theorem number_int32_reads_back (number : Nat) (hlt : number < 18446744073709551616)
    (hz : number ≠ 9223372036854775808)
    (hd : differenceIsNonZero number (IntegerValue number) = false)
    (hin : IntegerValue number ≤ BSON_INT32_MAX ∧ IntegerValue number ≥ BSON_INT32_MIN) :
    doubleOfInt (toInt32 (toUint32 (ToInt32 number))) = number := by
  have hmin : BSON_INT32_MIN = -2147483648 := by decide
  have hmax : BSON_INT32_MAX = 2147483647 := by decide
  rw [hmin, hmax] at hin
  have hfin : doubleExponent number ≠ 2047 := by
    intro h
    simp only [IntegerValue, h, if_true] at hin
    omega
  have hnan : doubleIsNaN number = false := by
    simp [doubleIsNaN, hfin]
  simp only [differenceIsNonZero, hnan, Bool.false_eq_true, if_false, hfin, Bool.or_eq_false_iff,
    bne_eq_false_iff_eq] at hd
  obtain ⟨hfrac, htr⟩ := hd
  rw [← htr] at hin
  have hk : ToInt32 number = doubleTruncate number := by
    simp only [ToInt32]
    rw [if_neg hfin]
    exact toInt32_toUint32 _ hin.2 hin.1
  rw [hk, toInt32_toUint32 _ hin.2 hin.1]
  apply doubleOfInt_doubleTruncate number hlt hz hfrac
  have htd : doubleTruncate number = -((doubleTruncateMagnitude number : Nat) : Int)
      ∨ doubleTruncate number = ((doubleTruncateMagnitude number : Nat) : Int) := by
    simp only [doubleTruncate]
    split
    · exact Or.inl rfl
    · exact Or.inr rfl
  omega

theorem toInt64_toUint64 (k : Int) (h1 : -9223372036854775808 ≤ k) (h2 : k ≤ 9223372036854775807) :
    toInt64 (toUint64 k) = k := by
  unfold toInt64 toUint64
  split <;> omega

theorem readBytes_drop_any (data : List Nat) (offset : Nat) (bytes tail : List Nat)
    (hdrop : data.drop offset = bytes ++ tail) (hle : offset ≤ data.length)
    (hb : ∀ b ∈ bytes, b < 256) :
    readBytes data offset bytes.length = .ok bytes := by
  have hl : offset + bytes.length ≤ data.length := by
    have := congrArg List.length hdrop
    simp only [List.length_drop, List.length_append] at this
    omega
  simp only [readBytes]
  rw [if_pos hl, hdrop, List.take_left' rfl, map_mod_eq_self bytes hb]
  rfl

theorem le_length_of_drop (data : List Nat) (offset : Nat) (bytes : List Nat)
    (hdrop : data.drop offset = bytes) (hpos : 0 < bytes.length) :
    offset + bytes.length = data.length := by
  have := congrArg List.length hdrop
  simp only [List.length_drop] at this
  omega

/-- The payload of a `Binary` is decoded to it. -/
theorem binary_decode (sub_type : Nat) (bytes : List Nat) (hs : sub_type < 256)
    (hb : ∀ b ∈ bytes, b < 256) (data : List Nat) (index : Nat) (tail : List Nat)
    (hdrop : data.drop index
      = (leBytes 4 (bytes.length % 4294967296) ++ (sub_type :: bytes)) ++ tail)
    (hbound : index + (leBytes 4 (bytes.length % 4294967296) ++ (sub_type :: bytes)).length
      < 4294967296) :
    deserialize_scalar BSON_DATA_BINARY data index
      = .ok (.Binary sub_type bytes,
          index + (leBytes 4 (bytes.length % 4294967296) ++ (sub_type :: bytes)).length) := by
  simp only [List.length_append, leBytes_length, List.length_cons] at hbound ⊢
  have hm0 : bytes.length % 4294967296 = bytes.length := Nat.mod_eq_of_lt (by omega)
  rw [hm0] at hdrop
  have hlen := le_length_of_drop data index _ hdrop (by simp [leBytes_length])
  simp only [List.length_append, leBytes_length, List.length_cons] at hlen
  have hsz : deserialize_int32 data index = .ok bytes.length :=
    deserialize_int32_drop data index _ ((sub_type :: bytes) ++ tail)
      (by rw [hdrop]; simp) (by omega)
  have hd1 : data.drop (index + 4) = [sub_type] ++ (bytes ++ tail) := by
    have := drop_add_of_drop data index (leBytes 4 bytes.length) ((sub_type :: bytes) ++ tail)
      (by rw [hdrop]; simp)
    rw [leBytes_length] at this
    simpa using this
  have hst : readBytes data (index + 4) 1 = .ok [sub_type] :=
    readBytes_drop data (index + 4) [sub_type] _ hd1 (by simp) (by simpa using hs)
  have hd2 : data.drop (index + 4 + 1) = bytes ++ tail := by
    have := drop_add_of_drop data (index + 4) [sub_type] _ hd1
    simpa using this
  have hbuf : readBytes data (index + 4 + 1) bytes.length = .ok bytes :=
    readBytes_drop_any data (index + 4 + 1) bytes tail hd2 (by omega) hb
  have hm1 : (index + 4) % 4294967296 = index + 4 := Nat.mod_eq_of_lt (by omega)
  have hm2 : (index + 4 + 1) % 4294967296 = index + 4 + 1 := Nat.mod_eq_of_lt (by omega)
  have hm3 : (index + 4 + 1 + bytes.length) % 4294967296 = index + (4 + (bytes.length + 1)) := by
    rw [Nat.mod_eq_of_lt (by omega)]; omega
  have hsc : deserialize_scalar BSON_DATA_BINARY data index
      = (deserialize_int32 data index >>= fun number_of_bytes =>
          readBytes data ((index + 4) % 4294967296) 1 >>= fun st =>
          readBytes data (((index + 4) % 4294967296 + 1) % 4294967296) number_of_bytes
            >>= fun buffer =>
          pure (.Binary (leValue st) buffer,
            (((index + 4) % 4294967296 + 1) % 4294967296 + number_of_bytes) % 4294967296)) := rfl
  rw [hsc, hsz, ok_bind, hm1, hst, ok_bind, hm2, hbuf, ok_bind, hm3]
  have : leValue [sub_type] = sub_type := by simp [leValue]; omega
  rw [this]
  rfl

/-- The payload of a `Date` of a whole number of milliseconds is decoded to it. -/
theorem date_decode (time : Nat) (hlt : time < 18446744073709551616)
    (hz : time ≠ 9223372036854775808) (hfin : doubleExponent time ≠ 2047)
    (hfrac : doubleHasFraction time = false)
    (hsmall : doubleTruncateMagnitude time < 9007199254740992)
    (data : List Nat) (index : Nat) (tail : List Nat)
    (hdrop : data.drop index = leBytes 8 (toUint64 (DateIntegerValue time)) ++ tail)
    (hbound : index + (leBytes 8 (toUint64 (DateIntegerValue time))).length < 4294967296) :
    deserialize_scalar BSON_DATA_DATE data index
      = .ok (.Date time, index + (leBytes 8 (toUint64 (DateIntegerValue time))).length) := by
  have htd : doubleTruncate time = -((doubleTruncateMagnitude time : Nat) : Int)
      ∨ doubleTruncate time = ((doubleTruncateMagnitude time : Nat) : Int) := by
    simp only [doubleTruncate]
    split
    · exact Or.inl rfl
    · exact Or.inr rfl
  have hnan : doubleIsNaN time = false := by simp [doubleIsNaN, hfin]
  have hiv : DateIntegerValue time = doubleTruncate time := by
    simp only [DateIntegerValue, hnan, Bool.false_eq_true, if_false, IntegerValue]
    rw [if_neg hfin, if_pos (by omega)]
  rw [hiv] at hdrop hbound ⊢
  have h := readBytes_drop data index _ tail hdrop (by simp [leBytes_length]) (leBytes_lt _ _)
  rw [leBytes_length] at h hbound ⊢
  have hm : (index + 8) % 4294967296 = index + 8 := Nat.mod_eq_of_lt hbound
  have hu : toUint64 (doubleTruncate time) < 256 ^ 8 := by
    unfold toUint64
    norm_num
    omega
  have hsc : deserialize_scalar BSON_DATA_DATE data index
      = (readBytes data index 8 >>= fun bytes =>
          pure (.Date (doubleOfInt (toInt64 (leValue bytes))), (index + 8) % 4294967296)) := rfl
  rw [hsc, h, ok_bind, hm, leValue_leBytes 8 _ hu, toInt64_toUint64 _ (by omega) (by omega),
    doubleOfInt_doubleTruncate time hlt hz hfrac hsmall]
  rfl



theorem regexp_decode_options (source : String) (opts : List Nat) (hs : hasNoNul source = true)
    (ho : ∀ b ∈ opts, 0 < b ∧ b < 256) (data : List Nat) (index : Nat) (tail : List Nat)
    (hdrop : data.drop index = WriteUtf8 source ++ 0 :: (opts ++ 0 :: tail))
    (hbound : index + (Utf8Length source + 1 + (opts.length + 1)) < 4294967296) :
    deserialize_scalar BSON_DATA_REGEXP data index
      = .ok (.RegExp source
          ((if opts.contains 109 then 4 else 0) + (if opts.contains 105 then 2 else 0)),
          index + (Utf8Length source + 1 + (opts.length + 1))) := by
  have hb := WriteUtf8_bounds source (hasNoNul_spec source hs)
  have hlen := le_length_of_drop data index _ hdrop (by simp)
  simp only [List.length_append, List.length_cons] at hlen
  have h1 : strchr (data.drop index) 0 = some (some (Utf8Length source)) := by
    rw [hdrop]
    exact strchr_nul _ _ hb
  have hr1 : readBytes data index (Utf8Length source) = .ok (WriteUtf8 source) :=
    readBytes_drop_any data index (WriteUtf8 source) _ hdrop (by omega)
      (fun b h => (hb b h).2)
  have hd2 : data.drop (index + Utf8Length source + 1) = opts ++ 0 :: tail := by
    have := drop_add_of_drop data index (WriteUtf8 source ++ [0]) (opts ++ 0 :: tail)
      (by rw [hdrop]; simp)
    simpa [Utf8Length, Nat.add_assoc] using this
  have h2 : strchr (data.drop (index + Utf8Length source + 1)) 0 = some (some opts.length) := by
    rw [hd2]
    exact strchr_nul _ _ ho
  have hr2 : readBytes data (index + Utf8Length source + 1) opts.length = .ok opts :=
    readBytes_drop_any data _ opts _ hd2 (by simp only [Utf8Length]; omega)
      (fun b h => (ho b h).2)
  have hm1 : (index + Utf8Length source + 1) % 4294967296 = index + Utf8Length source + 1 :=
    Nat.mod_eq_of_lt (by omega)
  have hm2 : (index + Utf8Length source + 1 + opts.length + 1) % 4294967296
      = index + (Utf8Length source + 1 + (opts.length + 1)) := by
    rw [Nat.mod_eq_of_lt (by omega)]; omega
  have hsc : deserialize_scalar BSON_DATA_REGEXP data index
      = (match strchr (data.drop index) 0 with
        | some (some length_regexp) =>
          readBytes data index length_regexp >>= fun reg_exp =>
          match strchr (data.drop ((index + length_regexp + 1) % 4294967296)) 0 with
          | some (some options_length) =>
            readBytes data ((index + length_regexp + 1) % 4294967296) options_length
              >>= fun options =>
            pure (.RegExp (EncodeUTF8 reg_exp)
              ((if options.contains 109 then 4 else 0) + (if options.contains 105 then 2 else 0)),
              ((index + length_regexp + 1) % 4294967296 + options_length + 1) % 4294967296)
          | _ => throw .readOutOfBounds
        | _ => throw .readOutOfBounds) := rfl
  rw [hsc, h1]
  simp only [hr1, ok_bind, hm1, h2, hr2, hm2, EncodeUTF8_WriteUtf8]
  rfl

/-- The payload of a regular expression with the flags `i` and `m` at most is decoded to it. -/
theorem regexp_decode (source : String) (flags : Nat) (hs : hasNoNul source = true)
    (hf : flags = 0 ∨ flags = 2 ∨ flags = 4 ∨ flags = 6)
    (data : List Nat) (index : Nat) (tail : List Nat)
    (hdrop : data.drop index = regExpBytes source flags ++ tail)
    (hbound : index + (regExpBytes source flags).length < 4294967296) :
    deserialize_scalar BSON_DATA_REGEXP data index
      = .ok (.RegExp source flags, index + (regExpBytes source flags).length) := by
  rcases hf with h | h | h | h
  · subst h
    have hE : regExpBytes source 0 = WriteUtf8 source ++ 0 :: ([] ++ [0]) := by
      simp [regExpBytes]
    rw [hE] at hdrop hbound ⊢
    have := regexp_decode_options source [] hs (by simp) data index tail
      (by rw [hdrop]; simp) (by simp [Utf8Length] at hbound ⊢; omega)
    rw [this]
    simp [Utf8Length]
  · subst h
    have hE : regExpBytes source 2 = WriteUtf8 source ++ 0 :: ([105] ++ [0]) := by
      simp [regExpBytes]
    rw [hE] at hdrop hbound ⊢
    have := regexp_decode_options source [105] hs (by simp) data index tail
      (by rw [hdrop]; simp) (by simp [Utf8Length] at hbound ⊢; omega)
    rw [this]
    simp [Utf8Length]
  · subst h
    have hE : regExpBytes source 4 = WriteUtf8 source ++ 0 :: ([109] ++ [0]) := by
      simp [regExpBytes]
    rw [hE] at hdrop hbound ⊢
    have := regexp_decode_options source [109] hs (by simp) data index tail
      (by rw [hdrop]; simp) (by simp [Utf8Length] at hbound ⊢; omega)
    rw [this]
    simp [Utf8Length]
  · subst h
    have hE : regExpBytes source 6 = WriteUtf8 source ++ 0 :: ([105, 109] ++ [0]) := by
      simp [regExpBytes]
    rw [hE] at hdrop hbound ⊢
    have := regexp_decode_options source [105, 109] hs (by simp) data index tail
      (by rw [hdrop]; simp) (by simp [Utf8Length] at hbound ⊢; omega)
    rw [this]
    simp [Utf8Length]

/-- The payload of a `Timestamp` whose 64-bit value is within `-2 ^ 53 .. 2 ^ 53`
is decoded to it. -/
theorem timestamp_decode (low high : Int)
    (hlow : -2147483648 ≤ low ∧ low ≤ 2147483647)
    (hhigh : -2147483648 ≤ high ∧ high ≤ 2147483647)
    (hin : -9007199254740992 ≤ high * 4294967296 + (toUint32 low : Int)
      ∧ high * 4294967296 + (toUint32 low : Int) ≤ 9007199254740992)
    (data : List Nat) (index : Nat) (tail : List Nat)
    (hdrop : data.drop index = (leBytes 4 (toUint32 low) ++ leBytes 4 (toUint32 high)) ++ tail)
    (hbound : index + (leBytes 4 (toUint32 low) ++ leBytes 4 (toUint32 high)).length
      < 4294967296) :
    deserialize_scalar BSON_DATA_TIMESTAMP data index
      = .ok (.Timestamp low high,
          index + (leBytes 4 (toUint32 low) ++ leBytes 4 (toUint32 high)).length) := by
  have h := readBytes_drop data index _ tail hdrop (by simp [leBytes_length])
    (by intro b hb; rcases List.mem_append.mp hb with h | h <;> exact leBytes_lt _ _ b h)
  simp only [List.length_append, leBytes_length] at h hbound ⊢
  have hl := toUint32_lt low
  have hh := toUint32_lt high
  have v1 : leValue (leBytes 4 (toUint32 low)) = toUint32 low :=
    leValue_leBytes 4 _ (by norm_num; exact hl)
  have v2 : leValue (leBytes 4 (toUint32 high)) = toUint32 high :=
    leValue_leBytes 4 _ (by norm_num; exact hh)
  have hv : leValue (leBytes 4 (toUint32 low) ++ leBytes 4 (toUint32 high))
      = toUint32 low + 4294967296 * toUint32 high := by
    rw [leValue_append, v1, v2, leBytes_length]
    norm_num
  have i3 : toInt64 (toUint32 low + 4294967296 * toUint32 high)
      = high * 4294967296 + (toUint32 low : Int) := by
    unfold toInt64; unfold toUint32 at *; omega
  obtain ⟨hfin, htr, _⟩ := doubleOfInt_exact _ hin.1 hin.2
  have hiv : IntegerValue (doubleOfInt (high * 4294967296 + (toUint32 low : Int)))
      = high * 4294967296 + (toUint32 low : Int) := by
    simp only [IntegerValue]
    rw [if_neg hfin, htr, if_pos (by omega)]
  have hbits : toUint64 (high * 4294967296 + (toUint32 low : Int))
      = toUint32 low + 4294967296 * toUint32 high := by
    unfold toUint64; unfold toUint32 at *; omega
  have hm : (index + 8) % 4294967296 = index + (4 + 4) := by
    rw [Nat.mod_eq_of_lt (by omega)]
  have hsc : deserialize_scalar BSON_DATA_TIMESTAMP data index
      = (readBytes data index 8 >>= fun bytes =>
          pure (decodeTimestamp (toInt64 (leValue bytes)), (index + 8) % 4294967296)) := rfl
  rw [hsc, h, ok_bind, hm, hv, i3]
  simp only [decodeTimestamp, hiv, hbits]
  have e1 : (toUint32 low + 4294967296 * toUint32 high) % 4294967296 = toUint32 low := by omega
  have e2 : (toUint32 low + 4294967296 * toUint32 high) / 4294967296 = toUint32 high := by omega
  rw [e1, e2, toInt32_toUint32 _ hlow.1 hlow.2, toInt32_toUint32 _ hhigh.1 hhigh.2]
  rfl

theorem hexDigit_hexDigitValue (c : Char)
    (h : (48 ≤ c.toNat ∧ c.toNat ≤ 57) ∨ (97 ≤ c.toNat ∧ c.toNat ≤ 102)) :
    hexDigit (hexDigitValue c) = c ∧ hexDigitValue c < 16 := by
  have hc : Char.ofNat c.toNat = c := Char.ofNat_toNat c
  rcases h with h | h
  · have hv : hexDigitValue c = c.toNat - 48 := by
      simp only [hexDigitValue]
      rw [if_pos h]
    rw [hv]
    simp only [hexDigit]
    rw [if_pos (by omega)]
    have : 48 + (c.toNat - 48) = c.toNat := by omega
    rw [this, hc]
    exact ⟨rfl, by omega⟩
  · have hv : hexDigitValue c = c.toNat - 87 := by
      simp only [hexDigitValue]
      rw [if_neg (by omega), if_pos h]
    rw [hv]
    simp only [hexDigit]
    rw [if_neg (by omega)]
    have : 87 + (c.toNat - 87) = c.toNat := by omega
    rw [this, hc]
    exact ⟨rfl, by omega⟩

theorem hexPairs_spec : ∀ (n : Nat) (cs : List Char), cs.length = 2 * n →
    (∀ c ∈ cs, (48 ≤ c.toNat ∧ c.toNat ≤ 57) ∨ (97 ≤ c.toNat ∧ c.toNat ≤ 102)) →
    (hexPairs cs).length = n ∧ (∀ b ∈ hexPairs cs, b < 256)
      ∧ (hexPairs cs).flatMap (fun b => [hexDigit (b % 256 / 16), hexDigit (b % 16)]) = cs
  | 0, cs, hl, _ => by
    have : cs = [] := List.length_eq_zero.mp (by omega)
    subst this
    simp [hexPairs]
  | n + 1, [], hl, _ => by simp at hl
  | n + 1, [_], hl, _ => by simp at hl; omega
  | n + 1, hi :: lo :: rest, hl, hc => by
    obtain ⟨h1, h2⟩ := hexDigit_hexDigitValue hi (hc hi (by simp))
    obtain ⟨l1, l2⟩ := hexDigit_hexDigitValue lo (hc lo (by simp))
    obtain ⟨i1, i2, i3⟩ := hexPairs_spec n rest (by simp at hl; omega)
      (fun c hmem => hc c (by simp [hmem]))
    simp only [hexPairs, List.length_cons, List.flatMap_cons, List.mem_cons]
    refine ⟨by omega, ?_, ?_⟩
    · intro b hb
      rcases hb with hb | hb
      · omega
      · exact i2 b hb
    · rw [i3]
      have e0 : (hexDigitValue hi * 16 + hexDigitValue lo) % 256
          = hexDigitValue hi * 16 + hexDigitValue lo := by omega
      have e1 : (hexDigitValue hi * 16 + hexDigitValue lo) / 16 = hexDigitValue hi := by omega
      have e2 : (hexDigitValue hi * 16 + hexDigitValue lo) % 16 = hexDigitValue lo := by omega
      rw [e0, e1, e2, h1, l1]
      rfl

/-- The payload of an `ObjectID` of 24 lower-case hexadecimal digits is decoded to it. -/
theorem oid_decode (oid : String) (hlen : oid.toList.length = 24)
    (hhex : ∀ c ∈ oid.toList, (48 ≤ c.toNat ∧ c.toNat ≤ 57) ∨ (97 ≤ c.toNat ∧ c.toNat ≤ 102))
    (data : List Nat) (index : Nat) (tail : List Nat)
    (hdrop : data.drop index = (convert_hex_oid_to_bin oid).take 12 ++ tail)
    (hbound : index + ((convert_hex_oid_to_bin oid).take 12).length < 4294967296) :
    deserialize_scalar BSON_DATA_OID data index
      = .ok (.ObjectID oid, index + ((convert_hex_oid_to_bin oid).take 12).length) := by
  obtain ⟨i1, i2, i3⟩ := hexPairs_spec 12 oid.toList (by omega) hhex
  have hE : (convert_hex_oid_to_bin oid).take 12 = hexPairs oid.toList := by
    simp only [convert_hex_oid_to_bin, List.take_take]
    rw [List.take_append_of_le_length (by omega)]
    exact List.take_of_length_le (by omega)
  rw [hE] at hdrop hbound ⊢
  have h := readBytes_drop data index _ tail hdrop (by omega) i2
  rw [i1] at h hbound ⊢
  have hm : (index + 12) % 4294967296 = index + 12 := Nat.mod_eq_of_lt hbound
  have hsc : deserialize_scalar BSON_DATA_OID data index
      = (readBytes data index 12 >>= fun bytes =>
          pure (.ObjectID (oidToHex bytes), (index + 12) % 4294967296)) := rfl
  rw [hsc, h, ok_bind, hm]
  simp only [oidToHex, i3]
  rfl

/-- The value of an element without nested values is decoded from its bytes. -/
theorem leaf_decode (v : Value) (hleaf : isLeaf v = true) (hrt : roundTrips v = true)
    (key : String) (sf : Bool) :
    ∃ tag payload, elementBytes (some key) v sf = headerBytes tag (some key) ++ payload
      ∧ isElementType tag = true ∧ tag ≠ BSON_DATA_CODE_W_SCOPE ∧ tag ≠ BSON_DATA_OBJECT
      ∧ tag ≠ BSON_DATA_ARRAY ∧ tag < 256 ∧ (∀ b ∈ payload, b < 256)
      ∧ ∀ (data : List Nat) (index : Nat) (tail : List Nat),
          data.drop index = payload ++ tail → index + payload.length < 4294967296 →
          deserialize_scalar tag data index = .ok (v, index + payload.length) := by
  cases v with
  | Null =>
    refine ⟨BSON_DATA_NULL, [], by simp [elementBytes], by decide, by decide, by decide,
      by decide, by decide, by simp, ?_⟩
    intro data index tail _ _
    rfl
  | MinKey =>
    refine ⟨BSON_DATA_MIN_KEY, [], by simp [elementBytes], by decide, by decide, by decide,
      by decide, by decide, by simp, ?_⟩
    intro data index tail _ _
    rfl
  | MaxKey =>
    refine ⟨BSON_DATA_MAX_KEY, [], by simp [elementBytes], by decide, by decide, by decide,
      by decide, by decide, by simp, ?_⟩
    intro data index tail _ _
    rfl
  | Boolean b =>
    refine ⟨BSON_DATA_BOOLEAN, [if b then 1 else 0], by simp [elementBytes], by decide,
      by decide, by decide, by decide, by decide, by cases b <;> simp, ?_⟩
    intro data index tail hdrop hbound
    have h := readBytes_drop data index [if b then 1 else 0] tail hdrop (by simp)
      (by cases b <;> simp)
    simp only [List.length_singleton] at h hbound ⊢
    have hm : (index + 1) % 4294967296 = index + 1 := Nat.mod_eq_of_lt hbound
    have hsc : deserialize_scalar BSON_DATA_BOOLEAN data index
        = (readBytes data index 1 >>= fun bytes =>
            pure (.Boolean (leValue bytes == 1), (index + 1) % 4294967296)) := rfl
    rw [hsc, h, ok_bind, hm]
    cases b <;> rfl
  | String str =>
    simp only [roundTrips] at hrt
    refine ⟨BSON_DATA_STRING, stringBytes str, by simp [elementBytes], by decide,
      by decide, by decide, by decide, by decide, ?_, ?_⟩
    · intro b hb
      simp only [stringBytes, List.mem_append, List.mem_singleton] at hb
      rcases hb with hb | hb | hb
      · exact leBytes_lt _ _ b hb
      · exact WriteUtf8_lt _ b hb
      · omega
    intro data index tail hdrop hbound
    rw [stringBytes_length] at hbound ⊢
    have hm0 : (Utf8Length str + 1) % 4294967296 = Utf8Length str + 1 :=
      Nat.mod_eq_of_lt (by omega)
    have hsz : deserialize_int32 data index = .ok (Utf8Length str + 1) := by
      apply deserialize_int32_drop data index _ (WriteUtf8 str ++ 0 :: tail) _ (by omega)
      rw [hdrop, stringBytes, hm0]
      simp
    have hstr : decodeStringValue data (index + 4) (Utf8Length str + 1) = .ok str := by
      apply decodeStringValue_drop data (index + 4) str tail hrt (by omega)
      have := drop_add_of_drop data index (leBytes 4 ((Utf8Length str + 1) % 4294967296))
        (WriteUtf8 str ++ 0 :: tail) (by rw [hdrop, stringBytes]; simp)
      rw [leBytes_length] at this
      exact this
    have hm1 : (index + 4) % 4294967296 = index + 4 := Nat.mod_eq_of_lt (by omega)
    have hm2 : (index + 4 + (Utf8Length str + 1)) % 4294967296 = index + (Utf8Length str + 5) := by
      rw [Nat.mod_eq_of_lt (by omega)]; omega
    have hsc : deserialize_scalar BSON_DATA_STRING data index
        = (deserialize_int32 data index >>= fun string_size =>
            decodeStringValue data ((index + 4) % 4294967296) string_size >>= fun s =>
            pure (.String s, ((index + 4) % 4294967296 + string_size) % 4294967296)) := rfl
    rw [hsc, hsz, ok_bind, hm1, hstr, ok_bind, hm2]
    rfl
  | Symbol str =>
    simp only [roundTrips] at hrt
    refine ⟨BSON_DATA_SYMBOL, stringBytes str, by simp [elementBytes], by decide,
      by decide, by decide, by decide, by decide, ?_, ?_⟩
    · intro b hb
      simp only [stringBytes, List.mem_append, List.mem_singleton] at hb
      rcases hb with hb | hb | hb
      · exact leBytes_lt _ _ b hb
      · exact WriteUtf8_lt _ b hb
      · omega
    intro data index tail hdrop hbound
    rw [stringBytes_length] at hbound ⊢
    have hm0 : (Utf8Length str + 1) % 4294967296 = Utf8Length str + 1 :=
      Nat.mod_eq_of_lt (by omega)
    have hsz : deserialize_int32 data index = .ok (Utf8Length str + 1) := by
      apply deserialize_int32_drop data index _ (WriteUtf8 str ++ 0 :: tail) _ (by omega)
      rw [hdrop, stringBytes, hm0]
      simp
    have hstr : decodeStringValue data (index + 4) (Utf8Length str + 1) = .ok str := by
      apply decodeStringValue_drop data (index + 4) str tail hrt (by omega)
      have := drop_add_of_drop data index (leBytes 4 ((Utf8Length str + 1) % 4294967296))
        (WriteUtf8 str ++ 0 :: tail) (by rw [hdrop, stringBytes]; simp)
      rw [leBytes_length] at this
      exact this
    have hm1 : (index + 4) % 4294967296 = index + 4 := Nat.mod_eq_of_lt (by omega)
    have hm2 : (index + 4 + (Utf8Length str + 1)) % 4294967296 = index + (Utf8Length str + 5) := by
      rw [Nat.mod_eq_of_lt (by omega)]; omega
    have hsc : deserialize_scalar BSON_DATA_SYMBOL data index
        = (deserialize_int32 data index >>= fun string_size =>
            decodeStringValue data ((index + 4) % 4294967296) string_size >>= fun s =>
            pure (.Symbol s, ((index + 4) % 4294967296 + string_size) % 4294967296)) := rfl
    rw [hsc, hsz, ok_bind, hm1, hstr, ok_bind, hm2]
    rfl
  | Long low high =>
    simp only [roundTrips, longRoundTrips, Bool.and_eq_true, decide_eq_true_eq,
      Bool.not_eq_true', decide_eq_false_iff_not] at hrt
    obtain ⟨⟨hlow, hhigh⟩, hout⟩ := hrt
    refine ⟨BSON_DATA_LONG, leBytes 4 (toUint32 low) ++ leBytes 4 (toUint32 high),
      by simp [elementBytes, toUint32_mod], by decide, by decide, by decide, by decide,
      by decide, ?_, ?_⟩
    · intro b hb
      simp only [List.mem_append] at hb
      rcases hb with hb | hb <;> exact leBytes_lt _ _ b hb
    intro data index tail hdrop hbound
    have hd := decodeLong_spec data index low high hlow hhigh (by
      rw [hdrop]
      exact List.take_left' (by simp [leBytes_length]))
    rw [if_neg hout] at hd
    simp only [List.length_append, leBytes_length] at hbound ⊢
    have hm : (index + 8) % 4294967296 = index + (4 + 4) := by
      rw [Nat.mod_eq_of_lt (by omega)]
    have hsc : deserialize_scalar BSON_DATA_LONG data index
        = (decodeLong data index >>= fun value => pure (value, (index + 8) % 4294967296)) := rfl
    rw [hsc, hd, ok_bind, hm]
    rfl
  | Number number =>
    simp only [roundTrips, numberRoundTrips, Bool.and_eq_true, decide_eq_true_eq, bne_iff_ne,
      ne_eq] at hrt
    obtain ⟨hlt, hz⟩ := hrt
    have hdouble : ∀ (data : List Nat) (index : Nat) (tail : List Nat),
        data.drop index = leBytes 8 (number % 18446744073709551616) ++ tail →
        index + (leBytes 8 (number % 18446744073709551616)).length < 4294967296 →
        deserialize_scalar BSON_DATA_NUMBER data index
          = .ok (.Number number, index + (leBytes 8 (number % 18446744073709551616)).length) := by
      intro data index tail hdrop hbound
      have h := readBytes_drop data index _ tail hdrop (by simp [leBytes_length]) (leBytes_lt _ _)
      rw [leBytes_length] at h hbound ⊢
      have hm : (index + 8) % 4294967296 = index + 8 := Nat.mod_eq_of_lt hbound
      have hsc : deserialize_scalar BSON_DATA_NUMBER data index
          = (readBytes data index 8 >>= fun bytes =>
              pure (.Number (leValue bytes), (index + 8) % 4294967296)) := rfl
      rw [hsc, h, ok_bind, hm, leValue_leBytes 8 _ (by norm_num; omega), Nat.mod_eq_of_lt hlt]
      rfl
    simp only [elementBytes, numberBytes]
    split
    · exact ⟨BSON_DATA_NUMBER, _, rfl, by decide, by decide, by decide, by decide, by decide,
        leBytes_lt _ _, hdouble⟩
    · rename_i hd
      split
      · rename_i hin
        refine ⟨BSON_DATA_INT, _, rfl, by decide, by decide, by decide, by decide, by decide,
          leBytes_lt _ _, ?_⟩
        intro data index tail hdrop hbound
        rw [toUint32_mod] at hdrop hbound ⊢
        have hsz := deserialize_int32_drop data index _ tail hdrop (toUint32_lt _)
        rw [leBytes_length] at hbound ⊢
        have hm : (index + 4) % 4294967296 = index + 4 := Nat.mod_eq_of_lt hbound
        have hsc : deserialize_scalar BSON_DATA_INT data index
            = (deserialize_int32 data index >>= fun value =>
                pure (.Number (doubleOfInt (toInt32 value)), (index + 4) % 4294967296)) := rfl
        rw [hsc, hsz, ok_bind, hm,
          number_int32_reads_back number hlt hz (by simpa using hd) hin]
        rfl
      · exact ⟨BSON_DATA_NUMBER, _, rfl, by decide, by decide, by decide, by decide, by decide,
          leBytes_lt _ _, hdouble⟩
  | Timestamp low high =>
    simp only [roundTrips, timestampRoundTrips, Bool.and_eq_true, decide_eq_true_eq] at hrt
    obtain ⟨⟨hlow, hhigh⟩, hin⟩ := hrt
    refine ⟨BSON_DATA_TIMESTAMP, leBytes 4 (toUint32 low) ++ leBytes 4 (toUint32 high),
      by simp [elementBytes, toUint32_mod], by decide, by decide, by decide, by decide,
      by decide, ?_, timestamp_decode low high hlow hhigh hin⟩
    intro b hb
    simp only [List.mem_append] at hb
    rcases hb with hb | hb <;> exact leBytes_lt _ _ b hb
  | ObjectID oid =>
    simp only [roundTrips, Bool.and_eq_true, beq_iff_eq, List.all_eq_true, isLowerHexDigit,
      decide_eq_true_eq] at hrt
    obtain ⟨i1, i2, _⟩ := hexPairs_spec 12 oid.toList (by omega) hrt.2
    have hE : (convert_hex_oid_to_bin oid).take 12 = hexPairs oid.toList := by
      simp only [convert_hex_oid_to_bin, List.take_take]
      rw [List.take_append_of_le_length (by omega)]
      exact List.take_of_length_le (by omega)
    exact ⟨BSON_DATA_OID, _, rfl, by decide, by decide, by decide, by decide, by decide,
      (by rw [hE]; exact i2), oid_decode oid hrt.1 hrt.2⟩
  | Binary sub_type bytes =>
    simp only [roundTrips, Bool.and_eq_true, decide_eq_true_eq, List.all_eq_true] at hrt
    exact ⟨BSON_DATA_BINARY, _, rfl, by decide, by decide, by decide, by decide, by decide,
      (by
        intro b hb
        simp only [List.mem_append, List.mem_cons] at hb
        rcases hb with hb | hb | hb
        · exact leBytes_lt _ _ b hb
        · omega
        · exact hrt.2 b hb),
      binary_decode sub_type bytes hrt.1 hrt.2⟩
  | Date time =>
    simp only [roundTrips, dateRoundTrips, Bool.and_eq_true, decide_eq_true_eq, bne_iff_ne,
      ne_eq, Bool.not_eq_true'] at hrt
    obtain ⟨⟨⟨⟨hlt, hz⟩, hfin⟩, hfrac⟩, hsmall⟩ := hrt
    exact ⟨BSON_DATA_DATE, _, rfl, by decide, by decide, by decide, by decide, by decide,
      leBytes_lt _ _, date_decode time hlt hz hfin hfrac hsmall⟩
  | RegExp source flags =>
    simp only [roundTrips, Bool.and_eq_true, Bool.or_eq_true, beq_iff_eq] at hrt
    have hf : flags = 0 ∨ flags = 2 ∨ flags = 4 ∨ flags = 6 := by
      rcases hrt.2 with ((h | h) | h) | h
      · exact Or.inl h
      · exact Or.inr (Or.inl h)
      · exact Or.inr (Or.inr (Or.inl h))
      · exact Or.inr (Or.inr (Or.inr h))
    refine ⟨BSON_DATA_REGEXP, _, rfl, by decide, by decide, by decide, by decide, by decide,
      ?_, regexp_decode source flags hrt.1 hf⟩
    intro b hb
    simp only [regExpBytes, List.mem_append, List.mem_singleton] at hb
    rcases hb with (((hb | hb) | hb) | hb) | hb
    · exact WriteUtf8_lt _ b hb
    · omega
    · split at hb <;> simp at hb; omega
    · split at hb <;> simp at hb; omega
    · omega
  | _ => first | (simp [isLeaf] at hleaf; done) | (simp [roundTrips] at hrt; done)

/-! ## The encoder on the values that decode to themselves -/

mutual
theorem roundTrips_facts : ∀ (v : Value) (sf : Bool), roundTrips v = true →
    IsFunction v = false ∧ noFunctionInArray v = true ∧ scopesAreDocuments v sf = true
      ∧ ∃ n, calculate_object_size v sf = .ok n
  | .Null, sf, _ => ⟨rfl, rfl, rfl, _, rfl⟩
  | .MinKey, sf, _ => ⟨rfl, rfl, rfl, _, rfl⟩
  | .MaxKey, sf, _ => ⟨rfl, rfl, rfl, _, rfl⟩
  | .Boolean _, sf, _ => ⟨rfl, rfl, rfl, _, rfl⟩
  | .String _, sf, _ => ⟨rfl, rfl, rfl, _, rfl⟩
  | .Symbol _, sf, _ => ⟨rfl, rfl, rfl, _, rfl⟩
  | .Long _ _, sf, _ => ⟨rfl, rfl, rfl, _, rfl⟩
  | .Number number, sf, _ => by
    refine ⟨rfl, rfl, rfl, ?_⟩
    simp only [calculate_object_size]
    split
    · exact ⟨_, rfl⟩
    · split <;> exact ⟨_, rfl⟩
  | .Array es, sf, h => by
    simp only [roundTrips] at h
    obtain ⟨h1, h2, n, hn⟩ := roundTripsList_facts es 0 sf h
    refine ⟨rfl, by simpa [noFunctionInArray] using h1, by simpa [scopesAreDocuments] using h2,
      n + 4 + 1, ?_⟩
    simp only [calculate_object_size, hn]
    rfl
  | .Object c ps, sf, h => by
    simp only [roundTrips, Bool.and_eq_true, Bool.not_eq_true'] at h
    obtain ⟨⟨⟨_, hwrong⟩, _⟩, hps⟩ := h
    obtain ⟨h1, h2, n, hn⟩ := roundTripsProperties_facts ps sf hps
    refine ⟨rfl, by simpa [noFunctionInArray] using h1, by simpa [scopesAreDocuments] using h2,
      n + 4 + 1, ?_⟩
    simp only [calculate_object_size, hwrong, hn]
    rfl
  | .Timestamp _ _, sf, _ => ⟨rfl, rfl, rfl, _, rfl⟩
  | .ObjectID _, sf, _ => ⟨rfl, rfl, rfl, _, rfl⟩
  | .Binary _ _, sf, _ => ⟨rfl, rfl, rfl, _, rfl⟩
  | .DBRef ns oid db, sf, h => by
    simp only [roundTrips, Bool.and_eq_true] at h
    obtain ⟨f1, a1, b1, n1, c1⟩ := roundTrips_facts ns sf h.1.1
    obtain ⟨f2, a2, b2, n2, c2⟩ := roundTrips_facts oid sf h.1.2
    obtain ⟨a3, b3, n3, c3⟩ := roundTripsDb_facts db sf h.2
    refine ⟨rfl, by simp [noFunctionInArray, a1, a2, a3],
      by simp [scopesAreDocuments, b1, b2, b3], ?_⟩
    simp only [calculate_object_size, f1, f2, c1, c2, c3, Bool.not_false, Bool.true_or, if_true]
    exact ⟨_, rfl⟩
  | .Code code s, sf, h => by
    simp only [roundTrips, Bool.and_eq_true, decide_eq_true_eq] at h
    obtain ⟨⟨⟨⟨_, hdoc⟩, hs1⟩, hs2⟩, hs⟩ := h
    obtain ⟨_, a1, b1, n1, c1⟩ := roundTrips_facts s sf hs
    have hd : isDocument s = true := by
      cases s <;> first | rfl | simp [isPlainObject] at hdoc
    have hsz : objectSize s sf < 4294967296 := by
      cases sf
      · exact hs1
      · exact hs2
    refine ⟨rfl, by simpa [noFunctionInArray] using a1,
      by simp [scopesAreDocuments, hd, hsz, b1], ?_⟩
    simp only [calculate_object_size, c1]
    exact ⟨_, rfl⟩
  | .Double _, _, h => by simp [roundTrips] at h
  | .Undefined, _, h => by simp [roundTrips] at h
  | .Date _, sf, _ => ⟨rfl, rfl, rfl, _, rfl⟩
  | .RegExp _ _, sf, _ => ⟨rfl, rfl, rfl, _, rfl⟩
  | .Function _, _, h => by simp [roundTrips] at h
theorem roundTripsDb_facts : ∀ (db : Option Value) (sf : Bool), roundTripsDb db = true →
    noFunctionInArrayDb db = true ∧ scopesAreDocumentsDb db sf = true
      ∧ ∃ n, calculate_db_size db sf = .ok n
  | none, sf, _ => ⟨rfl, rfl, _, rfl⟩
  | some v, sf, h => by
    simp only [roundTripsDb] at h
    obtain ⟨f1, a1, b1, n1, c1⟩ := roundTrips_facts v sf h
    refine ⟨by simpa [noFunctionInArrayDb] using a1, by simpa [scopesAreDocumentsDb] using b1,
      ?_⟩
    simp only [calculate_db_size, f1, c1, Bool.not_false, Bool.true_or, if_true]
    exact ⟨_, rfl⟩
theorem roundTripsList_facts : ∀ (es : List Value) (i : Nat) (sf : Bool),
    roundTripsList es = true →
    noFunctionInArrayList es = true ∧ scopesAreDocumentsList es sf = true
      ∧ ∃ n, calculate_array_size es i sf = .ok n
  | [], i, sf, _ => ⟨rfl, rfl, _, rfl⟩
  | v :: rest, i, sf, h => by
    simp only [roundTripsList, Bool.and_eq_true] at h
    obtain ⟨hf, h1, h2, n, hn⟩ := roundTrips_facts v sf h.1
    obtain ⟨g1, g2, m, hm⟩ := roundTripsList_facts rest (i + 1) sf h.2
    refine ⟨by simp [noFunctionInArrayList, hf, h1, g1], by simp [scopesAreDocumentsList, h2, g2],
      ?_⟩
    simp only [calculate_array_size, hn, hm]
    exact ⟨_, rfl⟩
theorem roundTripsProperties_facts : ∀ (ps : List (String × Value)) (sf : Bool),
    roundTripsProperties ps = true →
    noFunctionInArrayProperties ps = true ∧ scopesAreDocumentsProperties ps sf = true
      ∧ ∃ n, calculate_properties_size ps sf = .ok n
  | [], sf, _ => ⟨rfl, rfl, _, rfl⟩
  | (k, v) :: rest, sf, h => by
    simp only [roundTripsProperties, Bool.and_eq_true] at h
    obtain ⟨hf, h1, h2, n, hn⟩ := roundTrips_facts v sf h.1
    obtain ⟨g1, g2, m, hm⟩ := roundTripsProperties_facts rest sf h.2
    refine ⟨by simp [noFunctionInArrayProperties, h1, g1],
      by simp [scopesAreDocumentsProperties, h2, g2], ?_⟩
    simp only [calculate_properties_size, hf, hn, hm]
    exact ⟨_, rfl⟩
end

theorem hasNoNul_toString (i : Nat) : hasNoNul (toString i) = true := by
  simp only [hasNoNul, List.all_eq_true]
  intro c hc
  have := toString_isDigit i c hc
  simp
  omega

theorem deserialize_of_loop (fuel : Nat) (data : List Nat) (isArr : Bool) (n : Nat)
    (tail : List Nat) (hdata : data = leBytes 4 n ++ tail) (hn : n < 4294967296) :
    deserialize (fuel + 1) data isArr = deserialize_loop fuel data isArr n 4 [] [] := by
  have hsz : deserialize_int32 data 0 = .ok n :=
    deserialize_int32_drop data 0 n tail (by simpa using hdata) hn
  rw [deserialize, hsz, ok_bind]

theorem arraySet_append (arr : List Value) (v : Value) (i : Nat) (h : arr.length = i)
    (hi : i < 4294967296) :
    arraySet arr (toUint32 (atoi (WriteUtf8 (toString i)))) v = arr ++ [v] := by
  rw [atoi_toString]
  have : toUint32 (i : Int) = i := by unfold toUint32; omega
  rw [this]
  simp [arraySet, h]

theorem objectSet_append (acc : List (String × Value)) (key : String) (v : Value)
    (h : key ∉ acc.map Prod.fst) : objectSet acc key v = acc ++ [(key, v)] := by
  induction acc with
  | nil => rfl
  | cons p acc ih =>
    obtain ⟨k, w⟩ := p
    simp only [List.map_cons, List.mem_cons, not_or] at h
    simp only [objectSet]
    rw [if_neg (fun hk => h.1 hk.symm), ih h.2]
    rfl

/-- The step of the loop on an element without nested values. -/
theorem decode_step_leaf (v : Value) (hleaf : isLeaf v = true) (sf : Bool) (key : String)
    (fuel : Nat) (data : List Nat) (isArr : Bool) (size index : Nat)
    (acc : List (String × Value)) (arr : List Value) (tail : List Nat)
    (hrt : roundTrips v = true) (hkey : hasNoNul key = true)
    (hdrop : data.drop index = elementBytes (some key) v sf ++ tail)
    (hlt : index < size)
    (hbound : index + (elementBytes (some key) v sf).length < 4294967296) :
    deserialize_loop (fuel + 1) data isArr size index acc arr =
      if isArr = true then
        deserialize_loop fuel data isArr size (index + (elementBytes (some key) v sf).length) acc
          (arraySet arr (toUint32 (atoi (WriteUtf8 key))) v)
      else
        deserialize_loop fuel data isArr size (index + (elementBytes (some key) v sf).length)
          (objectSet acc key v) arr := by
  obtain ⟨tag, payload, hE, h1, h2, h3, h4, h5, _, hdec⟩ := leaf_decode v hleaf hrt key sf
  rw [hE] at hdrop hbound ⊢
  have hl : (headerBytes tag (some key) ++ payload).length = Utf8Length key + 2 + payload.length := by
    simp [headerBytes_length, nameString]
  rw [hl] at hbound ⊢
  rw [List.append_assoc] at hdrop
  have hd2 : data.drop (index + (Utf8Length key + 2)) = payload ++ tail := by
    have := drop_add_of_drop data index _ _ hdrop
    simpa [headerBytes_length, nameString] using this
  have hsc := hdec data (index + (Utf8Length key + 2)) tail hd2 (by omega)
  have := loop_step_scalar fuel data isArr size index acc arr tag key payload tail v hdrop hlt h1
    h2 h3 h4 h5 hkey (by omega) hsc
  rw [this]
  cases isArr <;> simp [Nat.add_assoc]


theorem class_length (v : Value) (sf : Bool) (name : Option String) (hrt : roundTrips v = true) :
    ∃ n, calculate_object_size v sf = .ok n
      ∧ (elementBytes name v sf).length = tagAndNameLength name v + n := by
  obtain ⟨hf, h1, h2, n, hn⟩ := roundTrips_facts v sf hrt
  exact ⟨n, hn, (elementBytes_length v sf name n hn h2).2 (Or.inr ⟨h1, hf⟩)⟩

theorem elementBytes_length_ge (key : String) (v : Value) (sf : Bool)
    (h : IsFunction v = false ∨ sf = true) : 2 ≤ (elementBytes (some key) v sf).length := by
  obtain ⟨tag, payload, hE⟩ := elementBytes_header key v sf h
  rw [hE]
  simp
  omega

theorem finishObject_plain (ps : List (String × Value)) (h : keysRoundTrip ps = true) :
    finishObject ps = .Object "Object" ps := by
  simp only [keysRoundTrip, Bool.and_eq_true, Bool.not_eq_true'] at h
  simp only [finishObject, h.2, Bool.false_eq_true, if_false]

theorem cString_append_nul (bs tail : List Nat) (hb : ∀ b ∈ bs, 0 < b ∧ b < 256) :
    cString (bs ++ 0 :: tail) = bs := by
  unfold cString
  induction bs with
  | nil => simp
  | cons b bs ih =>
    have h1 := hb b (List.mem_cons_self _ _)
    have h2 : (b % 256 != 0) = true := by
      rw [Nat.mod_eq_of_lt h1.2]
      simp
      omega
    simp only [List.cons_append, List.takeWhile_cons, h2, if_true]
    rw [ih (fun c hc => hb c (List.mem_cons_of_mem _ hc))]

/-- One iteration of the loop of `deserialize` on a code with scope. -/
theorem loop_step_code (fuel : Nat) (data : List Nat) (isArr : Bool) (size index : Nat)
    (acc : List (String × Value)) (arr : List Value) (key code : String) (os : Nat)
    (scopeBytes tail : List Nat) (scope : Value)
    (hdrop : data.drop index
      = headerBytes BSON_DATA_CODE_W_SCOPE (some key)
          ++ (leBytes 4 (8 + (Utf8Length code + 1) + os)
          ++ (leBytes 4 (Utf8Length code + 1)
          ++ (WriteUtf8 code ++ (0 :: (scopeBytes ++ tail))))))
    (hlt : index < size) (hkey : hasNoNul key = true) (hcode : hasNoNul code = true)
    (hlen : scopeBytes.length = os) (hpos : 0 < os) (hb256 : ∀ b ∈ scopeBytes, b < 256)
    (hbound : index + (Utf8Length key + 2) + (8 + (Utf8Length code + 1) + os) < 4294967296)
    (hscope : deserialize fuel scopeBytes false = .ok scope) :
    deserialize_loop (fuel + 1) data isArr size index acc arr =
      if isArr = true then
        deserialize_loop fuel data isArr size
          (index + (Utf8Length key + 2) + (8 + (Utf8Length code + 1) + os)) acc
          (arraySet arr (toUint32 (atoi (WriteUtf8 key))) (.Code code scope))
      else
        deserialize_loop fuel data isArr size
          (index + (Utf8Length key + 2) + (8 + (Utf8Length code + 1) + os))
          (objectSet acc key (.Code code scope)) arr := by
  have hb := WriteUtf8_bounds key (hasNoNul_spec key hkey)
  have hW := WriteUtf8_bounds code (hasNoNul_spec code hcode)
  obtain ⟨t, h8, h8t⟩ := deserialize_int8_tag data index BSON_DATA_CODE_W_SCOPE _
    (by rw [hdrop]; rfl) (by decide)
  have hd0 := drop_add_of_drop data index _ _ hdrop
  rw [headerBytes_length] at hd0
  simp only [nameString] at hd0
  have hname : extract_string data (index + 1) = .ok (some (WriteUtf8 key)) := by
    have := drop_add_of_drop data index [BSON_DATA_CODE_W_SCOPE] _ (by rw [hdrop]; rfl)
    exact extract_string_drop data (index + 1) (WriteUtf8 key) _
      (by simpa [nameString] using this) hb
  have htot : deserialize_int32 data (index + (Utf8Length key + 2))
      = .ok (8 + (Utf8Length code + 1) + os) :=
    deserialize_int32_drop data _ _ _ hd0 (by omega)
  have hd1 := drop_add_of_drop data _ _ _ hd0
  rw [leBytes_length] at hd1
  have hss : deserialize_int32 data (index + (Utf8Length key + 2) + 4)
      = .ok (Utf8Length code + 1) :=
    deserialize_int32_drop data _ _ _ hd1 (by omega)
  have hd2 := drop_add_of_drop data _ _ _ hd1
  rw [leBytes_length] at hd2
  have hd2b : data.drop (index + (Utf8Length key + 2) + 4 + 4)
      = (WriteUtf8 code ++ [0]) ++ (scopeBytes ++ tail) := by
    rw [hd2]; simp
  have hcodeb : readBytes data (index + (Utf8Length key + 2) + 4 + 4) (Utf8Length code + 1)
      = .ok (WriteUtf8 code ++ [0]) := by
    have := readBytes_drop data _ (WriteUtf8 code ++ [0]) _ hd2b (by simp)
      (by
        intro b hb2
        rcases List.mem_append.mp hb2 with h | h
        · exact (hW b h).2
        · simp at h; omega)
    simpa [Utf8Length] using this
  have hd3 := drop_add_of_drop data _ _ _ hd2b
  have hd3b : data.drop (index + (Utf8Length key + 2) + 4 + 4 + (Utf8Length code + 1))
      = scopeBytes ++ tail := by
    simpa [Utf8Length] using hd3
  have hbuf : readBytes data (index + (Utf8Length key + 2) + 4 + 4 + (Utf8Length code + 1)) os
      = .ok scopeBytes := by
    have := readBytes_drop data _ scopeBytes tail hd3b (by omega) hb256
    rw [hlen] at this
    exact this
  have hm1 : (index + 1) % 4294967296 = index + 1 := Nat.mod_eq_of_lt (by omega)
  have hlenk : strlen (WriteUtf8 key) = Utf8Length key := strlen_nonzero _ hb
  have hm2 : (index + 1 + Utf8Length key + 1) % 4294967296 = index + (Utf8Length key + 2) := by
    rw [Nat.mod_eq_of_lt (by omega)]; omega
  have hm3 : (index + (Utf8Length key + 2) + 4) % 4294967296 = index + (Utf8Length key + 2) + 4 :=
    Nat.mod_eq_of_lt (by omega)
  have hm4 : (index + (Utf8Length key + 2) + 4 + 4) % 4294967296
      = index + (Utf8Length key + 2) + 4 + 4 := Nat.mod_eq_of_lt (by omega)
  have hm5 : (index + (Utf8Length key + 2) + 4 + 4 + (Utf8Length code + 1)) % 4294967296
      = index + (Utf8Length key + 2) + 4 + 4 + (Utf8Length code + 1) :=
    Nat.mod_eq_of_lt (by omega)
  have hsub : uint32Sub (uint32Sub (8 + (Utf8Length code + 1) + os) (Utf8Length code + 1)) 8
      = os := by
    unfold uint32Sub; omega
  have hm6 : (index + (Utf8Length key + 2) + 4 + 4 + (Utf8Length code + 1) + os) % 4294967296
      = index + (Utf8Length key + 2) + (8 + (Utf8Length code + 1) + os) := by
    rw [Nat.mod_eq_of_lt (by omega)]; omega
  have hcs : cString (WriteUtf8 code ++ [0]) = WriteUtf8 code := cString_append_nul _ [] hW
  have hsl : strlen (WriteUtf8 code ++ [0]) < (WriteUtf8 code ++ [0]).length := by
    have : strlen (WriteUtf8 code ++ [0]) = (WriteUtf8 code).length := by
      have := congrArg List.length hcs
      simpa [cString, strlen] using this
    rw [this]
    simp
  have htag : isElementType BSON_DATA_CODE_W_SCOPE = true := by decide
  rw [deserialize_loop, if_pos hlt]
  simp only [h8, ok_bind, h8t, htag, if_true, hm1, hname, hlenk, hm2]
  simp only [htot, ok_bind, hm3, hss, hm4]
  simp only [hcodeb, ok_bind, hm5, hsub]
  simp only [hbuf, ok_bind, hscope, hm6]
  rw [if_pos hsl]
  simp only [decodeCode, hcs, EncodeUTF8_WriteUtf8]
  cases isArr <;> rfl


theorem headerBytes_lt (tag : Nat) (name : Option String) (ht : tag < 256) :
    ∀ b ∈ headerBytes tag name, b < 256 := by
  intro b hb
  simp only [headerBytes, List.mem_cons, List.mem_append, List.mem_singleton] at hb
  rcases hb with hb | hb | hb
  · omega
  · exact WriteUtf8_lt _ b hb
  · simp at hb; omega

theorem elementBytes_leaf_lt (v : Value) (hleaf : isLeaf v = true) (hrt : roundTrips v = true)
    (key : String) (sf : Bool) : ∀ b ∈ elementBytes (some key) v sf, b < 256 := by
  obtain ⟨tag, payload, hE, _, _, _, _, ht, hp, _⟩ := leaf_decode v hleaf hrt key sf
  rw [hE]
  intro b hb
  rcases List.mem_append.mp hb with hb | hb
  · exact headerBytes_lt tag _ ht b hb
  · exact hp b hb

mutual
theorem elementBytes_lt : ∀ (v : Value) (sf : Bool) (key : String), roundTrips v = true →
    ∀ b ∈ elementBytes (some key) v sf, b < 256
  | .Null, sf, key, h => elementBytes_leaf_lt .Null rfl h key sf
  | .MinKey, sf, key, h => elementBytes_leaf_lt .MinKey rfl h key sf
  | .MaxKey, sf, key, h => elementBytes_leaf_lt .MaxKey rfl h key sf
  | .Boolean b, sf, key, h => elementBytes_leaf_lt (.Boolean b) rfl h key sf
  | .String s, sf, key, h => elementBytes_leaf_lt (.String s) rfl h key sf
  | .Symbol s, sf, key, h => elementBytes_leaf_lt (.Symbol s) rfl h key sf
  | .Long l hb, sf, key, h => elementBytes_leaf_lt (.Long l hb) rfl h key sf
  | .Number n, sf, key, h => elementBytes_leaf_lt (.Number n) rfl h key sf
  | .Array es, sf, key, h => by
    simp only [roundTrips] at h
    have ih := elementsBytes_lt es 0 sf h
    intro b hb
    simp only [elementBytes, List.mem_append, List.mem_singleton] at hb
    rcases hb with hb | hb | hb | hb
    · exact headerBytes_lt _ _ (by decide) b hb
    · exact leBytes_lt _ _ b hb
    · exact ih b hb
    · omega
  | .Object c ps, sf, key, h => by
    simp only [roundTrips, Bool.and_eq_true] at h
    have ih := propertiesBytes_lt ps sf h.2
    intro b hb
    simp only [elementBytes, Option.isSome_some, if_true, List.mem_append,
      List.mem_singleton] at hb
    rcases hb with hb | hb | hb | hb
    · exact headerBytes_lt _ _ (by decide) b hb
    · exact leBytes_lt _ _ b hb
    · exact ih b hb
    · omega
  | .Timestamp tl th, sf, key, h => elementBytes_leaf_lt (.Timestamp tl th) rfl h key sf
  | .ObjectID o, sf, key, h => elementBytes_leaf_lt (.ObjectID o) rfl h key sf
  | .Binary st d, sf, key, h => elementBytes_leaf_lt (.Binary st d) rfl h key sf
  | .DBRef ns oid db, sf, key, h => by
    simp only [roundTrips, Bool.and_eq_true] at h
    have f1 := (roundTrips_facts ns sf h.1.1).1
    have f2 := (roundTrips_facts oid sf h.1.2).1
    have ih1 := elementBytes_lt ns sf "$ref" h.1.1
    have ih2 := elementBytes_lt oid sf "$id" h.1.2
    have ih3 := dbBytes_lt db sf h.2
    intro b hb
    simp only [elementBytes, Option.isSome_some, if_true, f1, f2, Bool.not_false, Bool.true_or,
      List.mem_append, List.mem_singleton] at hb
    rcases hb with hb | hb | hb | hb | hb | hb
    · exact headerBytes_lt _ _ (by decide) b hb
    · exact leBytes_lt _ _ b hb
    · exact ih1 b hb
    · exact ih2 b hb
    · exact ih3 b hb
    · omega
  | .Code code s, sf, key, h => by
    simp only [roundTrips, Bool.and_eq_true, decide_eq_true_eq] at h
    obtain ⟨⟨⟨⟨hcode, hdoc⟩, _⟩, _⟩, hs⟩ := h
    have ih := documentBytes_lt s sf hs hdoc
    have hW := WriteUtf8_bounds code (hasNoNul_spec code hcode)
    intro b hb
    simp only [elementBytes, cString, takeWhile_nonzero _ hW, List.mem_append, List.mem_cons,
      List.mem_replicate] at hb
    rcases hb with hb | hb | hb | hb | hb | hb | hb
    · exact headerBytes_lt _ _ (by decide) b hb
    · exact leBytes_lt _ _ b hb
    · exact leBytes_lt _ _ b hb
    · exact (hW b hb).2
    · omega
    · exact ih b hb
    · omega
  | .Double _, _, _, h => by simp [roundTrips] at h
  | .Undefined, _, _, h => by simp [roundTrips] at h
  | .Date t, sf, key, h => elementBytes_leaf_lt (.Date t) rfl h key sf
  | .RegExp src fl, sf, key, h => elementBytes_leaf_lt (.RegExp src fl) rfl h key sf
  | .Function _, _, _, h => by simp [roundTrips] at h
theorem documentBytes_lt : ∀ (v : Value) (sf : Bool), roundTrips v = true →
    isPlainObject v = true → ∀ b ∈ elementBytes none v sf, b < 256
  | .Object c ps, sf, h, _ => by
    simp only [roundTrips, Bool.and_eq_true] at h
    have ih := propertiesBytes_lt ps sf h.2
    intro b hb
    simp only [elementBytes, Option.isSome_none, Bool.false_eq_true, if_false, List.nil_append,
      List.mem_append, List.mem_singleton] at hb
    rcases hb with hb | hb | hb
    · exact leBytes_lt _ _ b hb
    · exact ih b hb
    · omega
  | .Null, _, _, h => by simp [isPlainObject] at h
  | .MinKey, _, _, h => by simp [isPlainObject] at h
  | .MaxKey, _, _, h => by simp [isPlainObject] at h
  | .Boolean _, _, _, h => by simp [isPlainObject] at h
  | .String _, _, _, h => by simp [isPlainObject] at h
  | .Symbol _, _, _, h => by simp [isPlainObject] at h
  | .Long _ _, _, _, h => by simp [isPlainObject] at h
  | .Number _, _, _, h => by simp [isPlainObject] at h
  | .Array _, _, _, h => by simp [isPlainObject] at h
  | .Timestamp _ _, _, _, h => by simp [isPlainObject] at h
  | .ObjectID _, _, _, h => by simp [isPlainObject] at h
  | .Binary _ _, _, _, h => by simp [isPlainObject] at h
  | .DBRef _ _ _, _, _, h => by simp [isPlainObject] at h
  | .Code _ _, _, _, h => by simp [isPlainObject] at h
  | .Double _, _, _, h => by simp [isPlainObject] at h
  | .Undefined, _, _, h => by simp [isPlainObject] at h
  | .Date _, _, _, h => by simp [isPlainObject] at h
  | .RegExp _ _, _, _, h => by simp [isPlainObject] at h
  | .Function _, _, _, h => by simp [isPlainObject] at h
theorem dbBytes_lt : ∀ (db : Option Value) (sf : Bool), roundTripsDb db = true →
    ∀ b ∈ dbBytes db sf, b < 256
  | none, sf, _ => by simp [dbBytes]
  | some v, sf, h => by
    simp only [roundTripsDb] at h
    have hf := (roundTrips_facts v sf h).1
    have ih := elementBytes_lt v sf "$db" h
    intro b hb
    simp only [dbBytes, hf, Bool.not_false, Bool.true_or, if_true] at hb
    exact ih b hb
theorem elementsBytes_lt : ∀ (es : List Value) (i : Nat) (sf : Bool), roundTripsList es = true →
    ∀ b ∈ elementsBytes es i sf, b < 256
  | [], i, sf, _ => by simp [elementsBytes]
  | v :: rest, i, sf, h => by
    simp only [roundTripsList, Bool.and_eq_true] at h
    have ih1 := elementBytes_lt v sf (toString i) h.1
    have ih2 := elementsBytes_lt rest (i + 1) sf h.2
    intro b hb
    simp only [elementsBytes, List.mem_append] at hb
    rcases hb with hb | hb
    · exact ih1 b hb
    · exact ih2 b hb
theorem propertiesBytes_lt : ∀ (ps : List (String × Value)) (sf : Bool),
    roundTripsProperties ps = true → ∀ b ∈ propertiesBytes ps sf, b < 256
  | [], sf, _ => by simp [propertiesBytes]
  | (k, v) :: rest, sf, h => by
    simp only [roundTripsProperties, Bool.and_eq_true] at h
    have hf := (roundTrips_facts v sf h.1).1
    have ih1 := elementBytes_lt v sf k h.1
    have ih2 := propertiesBytes_lt rest sf h.2
    intro b hb
    simp only [propertiesBytes, hf, Bool.not_false, Bool.true_or, if_true, List.mem_append] at hb
    rcases hb with hb | hb
    · exact ih1 b hb
    · exact ih2 b hb
end

/-- The document the encoder writes for a `DBRef` is decoded to the `DBRef`,
given the steps of the loop on its properties. -/
theorem dbref_document (ns oid : Value) (db : Option Value) (data : List Nat) (n fuel : Nat)
    (R I D tail : List Nat)
    (hdata : data = leBytes 4 n ++ (R ++ (I ++ (D ++ 0 :: tail))))
    (hn : n = 4 + R.length + I.length + D.length + 1) (hn32 : n < 4294967296)
    (hfuel : n ≤ fuel) (hRlen : 2 ≤ R.length) (hIlen : 2 ≤ I.length)
    (hR : ∀ (f : Nat) (acc : List (String × Value)), R.length ≤ f →
      deserialize_loop (f + 1) data false n 4 acc []
        = deserialize_loop f data false n (4 + R.length) (objectSet acc "$ref" ns) [])
    (hI : ∀ (f : Nat) (acc : List (String × Value)), I.length ≤ f →
      deserialize_loop (f + 1) data false n (4 + R.length) acc []
        = deserialize_loop f data false n (4 + R.length + I.length) (objectSet acc "$id" oid) [])
    (hD : match db with
      | none => D = []
      | some d => 2 ≤ D.length ∧ ∀ (f : Nat) (acc : List (String × Value)), D.length ≤ f →
          deserialize_loop (f + 1) data false n (4 + R.length + I.length) acc []
            = deserialize_loop f data false n (4 + R.length + I.length + D.length)
                (objectSet acc "$db" d) []) :
    deserialize fuel data false = .ok (.DBRef ns oid db) := by
  obtain ⟨f, rfl⟩ : ∃ f, fuel = f + 3 := ⟨fuel - 3, by omega⟩
  rw [deserialize_of_loop (f + 2) data false n _ hdata hn32, hR (f + 1) [] (by omega),
    hI f _ (by omega)]
  have hset : objectSet (objectSet [] "$ref" ns) "$id" oid = [("$ref", ns), ("$id", oid)] := by
    simp [objectSet]
  rw [hset]
  have hd4 : data.drop (4 + R.length + I.length) = D ++ 0 :: tail := by
    rw [hdata]
    have := drop_add_of_drop (leBytes 4 n ++ (R ++ (I ++ (D ++ 0 :: tail)))) 0
      (leBytes 4 n ++ (R ++ I)) (D ++ 0 :: tail) (by simp)
    simpa [leBytes_length, Nat.add_assoc] using this
  cases db with
  | none =>
    simp only [] at hD
    subst hD
    simp only [List.length_nil, Nat.add_zero, List.nil_append] at hn hd4
    obtain ⟨g, rfl⟩ : ∃ g, f = g + 2 := ⟨f - 2, by omega⟩
    rw [loop_end g data false n _ _ [] tail hd4 (by omega) hn32]
    rfl
  | some d =>
    simp only [] at hD
    obtain ⟨hDlen, hDstep⟩ := hD
    obtain ⟨g, rfl⟩ : ∃ g, f = g + 3 := ⟨f - 3, by omega⟩
    rw [hDstep (g + 2) _ (by omega)]
    have hset2 : objectSet [("$ref", ns), ("$id", oid)] "$db" d
        = [("$ref", ns), ("$id", oid), ("$db", d)] := by
      simp [objectSet]
    rw [hset2]
    have hd5 := drop_add_of_drop data _ _ _ hd4
    rw [loop_end g data false n _ _ [] tail hd5 (by omega) hn32]
    rfl

mutual
theorem decode_step : ∀ (v : Value) (sf : Bool) (key : String) (fuel : Nat) (data : List Nat)
    (isArr : Bool) (size index : Nat) (acc : List (String × Value)) (arr : List Value)
    (tail : List Nat),
    roundTrips v = true → hasNoNul key = true →
    data.drop index = elementBytes (some key) v sf ++ tail →
    index < size → index + (elementBytes (some key) v sf).length < 4294967296 →
    (elementBytes (some key) v sf).length ≤ fuel →
    deserialize_loop (fuel + 1) data isArr size index acc arr =
      if isArr = true then
        deserialize_loop fuel data isArr size (index + (elementBytes (some key) v sf).length) acc
          (arraySet arr (toUint32 (atoi (WriteUtf8 key))) v)
      else
        deserialize_loop fuel data isArr size (index + (elementBytes (some key) v sf).length)
          (objectSet acc key v) arr
  | .Null, sf, key, fuel, data, isArr, size, index, acc, arr, tail, hrt, hkey, hdrop, hlt, hb, _ =>
    decode_step_leaf .Null rfl sf key fuel data isArr size index acc arr tail hrt hkey hdrop hlt hb
  | .MinKey, sf, key, fuel, data, isArr, size, index, acc, arr, tail, hrt, hkey, hdrop, hlt, hb, _ =>
    decode_step_leaf .MinKey rfl sf key fuel data isArr size index acc arr tail hrt hkey hdrop hlt hb
  | .MaxKey, sf, key, fuel, data, isArr, size, index, acc, arr, tail, hrt, hkey, hdrop, hlt, hb, _ =>
    decode_step_leaf .MaxKey rfl sf key fuel data isArr size index acc arr tail hrt hkey hdrop hlt hb
  | .Boolean b, sf, key, fuel, data, isArr, size, index, acc, arr, tail, hrt, hkey, hdrop, hlt, hb,
      _ =>
    decode_step_leaf (.Boolean b) rfl sf key fuel data isArr size index acc arr tail hrt hkey hdrop
      hlt hb
  | .String s, sf, key, fuel, data, isArr, size, index, acc, arr, tail, hrt, hkey, hdrop, hlt, hb,
      _ =>
    decode_step_leaf (.String s) rfl sf key fuel data isArr size index acc arr tail hrt hkey hdrop
      hlt hb
  | .Symbol s, sf, key, fuel, data, isArr, size, index, acc, arr, tail, hrt, hkey, hdrop, hlt, hb,
      _ =>
    decode_step_leaf (.Symbol s) rfl sf key fuel data isArr size index acc arr tail hrt hkey hdrop
      hlt hb
  | .Long l h, sf, key, fuel, data, isArr, size, index, acc, arr, tail, hrt, hkey, hdrop, hlt, hb,
      _ =>
    decode_step_leaf (.Long l h) rfl sf key fuel data isArr size index acc arr tail hrt hkey hdrop
      hlt hb
  | .Number n, sf, key, fuel, data, isArr, size, index, acc, arr, tail, hrt, hkey, hdrop, hlt, hb,
      _ =>
    decode_step_leaf (.Number n) rfl sf key fuel data isArr size index acc arr tail hrt hkey hdrop
      hlt hb
  | .Array es, sf, key, fuel, data, isArr, size, index, acc, arr, tail, hrt, hkey, hdrop, hlt, hb,
      hfuel => by
    obtain ⟨n, hn, hlenE⟩ := class_length (.Array es) sf (some key) hrt
    have hos := objectSize_eq _ _ _ hn
    rw [tagAndNameLength_some] at hlenE
    have hE : elementBytes (some key) (.Array es) sf
        = headerBytes BSON_DATA_ARRAY (some key)
            ++ (leBytes 4 (n % 4294967296) ++ (elementsBytes es 0 sf ++ [0])) := by
      simp only [elementBytes, hos]
    have hn32 : n % 4294967296 = n := Nat.mod_eq_of_lt (by omega)
    rw [hn32] at hE
    have hnlen : n = (elementsBytes es 0 sf).length + 5 := by
      have := congrArg List.length hE
      rw [hlenE] at this
      simp [headerBytes_length, nameString, leBytes_length] at this
      omega
    rw [hlenE] at hb hfuel ⊢
    rw [hE, List.append_assoc, List.append_assoc] at hdrop
    obtain ⟨f, rfl⟩ : ∃ f, fuel = f + 1 := ⟨fuel - 1, by omega⟩
    have hd2 : data.drop (index + (Utf8Length key + 2))
        = leBytes 4 n ++ (elementsBytes es 0 sf ++ ([0] ++ tail)) := by
      have := drop_add_of_drop data index _ _ hdrop
      simpa [headerBytes_length, nameString] using this
    have hdoc : deserialize (f + 1) (data.drop (index + (Utf8Length key + 2))) true
        = .ok (.Array es) := by
      rw [deserialize_of_loop f _ true n _ hd2 (by omega)]
      simp only [roundTrips] at hrt
      have := decode_elements es 0 sf f (data.drop (index + (Utf8Length key + 2))) n 4 []
        ([] : List Value) tail hrt
        (by rw [hd2]
            have := drop_add_of_drop (leBytes 4 n ++ (elementsBytes es 0 sf ++ ([0] ++ tail))) 0
              (leBytes 4 n) _ rfl
            simpa [leBytes_length] using this)
        (by omega) (by omega) (by omega) rfl (by omega)
      simpa using this
    have hb2 : index + (Utf8Length key + 2) + n < 4294967296 := by omega
    have hstep := loop_step_nested (f + 1) data isArr size index acc arr true key n _ (.Array es)
      hdrop hlt hkey hb2 hdoc
    rw [hstep]
    cases isArr <;> simp [Nat.add_assoc]
  | .Object c ps, sf, key, fuel, data, isArr, size, index, acc, arr, tail, hrt, hkey, hdrop, hlt,
      hb, hfuel => by
    obtain ⟨n, hn, hlenE⟩ := class_length (.Object c ps) sf (some key) hrt
    have hos := objectSize_eq _ _ _ hn
    rw [tagAndNameLength_some] at hlenE
    have hE : elementBytes (some key) (.Object c ps) sf
        = headerBytes BSON_DATA_OBJECT (some key)
            ++ (leBytes 4 (n % 4294967296) ++ (propertiesBytes ps sf ++ [0])) := by
      simp only [elementBytes, hos, Option.isSome_some, if_true]
    have hn32 : n % 4294967296 = n := Nat.mod_eq_of_lt (by omega)
    rw [hn32] at hE
    have hnlen : n = (propertiesBytes ps sf).length + 5 := by
      have := congrArg List.length hE
      rw [hlenE] at this
      simp [headerBytes_length, nameString, leBytes_length] at this
      omega
    rw [hlenE] at hb hfuel ⊢
    rw [hE, List.append_assoc, List.append_assoc] at hdrop
    obtain ⟨f, rfl⟩ : ∃ f, fuel = f + 1 := ⟨fuel - 1, by omega⟩
    have hd2 : data.drop (index + (Utf8Length key + 2))
        = leBytes 4 n ++ (propertiesBytes ps sf ++ ([0] ++ tail)) := by
      have := drop_add_of_drop data index _ _ hdrop
      simpa [headerBytes_length, nameString] using this
    simp only [roundTrips, Bool.and_eq_true, beq_iff_eq] at hrt
    obtain ⟨⟨⟨hc, _⟩, hkeys⟩, hps⟩ := hrt
    have hkeys2 := hkeys
    simp only [keysRoundTrip, Bool.and_eq_true, decide_eq_true_eq, List.all_eq_true] at hkeys2
    have hdoc : deserialize (f + 1) (data.drop (index + (Utf8Length key + 2))) false
        = .ok (.Object c ps) := by
      rw [deserialize_of_loop f _ false n _ hd2 (by omega)]
      have := decode_properties ps sf f (data.drop (index + (Utf8Length key + 2))) n 4 []
        ([] : List Value) tail hps (fun p hp => hkeys2.1.1 p hp) (by simpa using hkeys2.1.2)
        (by rw [hd2]
            have := drop_add_of_drop (leBytes 4 n ++ (propertiesBytes ps sf ++ ([0] ++ tail))) 0
              (leBytes 4 n) _ rfl
            simpa [leBytes_length] using this)
        (by omega) (by omega) (by omega)
      rw [this, List.nil_append, finishObject_plain ps hkeys, hc]
    have hb2 : index + (Utf8Length key + 2) + n < 4294967296 := by omega
    have hstep := loop_step_nested (f + 1) data isArr size index acc arr false key n _
      (.Object c ps) hdrop hlt hkey hb2 hdoc
    rw [hstep]
    cases isArr <;> simp [Nat.add_assoc]
  | .Timestamp tl th, sf, key, fuel, data, isArr, size, index, acc, arr, tail, hrt, hkey, hdrop, hlt, hb,
      _ =>
    decode_step_leaf (.Timestamp tl th) rfl sf key fuel data isArr size index acc arr tail hrt hkey hdrop
      hlt hb
  | .ObjectID o, sf, key, fuel, data, isArr, size, index, acc, arr, tail, hrt, hkey, hdrop, hlt, hb,
      _ =>
    decode_step_leaf (.ObjectID o) rfl sf key fuel data isArr size index acc arr tail hrt hkey hdrop
      hlt hb
  | .Binary st d, sf, key, fuel, data, isArr, size, index, acc, arr, tail, hrt, hkey, hdrop, hlt, hb,
      _ =>
    decode_step_leaf (.Binary st d) rfl sf key fuel data isArr size index acc arr tail hrt hkey hdrop
      hlt hb
  | .DBRef ns oid db, sf, key, fuel, data, isArr, size, index, acc, arr, tail, hrt, hkey, hdrop,
      hlt, hb, hfuel => by
    obtain ⟨n, hn, hlenE⟩ := class_length (.DBRef ns oid db) sf (some key) hrt
    have hos := objectSize_eq _ _ _ hn
    rw [tagAndNameLength_some] at hlenE
    simp only [roundTrips, Bool.and_eq_true] at hrt
    have f1 := (roundTrips_facts ns sf hrt.1.1).1
    have f2 := (roundTrips_facts oid sf hrt.1.2).1
    have hE : elementBytes (some key) (.DBRef ns oid db) sf
        = headerBytes BSON_DATA_OBJECT (some key)
            ++ (leBytes 4 (n % 4294967296) ++ (elementBytes (some "$ref") ns sf
            ++ (elementBytes (some "$id") oid sf ++ (dbBytes db sf ++ [0])))) := by
      simp only [elementBytes, hos, Option.isSome_some, if_true, f1, f2, Bool.not_false,
        Bool.true_or]
    have hn32 : n % 4294967296 = n := Nat.mod_eq_of_lt (by omega)
    rw [hn32] at hE
    have hnlen : n = 4 + (elementBytes (some "$ref") ns sf).length
        + (elementBytes (some "$id") oid sf).length + (dbBytes db sf).length + 1 := by
      have := congrArg List.length hE
      rw [hlenE] at this
      simp [headerBytes_length, nameString, leBytes_length] at this
      omega
    have hgeR := elementBytes_length_ge "$ref" ns sf (Or.inl f1)
    have hgeI := elementBytes_length_ge "$id" oid sf (Or.inl f2)
    rw [hlenE] at hb hfuel ⊢
    rw [hE] at hdrop
    have hdrop2 : data.drop index = headerBytes BSON_DATA_OBJECT (some key)
        ++ (leBytes 4 n ++ (elementBytes (some "$ref") ns sf
            ++ (elementBytes (some "$id") oid sf ++ (dbBytes db sf ++ 0 :: tail)))) := by
      rw [hdrop]; simp
    have hd2 : data.drop (index + (Utf8Length key + 2))
        = leBytes 4 n ++ (elementBytes (some "$ref") ns sf
            ++ (elementBytes (some "$id") oid sf ++ (dbBytes db sf ++ 0 :: tail))) := by
      have := drop_add_of_drop data index _ _ hdrop2
      simpa [headerBytes_length, nameString] using this
    have hd4 : (data.drop (index + (Utf8Length key + 2))).drop 4
        = elementBytes (some "$ref") ns sf
            ++ (elementBytes (some "$id") oid sf ++ (dbBytes db sf ++ 0 :: tail)) := by
      have := drop_add_of_drop _ 0 (leBytes 4 n) _ (by simpa using hd2)
      simpa [leBytes_length] using this
    have hd5 : (data.drop (index + (Utf8Length key + 2))).drop
          (4 + (elementBytes (some "$ref") ns sf).length)
        = elementBytes (some "$id") oid sf ++ (dbBytes db sf ++ 0 :: tail) :=
      drop_add_of_drop _ 4 _ _ hd4
    have hd6 : (data.drop (index + (Utf8Length key + 2))).drop
          (4 + (elementBytes (some "$ref") ns sf).length
            + (elementBytes (some "$id") oid sf).length)
        = dbBytes db sf ++ 0 :: tail :=
      drop_add_of_drop _ _ _ _ hd5
    have hdoc : deserialize fuel (data.drop (index + (Utf8Length key + 2))) false
        = .ok (.DBRef ns oid db) := by
      apply dbref_document ns oid db _ n fuel _ _ _ tail hd2 hnlen (by omega) (by omega) hgeR hgeI
      · intro f a hf
        have := decode_step ns sf "$ref" f (data.drop (index + (Utf8Length key + 2))) false n 4
          a [] _ hrt.1.1 (by decide) hd4 (by omega) (by omega) hf
        simpa using this
      · intro f a hf
        have := decode_step oid sf "$id" f (data.drop (index + (Utf8Length key + 2))) false n
          (4 + (elementBytes (some "$ref") ns sf).length) a [] _ hrt.1.2 (by decide) hd5
          (by omega) (by omega) hf
        simpa using this
      · cases db with
        | none => rfl
        | some d =>
          have hrd : roundTrips d = true := by simpa [roundTripsDb] using hrt.2
          have f3 := (roundTrips_facts d sf hrd).1
          have hD : dbBytes (some d) sf = elementBytes (some "$db") d sf := by
            simp only [dbBytes, f3, Bool.not_false, Bool.true_or, if_true]
          rw [hD] at hd6 hnlen ⊢
          refine ⟨elementBytes_length_ge "$db" d sf (Or.inl f3), ?_⟩
          intro f a hf
          have := decode_step d sf "$db" f (data.drop (index + (Utf8Length key + 2))) false n
            _ a [] _ hrd (by decide) hd6 (by omega) (by omega) hf
          simpa using this
    have hb2 : index + (Utf8Length key + 2) + n < 4294967296 := by omega
    have hstep := loop_step_nested fuel data isArr size index acc arr false key n _
      (.DBRef ns oid db) hdrop2 hlt hkey hb2 hdoc
    rw [hstep]
    cases isArr <;> simp [Nat.add_assoc]
  | .Code code s, sf, key, fuel, data, isArr, size, index, acc, arr, tail, hrt, hkey, hdrop, hlt,
      hb, hfuel => by
    obtain ⟨n, hn, hlenE⟩ := class_length (.Code code s) sf (some key) hrt
    rw [tagAndNameLength_some] at hlenE
    simp only [roundTrips, Bool.and_eq_true, decide_eq_true_eq] at hrt
    obtain ⟨⟨⟨⟨hcode, hdoc⟩, _⟩, _⟩, hs⟩ := hrt
    obtain ⟨os, hos1, hlenS⟩ := class_length s sf none hs
    have hos := objectSize_eq _ _ _ hos1
    have hd : isDocument s = true := by
      cases s <;> first | rfl | simp [isPlainObject] at hdoc
    have htag : tagAndNameLength none s = 0 := by simp [tagAndNameLength, hd]
    rw [htag, Nat.zero_add] at hlenS
    have hW := WriteUtf8_bounds code (hasNoNul_spec code hcode)
    have hsl : strlen (WriteUtf8 code) = Utf8Length code := strlen_nonzero _ hW
    have hcs : cString (WriteUtf8 code) = WriteUtf8 code := takeWhile_nonzero _ hW
    have hnval : n = Utf8Length code + 4 + os + 4 + 1 := by
      simp only [calculate_object_size, hos1, ok_bind, hsl] at hn
      cases hn
      rfl
    have hpos : 0 < os := by
      rw [← hlenS]
      cases s <;> first | (simp [isPlainObject] at hdoc; done) | simp [elementBytes, leBytes_length]
    have hm1 : (4 + 4 + Utf8Length code + 1 + os) % 4294967296 = 8 + (Utf8Length code + 1) + os := by
      rw [Nat.mod_eq_of_lt (by omega)]; omega
    have hm2 : (Utf8Length code + 1) % 4294967296 = Utf8Length code + 1 :=
      Nat.mod_eq_of_lt (by omega)
    have hE : elementBytes (some key) (.Code code s) sf
        = headerBytes BSON_DATA_CODE_W_SCOPE (some key)
            ++ (leBytes 4 (8 + (Utf8Length code + 1) + os)
            ++ (leBytes 4 (Utf8Length code + 1)
            ++ (WriteUtf8 code ++ (0 :: (elementBytes none s sf ++ []))))) := by
      simp only [elementBytes, hos, hsl, hcs, hlenS, Nat.sub_self, List.replicate_zero, hm1, hm2]
    rw [hlenE] at hb hfuel ⊢
    rw [hE] at hdrop
    have hdrop2 : data.drop index = headerBytes BSON_DATA_CODE_W_SCOPE (some key)
        ++ (leBytes 4 (8 + (Utf8Length code + 1) + os)
        ++ (leBytes 4 (Utf8Length code + 1)
        ++ (WriteUtf8 code ++ (0 :: (elementBytes none s sf ++ tail))))) := by
      rw [hdrop]; simp
    have hscope : deserialize fuel (elementBytes none s sf) false = .ok s := by
      have := decode_document s sf fuel [] hs hdoc (by omega) (by omega)
      simpa using this
    have hstep := loop_step_code fuel data isArr size index acc arr key code os
      (elementBytes none s sf) tail s hdrop2 hlt hkey hcode hlenS hpos
      (documentBytes_lt s sf hs hdoc) (by omega) hscope
    rw [hstep]
    have he : index + (Utf8Length key + 2) + (8 + (Utf8Length code + 1) + os)
        = index + (Utf8Length key + 2 + n) := by omega
    rw [he]
  | .Double _, _, _, _, _, _, _, _, _, _, _, h, _, _, _, _, _ => by simp [roundTrips] at h
  | .Undefined, _, _, _, _, _, _, _, _, _, _, h, _, _, _, _, _ => by simp [roundTrips] at h
  | .Date t, sf, key, fuel, data, isArr, size, index, acc, arr, tail, hrt, hkey, hdrop, hlt, hb,
      _ =>
    decode_step_leaf (.Date t) rfl sf key fuel data isArr size index acc arr tail hrt hkey hdrop
      hlt hb
  | .RegExp src fl, sf, key, fuel, data, isArr, size, index, acc, arr, tail, hrt, hkey, hdrop, hlt, hb,
      _ =>
    decode_step_leaf (.RegExp src fl) rfl sf key fuel data isArr size index acc arr tail hrt hkey hdrop
      hlt hb
  | .Function _, _, _, _, _, _, _, _, _, _, _, h, _, _, _, _, _ => by simp [roundTrips] at h
theorem decode_document : ∀ (v : Value) (sf : Bool) (fuel : Nat) (tail : List Nat),
    roundTrips v = true → isPlainObject v = true →
    (elementBytes none v sf).length < 4294967296 → (elementBytes none v sf).length ≤ fuel →
    deserialize fuel (elementBytes none v sf ++ tail) false = .ok v
  | .Object c ps, sf, fuel, tail, hrt, _, hsize, hfuel => by
    obtain ⟨n, hn, hlenE⟩ := class_length (.Object c ps) sf none hrt
    have hos := objectSize_eq _ _ _ hn
    have htag : tagAndNameLength none (.Object c ps) = 0 := by
      simp [tagAndNameLength, isDocument]
    rw [htag, Nat.zero_add] at hlenE
    rw [hlenE] at hsize hfuel
    have hE : elementBytes none (.Object c ps) sf = leBytes 4 n ++ (propertiesBytes ps sf ++ [0]) := by
      simp only [elementBytes, hos, Option.isSome_none, Bool.false_eq_true, if_false,
        List.nil_append, Nat.mod_eq_of_lt hsize]
    have hnlen : n = (propertiesBytes ps sf).length + 5 := by
      have := congrArg List.length hE
      rw [hlenE] at this
      simp [leBytes_length] at this
      omega
    simp only [roundTrips, Bool.and_eq_true, beq_iff_eq] at hrt
    obtain ⟨⟨⟨hc, _⟩, hkeys⟩, hps⟩ := hrt
    have hkeys2 := hkeys
    simp only [keysRoundTrip, Bool.and_eq_true, decide_eq_true_eq, List.all_eq_true] at hkeys2
    obtain ⟨f, rfl⟩ : ∃ f, fuel = f + 1 := ⟨fuel - 1, by omega⟩
    have hdata : elementBytes none (.Object c ps) sf ++ tail
        = leBytes 4 n ++ (propertiesBytes ps sf ++ ([0] ++ tail)) := by
      rw [hE]; simp
    rw [deserialize_of_loop f _ false n _ hdata hsize]
    have := decode_properties ps sf f (elementBytes none (.Object c ps) sf ++ tail) n 4 []
      ([] : List Value) tail hps (fun p hp => hkeys2.1.1 p hp) (by simpa using hkeys2.1.2)
      (by
        have := drop_add_of_drop (elementBytes none (.Object c ps) sf ++ tail) 0
          (leBytes 4 n) _ (by simpa using hdata)
        simpa [leBytes_length] using this)
      (by omega) hsize (by omega)
    rw [this, List.nil_append, finishObject_plain ps hkeys, hc]
  | .Null, _, _, _, _, h, _, _ => by simp [isPlainObject] at h
  | .MinKey, _, _, _, _, h, _, _ => by simp [isPlainObject] at h
  | .MaxKey, _, _, _, _, h, _, _ => by simp [isPlainObject] at h
  | .Boolean _, _, _, _, _, h, _, _ => by simp [isPlainObject] at h
  | .String _, _, _, _, _, h, _, _ => by simp [isPlainObject] at h
  | .Symbol _, _, _, _, _, h, _, _ => by simp [isPlainObject] at h
  | .Long _ _, _, _, _, _, h, _, _ => by simp [isPlainObject] at h
  | .Number _, _, _, _, _, h, _, _ => by simp [isPlainObject] at h
  | .Array _, _, _, _, _, h, _, _ => by simp [isPlainObject] at h
  | .Timestamp _ _, _, _, _, _, h, _, _ => by simp [isPlainObject] at h
  | .ObjectID _, _, _, _, _, h, _, _ => by simp [isPlainObject] at h
  | .Binary _ _, _, _, _, _, h, _, _ => by simp [isPlainObject] at h
  | .DBRef _ _ _, _, _, _, _, h, _, _ => by simp [isPlainObject] at h
  | .Code _ _, _, _, _, _, h, _, _ => by simp [isPlainObject] at h
  | .Double _, _, _, _, _, h, _, _ => by simp [isPlainObject] at h
  | .Undefined, _, _, _, _, h, _, _ => by simp [isPlainObject] at h
  | .Date _, _, _, _, _, h, _, _ => by simp [isPlainObject] at h
  | .RegExp _ _, _, _, _, _, h, _, _ => by simp [isPlainObject] at h
  | .Function _, _, _, _, _, h, _, _ => by simp [isPlainObject] at h
theorem decode_elements : ∀ (es : List Value) (i : Nat) (sf : Bool) (fuel : Nat)
    (data : List Nat) (size index : Nat) (acc : List (String × Value)) (arr : List Value)
    (tail : List Nat),
    roundTripsList es = true →
    data.drop index = elementsBytes es i sf ++ 0 :: tail →
    size = index + (elementsBytes es i sf).length + 1 → size < 4294967296 →
    (elementsBytes es i sf).length + 2 ≤ fuel → arr.length = i →
    i + (elementsBytes es i sf).length < 4294967296 →
    deserialize_loop fuel data true size index acc arr = .ok (.Array (arr ++ es))
  | [], i, sf, fuel, data, size, index, acc, arr, tail, _, hdrop, hsize, hlt, hfuel, _, _ => by
    simp only [elementsBytes, List.nil_append, List.length_nil, Nat.add_zero] at hdrop hsize hfuel
    obtain ⟨f, rfl⟩ : ∃ f, fuel = f + 2 := ⟨fuel - 2, by omega⟩
    rw [loop_end f data true size index acc arr tail hdrop hsize hlt]
    simp
  | v :: rest, i, sf, fuel, data, size, index, acc, arr, tail, hrt, hdrop, hsize, hlt, hfuel,
      harr, hi => by
    simp only [roundTripsList, Bool.and_eq_true] at hrt
    simp only [elementsBytes, List.length_append] at hdrop hsize hfuel hi
    have hge := elementBytes_length_ge (toString i) v sf (Or.inl (roundTrips_facts v sf hrt.1).1)
    obtain ⟨f, rfl⟩ : ∃ f, fuel = f + 1 := ⟨fuel - 1, by omega⟩
    rw [List.append_assoc] at hdrop
    rw [decode_step v sf (toString i) f data true size index acc arr _ hrt.1
      (hasNoNul_toString i) hdrop (by omega) (by omega) (by omega)]
    simp only [if_true]
    rw [arraySet_append arr v i harr (by omega)]
    have hd2 := drop_add_of_drop data index _ _ hdrop
    rw [decode_elements rest (i + 1) sf f data size _ acc (arr ++ [v]) tail hrt.2 hd2 (by omega)
      hlt (by omega) (by simp [harr]) (by omega)]
    simp
theorem decode_properties : ∀ (ps : List (String × Value)) (sf : Bool) (fuel : Nat)
    (data : List Nat) (size index : Nat) (acc : List (String × Value)) (arr : List Value)
    (tail : List Nat),
    roundTripsProperties ps = true → (∀ p ∈ ps, hasNoNul p.1 = true) →
    ((acc ++ ps).map Prod.fst).Nodup →
    data.drop index = propertiesBytes ps sf ++ 0 :: tail →
    size = index + (propertiesBytes ps sf).length + 1 → size < 4294967296 →
    (propertiesBytes ps sf).length + 2 ≤ fuel →
    deserialize_loop fuel data false size index acc arr = .ok (finishObject (acc ++ ps))
  | [], sf, fuel, data, size, index, acc, arr, tail, _, _, _, hdrop, hsize, hlt, hfuel => by
    simp only [propertiesBytes, List.nil_append, List.length_nil, Nat.add_zero] at hdrop hsize hfuel
    obtain ⟨f, rfl⟩ : ∃ f, fuel = f + 2 := ⟨fuel - 2, by omega⟩
    rw [loop_end f data false size index acc arr tail hdrop hsize hlt]
    simp
  | (k, v) :: rest, sf, fuel, data, size, index, acc, arr, tail, hrt, hkeys, hnodup, hdrop, hsize,
      hlt, hfuel => by
    simp only [roundTripsProperties, Bool.and_eq_true] at hrt
    have hf := (roundTrips_facts v sf hrt.1).1
    simp only [propertiesBytes, hf, Bool.not_false, Bool.true_or, if_true,
      List.length_append] at hdrop hsize hfuel
    have hge := elementBytes_length_ge k v sf (Or.inl hf)
    obtain ⟨f, rfl⟩ : ∃ f, fuel = f + 1 := ⟨fuel - 1, by omega⟩
    rw [List.append_assoc] at hdrop
    rw [decode_step v sf k f data false size index acc arr _ hrt.1
      (hkeys (k, v) (List.mem_cons_self _ _)) hdrop (by omega) (by omega) (by omega)]
    simp only [Bool.false_eq_true, if_false]
    have hk : k ∉ acc.map Prod.fst := by
      intro hmem
      simp only [List.map_append, List.map_cons] at hnodup
      have := List.nodup_append.mp hnodup
      exact this.2.2 hmem (List.mem_cons_self _ _)
    rw [objectSet_append acc k v hk]
    have hd2 := drop_add_of_drop data index _ _ hdrop
    rw [decode_properties rest sf f data size _ (acc ++ [(k, v)]) arr tail hrt.2
      (fun p hp => hkeys p (List.mem_cons_of_mem _ hp)) (by simpa using hnodup) hd2 (by omega)
      hlt (by omega)]
    simp
end


theorem bind_ok_of {α β : Type} {x : Except EncodeError α} {f : α → Except EncodeError β}
    (h1 : ∃ a, x = .ok a) (h2 : ∀ a, x = .ok a → ∃ r, f a = .ok r) :
    ∃ r, (x >>= f) = .ok r := by
  obtain ⟨a, ha⟩ := h1
  obtain ⟨r, hr⟩ := h2 a ha
  exact ⟨r, by rw [ha]; exact hr⟩

theorem serialize_leaf_ok (v : Value) (hleaf : isLeaf v = true) (sf : Bool) (mem : Memory)
    (so idx : Nat) (name : Option String) :
    ∃ r, serialize mem so idx name v false sf = .ok r := by
  rw [serialize_leaf v hleaf]
  simp only [Bool.and_false, Bool.false_eq_true, if_false]
  exact ⟨_, rfl⟩

mutual
theorem serialize_class_ok : ∀ (v : Value) (sf : Bool) (mem : Memory) (so idx : Nat)
    (name : Option String), roundTrips v = true →
    ∃ r, serialize mem so idx name v false sf = .ok r
  | .Null, sf, mem, so, idx, name, _ => serialize_leaf_ok .Null rfl sf mem so idx name
  | .MinKey, sf, mem, so, idx, name, _ => serialize_leaf_ok .MinKey rfl sf mem so idx name
  | .MaxKey, sf, mem, so, idx, name, _ => serialize_leaf_ok .MaxKey rfl sf mem so idx name
  | .Boolean b, sf, mem, so, idx, name, _ => serialize_leaf_ok (.Boolean b) rfl sf mem so idx name
  | .String s, sf, mem, so, idx, name, _ => serialize_leaf_ok (.String s) rfl sf mem so idx name
  | .Symbol s, sf, mem, so, idx, name, _ => serialize_leaf_ok (.Symbol s) rfl sf mem so idx name
  | .Long l h, sf, mem, so, idx, name, _ => serialize_leaf_ok (.Long l h) rfl sf mem so idx name
  | .Number n, sf, mem, so, idx, name, _ => serialize_leaf_ok (.Number n) rfl sf mem so idx name
  | .Array es, sf, mem, so, idx, name, hrt => by
    obtain ⟨_, _, _, n, hn⟩ := roundTrips_facts (.Array es) sf hrt
    simp only [roundTrips] at hrt
    simp only [serialize, bind_eq_ok, writeTagAndName_eq, write_int32, hn]
    obtain ⟨r1, hr1⟩ := serialize_elements_class_ok es 0 sf
      (storeBytes (storeBytes mem (so + idx) (headerBytes BSON_DATA_ARRAY name))
        (so + (idx + (headerBytes BSON_DATA_ARRAY name).length)) (leBytes 4 (n % 4294967296)))
      so (idx + (headerBytes BSON_DATA_ARRAY name).length + 4) hrt
    exact ⟨_, (), by simp; rfl, n, rfl, r1, hr1, rfl⟩
  | .Object c ps, sf, mem, so, idx, name, hrt => by
    obtain ⟨_, _, _, n, hn⟩ := roundTrips_facts (.Object c ps) sf hrt
    simp only [roundTrips, Bool.and_eq_true, Bool.not_eq_true'] at hrt
    obtain ⟨⟨⟨_, hwrong⟩, _⟩, hps⟩ := hrt
    simp only [serialize, bind_eq_ok, writeTagAndName_eq, write_int32, hn, hwrong,
      Bool.false_eq_true, if_false]
    obtain ⟨r1, hr1⟩ := serialize_properties_class_ok ps sf
      (storeBytes (if name.isSome = true then
            (storeBytes mem (so + idx) (headerBytes BSON_DATA_OBJECT name),
              idx + (headerBytes BSON_DATA_OBJECT name).length)
           else (mem, idx)).1
          (so + (if name.isSome = true then
            (storeBytes mem (so + idx) (headerBytes BSON_DATA_OBJECT name),
              idx + (headerBytes BSON_DATA_OBJECT name).length)
           else (mem, idx)).2) (leBytes 4 (n % 4294967296)))
      so ((if name.isSome = true then
            (storeBytes mem (so + idx) (headerBytes BSON_DATA_OBJECT name),
              idx + (headerBytes BSON_DATA_OBJECT name).length)
           else (mem, idx)).2 + 4) hps
    exact ⟨_, (), by simp; rfl, n, rfl, r1, hr1, rfl⟩
  | .Timestamp tl th, sf, mem, so, idx, name, _ => serialize_leaf_ok (.Timestamp tl th) rfl sf mem so idx name
  | .ObjectID o, sf, mem, so, idx, name, _ => serialize_leaf_ok (.ObjectID o) rfl sf mem so idx name
  | .Binary st d, sf, mem, so, idx, name, _ => serialize_leaf_ok (.Binary st d) rfl sf mem so idx name
  | .DBRef ns oid db, sf, mem, so, idx, name, hrt => by
    obtain ⟨_, _, _, n, hn⟩ := roundTrips_facts (.DBRef ns oid db) sf hrt
    simp only [roundTrips, Bool.and_eq_true] at hrt
    have f1 := (roundTrips_facts ns sf hrt.1.1).1
    have f2 := (roundTrips_facts oid sf hrt.1.2).1
    simp only [serialize, writeTagAndName_eq, write_int32, hn, f1, f2, Bool.not_false,
      Bool.true_or, if_true, Bool.and_false, Bool.false_eq_true, if_false, ok_bind]
    refine bind_ok_of ⟨(), rfl⟩ (fun _ _ => ?_)
    refine bind_ok_of (serialize_class_ok ns sf _ so _ _ hrt.1.1) (fun r1 _ => ?_)
    refine bind_ok_of (serialize_class_ok oid sf _ so _ _ hrt.1.2) (fun r2 _ => ?_)
    refine bind_ok_of (serialize_db_class_ok db sf _ so _ hrt.2) (fun r3 _ => ?_)
    exact ⟨_, rfl⟩
  | .Code code s, sf, mem, so, idx, name, hrt => by
    simp only [roundTrips, Bool.and_eq_true, decide_eq_true_eq] at hrt
    obtain ⟨_, _, _, n, hn⟩ := roundTrips_facts s sf hrt.2
    simp only [serialize, writeTagAndName_eq, write_int32, hn, Bool.and_false,
      Bool.false_eq_true, if_false, ok_bind]
    refine bind_ok_of ⟨(), rfl⟩ (fun _ _ => ?_)
    refine bind_ok_of (serialize_class_ok s sf _ _ 0 none hrt.2) (fun r1 _ => ?_)
    exact ⟨_, rfl⟩
  | .Double _, _, _, _, _, _, h => by simp [roundTrips] at h
  | .Undefined, _, _, _, _, _, h => by simp [roundTrips] at h
  | .Date t, sf, mem, so, idx, name, _ => serialize_leaf_ok (.Date t) rfl sf mem so idx name
  | .RegExp src fl, sf, mem, so, idx, name, _ => serialize_leaf_ok (.RegExp src fl) rfl sf mem so idx name
  | .Function _, _, _, _, _, _, h => by simp [roundTrips] at h
theorem serialize_db_class_ok : ∀ (db : Option Value) (sf : Bool) (mem : Memory)
    (so idx : Nat), roundTripsDb db = true →
    ∃ r, serialize_db mem so idx db sf = .ok r
  | none, sf, mem, so, idx, _ => ⟨_, rfl⟩
  | some v, sf, mem, so, idx, hrt => by
    simp only [roundTripsDb] at hrt
    have hf := (roundTrips_facts v sf hrt).1
    simp only [serialize_db, hf, Bool.not_false, Bool.true_or, if_true]
    exact serialize_class_ok v sf mem so idx (some "$db") hrt
theorem serialize_elements_class_ok : ∀ (es : List Value) (i : Nat) (sf : Bool) (mem : Memory)
    (so idx : Nat), roundTripsList es = true →
    ∃ r, serialize_elements mem so idx es i false sf = .ok r
  | [], i, sf, mem, so, idx, _ => ⟨_, rfl⟩
  | v :: rest, i, sf, mem, so, idx, hrt => by
    simp only [roundTripsList, Bool.and_eq_true] at hrt
    obtain ⟨r1, hr1⟩ := serialize_class_ok v sf mem so idx (some (toString i)) hrt.1
    obtain ⟨r2, hr2⟩ := serialize_elements_class_ok rest (i + 1) sf
      (store r1.1 (so + r1.2) 0) so r1.2 hrt.2
    simp only [serialize_elements, bind_eq_ok]
    exact ⟨r2, r1, hr1, hr2⟩
theorem serialize_properties_class_ok : ∀ (ps : List (String × Value)) (sf : Bool)
    (mem : Memory) (so idx : Nat), roundTripsProperties ps = true →
    ∃ r, serialize_properties mem so idx ps false sf = .ok r
  | [], sf, mem, so, idx, _ => ⟨_, rfl⟩
  | (k, v) :: rest, sf, mem, so, idx, hrt => by
    simp only [roundTripsProperties, Bool.and_eq_true] at hrt
    have hf := (roundTrips_facts v sf hrt.1).1
    obtain ⟨r1, hr1⟩ := serialize_class_ok v sf mem so idx (some k) hrt.1
    obtain ⟨r2, hr2⟩ := serialize_properties_class_ok rest sf r1.1 so r1.2 hrt.2
    simp only [serialize_properties, hf, Bool.not_false, Bool.true_or, if_true, bind_eq_ok]
    exact ⟨r2, r1, hr1, hr2⟩
end


/-- The bytes `BSONSerialize` returns for a plain document of the values that
decode to themselves. -/
theorem BSONSerialize_class (properties : List (String × Value)) (heap : Memory)
    (check_key sf : Bool)
    (hrt : roundTrips (.Object "Object" properties) = true)
    (hsize : objectSize (.Object "Object" properties) sf < 4294967296)
    (hkeys : check_key = true → hasInvalidName none (.Object "Object" properties) sf = false) :
    BSONSerialize heap (.Object "Object" properties) check_key sf
      = .ok (leBytes 4 (objectSize (.Object "Object" properties) sf)
              ++ (propertiesBytes properties sf ++ [0]))
    ∧ objectSize (.Object "Object" properties) sf = (propertiesBytes properties sf).length + 5 := by
  obtain ⟨n, hn, hlenE⟩ := class_length (.Object "Object" properties) sf none hrt
  have hos := objectSize_eq _ _ _ hn
  rw [hos] at hsize ⊢
  have htag : tagAndNameLength none (.Object "Object" properties) = 0 := by
    simp [tagAndNameLength, isDocument]
  rw [htag, Nat.zero_add] at hlenE
  have hE : elementBytes none (.Object "Object" properties) sf
      = leBytes 4 n ++ (propertiesBytes properties sf ++ [0]) := by
    simp only [elementBytes, hos, Option.isSome_none, Bool.false_eq_true, if_false,
      List.nil_append, Nat.mod_eq_of_lt hsize]
  have hnlen : n = (propertiesBytes properties sf).length + 5 := by
    have := congrArg List.length hE
    rw [hlenE] at this
    simp [leBytes_length] at this
    omega
  refine ⟨?_, hnlen⟩
  obtain ⟨r, hr⟩ := serialize_class_ok (.Object "Object" properties) sf heap 0 0 none hrt
  have hscope := (roundTrips_facts (.Object "Object" properties) sf hrt).2.2.1
  have hbytes := serialize_bytes _ sf heap 0 0 none false r hscope hr
  have hpad : paddingBytes none (.Object "Object" properties) sf
      (0 + (elementBytes none (.Object "Object" properties) sf).length) = [] := by
    simp only [paddingBytes, Option.isNone_none, isDocument, Bool.and_true, if_true, hos, hlenE,
      Nat.zero_add]
    have : uint32Sub n n = 0 := by unfold uint32Sub; omega
    rw [this]
    rfl
  rw [hpad, List.append_nil, hlenE, hE] at hbytes
  have hser : serialize heap 0 0 none (.Object "Object" properties) check_key sf = .ok r := by
    cases check_key with
    | false => exact hr
    | true =>
      exact ((serialize_keyChecked (.Object "Object" properties) sf heap 0 0 none) r hr).2
        (hkeys rfl)
  have hlt : ∀ b ∈ leBytes 4 n ++ (propertiesBytes properties sf ++ [0]), b < 256 := by
    simp only [roundTrips, Bool.and_eq_true] at hrt
    intro b hb
    simp only [List.mem_append, List.mem_singleton] at hb
    rcases hb with hb | hb | hb
    · exact leBytes_lt _ _ b hb
    · exact propertiesBytes_lt properties sf hrt.2 b hb
    · omega
  simp only [BSONSerialize, hn, ok_bind, hser, write_int32]
  rw [hbytes]
  simp only [Nat.zero_add, Nat.mod_eq_of_lt hsize]
  rw [storeBytes_overwrite heap 0 (leBytes 4 n) (leBytes 4 n) _ rfl]
  have hl : (leBytes 4 n ++ (propertiesBytes properties sf ++ [0])).length = n := by
    simp [leBytes_length]; omega
  have := loadBytes_storeBytes heap 0 (leBytes 4 n ++ (propertiesBytes properties sf ++ [0]))
  rw [hl, map_mod_eq_self _ hlt] at this
  rw [this]
  rfl

/-- Decoding the bytes of a plain document of the values that decode to
themselves gives the document, with any fuel from the number of bytes on. -/
theorem BSONDeserialize_class (properties : List (String × Value)) (sf : Bool) (n fuel : Nat)
    (hrt : roundTrips (.Object "Object" properties) = true)
    (hn : n = (propertiesBytes properties sf).length + 5) (hsize : n < 4294967296)
    (hfuel : n ≤ fuel) :
    BSONDeserialize fuel (leBytes 4 n ++ (propertiesBytes properties sf ++ [0]))
      = .ok (.Object "Object" properties) := by
  simp only [roundTrips, Bool.and_eq_true] at hrt
  obtain ⟨⟨_, hkeys⟩, hps⟩ := hrt
  have hkeys2 := hkeys
  simp only [keysRoundTrip, Bool.and_eq_true, decide_eq_true_eq, List.all_eq_true] at hkeys2
  obtain ⟨f, rfl⟩ : ∃ f, fuel = f + 1 := ⟨fuel - 1, by omega⟩
  unfold BSONDeserialize
  rw [deserialize_of_loop f _ false n _ rfl hsize]
  have := decode_properties properties sf f
    (leBytes 4 n ++ (propertiesBytes properties sf ++ [0])) n 4 [] ([] : List Value) []
    hps (fun p hp => hkeys2.1.1 p hp) (by simpa using hkeys2.1.2)
    (by
      have := drop_add_of_drop (leBytes 4 n ++ (propertiesBytes properties sf ++ [0])) 0
        (leBytes 4 n) _ rfl
      simpa [leBytes_length] using this)
    (by omega) hsize (by omega)
  rw [this, List.nil_append, finishObject_plain properties hkeys]

/-! ## Arrays of integers, strings and booleans -/

theorem doubleOfInt_bounds (i : Int) (h1 : -9007199254740992 ≤ i) (h2 : i ≤ 9007199254740992) :
    doubleOfInt i < 18446744073709551616 ∧ doubleOfInt i ≠ 9223372036854775808 := by
  by_cases h0 : i = 0
  · subst h0
    have hz : doubleOfInt 0 = 0 := by decide
    rw [hz]
    omega
  · obtain ⟨k, r, hk, hr, hform, _⟩ := doubleOfNat_form i.natAbs (by omega) (by omega)
    unfold doubleOfInt
    rw [hform]
    split <;> omega

theorem isInt32Integer_roundTrips (number : Nat) (h : isInt32Integer number = true) :
    numberRoundTrips number = true := by
  simp only [isInt32Integer, Bool.and_eq_true, decide_eq_true_eq, beq_iff_eq] at h
  obtain ⟨hr, he⟩ := h
  have := doubleOfInt_bounds (doubleTruncate number) (by omega) (by omega)
  rw [← he] at this
  simp only [numberRoundTrips, Bool.and_eq_true, decide_eq_true_eq, bne_iff_ne]
  exact this

theorem isInt32StringOrBoolean_roundTrips (v : Value) (h : isInt32StringOrBoolean v = true) :
    roundTrips v = true ∧ isLeaf v = true := by
  cases v <;> first
    | (simp [isInt32StringOrBoolean] at h; done)
    | exact ⟨isInt32Integer_roundTrips _ h, rfl⟩
    | exact ⟨h, rfl⟩

theorem check_key_toString (i : Nat) : check_key (toString i) = .ok () := by
  rw [check_key_ascii _ (fun c hc => by have := toString_isDigit i c hc; omega)]
  have hd : ∀ c ∈ (toString i).toList, c ≠ '$' ∧ c ≠ '.' := by
    intro c hc
    have := toString_isDigit i c hc
    constructor <;> (intro h; rw [h] at this; revert this; decide)
  rw [if_neg, if_neg]
  · intro hmem
    exact (hd _ hmem).2 rfl
  · intro hhead
    cases hl : (toString i).toList with
    | nil => rw [hl] at hhead; cases hhead
    | cons c cs =>
      rw [hl] at hhead
      simp only [List.head?_cons, Option.some.injEq] at hhead
      exact (hd c (by rw [hl]; exact List.mem_cons_self _ _)).1 hhead

theorem leaves_roundTripsList (elements : List Value)
    (h : ∀ e ∈ elements, isInt32StringOrBoolean e = true) : roundTripsList elements = true := by
  induction elements with
  | nil => rfl
  | cons e rest ih =>
    simp only [roundTripsList, Bool.and_eq_true]
    exact ⟨(isInt32StringOrBoolean_roundTrips e (h e (List.mem_cons_self _ _))).1,
      ih (fun x hx => h x (List.mem_cons_of_mem _ hx))⟩

theorem leaves_hasInvalidNameElements (elements : List Value) (i : Nat) (sf : Bool)
    (h : ∀ e ∈ elements, isInt32StringOrBoolean e = true) :
    hasInvalidNameElements elements i sf = false := by
  induction elements generalizing i with
  | nil => rfl
  | cons e rest ih =>
    have hleaf := (isInt32StringOrBoolean_roundTrips e (h e (List.mem_cons_self _ _))).2
    simp only [hasInvalidNameElements, Bool.or_eq_false_iff]
    refine ⟨?_, ih (i + 1) (fun x hx => h x (List.mem_cons_of_mem _ hx))⟩
    cases e <;> first
      | (simp [isLeaf] at hleaf; done)
      | simp [hasInvalidName, check_key_toString]

/-! ## Objects that carry the name of a wrapper class -/

theorem error_bind {ε α β : Type} (e : ε) (f : α → Except ε β) :
    (Except.error e >>= f) = .error e := rfl

theorem hasWrongClass_not_function (v : Value) (h : hasWrongClass v = true) :
    IsFunction v = false := by
  cases v <;> first | rfl | simp [hasWrongClass] at h

/-- The size of a property that is counted unless it is a function that is
not serialized, given the result for the property itself. -/
theorem optional_size_result (v : Value) (sf : Bool) (len : Nat)
    (ih : (hasWrongClass v = false ∧ ∃ n, calculate_object_size v sf = .ok n)
      ∨ (hasWrongClass v = true ∧ ∃ c, calculate_object_size v sf = .error (.wrongClass c))) :
    (hasWrongClass v = false
      ∧ ∃ n, (if (!IsFunction v || (IsFunction v && sf)) = true then
          calculate_object_size v sf >>= fun s => pure (s + len + 1 + 1)
        else pure 0) = .ok n)
    ∨ (hasWrongClass v = true
      ∧ ∃ c, (if (!IsFunction v || (IsFunction v && sf)) = true then
          calculate_object_size v sf >>= fun s => pure (s + len + 1 + 1)
        else pure 0) = .error (.wrongClass c)) := by
  rcases ih with ⟨h, n, e⟩ | ⟨h, c, e⟩
  · left
    refine ⟨h, ?_⟩
    split
    · rw [e]; exact ⟨_, rfl⟩
    · exact ⟨_, rfl⟩
  · right
    refine ⟨h, c, ?_⟩
    have hf := hasWrongClass_not_function v h
    rw [if_pos (by simp [hf]), e]
    rfl

mutual
theorem size_result : ∀ (v : Value) (sf : Bool),
    (hasWrongClass v = false ∧ ∃ n, calculate_object_size v sf = .ok n)
    ∨ (hasWrongClass v = true ∧ ∃ c, calculate_object_size v sf = .error (.wrongClass c))
  | .Long _ _, sf => Or.inl ⟨rfl, _, rfl⟩
  | .Timestamp _ _, sf => Or.inl ⟨rfl, _, rfl⟩
  | .ObjectID _, sf => Or.inl ⟨rfl, _, rfl⟩
  | .Binary _ _, sf => Or.inl ⟨rfl, _, rfl⟩
  | .Code code s, sf => by
    rcases size_result s sf with ⟨h, n, e⟩ | ⟨h, c, e⟩
    · left
      refine ⟨by simpa [hasWrongClass] using h, ?_⟩
      simp only [calculate_object_size, e, ok_bind]
      exact ⟨_, rfl⟩
    · right
      refine ⟨by simpa [hasWrongClass] using h, c, ?_⟩
      simp only [calculate_object_size, e, error_bind]
  | .DBRef ns oid db, sf => by
    have r1 := optional_size_result ns sf (Utf8Length "$ref") (size_result ns sf)
    have r2 := optional_size_result oid sf (Utf8Length "$id") (size_result oid sf)
    have r3 := db_size_result db sf
    simp only [calculate_object_size, hasWrongClass]
    rcases r1 with ⟨h1, n1, e1⟩ | ⟨h1, c1, e1⟩
    · rcases r2 with ⟨h2, n2, e2⟩ | ⟨h2, c2, e2⟩
      · rcases r3 with ⟨h3, n3, e3⟩ | ⟨h3, c3, e3⟩
        · left
          rw [e1, e2, e3, h1, h2, h3]
          exact ⟨rfl, _, rfl⟩
        · right
          rw [e1, e2, e3, h1, h2, h3]
          exact ⟨rfl, _, rfl⟩
      · right
        rw [e1, e2, h1, h2]
        exact ⟨rfl, _, rfl⟩
    · right
      rw [e1, h1]
      exact ⟨rfl, _, rfl⟩
  | .Double _, sf => Or.inl ⟨rfl, _, rfl⟩
  | .Symbol _, sf => Or.inl ⟨rfl, _, rfl⟩
  | .String _, sf => Or.inl ⟨rfl, _, rfl⟩
  | .MinKey, sf => Or.inl ⟨rfl, _, rfl⟩
  | .MaxKey, sf => Or.inl ⟨rfl, _, rfl⟩
  | .Null, sf => Or.inl ⟨rfl, _, rfl⟩
  | .Undefined, sf => Or.inl ⟨rfl, _, rfl⟩
  | .Number number, sf => by
    left
    refine ⟨rfl, ?_⟩
    simp only [calculate_object_size]
    split
    · exact ⟨_, rfl⟩
    · split <;> exact ⟨_, rfl⟩
  | .Boolean _, sf => Or.inl ⟨rfl, _, rfl⟩
  | .Date _, sf => Or.inl ⟨rfl, _, rfl⟩
  | .RegExp _ _, sf => Or.inl ⟨rfl, _, rfl⟩
  | .Array es, sf => by
    rcases array_size_result es 0 sf with ⟨h, n, e⟩ | ⟨h, c, e⟩
    · left
      refine ⟨by simpa [hasWrongClass] using h, ?_⟩
      simp only [calculate_object_size, e, ok_bind]
      exact ⟨_, rfl⟩
    · right
      refine ⟨by simpa [hasWrongClass] using h, c, ?_⟩
      simp only [calculate_object_size, e, error_bind]
  | .Function _, sf => by
    left
    refine ⟨rfl, ?_⟩
    simp only [calculate_object_size]
    split <;> exact ⟨_, rfl⟩
  | .Object c ps, sf => by
    by_cases hw : isWrongClass c ps = true
    · right
      refine ⟨by simp [hasWrongClass, hw], c, ?_⟩
      simp only [calculate_object_size, hw, if_true]
      rfl
    · have hw2 : isWrongClass c ps = false := by simpa using hw
      rcases properties_size_result ps sf with ⟨h, n, e⟩ | ⟨h, c2, e⟩
      · left
        refine ⟨by simp [hasWrongClass, hw2, h], ?_⟩
        simp only [calculate_object_size, hw2, Bool.false_eq_true, if_false, e, ok_bind]
        exact ⟨_, rfl⟩
      · right
        refine ⟨by simp [hasWrongClass, h], c2, ?_⟩
        simp only [calculate_object_size, hw2, Bool.false_eq_true, if_false, e, error_bind]
theorem db_size_result : ∀ (db : Option Value) (sf : Bool),
    (hasWrongClassDb db = false ∧ ∃ n, calculate_db_size db sf = .ok n)
    ∨ (hasWrongClassDb db = true ∧ ∃ c, calculate_db_size db sf = .error (.wrongClass c))
  | none, sf => Or.inl ⟨rfl, _, rfl⟩
  | some v, sf => by
    have r := optional_size_result v sf (Utf8Length "$db") (size_result v sf)
    simp only [calculate_db_size, hasWrongClassDb]
    exact r
theorem array_size_result : ∀ (es : List Value) (i : Nat) (sf : Bool),
    (hasWrongClassList es = false ∧ ∃ n, calculate_array_size es i sf = .ok n)
    ∨ (hasWrongClassList es = true ∧ ∃ c, calculate_array_size es i sf = .error (.wrongClass c))
  | [], i, sf => Or.inl ⟨rfl, _, rfl⟩
  | v :: rest, i, sf => by
    simp only [calculate_array_size, hasWrongClassList]
    rcases size_result v sf with ⟨h1, n1, e1⟩ | ⟨h1, c1, e1⟩
    · rcases array_size_result rest (i + 1) sf with ⟨h2, n2, e2⟩ | ⟨h2, c2, e2⟩
      · left
        rw [e1, e2, h1, h2]
        exact ⟨rfl, _, rfl⟩
      · right
        rw [e1, e2, h1, h2]
        exact ⟨rfl, _, rfl⟩
    · right
      rw [e1, h1]
      exact ⟨rfl, _, rfl⟩
theorem properties_size_result : ∀ (ps : List (String × Value)) (sf : Bool),
    (hasWrongClassProperties ps = false ∧ ∃ n, calculate_properties_size ps sf = .ok n)
    ∨ (hasWrongClassProperties ps = true
      ∧ ∃ c, calculate_properties_size ps sf = .error (.wrongClass c))
  | [], sf => Or.inl ⟨rfl, _, rfl⟩
  | (k, v) :: rest, sf => by
    simp only [calculate_properties_size, hasWrongClassProperties]
    rcases size_result v sf with ⟨h1, n1, e1⟩ | ⟨h1, c1, e1⟩
    · rw [h1, Bool.false_or]
      rcases properties_size_result rest sf with ⟨h2, n2, e2⟩ | ⟨h2, c2, e2⟩
      · left
        refine ⟨h2, ?_⟩
        split
        · rw [e1, e2]; exact ⟨_, rfl⟩
        · exact ⟨_, e2⟩
      · right
        refine ⟨h2, c2, ?_⟩
        split
        · rw [e1, e2]; rfl
        · exact e2
    · right
      have hf := hasWrongClass_not_function v h1
      rw [h1, if_pos (by simp [hf]), e1]
      exact ⟨rfl, _, rfl⟩
end

theorem optional_ok {α : Type} (c : Prop) [Decidable c] (x : Except EncodeError α) (a : α)
    (h : ∃ r, x = .ok r) : ∃ r, (if c then x else pure a) = .ok r := by
  split
  · exact h
  · exact ⟨a, rfl⟩

mutual
theorem serialize_ok_of_size : ∀ (v : Value) (sf : Bool) (mem : Memory) (so idx : Nat)
    (name : Option String), hasWrongClass v = false →
    ∃ r, serialize mem so idx name v false sf = .ok r
  | .Long l h, sf, mem, so, idx, name, _ => serialize_leaf_ok (.Long l h) rfl sf mem so idx name
  | .Timestamp l h, sf, mem, so, idx, name, _ =>
    serialize_leaf_ok (.Timestamp l h) rfl sf mem so idx name
  | .ObjectID o, sf, mem, so, idx, name, _ => serialize_leaf_ok (.ObjectID o) rfl sf mem so idx name
  | .Binary t d, sf, mem, so, idx, name, _ => serialize_leaf_ok (.Binary t d) rfl sf mem so idx name
  | .Double d, sf, mem, so, idx, name, _ => serialize_leaf_ok (.Double d) rfl sf mem so idx name
  | .Symbol s, sf, mem, so, idx, name, _ => serialize_leaf_ok (.Symbol s) rfl sf mem so idx name
  | .String s, sf, mem, so, idx, name, _ => serialize_leaf_ok (.String s) rfl sf mem so idx name
  | .MinKey, sf, mem, so, idx, name, _ => serialize_leaf_ok .MinKey rfl sf mem so idx name
  | .MaxKey, sf, mem, so, idx, name, _ => serialize_leaf_ok .MaxKey rfl sf mem so idx name
  | .Null, sf, mem, so, idx, name, _ => serialize_leaf_ok .Null rfl sf mem so idx name
  | .Undefined, sf, mem, so, idx, name, _ => serialize_leaf_ok .Undefined rfl sf mem so idx name
  | .Number n, sf, mem, so, idx, name, _ => serialize_leaf_ok (.Number n) rfl sf mem so idx name
  | .Boolean b, sf, mem, so, idx, name, _ => serialize_leaf_ok (.Boolean b) rfl sf mem so idx name
  | .Date t, sf, mem, so, idx, name, _ => serialize_leaf_ok (.Date t) rfl sf mem so idx name
  | .RegExp s f, sf, mem, so, idx, name, _ => serialize_leaf_ok (.RegExp s f) rfl sf mem so idx name
  | .Function s, sf, mem, so, idx, name, _ => serialize_leaf_ok (.Function s) rfl sf mem so idx name
  | .Array es, sf, mem, so, idx, name, hw => by
    have hn : ∃ n, calculate_object_size (.Array es) sf = .ok n := by
      rcases size_result (.Array es) sf with ⟨_, h⟩ | ⟨h, _⟩
      · exact h
      · rw [hw] at h; cases h
    obtain ⟨n, hn⟩ := hn
    simp only [hasWrongClass] at hw
    simp only [serialize, writeTagAndName_eq, write_int32, hn, Bool.and_false,
      Bool.false_eq_true, if_false, ok_bind]
    refine bind_ok_of ⟨(), rfl⟩ (fun _ _ => ?_)
    refine bind_ok_of (serialize_elements_ok_of_size es 0 sf _ so _ hw) (fun r1 _ => ?_)
    exact ⟨_, rfl⟩
  | .Object c ps, sf, mem, so, idx, name, hw => by
    have hn : ∃ n, calculate_object_size (.Object c ps) sf = .ok n := by
      rcases size_result (.Object c ps) sf with ⟨_, h⟩ | ⟨h, _⟩
      · exact h
      · rw [hw] at h; cases h
    obtain ⟨n, hn⟩ := hn
    simp only [hasWrongClass, Bool.or_eq_false_iff] at hw
    simp only [serialize, writeTagAndName_eq, write_int32, hn, hw.1, Bool.and_false,
      Bool.false_eq_true, if_false, ok_bind]
    refine bind_ok_of ⟨(), rfl⟩ (fun _ _ => ?_)
    refine bind_ok_of (serialize_properties_ok_of_size ps sf _ so _ hw.2) (fun r1 _ => ?_)
    exact ⟨_, rfl⟩
  | .DBRef ns oid db, sf, mem, so, idx, name, hw => by
    have hn : ∃ n, calculate_object_size (.DBRef ns oid db) sf = .ok n := by
      rcases size_result (.DBRef ns oid db) sf with ⟨_, h⟩ | ⟨h, _⟩
      · exact h
      · rw [hw] at h; cases h
    obtain ⟨n, hn⟩ := hn
    simp only [hasWrongClass, Bool.or_eq_false_iff] at hw
    simp only [serialize, writeTagAndName_eq, write_int32, hn, Bool.and_false,
      Bool.false_eq_true, if_false, ok_bind]
    refine bind_ok_of ⟨(), rfl⟩ (fun _ _ => ?_)
    refine bind_ok_of (optional_ok _ _ _ (serialize_ok_of_size ns sf _ so _ _ hw.1.1))
      (fun r1 _ => ?_)
    refine bind_ok_of (optional_ok _ _ _ (serialize_ok_of_size oid sf _ so _ _ hw.1.2))
      (fun r2 _ => ?_)
    refine bind_ok_of (serialize_db_ok_of_size db sf _ so _ hw.2) (fun r3 _ => ?_)
    exact ⟨_, rfl⟩
  | .Code code s, sf, mem, so, idx, name, hw => by
    simp only [hasWrongClass] at hw
    have hn : ∃ n, calculate_object_size s sf = .ok n := by
      rcases size_result s sf with ⟨_, h⟩ | ⟨h, _⟩
      · exact h
      · rw [hw] at h; cases h
    obtain ⟨n, hn⟩ := hn
    simp only [serialize, writeTagAndName_eq, write_int32, hn, Bool.and_false,
      Bool.false_eq_true, if_false, ok_bind]
    refine bind_ok_of ⟨(), rfl⟩ (fun _ _ => ?_)
    refine bind_ok_of (serialize_ok_of_size s sf _ _ 0 none hw) (fun r1 _ => ?_)
    exact ⟨_, rfl⟩
theorem serialize_db_ok_of_size : ∀ (db : Option Value) (sf : Bool) (mem : Memory)
    (so idx : Nat), hasWrongClassDb db = false →
    ∃ r, serialize_db mem so idx db sf = .ok r
  | none, sf, mem, so, idx, _ => ⟨_, rfl⟩
  | some v, sf, mem, so, idx, hw => by
    simp only [hasWrongClassDb] at hw
    simp only [serialize_db]
    exact optional_ok _ _ _ (serialize_ok_of_size v sf mem so idx (some "$db") hw)
theorem serialize_elements_ok_of_size : ∀ (es : List Value) (i : Nat) (sf : Bool)
    (mem : Memory) (so idx : Nat), hasWrongClassList es = false →
    ∃ r, serialize_elements mem so idx es i false sf = .ok r
  | [], i, sf, mem, so, idx, _ => ⟨_, rfl⟩
  | v :: rest, i, sf, mem, so, idx, hw => by
    simp only [hasWrongClassList, Bool.or_eq_false_iff] at hw
    obtain ⟨r1, hr1⟩ := serialize_ok_of_size v sf mem so idx (some (toString i)) hw.1
    obtain ⟨r2, hr2⟩ := serialize_elements_ok_of_size rest (i + 1) sf
      (store r1.1 (so + r1.2) 0) so r1.2 hw.2
    simp only [serialize_elements, bind_eq_ok]
    exact ⟨r2, r1, hr1, hr2⟩
theorem serialize_properties_ok_of_size : ∀ (ps : List (String × Value)) (sf : Bool)
    (mem : Memory) (so idx : Nat), hasWrongClassProperties ps = false →
    ∃ r, serialize_properties mem so idx ps false sf = .ok r
  | [], sf, mem, so, idx, _ => ⟨_, rfl⟩
  | (k, v) :: rest, sf, mem, so, idx, hw => by
    simp only [hasWrongClassProperties, Bool.or_eq_false_iff] at hw
    simp only [serialize_properties]
    split
    · refine bind_ok_of (serialize_ok_of_size v sf mem so idx (some k) hw.1) (fun r1 _ => ?_)
      exact serialize_properties_ok_of_size rest sf r1.1 so r1.2 hw.2
    · exact serialize_properties_ok_of_size rest sf mem so idx hw.2
end

/-- A failure of the estimate is the failure of `serialize` once the name has
passed the key validator: the branches of a document, an array, a `DBRef` and
a `Code` compute the estimate before any nested call. -/
theorem serialize_error_of_size (v : Value) (sf : Bool) (e : EncodeError)
    (h : calculate_object_size v sf = .error e) (mem : Memory) (so idx : Nat)
    (name : Option String) (ck : Bool)
    (hname : ∀ key, name = some key → ck = true → check_key key = .ok ()) :
    serialize mem so idx name v ck sf = .error e := by
  have hcheck : (if (name.isSome && ck) = true then check_key (nameString name) else pure ())
      = .ok () := by
    cases name with
    | none => rfl
    | some key =>
      cases ck with
      | false => rfl
      | true => simpa [nameString] using hname key rfl rfl
  rcases size_result v sf with ⟨_, n, hn⟩ | ⟨hw, _⟩
  · rw [hn] at h; cases h
  · cases v with
    | Object c ps =>
      by_cases hc : isWrongClass c ps = true
      · simp only [calculate_object_size, hc, if_true] at h
        simp only [serialize, hcheck, ok_bind, hc, if_true]
        cases h
        rfl
      · simp only [serialize, hcheck, ok_bind, hc, Bool.false_eq_true, if_false, h, error_bind]
    | Array es => simp only [serialize, hcheck, ok_bind, h, error_bind]
    | DBRef ns oid db => simp only [serialize, hcheck, ok_bind, h, error_bind]
    | Code code s =>
      have hs : calculate_object_size s sf = .error e := by
        simp only [calculate_object_size] at h
        rcases (bind_eq_error _ _ _).mp h with h1 | ⟨a, _, h2⟩
        · exact h1
        · cases h2
      simp only [serialize, hcheck, ok_bind, hs, error_bind]
    | _ => simp [hasWrongClass] at hw

theorem size_error_kind (v : Value) (sf : Bool) (e : EncodeError)
    (h : calculate_object_size v sf = .error e) : e.isReservedTypeMismatch = true := by
  rcases size_result v sf with ⟨_, n, hn⟩ | ⟨_, c, hc⟩
  · rw [hn] at h; cases h
  · rw [hc] at h; cases h; rfl

theorem BSONSerialize_error_of_size (v : Value) (sf : Bool) (e : EncodeError)
    (h : calculate_object_size v sf = .error e) (heap : Memory) (ck : Bool) :
    BSONSerialize heap v ck sf = .error e := by
  simp only [BSONSerialize, h, error_bind]

/-- The estimate of an object whose properties decode to themselves is the
number of bytes of its properties plus five. -/
theorem object_facts (c : String) (ps : List (String × Value)) (sf : Bool)
    (hps : roundTripsProperties ps = true) (hw : isWrongClass c ps = false) :
    calculate_object_size (.Object c ps) sf = .ok ((propertiesBytes ps sf).length + 5)
    ∧ scopesAreDocumentsProperties ps sf = true := by
  obtain ⟨h1, h2, n, hn⟩ := roundTripsProperties_facts ps sf hps
  have hlen := (propertiesBytes_length ps sf n hn h2).2 (Or.inr h1)
  refine ⟨?_, h2⟩
  simp only [calculate_object_size, hw, Bool.false_eq_true, if_false, hn, ok_bind, hlen]
  rfl

theorem object_elementBytes (c : String) (ps : List (String × Value)) (sf : Bool)
    (name : Option String)
    (hn : calculate_object_size (.Object c ps) sf = .ok ((propertiesBytes ps sf).length + 5))
    (hsize : (propertiesBytes ps sf).length + 5 < 4294967296) :
    elementBytes name (.Object c ps) sf
      = (if name.isSome then headerBytes BSON_DATA_OBJECT name else [])
          ++ (leBytes 4 ((propertiesBytes ps sf).length + 5) ++ (propertiesBytes ps sf ++ [0])) := by
  have hos := objectSize_eq _ _ _ hn
  simp only [elementBytes, hos, Nat.mod_eq_of_lt hsize]

/-- The bytes `BSONSerialize` returns, without key validation, for an object
whose estimate is the number of bytes of its properties plus five. -/
theorem BSONSerialize_object (c : String) (ps : List (String × Value)) (heap : Memory)
    (sf : Bool)
    (hn : calculate_object_size (.Object c ps) sf = .ok ((propertiesBytes ps sf).length + 5))
    (hscopes : scopesAreDocumentsProperties ps sf = true)
    (hsize : (propertiesBytes ps sf).length + 5 < 4294967296)
    (hlt : ∀ b ∈ propertiesBytes ps sf, b < 256) :
    BSONSerialize heap (.Object c ps) false sf
      = .ok (leBytes 4 ((propertiesBytes ps sf).length + 5) ++ (propertiesBytes ps sf ++ [0])) := by
  have hos := objectSize_eq _ _ _ hn
  have hE := object_elementBytes c ps sf none hn hsize
  simp only [Option.isSome_none, Bool.false_eq_true, if_false, List.nil_append] at hE
  have hlenE : (elementBytes none (.Object c ps) sf).length = (propertiesBytes ps sf).length + 5 := by
    rw [hE]; simp [leBytes_length]; omega
  have hw : hasWrongClass (.Object c ps) = false := by
    rcases size_result (.Object c ps) sf with ⟨h, _⟩ | ⟨_, c2, hc⟩
    · exact h
    · rw [hc] at hn; cases hn
  obtain ⟨r, hr⟩ := serialize_ok_of_size (.Object c ps) sf heap 0 0 none hw
  have hbytes := serialize_bytes _ sf heap 0 0 none false r
    (by simpa [scopesAreDocuments] using hscopes) hr
  have hpad : paddingBytes none (.Object c ps) sf
      (0 + (elementBytes none (.Object c ps) sf).length) = [] := by
    simp only [paddingBytes, Option.isNone_none, isDocument, Bool.and_true, if_true, hos, hlenE,
      Nat.zero_add]
    have : uint32Sub ((propertiesBytes ps sf).length + 5) ((propertiesBytes ps sf).length + 5)
        = 0 := by unfold uint32Sub; omega
    rw [this]
    rfl
  rw [hpad, List.append_nil, hlenE, hE] at hbytes
  have hlt2 : ∀ b ∈ leBytes 4 ((propertiesBytes ps sf).length + 5)
      ++ (propertiesBytes ps sf ++ [0]), b < 256 := by
    intro b hb
    simp only [List.mem_append, List.mem_singleton] at hb
    rcases hb with hb | hb | hb
    · exact leBytes_lt _ _ b hb
    · exact hlt b hb
    · omega
  simp only [BSONSerialize, hn, ok_bind, hr, write_int32]
  rw [hbytes]
  simp only [Nat.zero_add, Nat.mod_eq_of_lt hsize]
  rw [storeBytes_overwrite heap 0 (leBytes 4 ((propertiesBytes ps sf).length + 5))
    (leBytes 4 ((propertiesBytes ps sf).length + 5)) _ rfl]
  have hl : (leBytes 4 ((propertiesBytes ps sf).length + 5)
      ++ (propertiesBytes ps sf ++ [0])).length = (propertiesBytes ps sf).length + 5 := by
    simp [leBytes_length]; omega
  have := loadBytes_storeBytes heap 0
    (leBytes 4 ((propertiesBytes ps sf).length + 5) ++ (propertiesBytes ps sf ++ [0]))
  rw [hl, map_mod_eq_self _ hlt2] at this
  rw [this]
  rfl

/-- Decoding the bytes of a document whose values decode to themselves gives
what the loop makes of its properties: a `DBRef` when `$ref` and `$id` are
among the names, the plain object otherwise. -/
theorem deserialize_properties (ps : List (String × Value)) (sf : Bool) (fuel : Nat)
    (tail : List Nat)
    (hps : roundTripsProperties ps = true) (hnul : ∀ p ∈ ps, hasNoNul p.1 = true)
    (hnodup : (ps.map Prod.fst).Nodup)
    (hsize : (propertiesBytes ps sf).length + 5 < 4294967296)
    (hfuel : (propertiesBytes ps sf).length + 5 ≤ fuel) :
    deserialize fuel
      (leBytes 4 ((propertiesBytes ps sf).length + 5) ++ (propertiesBytes ps sf ++ 0 :: tail))
      false = .ok (finishObject ps) := by
  obtain ⟨f, rfl⟩ : ∃ f, fuel = f + 1 := ⟨fuel - 1, by omega⟩
  rw [deserialize_of_loop f _ false _ _ rfl hsize]
  have := decode_properties ps sf f
    (leBytes 4 ((propertiesBytes ps sf).length + 5) ++ (propertiesBytes ps sf ++ 0 :: tail))
    ((propertiesBytes ps sf).length + 5) 4 [] ([] : List Value) tail
    hps hnul (by rw [List.nil_append]; exact hnodup)
    (by
      have := drop_add_of_drop
        (leBytes 4 ((propertiesBytes ps sf).length + 5) ++ (propertiesBytes ps sf ++ 0 :: tail)) 0
        (leBytes 4 ((propertiesBytes ps sf).length + 5)) _ rfl
      simpa [leBytes_length] using this)
    (by omega) hsize (by omega)
  rw [this, List.nil_append]

theorem finishObject_reference (ps : List (String × Value)) (href : objectHas ps "$ref" = true)
    (hid : objectHas ps "$id" = true) :
    finishObject ps = .DBRef (objectGet ps "$ref") (objectGet ps "$id")
      (if objectHas ps "$db" = true then some (objectGet ps "$db") else none) := by
  simp only [finishObject, href, hid, Bool.and_self, if_true, decodeDBref]

theorem finishObject_single (key : String) (v : Value) :
    finishObject [(key, v)] = .Object "Object" [(key, v)] := by
  have : (objectHas [(key, v)] "$ref" && objectHas [(key, v)] "$id") = false := by
    simp only [objectHas, List.any_cons, List.any_nil, Bool.or_false]
    by_cases h : key = "$ref"
    · subst h; decide
    · simp [h]
  simp only [finishObject, this, Bool.false_eq_true, if_false]

/-- Encoding a document whose values decode to themselves and decoding the
bytes gives what the loop of `deserialize` makes of its properties. -/
theorem reference_at_root (ps : List (String × Value)) (heap : Memory) (sf : Bool)
    (hps : roundTripsProperties ps = true) (hnul : ∀ p ∈ ps, hasNoNul p.1 = true)
    (hnodup : (ps.map Prod.fst).Nodup) (hw : isWrongClass "Object" ps = false)
    (hsize : (propertiesBytes ps sf).length + 5 < 4294967296) :
    ∃ bytes, BSONSerialize heap (.Object "Object" ps) false sf = .ok bytes
      ∧ ∀ fuel, bytes.length ≤ fuel → BSONDeserialize fuel bytes = .ok (finishObject ps) := by
  obtain ⟨hn, hscopes⟩ := object_facts "Object" ps sf hps hw
  refine ⟨_, BSONSerialize_object "Object" ps heap sf hn hscopes hsize
    (propertiesBytes_lt ps sf hps), ?_⟩
  intro fuel hfuel
  have hl : (leBytes 4 ((propertiesBytes ps sf).length + 5)
      ++ (propertiesBytes ps sf ++ [0])).length = (propertiesBytes ps sf).length + 5 := by
    simp [leBytes_length]; omega
  rw [hl] at hfuel
  exact deserialize_properties ps sf fuel [] hps hnul hnodup hsize hfuel

theorem strchr_zero_found (bytes : List Nat) : strchr bytes 0 ≠ some none := by
  induction bytes with
  | nil => simp [strchr]
  | cons b bs ih =>
    simp only [strchr]
    split
    · simp
    · cases hs : strchr bs 0 with
      | none => simp
      | some r =>
        cases r with
        | none => exact absurd hs ih
        | some k => simp

theorem strchr_zero_none (bytes : List Nat) (h : ∀ b ∈ bytes, b % 256 ≠ 0) :
    strchr bytes 0 = none := by
  induction bytes with
  | nil => rfl
  | cons b bs ih =>
    have hb := h b (List.mem_cons_self _ _)
    simp only [strchr]
    rw [if_neg hb, if_neg hb, ih (fun c hc => h c (List.mem_cons_of_mem _ hc))]
    rfl

theorem extract_string_ne_none (data : List Nat) (offset : Nat) :
    extract_string data offset ≠ .ok none := by
  unfold extract_string
  have := strchr_zero_found (data.drop offset)
  split
  · intro h; cases h
  · rename_i h; exact absurd h this
  · intro h; cases h

theorem noCString_pure {α : Type} (a : α) : NoCStringFailure (pure a : Except DecodeError α) := by
  intro h; cases h

theorem noCString_ok {α : Type} (a : α) : NoCStringFailure (.ok a : Except DecodeError α) := by
  intro h; cases h

theorem noCString_bounds {α : Type} :
    NoCStringFailure (throw DecodeError.readOutOfBounds : Except DecodeError α) := by
  intro h; cases h

theorem noCString_fuel {α : Type} :
    NoCStringFailure (throw DecodeError.outOfFuel : Except DecodeError α) := by
  intro h; cases h

theorem noCString_bind {α β : Type} (x : Except DecodeError α) (f : α → Except DecodeError β)
    (hx : NoCStringFailure x) (hf : ∀ a, x = .ok a → NoCStringFailure (f a)) :
    NoCStringFailure (x >>= f) := by
  cases x with
  | error e =>
    intro h
    apply hx
    cases h
    rfl
  | ok a => exact hf a rfl

theorem noCString_ite {α : Type} (c : Prop) [Decidable c] (x y : Except DecodeError α)
    (hx : NoCStringFailure x) (hy : NoCStringFailure y) : NoCStringFailure (if c then x else y) := by
  split
  · exact hx
  · exact hy

theorem noCString_readBytes (data : List Nat) (offset count : Nat) :
    NoCStringFailure (readBytes data offset count) := by
  unfold readBytes
  exact noCString_ite _ _ _ (noCString_pure _) noCString_bounds

theorem noCString_int32 (data : List Nat) (offset : Nat) :
    NoCStringFailure (deserialize_int32 data offset) := by
  unfold deserialize_int32
  exact noCString_bind _ _ (noCString_readBytes _ _ _) (fun _ _ => noCString_pure _)

theorem noCString_int8 (data : List Nat) (offset : Nat) :
    NoCStringFailure (deserialize_int8 data offset) := by
  unfold deserialize_int8
  exact noCString_bind _ _ (noCString_readBytes _ _ _) (fun _ _ => noCString_pure _)

theorem noCString_stringValue (data : List Nat) (index string_size : Nat) :
    NoCStringFailure (decodeStringValue data index string_size) := by
  unfold decodeStringValue
  split
  · exact noCString_bounds
  · exact noCString_ite _ _ _ (noCString_pure _) noCString_bounds

theorem noCString_decodeLong (data : List Nat) (index : Nat) :
    NoCStringFailure (decodeLong data index) := by
  unfold decodeLong
  refine noCString_bind _ _ (noCString_readBytes _ _ _) (fun _ _ => ?_)
  refine noCString_bind _ _ (noCString_readBytes _ _ _) (fun _ _ => ?_)
  refine noCString_ite _ _ _ ?_ (noCString_pure _)
  exact noCString_bind _ _ (noCString_readBytes _ _ _) (fun _ _ => noCString_pure _)

theorem noCString_scalar (type : Nat) (data : List Nat) (index : Nat) :
    NoCStringFailure (deserialize_scalar type data index) := by
  unfold deserialize_scalar
  repeat' first
    | exact noCString_pure _
    | exact noCString_bounds
    | exact noCString_readBytes _ _ _
    | exact noCString_int32 _ _
    | exact noCString_stringValue _ _ _
    | exact noCString_decodeLong _ _
    | refine noCString_ite _ _ _ ?_ ?_
    | refine noCString_bind _ _ ?_ (fun _ _ => ?_)
    | split
    | (dsimp only; split)

theorem noCString_deserialize : ∀ (fuel : Nat),
    (∀ (data : List Nat) (isArr : Bool), NoCStringFailure (deserialize fuel data isArr))
    ∧ (∀ (data : List Nat) (isArr : Bool) (size index : Nat) (acc : List (String × Value))
        (arr : List Value), NoCStringFailure (deserialize_loop fuel data isArr size index acc arr))
  | 0 => by
    constructor
    · intro data isArr
      rw [deserialize]
      exact noCString_fuel
    · intro data isArr size index acc arr
      rw [deserialize_loop]
      exact noCString_fuel
  | fuel + 1 => by
    obtain ⟨ih1, ih2⟩ := noCString_deserialize fuel
    constructor
    · intro data isArr
      rw [deserialize]
      exact noCString_bind _ _ (noCString_int32 _ _) (fun _ _ => ih2 _ _ _ _ _ _)
    · intro data isArr size index acc arr
      rw [deserialize_loop]
      split
      · refine noCString_bind _ _ (noCString_int8 _ _) (fun type _ => ?_)
        dsimp only
        split
        · refine noCString_bind _ _ ?_ (fun name hname => ?_)
          · intro h
            unfold extract_string at h
            split at h <;> cases h
          · cases name with
            | none => exact absurd hname (extract_string_ne_none _ _)
            | some string_name =>
              dsimp only
              refine noCString_bind _ _ ?_ (fun r _ => ?_)
              · refine noCString_ite _ _ _ ?_ (noCString_ite _ _ _ ?_
                  (noCString_ite _ _ _ ?_ (noCString_scalar _ _ _)))
                · refine noCString_bind _ _ (noCString_int32 _ _) (fun _ _ => ?_)
                  dsimp only
                  refine noCString_bind _ _ (noCString_int32 _ _) (fun _ _ => ?_)
                  dsimp only
                  refine noCString_bind _ _ (noCString_readBytes _ _ _) (fun _ _ => ?_)
                  dsimp only
                  refine noCString_bind _ _ (noCString_readBytes _ _ _) (fun _ _ => ?_)
                  dsimp only
                  refine noCString_bind _ _ (ih1 _ _) (fun _ _ => ?_)
                  exact noCString_ite _ _ _ (noCString_pure _) noCString_bounds
                · refine noCString_bind _ _ (noCString_int32 _ _) (fun _ _ => ?_)
                  refine noCString_bind _ _ (ih1 _ _) (fun _ _ => ?_)
                  exact noCString_pure _
                · refine noCString_bind _ _ (noCString_int32 _ _) (fun _ _ => ?_)
                  refine noCString_bind _ _ (ih1 _ _) (fun _ _ => ?_)
                  exact noCString_pure _
              · obtain ⟨value, index2⟩ := r
                dsimp only
                split
                · exact ih2 _ _ _ _ _ _
                · exact ih2 _ _ _ _ _ _
        · exact ih2 _ _ _ _ _ _
      · split
        · exact noCString_pure _
        · split
          · exact noCString_pure _
          · exact noCString_pure _

/-- The scan for the terminator of the name of the first element leaves the
region when no byte after the tag is NUL. -/
theorem unterminated_name (size tag : Nat) (rest : List Nat) (fuel : Nat)
    (hsize : size < 4294967296) (hlt : 4 < size) (htag : isElementType tag = true)
    (ht : tag < 256) (hrest : ∀ b ∈ rest, b % 256 ≠ 0) :
    BSONDeserialize (fuel + 2) (leBytes 4 size ++ tag :: rest) = .error .readOutOfBounds := by
  unfold BSONDeserialize
  rw [deserialize_of_loop (fuel + 1) _ false size _ rfl hsize]
  have hd4 : (leBytes 4 size ++ tag :: rest).drop 4 = tag :: rest := by
    have := drop_add_of_drop (leBytes 4 size ++ tag :: rest) 0 (leBytes 4 size) _ rfl
    simpa [leBytes_length] using this
  have hd5 : (leBytes 4 size ++ tag :: rest).drop 5 = rest := by
    have := drop_add_of_drop (leBytes 4 size ++ tag :: rest) 4 [tag] rest hd4
    simpa using this
  obtain ⟨t, h8, h8t⟩ := deserialize_int8_tag _ 4 tag rest hd4 ht
  have hname : extract_string (leBytes 4 size ++ tag :: rest) 5 = .error .readOutOfBounds := by
    simp only [extract_string, hd5, strchr_zero_none rest hrest]
    rfl
  rw [deserialize_loop, if_pos hlt]
  simp only [h8, ok_bind, h8t, htag, if_true]
  have h5 : (4 + 1) % 4294967296 = 5 := by decide
  rw [h5, hname]
  rfl

/-! ## Tags -/

theorem wireTag_lt (v : Value) : wireTag v < 256 := by
  cases v <;> simp only [wireTag] <;> first | decide | (split <;> (try split) <;> decide)

theorem elementBytes_wireTag (key : String) (v : Value) (sf : Bool)
    (h : IsFunction v = false ∨ sf = true) :
    ∃ rest, elementBytes (some key) v sf = wireTag v :: rest := by
  cases v with
  | Number number =>
    simp only [elementBytes, numberBytes, wireTag, headerBytes]
    split
    · exact ⟨_, rfl⟩
    · split <;> exact ⟨_, rfl⟩
  | Function source =>
    have hsf : sf = true := by
      rcases h with h | h
      · cases h
      · exact h
    simp only [elementBytes, wireTag, headerBytes, hsf, if_true]
    exact ⟨_, rfl⟩
  | _ => exact ⟨_, rfl⟩

theorem serialize_first_byte (v : Value) (sf : Bool) (mem : Memory) (so idx : Nat)
    (key : String) (ck : Bool) (r : Memory × Nat)
    (hscopes : scopesAreDocuments v sf = true)
    (hr : serialize mem so idx (some key) v ck sf = .ok r)
    (h : IsFunction v = false ∨ sf = true) : r.1 (so + idx) = wireTag v := by
  have hb := serialize_bytes v sf mem so idx (some key) ck r hscopes hr
  obtain ⟨rest, hrest⟩ := elementBytes_wireTag key v sf h
  rw [paddingBytes_some, List.append_nil, hrest] at hb
  rw [hb]
  simp only []
  rw [storeBytes_apply, if_pos (by simp)]
  simp [Nat.mod_eq_of_lt (wireTag_lt v)]

theorem decodeLong_kind (data : List Nat) (index : Nat) (v : Value)
    (h : decodeLong data index = .ok v) : tagDecodesTo 18 v = true := by
  simp only [decodeLong, bind_eq_ok] at h
  obtain ⟨_, _, _, _, h⟩ := h
  split at h
  · simp only [bind_eq_ok] at h
    obtain ⟨_, _, h⟩ := h
    cases h
    rfl
  · cases h
    rfl

theorem kind_bind {α : Type} (tag : Nat) (x : Except DecodeError α)
    (f : α → Except DecodeError (Value × Nat))
    (hf : ∀ a v i, f a = .ok (v, i) → tagDecodesTo tag v = true) :
    ∀ v i, (x >>= f) = .ok (v, i) → tagDecodesTo tag v = true := by
  intro v i h
  obtain ⟨a, _, ha⟩ := (bind_eq_ok _ _ _).mp h
  exact hf a v i ha

theorem kind_pure (tag : Nat) (w : Value) (j : Nat) (hw : tagDecodesTo tag w = true) :
    ∀ v i, (pure (w, j) : Except DecodeError (Value × Nat)) = .ok (v, i) →
      tagDecodesTo tag v = true := by
  intro v i h
  cases h
  exact hw

theorem kind_throw (tag : Nat) (e : DecodeError) :
    ∀ v i, (throw e : Except DecodeError (Value × Nat)) = .ok (v, i) →
      tagDecodesTo tag v = true := by
  intro v i h
  cases h

theorem kind_ite (tag : Nat) (c : Prop) [Decidable c] (x y : Except DecodeError (Value × Nat))
    (hx : c → ∀ v i, x = .ok (v, i) → tagDecodesTo tag v = true)
    (hy : ¬ c → ∀ v i, y = .ok (v, i) → tagDecodesTo tag v = true) :
    ∀ v i, (if c then x else y) = .ok (v, i) → tagDecodesTo tag v = true := by
  split
  · rename_i h; exact hx h
  · rename_i h; exact hy h

/-- The kind of value each branch of `deserialize_scalar` builds. -/
theorem deserialize_scalar_kind (type : Nat) (data : List Nat) (index : Nat) :
    ∀ v i, deserialize_scalar type data index = .ok (v, i) → tagDecodesTo type v = true := by
  unfold deserialize_scalar
  refine kind_ite _ _ _ _ (fun ht => ?_) (fun _ => ?_)
  · rw [ht]
    exact kind_bind _ _ _ (fun _ => kind_bind _ _ _ (fun _ => kind_pure _ _ _ rfl))
  refine kind_ite _ _ _ _ (fun ht => ?_) (fun _ => ?_)
  · rw [ht]
    exact kind_bind _ _ _ (fun _ => kind_pure _ _ _ rfl)
  refine kind_ite _ _ _ _ (fun ht => ?_) (fun _ => ?_)
  · rw [ht]
    exact kind_bind _ _ _ (fun _ => kind_pure _ _ _ rfl)
  refine kind_ite _ _ _ _ (fun ht => ?_) (fun _ => ?_)
  · rw [ht]
    intro v i h
    obtain ⟨w, hw, h2⟩ := (bind_eq_ok _ _ _).mp h
    cases h2
    exact decodeLong_kind data index _ hw
  refine kind_ite _ _ _ _ (fun ht => ?_) (fun _ => ?_)
  · rw [ht]
    exact kind_bind _ _ _ (fun _ => kind_pure _ _ _ rfl)
  refine kind_ite _ _ _ _ (fun ht => ?_) (fun _ => ?_)
  · rw [ht]
    exact kind_pure _ _ _ rfl
  refine kind_ite _ _ _ _ (fun ht => ?_) (fun _ => ?_)
  · rw [ht]
    exact kind_pure _ _ _ rfl
  refine kind_ite _ _ _ _ (fun ht => ?_) (fun _ => ?_)
  · rw [ht]
    exact kind_pure _ _ _ rfl
  refine kind_ite _ _ _ _ (fun ht => ?_) (fun _ => ?_)
  · rw [ht]
    exact kind_bind _ _ _ (fun _ => kind_pure _ _ _ rfl)
  refine kind_ite _ _ _ _ (fun ht => ?_) (fun _ => ?_)
  · rw [ht]
    exact kind_bind _ _ _ (fun _ => kind_pure _ _ _ rfl)
  refine kind_ite _ _ _ _ (fun ht => ?_) (fun _ => ?_)
  · rw [ht]
    dsimp only
    split
    · refine kind_bind _ _ _ (fun _ => ?_)
      dsimp only
      split
      · exact kind_bind _ _ _ (fun _ => kind_pure _ _ _ rfl)
      · exact kind_throw _ _
    · exact kind_throw _ _
  refine kind_ite _ _ _ _ (fun ht => ?_) (fun _ => ?_)
  · rw [ht]
    exact kind_bind _ _ _ (fun _ => kind_pure _ _ _ rfl)
  refine kind_ite _ _ _ _ (fun ht => ?_) (fun _ => ?_)
  · rw [ht]
    exact kind_bind _ _ _ (fun _ => kind_bind _ _ _ (fun _ => kind_bind _ _ _
      (fun _ => kind_pure _ _ _ rfl)))
  refine kind_ite _ _ _ _ (fun ht => ?_) (fun _ => ?_)
  · rw [ht]
    exact kind_bind _ _ _ (fun _ => kind_bind _ _ _ (fun _ => kind_pure _ _ _ rfl))
  refine kind_ite _ _ _ _ (fun ht => ?_) (fun _ => ?_)
  · rw [ht]
    refine kind_bind _ _ _ (fun _ => kind_bind _ _ _ (fun _ => ?_))
    exact kind_ite _ _ _ _ (fun _ => kind_pure _ _ _ rfl) (fun _ => kind_throw _ _)
  exact kind_throw _ _

/-- The kind of value `deserialize` returns in each mode: an array in array
mode, a document or the `DBRef` made of it in document mode. -/
theorem deserialize_kind : ∀ (fuel : Nat),
    (∀ (data : List Nat) (isArr : Bool) (v : Value), deserialize fuel data isArr = .ok v →
        tagDecodesTo (if isArr = true then 4 else 3) v = true)
    ∧ (∀ (data : List Nat) (isArr : Bool) (size index : Nat) (acc : List (String × Value))
        (arr : List Value) (v : Value),
        deserialize_loop fuel data isArr size index acc arr = .ok v →
        tagDecodesTo (if isArr = true then 4 else 3) v = true)
  | 0 => by
    constructor
    · intro data isArr v h
      rw [deserialize] at h
      cases h
    · intro data isArr size index acc arr v h
      rw [deserialize_loop] at h
      cases h
  | fuel + 1 => by
    obtain ⟨_, ih2⟩ := deserialize_kind fuel
    constructor
    · intro data isArr v h
      rw [deserialize] at h
      obtain ⟨_, _, h⟩ := (bind_eq_ok _ _ _).mp h
      exact ih2 _ _ _ _ _ _ _ h
    · intro data isArr size index acc arr v h
      rw [deserialize_loop] at h
      split at h
      · obtain ⟨type, _, h⟩ := (bind_eq_ok _ _ _).mp h
        dsimp only at h
        split at h
        · obtain ⟨name, _, h⟩ := (bind_eq_ok _ _ _).mp h
          cases name with
          | none => cases h
          | some string_name =>
            dsimp only at h
            obtain ⟨r, _, h⟩ := (bind_eq_ok _ _ _).mp h
            obtain ⟨value, index2⟩ := r
            dsimp only at h
            split at h
            · exact ih2 _ _ _ _ _ _ _ h
            · exact ih2 _ _ _ _ _ _ _ h
        · exact ih2 _ _ _ _ _ _ _ h
      · split at h
        · rename_i hc
          simp only [Bool.and_eq_true, Bool.not_eq_true'] at hc
          cases h
          rw [hc.1.1]
          rfl
        · split at h
          · rename_i hc
            cases h
            rw [hc]
            rfl
          · rename_i hc
            cases h
            have : isArr = false := by simpa using hc
            rw [this]
            rfl

/-! ## The estimate of a document -/

theorem strncpy_zero (bytes : List Nat) : strncpy bytes 0 = some [] := by
  cases bytes <;> rfl

theorem cString_length_le (payload : List Nat) : (cString payload).length ≤ payload.length := by
  unfold cString
  induction payload with
  | nil => simp
  | cons b bs ih =>
    rw [List.takeWhile_cons]
    split
    · simpa using ih
    · simp

theorem strncpy_payload (payload tail : List Nat) :
    strncpy (payload ++ tail) payload.length = some (strncpyResult payload) := by
  induction payload with
  | nil => simp [strncpy_zero, strncpyResult, cString]
  | cons b bs ih =>
    show strncpy (b :: (bs ++ tail)) (bs.length + 1) = _
    simp only [strncpy]
    by_cases hb : b % 256 = 0
    · rw [if_pos hb]
      have : cString (b :: bs) = [] := by simp [cString, hb]
      simp [strncpyResult, this]
    · rw [if_neg hb, ih]
      have hc : cString (b :: bs) = b :: cString bs := by simp [cString, hb]
      have hle := cString_length_le bs
      simp only [strncpyResult, hc, Option.map_some', List.map_cons, List.length_cons,
        List.cons_append]
      have : bs.length + 1 - ((cString bs).length + 1) = bs.length - (cString bs).length := by
        omega
      rw [this]

theorem strncpyResult_length (payload : List Nat) :
    (strncpyResult payload).length = payload.length := by
  have := cString_length_le payload
  simp [strncpyResult]
  omega

theorem decodeStringValue_payload (data : List Nat) (index : Nat) (payload tail : List Nat)
    (hdrop : data.drop index = payload ++ tail) (hpos : 1 ≤ payload.length)
    (hsize : payload.length < 4294967296) :
    decodeStringValue data index payload.length
      = .ok (EncodeUTF8 ((strncpyResult payload).take (payload.length - 1))) := by
  have hsub : uint32Sub payload.length 1 = payload.length - 1 := uint32Sub_eq _ _ hpos hsize
  simp only [decodeStringValue, hdrop, strncpy_payload, hsub, strncpyResult_length]
  rw [if_pos (by omega)]
  rfl

/-- The branches of a string and of a symbol on a payload of the declared length. -/
theorem string_decode_payload (data : List Nat) (index : Nat) (payload tail : List Nat)
    (hdrop : data.drop index = leBytes 4 payload.length ++ (payload ++ tail))
    (hpos : 1 ≤ payload.length) (hbound : index + 4 + payload.length < 4294967296) :
    deserialize_scalar BSON_DATA_STRING data index
      = .ok (.String (EncodeUTF8 ((strncpyResult payload).take (payload.length - 1))),
          index + 4 + payload.length)
    ∧ deserialize_scalar BSON_DATA_SYMBOL data index
      = .ok (.Symbol (EncodeUTF8 ((strncpyResult payload).take (payload.length - 1))),
          index + 4 + payload.length) := by
  have hsz : deserialize_int32 data index = .ok payload.length :=
    deserialize_int32_drop data index _ _ hdrop (by omega)
  have hd2 : data.drop (index + 4) = payload ++ tail := by
    have := drop_add_of_drop data index _ _ hdrop
    simpa [leBytes_length] using this
  have hm1 : (index + 4) % 4294967296 = index + 4 := Nat.mod_eq_of_lt (by omega)
  have hm2 : (index + 4 + payload.length) % 4294967296 = index + 4 + payload.length :=
    Nat.mod_eq_of_lt hbound
  have hval := decodeStringValue_payload data (index + 4) payload tail hd2 hpos (by omega)
  constructor
  · rw [deserialize_scalar, if_pos rfl]
    simp only [hsz, ok_bind, hm1, hval, hm2]
    rfl
  · have h1 : BSON_DATA_SYMBOL ≠ BSON_DATA_STRING := by decide
    have h2 : BSON_DATA_SYMBOL ≠ BSON_DATA_INT := by decide
    have h3 : BSON_DATA_SYMBOL ≠ BSON_DATA_TIMESTAMP := by decide
    have h4 : BSON_DATA_SYMBOL ≠ BSON_DATA_LONG := by decide
    have h5 : BSON_DATA_SYMBOL ≠ BSON_DATA_NUMBER := by decide
    have h6 : BSON_DATA_SYMBOL ≠ BSON_DATA_MIN_KEY := by decide
    have h7 : BSON_DATA_SYMBOL ≠ BSON_DATA_MAX_KEY := by decide
    have h8 : BSON_DATA_SYMBOL ≠ BSON_DATA_NULL := by decide
    have h9 : BSON_DATA_SYMBOL ≠ BSON_DATA_BOOLEAN := by decide
    have h10 : BSON_DATA_SYMBOL ≠ BSON_DATA_DATE := by decide
    have h11 : BSON_DATA_SYMBOL ≠ BSON_DATA_REGEXP := by decide
    have h12 : BSON_DATA_SYMBOL ≠ BSON_DATA_OID := by decide
    have h13 : BSON_DATA_SYMBOL ≠ BSON_DATA_BINARY := by decide
    rw [deserialize_scalar, if_neg h1, if_neg h2, if_neg h3, if_neg h4, if_neg h5, if_neg h6,
      if_neg h7, if_neg h8, if_neg h9, if_neg h10, if_neg h11, if_neg h12, if_neg h13, if_pos rfl]
    simp only [hsz, ok_bind, hm1, hval, hm2]
    rfl

theorem takeWhile_take_of_all {α : Type} (p : α → Bool) : ∀ (l : List α) (k : Nat),
    (∀ x ∈ l.take k, p x = true) → (l.takeWhile p).take k = l.take k
  | [], k, _ => by simp
  | x :: xs, 0, _ => by simp
  | x :: xs, k + 1, h => by
    have hx : p x = true := h x (by simp)
    rw [List.takeWhile_cons, hx]
    simp only [if_true, List.take_succ_cons]
    rw [takeWhile_take_of_all p xs k (fun y hy => h y (by simp [hy]))]

theorem EncodeUTF8_map_mod (bytes : List Nat) :
    EncodeUTF8 (bytes.map (fun b => b % 256)) = EncodeUTF8 bytes := by
  simp [EncodeUTF8, List.map_map, Function.comp_def]

/-- Without a NUL among the first bytes, what is decoded is these bytes. -/
theorem strncpyResult_take (payload : List Nat) (k : Nat) (hk : k ≤ payload.length)
    (h : ∀ b ∈ payload.take k, b % 256 ≠ 0) :
    EncodeUTF8 ((strncpyResult payload).take k) = EncodeUTF8 (payload.take k) := by
  have ht : (cString payload).take k = payload.take k := by
    unfold cString
    exact takeWhile_take_of_all _ payload k (fun x hx => by simpa using h x hx)
  have hlen : k ≤ (cString payload).length := by
    have := congrArg List.length ht
    simp only [List.length_take] at this
    omega
  have : (strncpyResult payload).take k = (payload.take k).map (fun b => b % 256) := by
    simp only [strncpyResult]
    rw [List.take_append_of_le_length (by simpa using hlen), ← List.map_take, ht]
  rw [this, EncodeUTF8_map_mod]

/-! ## The branch of a code without scope -/

/-- The branch of `BSON_DATA_CODE` returns the cursor it has after the length. -/
theorem code_cursor (data : List Nat) (index : Nat) (v : Value) (i : Nat)
    (h : deserialize_scalar BSON_DATA_CODE data index = .ok (v, i)) :
    i = (index + 4) % 4294967296 := by
  have h1 : BSON_DATA_CODE ≠ BSON_DATA_STRING := by decide
  have h2 : BSON_DATA_CODE ≠ BSON_DATA_INT := by decide
  have h3 : BSON_DATA_CODE ≠ BSON_DATA_TIMESTAMP := by decide
  have h4 : BSON_DATA_CODE ≠ BSON_DATA_LONG := by decide
  have h5 : BSON_DATA_CODE ≠ BSON_DATA_NUMBER := by decide
  have h6 : BSON_DATA_CODE ≠ BSON_DATA_MIN_KEY := by decide
  have h7 : BSON_DATA_CODE ≠ BSON_DATA_MAX_KEY := by decide
  have h8 : BSON_DATA_CODE ≠ BSON_DATA_NULL := by decide
  have h9 : BSON_DATA_CODE ≠ BSON_DATA_BOOLEAN := by decide
  have h10 : BSON_DATA_CODE ≠ BSON_DATA_DATE := by decide
  have h11 : BSON_DATA_CODE ≠ BSON_DATA_REGEXP := by decide
  have h12 : BSON_DATA_CODE ≠ BSON_DATA_OID := by decide
  have h13 : BSON_DATA_CODE ≠ BSON_DATA_BINARY := by decide
  have h14 : BSON_DATA_CODE ≠ BSON_DATA_SYMBOL := by decide
  rw [deserialize_scalar, if_neg h1, if_neg h2, if_neg h3, if_neg h4, if_neg h5, if_neg h6,
    if_neg h7, if_neg h8, if_neg h9, if_neg h10, if_neg h11, if_neg h12, if_neg h13, if_neg h14,
    if_pos rfl] at h
  obtain ⟨string_size, _, h⟩ := (bind_eq_ok _ _ _).1 h
  obtain ⟨code, _, h⟩ := (bind_eq_ok _ _ _).1 h
  split at h
  · cases h
    rfl
  · cases h

/-- The branch of `BSON_DATA_CODE` on the bytes of a function source. -/
theorem code_decode (source : String) (hsrc : hasNoNul source = true) (data : List Nat)
    (index : Nat) (tail : List Nat)
    (hdrop : data.drop index = stringBytes source ++ tail)
    (hbound : index + 4 + Utf8Length source + 1 < 4294967296) :
    deserialize_scalar BSON_DATA_CODE data index
      = .ok (.Code source (.Object "Object" []), index + 4) := by
  have hW := WriteUtf8_bounds source (hasNoNul_spec source hsrc)
  have hm0 : (Utf8Length source + 1) % 4294967296 = Utf8Length source + 1 :=
    Nat.mod_eq_of_lt (by omega)
  simp only [stringBytes, hm0, List.append_assoc] at hdrop
  have hsz : deserialize_int32 data index = .ok (Utf8Length source + 1) :=
    deserialize_int32_drop data index _ _ hdrop (by omega)
  have hd2 : data.drop (index + 4) = (WriteUtf8 source ++ [0]) ++ tail := by
    have := drop_add_of_drop data index _ _ hdrop
    simpa [leBytes_length] using this
  have hrd : readBytes data (index + 4) (Utf8Length source + 1)
      = .ok (WriteUtf8 source ++ [0]) := by
    have := readBytes_drop data (index + 4) (WriteUtf8 source ++ [0]) tail hd2 (by simp)
      (by
        intro b hb
        rcases List.mem_append.1 hb with h | h
        · exact (hW b h).2
        · simp at h; omega)
    simpa [Utf8Length] using this
  have hm1 : (index + 4) % 4294967296 = index + 4 := Nat.mod_eq_of_lt (by omega)
  have hc : cString (WriteUtf8 source ++ [0]) = WriteUtf8 source :=
    cString_append_nul (WriteUtf8 source) [] hW
  have hs : strlen (WriteUtf8 source ++ [0]) < (WriteUtf8 source ++ [0]).length := by
    rw [← cString_length, hc]
    simp
  have h1 : BSON_DATA_CODE ≠ BSON_DATA_STRING := by decide
  have h2 : BSON_DATA_CODE ≠ BSON_DATA_INT := by decide
  have h3 : BSON_DATA_CODE ≠ BSON_DATA_TIMESTAMP := by decide
  have h4 : BSON_DATA_CODE ≠ BSON_DATA_LONG := by decide
  have h5 : BSON_DATA_CODE ≠ BSON_DATA_NUMBER := by decide
  have h6 : BSON_DATA_CODE ≠ BSON_DATA_MIN_KEY := by decide
  have h7 : BSON_DATA_CODE ≠ BSON_DATA_MAX_KEY := by decide
  have h8 : BSON_DATA_CODE ≠ BSON_DATA_NULL := by decide
  have h9 : BSON_DATA_CODE ≠ BSON_DATA_BOOLEAN := by decide
  have h10 : BSON_DATA_CODE ≠ BSON_DATA_DATE := by decide
  have h11 : BSON_DATA_CODE ≠ BSON_DATA_REGEXP := by decide
  have h12 : BSON_DATA_CODE ≠ BSON_DATA_OID := by decide
  have h13 : BSON_DATA_CODE ≠ BSON_DATA_BINARY := by decide
  have h14 : BSON_DATA_CODE ≠ BSON_DATA_SYMBOL := by decide
  rw [deserialize_scalar, if_neg h1, if_neg h2, if_neg h3, if_neg h4, if_neg h5, if_neg h6,
    if_neg h7, if_neg h8, if_neg h9, if_neg h10, if_neg h11, if_neg h12, if_neg h13, if_neg h14,
    if_pos rfl]
  simp only [hsz, ok_bind, hm1, hrd]
  rw [if_pos hs]
  simp only [decodeCode, hc, EncodeUTF8_WriteUtf8]
  rfl

/-- The step of the loop on a function that was serialized: the loop goes on
at the first byte of the source. -/
theorem loop_step_function (key source : String) (fuel : Nat) (data : List Nat) (isArr : Bool)
    (size index : Nat) (acc : List (String × Value)) (arr : List Value) (tail : List Nat)
    (hkey : hasNoNul key = true) (hsrc : hasNoNul source = true)
    (hdrop : data.drop index = elementBytes (some key) (.Function source) true ++ tail)
    (hlt : index < size)
    (hbound : index + (elementBytes (some key) (.Function source) true).length < 4294967296) :
    (elementBytes (some key) (.Function source) true).length
      = Utf8Length key + 2 + 4 + (Utf8Length source + 1)
    ∧ data.drop (index + (Utf8Length key + 2) + 4) = WriteUtf8 source ++ 0 :: tail
    ∧ deserialize_scalar BSON_DATA_CODE data (index + (Utf8Length key + 2))
        = .ok (.Code source (.Object "Object" []), index + (Utf8Length key + 2) + 4)
    ∧ deserialize_loop (fuel + 1) data isArr size index acc arr =
      if isArr = true then
        deserialize_loop fuel data isArr size (index + (Utf8Length key + 2) + 4) acc
          (arraySet arr (toUint32 (atoi (WriteUtf8 key))) (.Code source (.Object "Object" [])))
      else
        deserialize_loop fuel data isArr size (index + (Utf8Length key + 2) + 4)
          (objectSet acc key (.Code source (.Object "Object" []))) arr := by
  have hE : elementBytes (some key) (.Function source) true
      = headerBytes BSON_DATA_CODE (some key) ++ stringBytes source := by
    simp [elementBytes]
  have hL : (elementBytes (some key) (.Function source) true).length
      = Utf8Length key + 2 + 4 + (Utf8Length source + 1) := by
    rw [hE]
    simp [headerBytes_length, stringBytes, leBytes_length, nameString, Utf8Length]
    omega
  rw [hE, List.append_assoc] at hdrop
  rw [hL] at hbound
  have hd1 : data.drop (index + (Utf8Length key + 2)) = stringBytes source ++ tail := by
    have := drop_add_of_drop data index _ _ hdrop
    simpa [headerBytes_length, nameString] using this
  have hm0 : (Utf8Length source + 1) % 4294967296 = Utf8Length source + 1 :=
    Nat.mod_eq_of_lt (by omega)
  have hd1b : data.drop (index + (Utf8Length key + 2))
      = leBytes 4 (Utf8Length source + 1) ++ (WriteUtf8 source ++ 0 :: tail) := by
    rw [hd1]
    simp [stringBytes, hm0]
  have hd2 : data.drop (index + (Utf8Length key + 2) + 4) = WriteUtf8 source ++ 0 :: tail := by
    have := drop_add_of_drop data _ _ _ hd1b
    simpa [leBytes_length] using this
  have hsc := code_decode source hsrc data (index + (Utf8Length key + 2)) tail hd1 (by omega)
  refine ⟨hL, hd2, hsc, ?_⟩
  have hdrop2 : data.drop index = headerBytes BSON_DATA_CODE (some key)
      ++ (leBytes 4 (Utf8Length source + 1) ++ (WriteUtf8 source ++ 0 :: tail)) := by
    rw [hdrop]
    simp [stringBytes, hm0]
  have := loop_step_scalar fuel data isArr size index acc arr BSON_DATA_CODE key
    (leBytes 4 (Utf8Length source + 1)) (WriteUtf8 source ++ 0 :: tail)
    (.Code source (.Object "Object" [])) hdrop2 hlt (by decide) (by decide) (by decide)
    (by decide) (by decide) hkey (by simp [leBytes_length]; omega)
    (by simpa [leBytes_length] using hsc)
  simpa [leBytes_length] using this

/-! ## A code with scope in the decoder -/

theorem mem_cString (bytes : List Nat) : ∀ b ∈ cString bytes, b ∈ bytes ∧ b % 256 ≠ 0 := by
  unfold cString
  induction bytes with
  | nil => simp
  | cons x xs ih =>
    intro b hb
    rw [List.takeWhile_cons] at hb
    split at hb
    · rcases List.mem_cons.1 hb with h | h
      · subst h
        exact ⟨List.mem_cons_self _ _, by simpa using ‹(b % 256 != 0) = true›⟩
      · exact ⟨List.mem_cons_of_mem _ (ih b h).1, (ih b h).2⟩
    · simp at hb

theorem cString_bounds (code : String) : ∀ b ∈ cString (WriteUtf8 code), 0 < b ∧ b < 256 := by
  intro b hb
  obtain ⟨h1, h2⟩ := mem_cString _ b hb
  have h3 := WriteUtf8_lt code b h1
  omega

/-- One iteration of the loop of `deserialize` on a code with scope, the
source bytes being any bytes without NUL. -/
theorem loop_step_code_bytes (fuel : Nat) (data : List Nat) (isArr : Bool) (size index : Nat)
    (acc : List (String × Value)) (arr : List Value) (key : String) (src : List Nat) (os : Nat)
    (scopeBytes tail : List Nat) (scope : Value)
    (hdrop : data.drop index
      = headerBytes BSON_DATA_CODE_W_SCOPE (some key)
          ++ (leBytes 4 (8 + (src.length + 1) + os)
          ++ (leBytes 4 (src.length + 1)
          ++ (src ++ (0 :: (scopeBytes ++ tail))))))
    (hlt : index < size) (hkey : hasNoNul key = true) (hsrc : ∀ b ∈ src, 0 < b ∧ b < 256)
    (hlen : scopeBytes.length = os) (hpos : 0 < os) (hb256 : ∀ b ∈ scopeBytes, b < 256)
    (hbound : index + (Utf8Length key + 2) + (8 + (src.length + 1) + os) < 4294967296)
    (hscope : deserialize fuel scopeBytes false = .ok scope) :
    deserialize_loop (fuel + 1) data isArr size index acc arr =
      if isArr = true then
        deserialize_loop fuel data isArr size
          (index + (Utf8Length key + 2) + (8 + (src.length + 1) + os)) acc
          (arraySet arr (toUint32 (atoi (WriteUtf8 key))) (.Code (EncodeUTF8 src) scope))
      else
        deserialize_loop fuel data isArr size
          (index + (Utf8Length key + 2) + (8 + (src.length + 1) + os))
          (objectSet acc key (.Code (EncodeUTF8 src) scope)) arr := by
  have hb := WriteUtf8_bounds key (hasNoNul_spec key hkey)
  have hW := hsrc
  obtain ⟨t, h8, h8t⟩ := deserialize_int8_tag data index BSON_DATA_CODE_W_SCOPE _
    (by rw [hdrop]; rfl) (by decide)
  have hd0 := drop_add_of_drop data index _ _ hdrop
  rw [headerBytes_length] at hd0
  simp only [nameString] at hd0
  have hname : extract_string data (index + 1) = .ok (some (WriteUtf8 key)) := by
    have := drop_add_of_drop data index [BSON_DATA_CODE_W_SCOPE] _ (by rw [hdrop]; rfl)
    exact extract_string_drop data (index + 1) (WriteUtf8 key) _
      (by simpa [nameString] using this) hb
  have htot : deserialize_int32 data (index + (Utf8Length key + 2))
      = .ok (8 + (src.length + 1) + os) :=
    deserialize_int32_drop data _ _ _ hd0 (by omega)
  have hd1 := drop_add_of_drop data _ _ _ hd0
  rw [leBytes_length] at hd1
  have hss : deserialize_int32 data (index + (Utf8Length key + 2) + 4)
      = .ok (src.length + 1) :=
    deserialize_int32_drop data _ _ _ hd1 (by omega)
  have hd2 := drop_add_of_drop data _ _ _ hd1
  rw [leBytes_length] at hd2
  have hd2b : data.drop (index + (Utf8Length key + 2) + 4 + 4)
      = (src ++ [0]) ++ (scopeBytes ++ tail) := by
    rw [hd2]; simp
  have hcodeb : readBytes data (index + (Utf8Length key + 2) + 4 + 4) (src.length + 1)
      = .ok (src ++ [0]) := by
    have := readBytes_drop data _ (src ++ [0]) _ hd2b (by simp)
      (by
        intro b hb2
        rcases List.mem_append.mp hb2 with h | h
        · exact (hW b h).2
        · simp at h; omega)
    simpa [Utf8Length] using this
  have hd3 := drop_add_of_drop data _ _ _ hd2b
  have hd3b : data.drop (index + (Utf8Length key + 2) + 4 + 4 + (src.length + 1))
      = scopeBytes ++ tail := by
    simpa [Utf8Length] using hd3
  have hbuf : readBytes data (index + (Utf8Length key + 2) + 4 + 4 + (src.length + 1)) os
      = .ok scopeBytes := by
    have := readBytes_drop data _ scopeBytes tail hd3b (by omega) hb256
    rw [hlen] at this
    exact this
  have hm1 : (index + 1) % 4294967296 = index + 1 := Nat.mod_eq_of_lt (by omega)
  have hlenk : strlen (WriteUtf8 key) = Utf8Length key := strlen_nonzero _ hb
  have hm2 : (index + 1 + Utf8Length key + 1) % 4294967296 = index + (Utf8Length key + 2) := by
    rw [Nat.mod_eq_of_lt (by omega)]; omega
  have hm3 : (index + (Utf8Length key + 2) + 4) % 4294967296 = index + (Utf8Length key + 2) + 4 :=
    Nat.mod_eq_of_lt (by omega)
  have hm4 : (index + (Utf8Length key + 2) + 4 + 4) % 4294967296
      = index + (Utf8Length key + 2) + 4 + 4 := Nat.mod_eq_of_lt (by omega)
  have hm5 : (index + (Utf8Length key + 2) + 4 + 4 + (src.length + 1)) % 4294967296
      = index + (Utf8Length key + 2) + 4 + 4 + (src.length + 1) :=
    Nat.mod_eq_of_lt (by omega)
  have hsub : uint32Sub (uint32Sub (8 + (src.length + 1) + os) (src.length + 1)) 8
      = os := by
    unfold uint32Sub; omega
  have hm6 : (index + (Utf8Length key + 2) + 4 + 4 + (src.length + 1) + os) % 4294967296
      = index + (Utf8Length key + 2) + (8 + (src.length + 1) + os) := by
    rw [Nat.mod_eq_of_lt (by omega)]; omega
  have hcs : cString (src ++ [0]) = src := cString_append_nul _ [] hW
  have hsl : strlen (src ++ [0]) < (src ++ [0]).length := by
    have : strlen (src ++ [0]) = (src).length := by
      have := congrArg List.length hcs
      simpa [cString, strlen] using this
    rw [this]
    simp
  have htag : isElementType BSON_DATA_CODE_W_SCOPE = true := by decide
  rw [deserialize_loop, if_pos hlt]
  simp only [h8, ok_bind, h8t, htag, if_true, hm1, hname, hlenk, hm2]
  simp only [htot, ok_bind, hm3, hss, hm4]
  simp only [hcodeb, ok_bind, hm5, hsub]
  simp only [hbuf, ok_bind, hscope, hm6]
  rw [if_pos hsl]
  simp only [decodeCode, hcs, EncodeUTF8_WriteUtf8]
  cases isArr <;> rfl

/-- The size the decoder computes for the scope of a code. -/
theorem scope_size (sourceLength scopeSize : Nat) (h : scopeSize < 4294967296) :
    uint32Sub (uint32Sub ((4 + 4 + sourceLength + 1 + scopeSize) % 4294967296)
      ((sourceLength + 1) % 4294967296)) 8 = scopeSize := by
  unfold uint32Sub
  omega

/-- The step of the loop on a code whose scope is a document that is decoded
to itself. -/
theorem decode_step_code (code key : String) (scope : Value) (sf : Bool) (fuel : Nat)
    (data : List Nat) (isArr : Bool) (size index : Nat) (acc : List (String × Value))
    (arr : List Value) (tail : List Nat)
    (hkey : hasNoNul key = true) (hrt : roundTrips scope = true)
    (hdoc : isPlainObject scope = true)
    (hdrop : data.drop index = elementBytes (some key) (.Code code scope) sf ++ tail)
    (hlt : index < size)
    (hbound : index + (elementBytes (some key) (.Code code scope) sf).length < 4294967296)
    (hfuel : (elementBytes none scope sf).length ≤ fuel) :
    (elementBytes none scope sf).length = objectSize scope sf
    ∧ (elementBytes (some key) (.Code code scope) sf).length
        = Utf8Length key + 2 + (4 + 4 + strlen (WriteUtf8 code) + 1 + objectSize scope sf)
    ∧ deserialize_loop (fuel + 1) data isArr size index acc arr =
      if isArr = true then
        deserialize_loop fuel data isArr size
          (index + (elementBytes (some key) (.Code code scope) sf).length) acc
          (arraySet arr (toUint32 (atoi (WriteUtf8 key)))
            (.Code (EncodeUTF8 (cString (WriteUtf8 code))) scope))
      else
        deserialize_loop fuel data isArr size
          (index + (elementBytes (some key) (.Code code scope) sf).length)
          (objectSet acc key (.Code (EncodeUTF8 (cString (WriteUtf8 code))) scope)) arr := by
  obtain ⟨os, hos1, hlenS⟩ := class_length scope sf none hrt
  have hos := objectSize_eq _ _ _ hos1
  have hd : isDocument scope = true := by
    cases scope <;> first | rfl | simp [isPlainObject] at hdoc
  have htag : tagAndNameLength none scope = 0 := by simp [tagAndNameLength, hd]
  rw [htag, Nat.zero_add] at hlenS
  have hsrc := cString_bounds code
  have hsl : (cString (WriteUtf8 code)).length = strlen (WriteUtf8 code) := cString_length _
  have hL : (elementBytes (some key) (.Code code scope) sf).length
      = Utf8Length key + 2 + (4 + 4 + strlen (WriteUtf8 code) + 1 + os) := by
    simp only [elementBytes, hos, hlenS, Nat.sub_self, List.replicate_zero, List.length_append,
      headerBytes_length, leBytes_length, List.length_cons, hsl, nameString, List.length_nil]
    omega
  rw [hL] at hbound
  have hpos : 0 < os := by
    rw [← hlenS]
    cases scope <;> first | (simp [isPlainObject] at hdoc; done) | simp [elementBytes, leBytes_length]
  have hm1 : (4 + 4 + strlen (WriteUtf8 code) + 1 + os) % 4294967296
      = 8 + ((cString (WriteUtf8 code)).length + 1) + os := by
    rw [Nat.mod_eq_of_lt (by omega), hsl]; omega
  have hm2 : (strlen (WriteUtf8 code) + 1) % 4294967296 = (cString (WriteUtf8 code)).length + 1 := by
    rw [Nat.mod_eq_of_lt (by omega), hsl]
  have hE : elementBytes (some key) (.Code code scope) sf
      = headerBytes BSON_DATA_CODE_W_SCOPE (some key)
          ++ (leBytes 4 (8 + ((cString (WriteUtf8 code)).length + 1) + os)
          ++ (leBytes 4 ((cString (WriteUtf8 code)).length + 1)
          ++ (cString (WriteUtf8 code) ++ (0 :: (elementBytes none scope sf ++ []))))) := by
    simp only [elementBytes, hos, hlenS, Nat.sub_self, List.replicate_zero, hm1, hm2]
  have hdrop2 : data.drop index = headerBytes BSON_DATA_CODE_W_SCOPE (some key)
      ++ (leBytes 4 (8 + ((cString (WriteUtf8 code)).length + 1) + os)
      ++ (leBytes 4 ((cString (WriteUtf8 code)).length + 1)
      ++ (cString (WriteUtf8 code) ++ (0 :: (elementBytes none scope sf ++ tail))))) := by
    rw [hdrop, hE]; simp
  have hscope : deserialize fuel (elementBytes none scope sf) false = .ok scope := by
    have := decode_document scope sf fuel [] hrt hdoc (by omega) (by omega)
    simpa using this
  have hstep := loop_step_code_bytes fuel data isArr size index acc arr key
    (cString (WriteUtf8 code)) os (elementBytes none scope sf) tail scope hdrop2 hlt hkey hsrc
    hlenS hpos (documentBytes_lt scope sf hrt hdoc) (by omega) hscope
  refine ⟨by rw [hlenS, hos], by rw [hL, hos], ?_⟩
  rw [hstep, hL]
  have he : index + (Utf8Length key + 2) + (8 + ((cString (WriteUtf8 code)).length + 1) + os)
      = index + (Utf8Length key + 2 + (4 + 4 + strlen (WriteUtf8 code) + 1 + os)) := by omega
  rw [he]

theorem cString_of_hasNoNul (code : String) (h : hasNoNul code = true) :
    cString (WriteUtf8 code) = WriteUtf8 code :=
  takeWhile_nonzero _ (WriteUtf8_bounds code (hasNoNul_spec code h))

/-! ## A document with one field -/

/-- The bytes of a document with one field whose value is decoded to itself,
and what they decode to. -/
theorem single_field_roundtrip (key : String) (v : Value) (heap : Memory) (sf : Bool)
    (hv : roundTrips v = true) (hkey : hasNoNul key = true) (hreserved : key ≠ "toHexString")
    (hsize : (elementBytes (some key) v sf).length + 5 < 4294967296) :
    BSONSerialize heap (.Object "Object" [(key, v)]) false sf
      = .ok (leBytes 4 ((elementBytes (some key) v sf).length + 5)
          ++ (elementBytes (some key) v sf ++ [0]))
    ∧ ∀ fuel, (elementBytes (some key) v sf).length + 5 ≤ fuel →
        BSONDeserialize fuel (leBytes 4 ((elementBytes (some key) v sf).length + 5)
          ++ (elementBytes (some key) v sf ++ [0])) = .ok (.Object "Object" [(key, v)]) := by
  obtain ⟨hf, _, _, n, hn⟩ := roundTrips_facts v sf hv
  have hp : propertiesBytes [(key, v)] sf = elementBytes (some key) v sf := by
    simp [propertiesBytes, hf]
  have hw : isWrongClass "Object" [(key, v)] = false := by
    have hne : (key == "toHexString") = false := by simpa using hreserved
    simp [isWrongClass, HasRealNamedProperty, hne]
  have hrt : roundTrips (.Object "Object" [(key, v)]) = true := by
    simp [roundTrips, hw, keysRoundTrip, hkey, roundTripsProperties, hv, objectHas]
    by_cases h : key = "$ref"
    · right
      rw [h]
      decide
    · left
      exact h
  obtain ⟨h1, h2⟩ := BSONSerialize_class [(key, v)] heap false sf hrt
    (by
      obtain ⟨h, _⟩ := object_facts "Object" [(key, v)] sf
        (by simp [roundTripsProperties, hv]) hw
      rw [objectSize_eq _ _ _ h, hp]
      exact hsize)
    (by intro h; cases h)
  rw [h2, hp] at h1
  refine ⟨h1, fun fuel hfuel => ?_⟩
  have := BSONDeserialize_class [(key, v)] sf ((elementBytes (some key) v sf).length + 5) fuel hrt
    (by rw [hp]) hsize hfuel
  rw [hp] at this
  exact this

/-! ## The hexadecimal string of an ObjectId -/

theorem hexDigitValue_hexDigit (n : Nat) (h : n < 16) :
    hexDigitValue (hexDigit n) = n ∧ isLowerHexDigit (hexDigit n) = true := by
  interval_cases n <;> exact ⟨by decide, by decide⟩

theorem oidToHex_toList (bytes : List Nat) :
    (oidToHex bytes).toList
      = bytes.flatMap (fun b => [hexDigit (b % 256 / 16), hexDigit (b % 16)]) := rfl

theorem oidToHex_length (bytes : List Nat) : (oidToHex bytes).toList.length = 2 * bytes.length := by
  rw [oidToHex_toList]
  induction bytes with
  | nil => rfl
  | cons b bs ih =>
    simp only [List.flatMap_cons, List.length_append, List.length_cons, List.length_nil, ih]
    omega

theorem oidToHex_digits (bytes : List Nat) :
    ∀ c ∈ (oidToHex bytes).toList, isLowerHexDigit c = true := by
  intro c hc
  rw [oidToHex_toList] at hc
  simp only [List.mem_flatMap, List.mem_cons, List.mem_singleton, List.not_mem_nil, or_false]
    at hc
  obtain ⟨b, _, h | h⟩ := hc
  · rw [h]
    exact (hexDigitValue_hexDigit _ (by omega)).2
  · rw [h]
    exact (hexDigitValue_hexDigit _ (by omega)).2

theorem oidToHex_at : ∀ (bytes : List Nat) (i b : Nat), bytes[i]? = some b →
    (oidToHex bytes).toList[2 * i]? = some (hexDigit (b % 256 / 16))
    ∧ (oidToHex bytes).toList[2 * i + 1]? = some (hexDigit (b % 16))
  | [], i, b, h => by simp at h
  | x :: xs, 0, b, h => by
    simp only [List.getElem?_cons_zero, Option.some.injEq] at h
    subst h
    rw [oidToHex_toList]
    constructor <;> simp
  | x :: xs, i + 1, b, h => by
    simp only [List.getElem?_cons_succ] at h
    have ih := oidToHex_at xs i b h
    rw [oidToHex_toList] at ih ⊢
    have e1 : 2 * (i + 1) = 2 * i + 1 + 1 := by omega
    rw [e1]
    simp only [List.flatMap_cons, List.cons_append, List.nil_append, List.getElem?_cons_succ]
    exact ih

theorem hexPairs_oidToHex (bytes : List Nat) (hb : ∀ b ∈ bytes, b < 256) :
    hexPairs (oidToHex bytes).toList = bytes := by
  rw [oidToHex_toList]
  induction bytes with
  | nil => rfl
  | cons b bs ih =>
    have hlt := hb b (List.mem_cons_self _ _)
    change hexPairs (hexDigit (b % 256 / 16) :: hexDigit (b % 16)
      :: bs.flatMap (fun b => [hexDigit (b % 256 / 16), hexDigit (b % 16)])) = _
    rw [hexPairs, ih (fun c hc => hb c (List.mem_cons_of_mem _ hc)),
      (hexDigitValue_hexDigit (b % 256 / 16) (by omega)).1,
      (hexDigitValue_hexDigit (b % 16) (by omega)).1]
    congr 1
    omega

/-- The branch of an ObjectId on any twelve bytes. -/
theorem oid_decode_bytes (payload : List Nat) (hlen : payload.length = 12)
    (hb : ∀ b ∈ payload, b < 256) (data : List Nat) (index : Nat) (tail : List Nat)
    (hdrop : data.drop index = payload ++ tail) (hbound : index + 12 < 4294967296) :
    deserialize_scalar BSON_DATA_OID data index
      = .ok (.ObjectID (oidToHex payload), index + 12) := by
  have hrd : readBytes data index 12 = .ok payload := by
    have := readBytes_drop data index payload tail hdrop (by omega) hb
    rwa [hlen] at this
  have h1 : BSON_DATA_OID ≠ BSON_DATA_STRING := by decide
  have h2 : BSON_DATA_OID ≠ BSON_DATA_INT := by decide
  have h3 : BSON_DATA_OID ≠ BSON_DATA_TIMESTAMP := by decide
  have h4 : BSON_DATA_OID ≠ BSON_DATA_LONG := by decide
  have h5 : BSON_DATA_OID ≠ BSON_DATA_NUMBER := by decide
  have h6 : BSON_DATA_OID ≠ BSON_DATA_MIN_KEY := by decide
  have h7 : BSON_DATA_OID ≠ BSON_DATA_MAX_KEY := by decide
  have h8 : BSON_DATA_OID ≠ BSON_DATA_NULL := by decide
  have h9 : BSON_DATA_OID ≠ BSON_DATA_BOOLEAN := by decide
  have h10 : BSON_DATA_OID ≠ BSON_DATA_DATE := by decide
  have h11 : BSON_DATA_OID ≠ BSON_DATA_REGEXP := by decide
  rw [deserialize_scalar, if_neg h1, if_neg h2, if_neg h3, if_neg h4, if_neg h5, if_neg h6,
    if_neg h7, if_neg h8, if_neg h9, if_neg h10, if_neg h11, if_pos rfl]
  simp only [hrd, ok_bind, Nat.mod_eq_of_lt hbound]
  rfl

/-! ## The branch of a 32-bit integer -/

/-- The branch of `BSON_DATA_INT` on any four bytes. -/
theorem int32_decode_bytes (payload : List Nat) (hlen : payload.length = 4)
    (hb : ∀ b ∈ payload, b < 256) (data : List Nat) (index : Nat) (tail : List Nat)
    (hdrop : data.drop index = payload ++ tail) (hbound : index + 4 < 4294967296) :
    deserialize_scalar BSON_DATA_INT data index
      = .ok (.Number (doubleOfInt (toInt32 (leValue payload))), index + 4) := by
  have hrd : readBytes data index 4 = .ok payload := by
    have := readBytes_drop data index payload tail hdrop (by omega) hb
    rwa [hlen] at this
  have h1 : BSON_DATA_INT ≠ BSON_DATA_STRING := by decide
  rw [deserialize_scalar, if_neg h1, if_pos rfl]
  simp only [deserialize_int32, hrd, ok_bind, Nat.mod_eq_of_lt hbound]
  rfl

theorem int32_value (b0 b1 b2 b3 : Nat) (h0 : b0 < 256) (h1 : b1 < 256) (h2 : b2 < 256)
    (h3 : b3 < 256) :
    toInt32 (leValue [b0, b1, b2, b3])
      = (b0 : Int) + 256 * b1 + 65536 * b2 + 16777216 * b3
          - (if 128 ≤ b3 then 4294967296 else 0) := by
  simp only [leValue, toInt32]
  split <;> split <;> omega

theorem int32_number (n : Int) (h1 : -2147483648 ≤ n) (h2 : n ≤ 2147483647)
    (name : Option String) (sf : Bool) :
    calculate_object_size (.Number (doubleOfInt n)) sf = .ok 4
    ∧ numberBytes name (doubleOfInt n) = headerBytes 16 name ++ leBytes 4 (toUint32 n) := by
  obtain ⟨e1, e2, e3⟩ := doubleOfInt_exact n (by omega) (by omega)
  have := (number_classification (doubleOfInt n) e1 e3 name sf).1 (by rw [e2]; omega)
  rw [e2] at this
  exact this

/-! ## The block of a top-level document -/

/-- When `serialize` returns for a value under no name, the estimate had returned. -/
theorem size_ok_of_serialize (v : Value) (sf : Bool) (mem : Memory) (so idx : Nat) (ck : Bool)
    (r : Memory × Nat) (hr : serialize mem so idx none v ck sf = .ok r) :
    calculate_object_size v sf = .ok (objectSize v sf) := by
  cases hn : calculate_object_size v sf with
  | ok n => rw [objectSize_eq v sf n hn]
  | error e =>
    have := serialize_error_of_size v sf e hn mem so idx none ck (fun _ h => by cases h)
    rw [this] at hr
    cases hr

/-- What `serialize` leaves and returns for a document serialized from offset
0 without a name. -/
theorem root_bytes (v : Value) (hdoc : isDocument v = true) (sf : Bool) (mem : Memory)
    (so : Nat) (ck : Bool) (r : Memory × Nat)
    (hscopes : scopesAreDocuments v sf = true) (hsize : objectSize v sf < 4294967296)
    (hr : serialize mem so 0 none v ck sf = .ok r) :
    (elementBytes none v sf).length ≤ objectSize v sf
    ∧ (documentEncoding v sf).length = objectSize v sf
    ∧ r = (storeBytes mem so (documentEncoding v sf), (elementBytes none v sf).length) := by
  have hn := size_ok_of_serialize v sf mem so 0 ck r hr
  have hle := (elementBytes_length v sf none _ hn hscopes).1
  have htag : tagAndNameLength none v = 0 := by simp [tagAndNameLength, hdoc]
  rw [htag, Nat.zero_add] at hle
  have hb := serialize_bytes v sf mem so 0 none ck r hscopes hr
  have hp : paddingBytes none v sf (0 + (elementBytes none v sf).length)
      = List.replicate (objectSize v sf - (elementBytes none v sf).length) 0 := by
    simp only [paddingBytes, Option.isNone_none, hdoc, Bool.and_self, if_true, Nat.zero_add]
    rw [uint32Sub_eq _ _ hle hsize]
  rw [hp, Nat.add_zero, Nat.zero_add] at hb
  refine ⟨hle, ?_, hb⟩
  simp only [documentEncoding, List.length_append, List.length_replicate]
  omega

theorem documentEncoding_header (c : String) (ps : List (String × Value)) (sf : Bool)
    (hsize : objectSize (.Object c ps) sf < 4294967296) :
    ∃ rest, documentEncoding (.Object c ps) sf
      = leBytes 4 (objectSize (.Object c ps) sf) ++ rest := by
  refine ⟨(propertiesBytes ps sf ++ [0])
    ++ List.replicate (objectSize (.Object c ps) sf
        - (elementBytes none (.Object c ps) sf).length) 0, ?_⟩
  have hE : elementBytes none (.Object c ps) sf
      = leBytes 4 (objectSize (.Object c ps) sf) ++ (propertiesBytes ps sf ++ [0]) := by
    simp only [elementBytes, Option.isSome_none, Bool.false_eq_true, if_false, List.nil_append,
      Nat.mod_eq_of_lt hsize]
  rw [documentEncoding]
  nth_rewrite 1 [hE]
  simp only [List.append_assoc]

/-! ## A `DBRef` and its document -/

theorem dbRefDocument_isWrongClass (ns oid : Value) (db : Option Value) :
    isWrongClass "Object"
      ([("$ref", ns), ("$id", oid)] ++ (match db with
        | some property => [("$db", property)]
        | none => [])) = false := by
  cases db <;> simp [isWrongClass, HasRealNamedProperty]

theorem calculate_dbRefDocument (ns oid : Value) (db : Option Value) (sf : Bool) :
    calculate_object_size (.DBRef ns oid db) sf
      = calculate_object_size (dbRefDocument ns oid db) sf := by
  have hw := dbRefDocument_isWrongClass ns oid db
  simp only [dbRefDocument, calculate_object_size, hw, Bool.false_eq_true, if_false]
  cases db with
  | none =>
    simp only [calculate_db_size, List.append_nil, calculate_properties_size]
    by_cases h1 : (!IsFunction ns || (IsFunction ns && sf)) = true <;>
    by_cases h2 : (!IsFunction oid || (IsFunction oid && sf)) = true <;>
    simp only [h1, h2, if_true, if_false] <;>
    cases calculate_object_size ns sf <;> cases calculate_object_size oid sf <;>
    simp [bind, Except.bind, pure, Except.pure]
  | some d =>
    simp only [calculate_db_size, List.cons_append, List.nil_append, calculate_properties_size]
    by_cases h1 : (!IsFunction ns || (IsFunction ns && sf)) = true <;>
    by_cases h2 : (!IsFunction oid || (IsFunction oid && sf)) = true <;>
    by_cases h3 : (!IsFunction d || (IsFunction d && sf)) = true <;>
    simp only [h1, h2, h3, if_true, if_false] <;>
    cases calculate_object_size ns sf <;> cases calculate_object_size oid sf <;>
    cases calculate_object_size d sf <;>
    simp [bind, Except.bind, pure, Except.pure] <;> omega

theorem serialize_dbRefDocument (ns oid : Value) (db : Option Value) (sf : Bool)
    (mem : Memory) (so idx : Nat) (name : Option String) (ck : Bool) :
    serialize mem so idx name (.DBRef ns oid db) ck sf
      = (if name.isSome && ck then check_key (nameString name) else pure ()) >>= fun _ =>
          serialize mem so idx name (dbRefDocument ns oid db) false sf := by
  have hw := dbRefDocument_isWrongClass ns oid db
  have hc := calculate_dbRefDocument ns oid db sf
  simp only [dbRefDocument] at hc
  cases db with
  | none =>
    simp only [dbRefDocument, List.append_nil] at hw hc ⊢
    rw [serialize, serialize]
    simp only [hw, hc, Bool.and_false, Bool.false_eq_true, if_false, serialize_properties,
      serialize_db]
    by_cases h1 : (!IsFunction ns || (IsFunction ns && sf)) = true <;>
    by_cases h2 : (!IsFunction oid || (IsFunction oid && sf)) = true <;>
    simp only [h1, h2, if_true, if_false, Bool.false_eq_true, bind_assoc, pure_bind, Prod.mk.eta]
  | some d =>
    simp only [dbRefDocument, List.cons_append, List.nil_append] at hw hc ⊢
    rw [serialize, serialize]
    simp only [hw, hc, Bool.and_false, Bool.false_eq_true, if_false, serialize_properties,
      serialize_db]
    by_cases h1 : (!IsFunction ns || (IsFunction ns && sf)) = true <;>
    by_cases h2 : (!IsFunction oid || (IsFunction oid && sf)) = true <;>
    by_cases h3 : (!IsFunction d || (IsFunction d && sf)) = true <;>
    simp only [h1, h2, h3, if_true, if_false, Bool.false_eq_true, bind_assoc, pure_bind, Prod.mk.eta]

theorem elementBytes_dbRefDocument (ns oid : Value) (db : Option Value) (sf : Bool)
    (name : Option String) :
    elementBytes name (.DBRef ns oid db) sf = elementBytes name (dbRefDocument ns oid db) sf := by
  have hc := calculate_dbRefDocument ns oid db sf
  have hos : objectSize (.DBRef ns oid db) sf = objectSize (dbRefDocument ns oid db) sf := by
    simp only [objectSize, hc]
  simp only [dbRefDocument] at hos
  cases db with
  | none =>
    simp only [dbRefDocument, List.append_nil] at hos ⊢
    simp only [elementBytes, hos, dbBytes, propertiesBytes, List.nil_append]
    by_cases h1 : (!IsFunction ns || (IsFunction ns && sf)) = true <;>
    by_cases h2 : (!IsFunction oid || (IsFunction oid && sf)) = true <;>
    simp [h1, h2]
  | some d =>
    simp only [dbRefDocument, List.cons_append, List.nil_append] at hos ⊢
    simp only [elementBytes, hos, dbBytes, propertiesBytes]
    by_cases h1 : (!IsFunction ns || (IsFunction ns && sf)) = true <;>
    by_cases h2 : (!IsFunction oid || (IsFunction oid && sf)) = true <;>
    by_cases h3 : (!IsFunction d || (IsFunction d && sf)) = true <;>
    simp [h1, h2, h3]

/-! ## Key validation and a `DBRef` -/

theorem calculate_properties_size_withoutFunctions : ∀ (ps : List (String × Value)),
    calculate_properties_size ps false = calculate_properties_size (withoutFunctions ps) false
  | [] => rfl
  | (key, v) :: rest => by
    have ih := calculate_properties_size_withoutFunctions rest
    cases hf : IsFunction v with
    | true =>
      have hE : withoutFunctions ((key, v) :: rest) = withoutFunctions rest := by
        simp [withoutFunctions, hf]
      rw [hE, calculate_properties_size]
      simp only [hf, Bool.not_true, Bool.and_false, Bool.or_false, Bool.false_eq_true, if_false]
      exact ih
    | false =>
      have hE : withoutFunctions ((key, v) :: rest) = (key, v) :: withoutFunctions rest := by
        simp [withoutFunctions, hf]
      rw [hE, calculate_properties_size, calculate_properties_size]
      simp only [hf, Bool.not_false, Bool.true_or, if_true, ih]

theorem serialize_properties_withoutFunctions : ∀ (ps : List (String × Value)) (mem : Memory)
    (so idx : Nat) (ck : Bool),
    serialize_properties mem so idx ps ck false
      = serialize_properties mem so idx (withoutFunctions ps) ck false
  | [], _, _, _, _ => rfl
  | (key, v) :: rest, mem, so, idx, ck => by
    cases hf : IsFunction v with
    | true =>
      have hE : withoutFunctions ((key, v) :: rest) = withoutFunctions rest := by
        simp [withoutFunctions, hf]
      rw [hE, serialize_properties]
      simp only [hf, Bool.not_true, Bool.and_false, Bool.or_false, Bool.false_eq_true, if_false]
      exact serialize_properties_withoutFunctions rest mem so idx ck
    | false =>
      have hE : withoutFunctions ((key, v) :: rest) = (key, v) :: withoutFunctions rest := by
        simp [withoutFunctions, hf]
      rw [hE, serialize_properties, serialize_properties]
      simp only [hf, Bool.not_false, Bool.true_or, if_true]
      congr 1
      funext r
      exact serialize_properties_withoutFunctions rest r.1 so r.2 ck

theorem propertiesBytes_withoutFunctions : ∀ (ps : List (String × Value)),
    propertiesBytes ps false = propertiesBytes (withoutFunctions ps) false
  | [] => rfl
  | (key, v) :: rest => by
    have ih := propertiesBytes_withoutFunctions rest
    cases hf : IsFunction v with
    | true =>
      have hE : withoutFunctions ((key, v) :: rest) = withoutFunctions rest := by
        simp [withoutFunctions, hf]
      rw [hE, propertiesBytes]
      simp only [hf, Bool.not_true, Bool.and_false, Bool.or_false, Bool.false_eq_true, if_false]
      exact ih
    | false =>
      have hE : withoutFunctions ((key, v) :: rest) = (key, v) :: withoutFunctions rest := by
        simp [withoutFunctions, hf]
      rw [hE, propertiesBytes, propertiesBytes]
      simp only [hf, Bool.not_false, Bool.true_or, if_true, ih]

theorem isWrongClass_withoutFunctions (c : String) (ps : List (String × Value))
    (h : ∀ p ∈ ps, IsFunction p.2 = true → p.1 ≠ "toHexString") :
    isWrongClass c (withoutFunctions ps) = isWrongClass c ps := by
  have hp : HasRealNamedProperty (withoutFunctions ps) "toHexString"
      = HasRealNamedProperty ps "toHexString" := by
    simp only [HasRealNamedProperty, withoutFunctions]
    rw [Bool.eq_iff_iff]
    simp only [List.any_eq_true, List.mem_filter, beq_iff_eq, Bool.not_eq_true']
    constructor
    · rintro ⟨p, ⟨hp, _⟩, he⟩
      exact ⟨p, hp, he⟩
    · rintro ⟨p, hp, he⟩
      refine ⟨p, ⟨hp, ?_⟩, he⟩
      cases hf : IsFunction p.2 with
      | false => rfl
      | true => exact absurd he (h p hp hf)
  simp only [isWrongClass, hp]

theorem calculate_object_size_withoutFunctions (c : String) (ps : List (String × Value))
    (h : ∀ p ∈ ps, IsFunction p.2 = true → p.1 ≠ "toHexString") :
    calculate_object_size (.Object c ps) false
      = calculate_object_size (.Object c (withoutFunctions ps)) false := by
  rw [calculate_object_size, calculate_object_size, isWrongClass_withoutFunctions c ps h,
    calculate_properties_size_withoutFunctions ps]

theorem serialize_withoutFunctions (c : String) (ps : List (String × Value))
    (h : ∀ p ∈ ps, IsFunction p.2 = true → p.1 ≠ "toHexString") (mem : Memory) (so idx : Nat)
    (name : Option String) (ck : Bool) :
    serialize mem so idx name (.Object c ps) ck false
      = serialize mem so idx name (.Object c (withoutFunctions ps)) ck false := by
  have hc := calculate_object_size_withoutFunctions c ps h
  rw [serialize, serialize, isWrongClass_withoutFunctions c ps h, hc]
  simp only [serialize_properties_withoutFunctions ps]

/-! ## Regular expressions -/

theorem regExpFlags_cases (i m : Bool) :
    regExpFlags i m = 0 ∨ regExpFlags i m = 2 ∨ regExpFlags i m = 4 ∨ regExpFlags i m = 6 := by
  cases i <;> cases m <;> simp [regExpFlags]

theorem regExpBytes_flags (source : String) (i m : Bool) :
    regExpBytes source (regExpFlags i m)
      = WriteUtf8 source ++ [0] ++ (if i then [105] else []) ++ (if m then [109] else [])
          ++ [0] := by
  cases i <;> cases m <;> simp [regExpBytes, regExpFlags]

/-! ## The two code tags -/

theorem wireTag_code_iff (v : Value) : wireTag v = BSON_DATA_CODE ↔ IsFunction v = true := by
  cases v <;> simp only [wireTag, IsFunction] <;> first
    | decide
    | (split <;> (try split) <;> decide)

/-- What the branch of `BSON_DATA_CODE` returns is a code with an empty scope. -/
theorem code_result (data : List Nat) (index : Nat) (v : Value) (i : Nat)
    (h : deserialize_scalar BSON_DATA_CODE data index = .ok (v, i)) :
    ∃ code, v = .Code code (.Object "Object" []) := by
  have h1 : BSON_DATA_CODE ≠ BSON_DATA_STRING := by decide
  have h2 : BSON_DATA_CODE ≠ BSON_DATA_INT := by decide
  have h3 : BSON_DATA_CODE ≠ BSON_DATA_TIMESTAMP := by decide
  have h4 : BSON_DATA_CODE ≠ BSON_DATA_LONG := by decide
  have h5 : BSON_DATA_CODE ≠ BSON_DATA_NUMBER := by decide
  have h6 : BSON_DATA_CODE ≠ BSON_DATA_MIN_KEY := by decide
  have h7 : BSON_DATA_CODE ≠ BSON_DATA_MAX_KEY := by decide
  have h8 : BSON_DATA_CODE ≠ BSON_DATA_NULL := by decide
  have h9 : BSON_DATA_CODE ≠ BSON_DATA_BOOLEAN := by decide
  have h10 : BSON_DATA_CODE ≠ BSON_DATA_DATE := by decide
  have h11 : BSON_DATA_CODE ≠ BSON_DATA_REGEXP := by decide
  have h12 : BSON_DATA_CODE ≠ BSON_DATA_OID := by decide
  have h13 : BSON_DATA_CODE ≠ BSON_DATA_BINARY := by decide
  have h14 : BSON_DATA_CODE ≠ BSON_DATA_SYMBOL := by decide
  rw [deserialize_scalar, if_neg h1, if_neg h2, if_neg h3, if_neg h4, if_neg h5, if_neg h6,
    if_neg h7, if_neg h8, if_neg h9, if_neg h10, if_neg h11, if_neg h12, if_neg h13, if_neg h14,
    if_pos rfl] at h
  obtain ⟨string_size, _, h⟩ := (bind_eq_ok _ _ _).1 h
  obtain ⟨code, _, h⟩ := (bind_eq_ok _ _ _).1 h
  split at h
  · cases h
    exact ⟨_, rfl⟩
  · cases h

/-! ## A cursor that wraps -/

theorem strncpy_nul_head (rest : List Nat) (n : Nat) (h : 0 < n) :
    strncpy (0 :: rest) n = some (List.replicate n 0) := by
  cases n with
  | zero => omega
  | succ k => simp [strncpy]

/-- The string branch on a declared length of `2 ^ 32 - 7` whose first payload
byte is NUL, read at offset 7: the cursor returned is 4. -/
theorem wrapping_string (data : List Nat)
    (hsz : deserialize_int32 data 7 = .ok 4294967289) (tail : List Nat)
    (hdrop : data.drop 11 = 0 :: tail) :
    deserialize_scalar BSON_DATA_STRING data 7
      = .ok (.String (EncodeUTF8 ((List.replicate 4294967289 0).take 4294967288)), 4) := by
  have hs : decodeStringValue data 11 4294967289
      = .ok (EncodeUTF8 ((List.replicate 4294967289 0).take 4294967288)) := by
    have hsub : uint32Sub 4294967289 1 = 4294967288 := by unfold uint32Sub; omega
    simp only [decodeStringValue, hdrop, strncpy_nul_head tail 4294967289 (by omega), hsub,
      List.length_replicate]
    rw [if_pos (by omega)]
    rfl
  have h11 : (7 + 4) % 4294967296 = 11 := by omega
  have h4 : (11 + 4294967289) % 4294967296 = 4 := by omega
  rw [deserialize_scalar, if_pos rfl]
  simp only [hsz, ok_bind, h11, hs, h4]
  rfl

/-- One iteration of the loop at offset 4 on a string element named `a` whose
branch returns the cursor 4: the cursor is 4 before and after it. -/
theorem wrapping_step_of (data : List Nat) (tag : Nat) (value : Value)
    (htag : tag = BSON_DATA_STRING ∨ tag = BSON_DATA_SYMBOL)
    (h8 : deserialize_int8 data 4 = .ok tag)
    (hname : extract_string data 5 = .ok (some [97]))
    (hsc : deserialize_scalar tag data 7 = .ok (value, 4))
    (fuel : Nat) (acc : List (String × Value)) (arr : List Value) :
    deserialize_loop (fuel + 1) data false 16 4 acc arr
      = deserialize_loop fuel data false 16 4 (objectSet acc "a" value) arr := by
  have hty : isElementType tag = true := by rcases htag with h | h <;> rw [h] <;> rfl
  have hm : tag % 256 = tag := by rcases htag with h | h <;> rw [h] <;> rfl
  have h5 : (4 + 1) % 4294967296 = 5 := rfl
  have hl : strlen [97] = 1 := rfl
  have h7 : (5 + 1 + 1) % 4294967296 = 7 := rfl
  have hn1 : tag ≠ BSON_DATA_CODE_W_SCOPE := by rcases htag with h | h <;> rw [h] <;> decide
  have hn2 : tag ≠ BSON_DATA_OBJECT := by rcases htag with h | h <;> rw [h] <;> decide
  have hn3 : tag ≠ BSON_DATA_ARRAY := by rcases htag with h | h <;> rw [h] <;> decide
  have hname2 : EncodeUTF8 [97] = "a" := by decide
  rw [deserialize_loop, if_pos (by omega)]
  simp only [h8, ok_bind, hm, hty, if_true, h5, hname, hl, h7, if_neg hn1, if_neg hn2,
    if_neg hn3, hsc, hname2, Bool.false_eq_true, if_false]

/-- A loop whose iteration leaves the cursor and the size as they are runs
out of every amount of fuel. -/
theorem wrapping_loop_of (data : List Nat) (value : Value)
    (hstep : ∀ (fuel : Nat) (acc : List (String × Value)) (arr : List Value),
      deserialize_loop (fuel + 1) data false 16 4 acc arr
        = deserialize_loop fuel data false 16 4 (objectSet acc "a" value) arr)
    (fuel : Nat) : ∀ (acc : List (String × Value)) (arr : List Value),
    deserialize_loop fuel data false 16 4 acc arr = .error .outOfFuel := by
  induction fuel with
  | zero =>
    intro acc arr
    rw [deserialize_loop]
    rfl
  | succ fuel ih =>
    intro acc arr
    rw [hstep fuel acc arr]
    exact ih _ arr

theorem wrapping_deserialize_of (data : List Nat) (value : Value) (tail : List Nat)
    (hdata : data = leBytes 4 16 ++ tail)
    (hstep : ∀ (fuel : Nat) (acc : List (String × Value)) (arr : List Value),
      deserialize_loop (fuel + 1) data false 16 4 acc arr
        = deserialize_loop fuel data false 16 4 (objectSet acc "a" value) arr)
    (fuel : Nat) : BSONDeserialize fuel data = .error .outOfFuel := by
  cases fuel with
  | zero => rfl
  | succ f =>
    unfold BSONDeserialize
    rw [deserialize_of_loop f data false 16 tail hdata (by omega)]
    exact wrapping_loop_of data value hstep f [] []

/-! ## Bytes that are no tag -/

/-- The tags of the table are the tags for which `deserialize` has a branch. -/
theorem isElementType_iff (t : Nat) :
    isElementType t = true
      ↔ t ∈ [1, 2, 3, 4, 5, 7, 8, 9, 10, 11, 13, 14, 15, 16, 17, 18, 127, 255] := by
  simp only [isElementType, BSON_DATA_STRING, BSON_DATA_INT, BSON_DATA_TIMESTAMP, BSON_DATA_LONG,
    BSON_DATA_NUMBER, BSON_DATA_MIN_KEY, BSON_DATA_MAX_KEY, BSON_DATA_NULL, BSON_DATA_BOOLEAN,
    BSON_DATA_DATE, BSON_DATA_REGEXP, BSON_DATA_OID, BSON_DATA_BINARY, BSON_DATA_SYMBOL,
    BSON_DATA_CODE, BSON_DATA_CODE_W_SCOPE, BSON_DATA_OBJECT, BSON_DATA_ARRAY, Bool.or_eq_true,
    beq_iff_eq, List.mem_cons, List.mem_singleton, List.not_mem_nil, or_false]
  omega

/-- One iteration of the loop of `deserialize` on a byte that is no tag. -/
theorem loop_skip (fuel : Nat) (data : List Nat) (isArr : Bool) (size index : Nat)
    (acc : List (String × Value)) (arr : List Value) (b : Nat) (tail : List Nat)
    (hdrop : data.drop index = b :: tail) (hb : b < 256) (htag : isElementType b = false)
    (hlt : index < size) (hsize : size < 4294967296) :
    deserialize_loop (fuel + 1) data isArr size index acc arr
      = deserialize_loop fuel data isArr size (index + 1) acc arr := by
  obtain ⟨t, h8, h8t⟩ := deserialize_int8_tag data index b tail hdrop hb
  have hm1 : (index + 1) % 4294967296 = index + 1 := Nat.mod_eq_of_lt (by omega)
  rw [deserialize_loop, if_pos hlt]
  simp only [h8, ok_bind, h8t, htag, hm1, Bool.false_eq_true, if_false]

/-- The loop of `deserialize` once the cursor has reached the declared size. -/
theorem loop_done (fuel : Nat) (data : List Nat) (isArr : Bool) (size index : Nat)
    (acc : List (String × Value)) (arr : List Value) (h : size ≤ index) :
    deserialize_loop (fuel + 1) data isArr size index acc arr
      = .ok (if isArr = true then .Array arr else finishObject acc) := by
  rw [deserialize_loop, if_neg (by omega)]
  cases isArr <;> simp [finishObject] <;> (try split) <;> rfl

/-- What `SerializeWithBufferAndIndex` and `BSONSerialize` give for a document
whose encoding `serialize` returns. -/
theorem buffer_bytes (c : String) (ps : List (String × Value)) (sf : Bool)
    (heap data : Memory) (ck : Bool) (index : Nat) (r : Memory × Nat)
    (hscopes : scopesAreDocuments (.Object c ps) sf = true)
    (hsize : objectSize (.Object c ps) sf < 4294967296)
    (hr : serialize heap 0 0 none (.Object c ps) ck sf = .ok r) :
    BSONSerialize heap (.Object c ps) ck sf
      = .ok ((documentEncoding (.Object c ps) sf).map (fun b => b % 256))
    ∧ SerializeWithBufferAndIndex heap data (.Object c ps) ck index sf
      = (.returned ((index + objectSize (.Object c ps) sf + 4294967295) % 4294967296),
          storeBytes data index ((documentEncoding (.Object c ps) sf).map (fun b => b % 256)))
    := by
  have hn := size_ok_of_serialize (.Object c ps) sf heap 0 0 ck r hr
  obtain ⟨_, hlen, hb⟩ := root_bytes (.Object c ps) rfl sf heap 0 ck r hscopes hsize hr
  obtain ⟨rest, hrest⟩ := documentEncoding_header c ps sf hsize
  have hload : loadBytes (storeBytes heap 0 (documentEncoding (.Object c ps) sf)) 0
      (objectSize (.Object c ps) sf)
        = (documentEncoding (.Object c ps) sf).map (fun b => b % 256) := by
    have := loadBytes_storeBytes heap 0 (documentEncoding (.Object c ps) sf)
    rwa [hlen] at this
  have hw : write_int32 (storeBytes heap 0 (documentEncoding (.Object c ps) sf)) 0
      (objectSize (.Object c ps) sf) = storeBytes heap 0 (documentEncoding (.Object c ps) sf) := by
    rw [write_int32, Nat.mod_eq_of_lt hsize, hrest]
    exact storeBytes_overwrite heap 0 _ _ rest rfl
  constructor
  · simp only [BSONSerialize, hn, ok_bind, hr]
    rw [hb]
    simp only [hw, hload]
    rfl
  · simp only [SerializeWithBufferAndIndex, hn, hr]
    rw [hb]
    simp only [hload]

/-! ## The key validator and the bytes of its block -/

theorem utf16_length_le_utf8 (c : Char) :
    (utf16EncodeChar c).length ≤ (utf8EncodeChar c).length := by
  simp only [utf16EncodeChar, utf8EncodeChar]
  split <;> split <;> (try split) <;> simp <;> omega

theorem Length_le_Utf8Length (key : String) : Length key ≤ Utf8Length key := by
  unfold Length Utf8Length WriteUtf8
  induction key.toList with
  | nil => simp
  | cons c cs ih =>
    simp only [List.flatMap_cons, List.length_append]
    have := utf16_length_le_utf8 c
    omega

theorem DecodeWriteBINARY_length (key : String) : (DecodeWriteBINARY key).length = Length key := by
  simp [DecodeWriteBINARY, Length]

/-- The bytes of the block after the stores of `check_key`: the low bytes of
the code units, what the block held at the offsets from `Length` up to
`Utf8Length`, and the NUL. -/
theorem key_str_bytes (block : Memory) (key : String) :
    loadBytes (store (storeBytes block 0 (DecodeWriteBINARY key)) (Utf8Length key) 0) 0
        (Utf8Length key + 1)
      = DecodeWriteBINARY key
        ++ (List.range (Utf8Length key - Length key)).map (fun i => block (Length key + i))
        ++ [0] := by
  have hle := Length_le_Utf8Length key
  have hlen := DecodeWriteBINARY_length key
  have hlt : ∀ b ∈ DecodeWriteBINARY key, b < 256 := by
    intro b hb
    simp only [DecodeWriteBINARY, List.mem_map] at hb
    obtain ⟨u, _, rfl⟩ := hb
    exact Nat.mod_lt _ (by decide)
  apply List.ext_getElem
  · simp [loadBytes, hlen]
    omega
  · intro i h1 h2
    simp only [loadBytes, List.length_map, List.length_range] at h1
    simp only [loadBytes, List.getElem_map, List.getElem_range, Nat.zero_add, store,
      storeBytes_apply, hlen]
    by_cases hi : i = Utf8Length key
    · rw [if_pos hi]
      rw [List.getElem_append_right (by simp [hlen]; omega)]
      simp [hlen, hi]
    · rw [if_neg hi]
      by_cases hw : i < Length key
      · rw [if_pos (by omega)]
        rw [List.getElem_append_left (by simp [hlen]; omega),
          List.getElem_append_left (by rw [hlen]; exact hw)]
        rw [List.getD_eq_getElem _ _ (by rw [hlen]; exact hw)]
        exact Nat.mod_eq_of_lt (hlt _ (List.getElem_mem _))
      · rw [if_neg (by omega)]
        rw [List.getElem_append_left (by simp [hlen]; omega),
          List.getElem_append_right (by rw [hlen]; omega)]
        simp only [hlen, List.getElem_map, List.getElem_range]
        congr 1
        omega

/-- The validator `serialize` is given is `check_key_block` on a block of NUL bytes. -/
theorem check_key_eq_block (key : String) : check_key key = check_key_block (fun _ => 0) key := by
  unfold check_key check_key_block
  simp only [key_str_bytes]
  have : (List.range (Utf8Length key - Length key)).map (fun i => (fun _ => 0 : Memory) (Length key + i))
      = List.replicate (Utf8Length key - Length key) 0 := by
    apply List.ext_getElem <;> simp
  rw [this]

/-- For a name of characters below U+0080 every byte of the block before the
NUL is written, and the tests do not depend on what the block held. -/
theorem check_key_block_written (block : Memory) (key : String)
    (h : ∀ c ∈ key.toList, c.toNat < 128) : check_key_block block key = check_key key := by
  have h8 := flatMap_utf8_ascii key.toList h
  have h16 := flatMap_utf16_ascii key.toList h
  have hLU : Utf8Length key - Length key = 0 := by
    simp only [Utf8Length, Length, WriteUtf8, h8, h16, Nat.sub_self]
  unfold check_key check_key_block
  simp only [key_str_bytes, hLU, List.range_zero, List.map_nil, List.replicate_zero]

/-! ## The stores of a run that throws -/

theorem withoutStores_throwAt {α : Type} (mem : Memory) (x : Except EncodeError α) :
    withoutStores (throwAt mem x) = x := by
  cases x <;> rfl

theorem withoutStores_bind {α β : Type} (x : Except EncodeError α)
    (y : Except (EncodeError × Memory) α) (f : α → Except EncodeError β)
    (g : α → Except (EncodeError × Memory) β) (h1 : withoutStores y = x)
    (h2 : ∀ a, withoutStores (g a) = f a) : withoutStores (y >>= g) = x >>= f := by
  subst h1
  cases y with
  | error e => rfl
  | ok a => exact h2 a

theorem withoutStores_check (blocks : Nat → String → Memory) (mem : Memory) (a : Nat)
    (name : Option String) (ck : Bool)
    (h : (name.isSome && ck) = true →
      check_key_block (blocks a (nameString name)) (nameString name)
        = check_key (nameString name)) :
    withoutStores (if (name.isSome && ck) = true then
        throwAt mem (check_key_block (blocks a (nameString name)) (nameString name))
        else pure ())
      = (if (name.isSome && ck) = true then check_key (nameString name) else pure ()) := by
  split
  · rename_i hc
    rw [h hc]
    exact withoutStores_throwAt _ _
  · rfl

theorem withoutStores_ite {α : Type} (c : Prop) [Decidable c] (x1 x2 : Except EncodeError α)
    (y1 y2 : Except (EncodeError × Memory) α) (h1 : withoutStores y1 = x1)
    (h2 : withoutStores y2 = x2) :
    withoutStores (if c then y1 else y2) = if c then x1 else x2 := by
  split
  · exact h1
  · exact h2

theorem emittedNames_self (key : String) (v : Value) (sf : Bool) :
    key ∈ emittedNames (some key) v sf := by
  cases v <;> simp [emittedNames]

/-- Where the validator, on the blocks it is given, agrees with `check_key`
on the names handed to it, it agrees on the name of the call. -/
theorem agrees_at_name (blocks : Nat → String → Memory) (name : Option String) (v : Value)
    (sf ck : Bool)
    (hk : ∀ k ∈ emittedNames name v sf, ck = true →
      ∀ a, check_key_block (blocks a k) k = check_key k) (a : Nat) :
    (name.isSome && ck) = true →
      check_key_block (blocks a (nameString name)) (nameString name)
        = check_key (nameString name) := by
  intro h
  cases name with
  | none => simp at h
  | some key =>
    simp only [Option.isSome_some, Bool.true_and] at h
    exact hk key (emittedNames_self key v sf) h a

mutual
/-- Without the memory kept in a failure, `serialize_stores` is `serialize`,
where the validator on its blocks agrees with `check_key` on the names handed
to it (as it does for names of characters below U+0080, and where validation
is off). -/
theorem serialize_stores_erases : ∀ (v : Value) (sf : Bool) (blocks : Nat → String → Memory)
    (mem : Memory) (so idx : Nat) (name : Option String) (ck : Bool),
    (∀ k ∈ emittedNames name v sf, ck = true →
      ∀ a, check_key_block (blocks a k) k = check_key k) →
    withoutStores (serialize_stores blocks mem so idx name v ck sf)
      = serialize mem so idx name v ck sf
  | .Long _ _, sf, blocks, mem, so, idx, name, ck, hk => by
    simp only [serialize, serialize_stores]
    exact withoutStores_bind _ _ _ _ (withoutStores_check blocks mem _ name ck (agrees_at_name blocks name _ sf ck hk _))
      (fun _ => rfl)
  | .Timestamp _ _, sf, blocks, mem, so, idx, name, ck, hk => by
    simp only [serialize, serialize_stores]
    exact withoutStores_bind _ _ _ _ (withoutStores_check blocks mem _ name ck (agrees_at_name blocks name _ sf ck hk _))
      (fun _ => rfl)
  | .ObjectID _, sf, blocks, mem, so, idx, name, ck, hk => by
    simp only [serialize, serialize_stores]
    exact withoutStores_bind _ _ _ _ (withoutStores_check blocks mem _ name ck (agrees_at_name blocks name _ sf ck hk _))
      (fun _ => rfl)
  | .Binary _ _, sf, blocks, mem, so, idx, name, ck, hk => by
    simp only [serialize, serialize_stores]
    exact withoutStores_bind _ _ _ _ (withoutStores_check blocks mem _ name ck (agrees_at_name blocks name _ sf ck hk _))
      (fun _ => rfl)
  | .Double _, sf, blocks, mem, so, idx, name, ck, hk => by
    simp only [serialize, serialize_stores]
    exact withoutStores_bind _ _ _ _ (withoutStores_check blocks mem _ name ck (agrees_at_name blocks name _ sf ck hk _))
      (fun _ => rfl)
  | .Symbol _, sf, blocks, mem, so, idx, name, ck, hk => by
    simp only [serialize, serialize_stores]
    exact withoutStores_bind _ _ _ _ (withoutStores_check blocks mem _ name ck (agrees_at_name blocks name _ sf ck hk _))
      (fun _ => rfl)
  | .String _, sf, blocks, mem, so, idx, name, ck, hk => by
    simp only [serialize, serialize_stores]
    exact withoutStores_bind _ _ _ _ (withoutStores_check blocks mem _ name ck (agrees_at_name blocks name _ sf ck hk _))
      (fun _ => rfl)
  | .MinKey, sf, blocks, mem, so, idx, name, ck, hk => by
    simp only [serialize, serialize_stores]
    exact withoutStores_bind _ _ _ _ (withoutStores_check blocks mem _ name ck (agrees_at_name blocks name _ sf ck hk _))
      (fun _ => rfl)
  | .MaxKey, sf, blocks, mem, so, idx, name, ck, hk => by
    simp only [serialize, serialize_stores]
    exact withoutStores_bind _ _ _ _ (withoutStores_check blocks mem _ name ck (agrees_at_name blocks name _ sf ck hk _))
      (fun _ => rfl)
  | .Null, sf, blocks, mem, so, idx, name, ck, hk => by
    simp only [serialize, serialize_stores]
    exact withoutStores_bind _ _ _ _ (withoutStores_check blocks mem _ name ck (agrees_at_name blocks name _ sf ck hk _))
      (fun _ => rfl)
  | .Undefined, sf, blocks, mem, so, idx, name, ck, hk => by
    simp only [serialize, serialize_stores]
    exact withoutStores_bind _ _ _ _ (withoutStores_check blocks mem _ name ck (agrees_at_name blocks name _ sf ck hk _))
      (fun _ => rfl)
  | .Boolean _, sf, blocks, mem, so, idx, name, ck, hk => by
    simp only [serialize, serialize_stores]
    exact withoutStores_bind _ _ _ _ (withoutStores_check blocks mem _ name ck (agrees_at_name blocks name _ sf ck hk _))
      (fun _ => rfl)
  | .Date _, sf, blocks, mem, so, idx, name, ck, hk => by
    simp only [serialize, serialize_stores]
    exact withoutStores_bind _ _ _ _ (withoutStores_check blocks mem _ name ck (agrees_at_name blocks name _ sf ck hk _))
      (fun _ => rfl)
  | .DBRef ns oid db, sf, blocks, mem, so, idx, name, ck, hk => by
    have h1 := fun mem idx => serialize_stores_erases ns sf blocks mem so idx (some "$ref") false
      (fun _ _ h => absurd h Bool.false_ne_true)
    have h2 := fun mem idx => serialize_stores_erases oid sf blocks mem so idx (some "$id") false
      (fun _ _ h => absurd h Bool.false_ne_true)
    have h3 := fun mem idx => serialize_db_stores_erases db sf blocks mem so idx
    simp only [serialize, serialize_stores]
    refine withoutStores_bind _ _ _ _ (withoutStores_check blocks mem _ name ck (agrees_at_name blocks name _ sf ck hk _))
      (fun _ => ?_)
    refine withoutStores_bind _ _ _ _ (withoutStores_throwAt _ _) (fun _ => ?_)
    refine withoutStores_bind _ _ _ _ (withoutStores_ite _ _ _ _ _ (h1 _ _) rfl) (fun _ => ?_)
    refine withoutStores_bind _ _ _ _ (withoutStores_ite _ _ _ _ _ (h2 _ _) rfl) (fun _ => ?_)
    exact withoutStores_bind _ _ _ _ (h3 _ _) (fun _ => rfl)
  | .Code c s, sf, blocks, mem, so, idx, name, ck, hk => by
    have h1 := fun mem so => serialize_stores_erases s sf blocks mem so 0 none ck
      (fun k hk1 => hk k (by simp only [emittedNames]; exact List.mem_append_right _ hk1))
    simp only [serialize, serialize_stores, writeTagAndName_eq]
    refine withoutStores_bind _ _ _ _ (withoutStores_check blocks mem _ name ck (agrees_at_name blocks name _ sf ck hk _))
      (fun _ => ?_)
    refine withoutStores_bind _ _ _ _ (withoutStores_throwAt _ _) (fun _ => ?_)
    exact withoutStores_bind _ _ _ _ (h1 _ _) (fun ⟨_, _⟩ => rfl)
  | .Number _, sf, blocks, mem, so, idx, name, ck, hk => by
    simp only [serialize, serialize_stores]
    refine withoutStores_bind _ _ _ _ (withoutStores_check blocks mem _ name ck (agrees_at_name blocks name _ sf ck hk _))
      (fun _ => ?_)
    split
    · rfl
    · split
      · rfl
      · split <;> rfl
  | .RegExp _ _, sf, blocks, mem, so, idx, name, ck, hk => by
    simp only [serialize, serialize_stores]
    refine withoutStores_bind _ _ _ _ (withoutStores_check blocks mem _ name ck (agrees_at_name blocks name _ sf ck hk _))
      (fun _ => ?_)
    split <;> split <;> rfl
  | .Array es, sf, blocks, mem, so, idx, name, ck, hk => by
    have h1 := fun mem idx => serialize_elements_stores_erases es 0 sf blocks mem so idx ck
      (fun k hk1 => hk k (by simp only [emittedNames]; exact List.mem_append_right _ hk1))
    simp only [serialize, serialize_stores, writeTagAndName_eq]
    refine withoutStores_bind _ _ _ _ (withoutStores_check blocks mem _ name ck (agrees_at_name blocks name _ sf ck hk _))
      (fun _ => ?_)
    refine withoutStores_bind _ _ _ _ (withoutStores_throwAt _ _) (fun _ => ?_)
    exact withoutStores_bind _ _ _ _ (h1 _ _) (fun ⟨_, _⟩ => rfl)
  | .Function _, sf, blocks, mem, so, idx, name, ck, hk => by
    simp only [serialize, serialize_stores]
    refine withoutStores_bind _ _ _ _ (withoutStores_check blocks mem _ name ck (agrees_at_name blocks name _ sf ck hk _))
      (fun _ => ?_)
    split <;> rfl
  | .Object c ps, sf, blocks, mem, so, idx, name, ck, hk => by
    have h1 := fun mem idx => serialize_properties_stores_erases ps sf blocks mem so idx ck
      (fun k hk1 => hk k (by simp only [emittedNames]; exact List.mem_append_right _ hk1))
    simp only [serialize, serialize_stores]
    refine withoutStores_bind _ _ _ _ (withoutStores_check blocks mem _ name ck (agrees_at_name blocks name _ sf ck hk _))
      (fun _ => ?_)
    split
    · rfl
    · refine withoutStores_bind _ _ _ _ (withoutStores_throwAt _ _) (fun _ => ?_)
      exact withoutStores_bind _ _ _ _ (h1 _ _) (fun _ => rfl)
theorem serialize_db_stores_erases : ∀ (db : Option Value) (sf : Bool)
    (blocks : Nat → String → Memory) (mem : Memory) (so idx : Nat),
    withoutStores (serialize_db_stores blocks mem so idx db sf) = serialize_db mem so idx db sf
  | none, sf, blocks, mem, so, idx => by simp only [serialize_db, serialize_db_stores]; rfl
  | some v, sf, blocks, mem, so, idx => by
    have h1 := serialize_stores_erases v sf blocks mem so idx (some "$db") false
      (fun _ _ h => absurd h Bool.false_ne_true)
    simp only [serialize_db, serialize_db_stores]
    split
    · exact h1
    · rfl
theorem serialize_elements_stores_erases : ∀ (es : List Value) (i : Nat) (sf : Bool)
    (blocks : Nat → String → Memory) (mem : Memory) (so idx : Nat) (ck : Bool),
    (∀ k ∈ emittedNamesElements es i sf, ck = true →
      ∀ a, check_key_block (blocks a k) k = check_key k) →
    withoutStores (serialize_elements_stores blocks mem so idx es i ck sf)
      = serialize_elements mem so idx es i ck sf
  | [], i, sf, blocks, mem, so, idx, ck, _ => by
    simp only [serialize_elements, serialize_elements_stores]; rfl
  | v :: rest, i, sf, blocks, mem, so, idx, ck, hk => by
    have h1 := serialize_stores_erases v sf blocks mem so idx (some (toString i)) ck
      (fun k hk1 => hk k (by
        simp only [emittedNamesElements]; exact List.mem_append_left _ hk1))
    have h2 := fun mem idx =>
      serialize_elements_stores_erases rest (i + 1) sf blocks mem so idx ck
        (fun k hk1 => hk k (by
          simp only [emittedNamesElements]; exact List.mem_append_right _ hk1))
    simp only [serialize_elements, serialize_elements_stores]
    exact withoutStores_bind _ _ _ _ h1 (fun ⟨_, _⟩ => h2 _ _)
theorem serialize_properties_stores_erases : ∀ (ps : List (String × Value)) (sf : Bool)
    (blocks : Nat → String → Memory) (mem : Memory) (so idx : Nat) (ck : Bool),
    (∀ k ∈ emittedNamesProperties ps sf, ck = true →
      ∀ a, check_key_block (blocks a k) k = check_key k) →
    withoutStores (serialize_properties_stores blocks mem so idx ps ck sf)
      = serialize_properties mem so idx ps ck sf
  | [], sf, blocks, mem, so, idx, ck, _ => by
    simp only [serialize_properties, serialize_properties_stores]; rfl
  | (k, v) :: rest, sf, blocks, mem, so, idx, ck, hk => by
    simp only [serialize_properties, serialize_properties_stores]
    by_cases hw : (!IsFunction v || (IsFunction v && sf)) = true
    · have h1 := serialize_stores_erases v sf blocks mem so idx (some k) ck
        (fun k1 hk1 => hk k1 (by
          simp only [emittedNamesProperties, if_pos hw]; exact List.mem_append_left _ hk1))
      have h2 := fun mem idx =>
        serialize_properties_stores_erases rest sf blocks mem so idx ck
          (fun k1 hk1 => hk k1 (by
            simp only [emittedNamesProperties, if_pos hw]; exact List.mem_append_right _ hk1))
      rw [if_pos hw, if_pos hw]
      exact withoutStores_bind _ _ _ _ h1 (fun ⟨_, _⟩ => h2 _ _)
    · have h2 := fun mem idx =>
        serialize_properties_stores_erases rest sf blocks mem so idx ck
          (fun k1 hk1 => hk k1 (by simp only [emittedNamesProperties, if_neg hw]; exact hk1))
      rw [if_neg hw, if_neg hw]
      exact h2 _ _
end

/-! ## A returning run is the run without validation -/

theorem returns_of_erased {α : Type} (x : Except EncodeError α)
    (y : Except (EncodeError × Memory) α) (h : withoutStores y = x) :
    ∀ b, y = .ok b → x = .ok b := by
  intro b hb
  rw [← h, hb]
  rfl

theorem returns_bind {α β : Type} (x : Except EncodeError α)
    (y : Except (EncodeError × Memory) α) (f : α → Except EncodeError β)
    (g : α → Except (EncodeError × Memory) β) (h1 : ∀ a, y = .ok a → x = .ok a)
    (h2 : ∀ a b, g a = .ok b → f a = .ok b) : ∀ b, (y >>= g) = .ok b → (x >>= f) = .ok b := by
  intro b hb
  cases y with
  | error e => cases hb
  | ok a =>
    rw [h1 a rfl]
    exact h2 a b hb

theorem returns_check (mem : Memory) (name : Option String) (ck : Bool)
    (c : Except EncodeError Unit) (d : Except EncodeError Unit) :
    ∀ u, (if (name.isSome && ck) = true then throwAt mem c else pure ()) = .ok u →
      (if (name.isSome && false) = true then d else pure ()) = .ok u := by
  intro u _
  simp only [Bool.and_false, Bool.false_eq_true, if_false]
  rfl

theorem returns_ite {α : Type} (c : Prop) [Decidable c] (x1 x2 : Except EncodeError α)
    (y1 y2 : Except (EncodeError × Memory) α) (h1 : ∀ b, y1 = .ok b → x1 = .ok b)
    (h2 : ∀ b, y2 = .ok b → x2 = .ok b) :
    ∀ b, (if c then y1 else y2) = .ok b → (if c then x1 else x2) = .ok b := by
  split
  · exact h1
  · exact h2

mutual
/-- A run of `serialize_stores` that returns, whatever the blocks of the
validator held, returns what `serialize` returns without validation. -/
theorem serialize_stores_returns : ∀ (v : Value) (sf : Bool) (blocks : Nat → String → Memory)
    (mem : Memory) (so idx : Nat) (name : Option String) (ck : Bool) (r : Memory × Nat),
    serialize_stores blocks mem so idx name v ck sf = .ok r →
    serialize mem so idx name v false sf = .ok r
  | .Long _ _, sf, blocks, mem, so, idx, name, ck => by
    simp only [serialize, serialize_stores]
    exact returns_bind _ _ _ _ (returns_check mem name ck _ _) (fun _ => returns_of_erased _ _ rfl)
  | .Timestamp _ _, sf, blocks, mem, so, idx, name, ck => by
    simp only [serialize, serialize_stores]
    exact returns_bind _ _ _ _ (returns_check mem name ck _ _) (fun _ => returns_of_erased _ _ rfl)
  | .ObjectID _, sf, blocks, mem, so, idx, name, ck => by
    simp only [serialize, serialize_stores]
    exact returns_bind _ _ _ _ (returns_check mem name ck _ _) (fun _ => returns_of_erased _ _ rfl)
  | .Binary _ _, sf, blocks, mem, so, idx, name, ck => by
    simp only [serialize, serialize_stores]
    exact returns_bind _ _ _ _ (returns_check mem name ck _ _) (fun _ => returns_of_erased _ _ rfl)
  | .Double _, sf, blocks, mem, so, idx, name, ck => by
    simp only [serialize, serialize_stores]
    exact returns_bind _ _ _ _ (returns_check mem name ck _ _) (fun _ => returns_of_erased _ _ rfl)
  | .Symbol _, sf, blocks, mem, so, idx, name, ck => by
    simp only [serialize, serialize_stores]
    exact returns_bind _ _ _ _ (returns_check mem name ck _ _) (fun _ => returns_of_erased _ _ rfl)
  | .String _, sf, blocks, mem, so, idx, name, ck => by
    simp only [serialize, serialize_stores]
    exact returns_bind _ _ _ _ (returns_check mem name ck _ _) (fun _ => returns_of_erased _ _ rfl)
  | .MinKey, sf, blocks, mem, so, idx, name, ck => by
    simp only [serialize, serialize_stores]
    exact returns_bind _ _ _ _ (returns_check mem name ck _ _) (fun _ => returns_of_erased _ _ rfl)
  | .MaxKey, sf, blocks, mem, so, idx, name, ck => by
    simp only [serialize, serialize_stores]
    exact returns_bind _ _ _ _ (returns_check mem name ck _ _) (fun _ => returns_of_erased _ _ rfl)
  | .Null, sf, blocks, mem, so, idx, name, ck => by
    simp only [serialize, serialize_stores]
    exact returns_bind _ _ _ _ (returns_check mem name ck _ _) (fun _ => returns_of_erased _ _ rfl)
  | .Undefined, sf, blocks, mem, so, idx, name, ck => by
    simp only [serialize, serialize_stores]
    exact returns_bind _ _ _ _ (returns_check mem name ck _ _) (fun _ => returns_of_erased _ _ rfl)
  | .Boolean _, sf, blocks, mem, so, idx, name, ck => by
    simp only [serialize, serialize_stores]
    exact returns_bind _ _ _ _ (returns_check mem name ck _ _) (fun _ => returns_of_erased _ _ rfl)
  | .Date _, sf, blocks, mem, so, idx, name, ck => by
    simp only [serialize, serialize_stores]
    exact returns_bind _ _ _ _ (returns_check mem name ck _ _) (fun _ => returns_of_erased _ _ rfl)
  | .DBRef ns oid db, sf, blocks, mem, so, idx, name, ck => by
    have h1 := fun mem idx => serialize_stores_returns ns sf blocks mem so idx (some "$ref") false
    have h2 := fun mem idx => serialize_stores_returns oid sf blocks mem so idx (some "$id") false
    have h3 := fun mem idx => serialize_db_stores_returns db sf blocks mem so idx
    simp only [serialize, serialize_stores]
    refine returns_bind _ _ _ _ (returns_check mem name ck _ _) (fun _ => ?_)
    refine returns_bind _ _ _ _ (returns_of_erased _ _ (withoutStores_throwAt _ _)) (fun _ => ?_)
    refine returns_bind _ _ _ _
      (returns_ite _ _ _ _ _ (h1 _ _) (returns_of_erased _ _ rfl)) (fun _ => ?_)
    refine returns_bind _ _ _ _
      (returns_ite _ _ _ _ _ (h2 _ _) (returns_of_erased _ _ rfl)) (fun _ => ?_)
    exact returns_bind _ _ _ _ (h3 _ _) (fun _ => returns_of_erased _ _ rfl)
  | .Code c s, sf, blocks, mem, so, idx, name, ck => by
    have h1 := fun mem so => serialize_stores_returns s sf blocks mem so 0 none ck
    simp only [serialize, serialize_stores, writeTagAndName_eq]
    refine returns_bind _ _ _ _ (returns_check mem name ck _ _) (fun _ => ?_)
    refine returns_bind _ _ _ _ (returns_of_erased _ _ (withoutStores_throwAt _ _)) (fun _ => ?_)
    exact returns_bind _ _ _ _ (h1 _ _) (fun ⟨_, _⟩ => returns_of_erased _ _ rfl)
  | .Number _, sf, blocks, mem, so, idx, name, ck => by
    simp only [serialize, serialize_stores]
    refine returns_bind _ _ _ _ (returns_check mem name ck _ _) (fun _ => returns_of_erased _ _ ?_)
    split
    · rfl
    · split
      · rfl
      · split <;> rfl
  | .RegExp _ _, sf, blocks, mem, so, idx, name, ck => by
    simp only [serialize, serialize_stores]
    refine returns_bind _ _ _ _ (returns_check mem name ck _ _) (fun _ => returns_of_erased _ _ ?_)
    split <;> split <;> rfl
  | .Array es, sf, blocks, mem, so, idx, name, ck => by
    have h1 := fun mem idx => serialize_elements_stores_returns es 0 sf blocks mem so idx ck
    simp only [serialize, serialize_stores, writeTagAndName_eq]
    refine returns_bind _ _ _ _ (returns_check mem name ck _ _) (fun _ => ?_)
    refine returns_bind _ _ _ _ (returns_of_erased _ _ (withoutStores_throwAt _ _)) (fun _ => ?_)
    exact returns_bind _ _ _ _ (h1 _ _) (fun ⟨_, _⟩ => returns_of_erased _ _ rfl)
  | .Function _, sf, blocks, mem, so, idx, name, ck => by
    simp only [serialize, serialize_stores]
    refine returns_bind _ _ _ _ (returns_check mem name ck _ _) (fun _ => returns_of_erased _ _ ?_)
    split <;> rfl
  | .Object c ps, sf, blocks, mem, so, idx, name, ck => by
    have h1 := fun mem idx => serialize_properties_stores_returns ps sf blocks mem so idx ck
    simp only [serialize, serialize_stores]
    refine returns_bind _ _ _ _ (returns_check mem name ck _ _) (fun _ => ?_)
    split
    · exact returns_of_erased _ _ rfl
    · refine returns_bind _ _ _ _ (returns_of_erased _ _ (withoutStores_throwAt _ _))
        (fun _ => ?_)
      exact returns_bind _ _ _ _ (h1 _ _) (fun _ => returns_of_erased _ _ rfl)
theorem serialize_db_stores_returns : ∀ (db : Option Value) (sf : Bool)
    (blocks : Nat → String → Memory) (mem : Memory) (so idx : Nat) (r : Memory × Nat),
    serialize_db_stores blocks mem so idx db sf = .ok r → serialize_db mem so idx db sf = .ok r
  | none, sf, blocks, mem, so, idx => by
    simp only [serialize_db, serialize_db_stores]
    exact returns_of_erased _ _ rfl
  | some v, sf, blocks, mem, so, idx => by
    have h1 := serialize_stores_returns v sf blocks mem so idx (some "$db") false
    simp only [serialize_db, serialize_db_stores]
    exact returns_ite _ _ _ _ _ h1 (returns_of_erased _ _ rfl)
theorem serialize_elements_stores_returns : ∀ (es : List Value) (i : Nat) (sf : Bool)
    (blocks : Nat → String → Memory) (mem : Memory) (so idx : Nat) (ck : Bool)
    (r : Memory × Nat),
    serialize_elements_stores blocks mem so idx es i ck sf = .ok r →
    serialize_elements mem so idx es i false sf = .ok r
  | [], i, sf, blocks, mem, so, idx, ck => by
    simp only [serialize_elements, serialize_elements_stores]
    exact returns_of_erased _ _ rfl
  | v :: rest, i, sf, blocks, mem, so, idx, ck => by
    have h1 := serialize_stores_returns v sf blocks mem so idx (some (toString i)) ck
    have h2 := fun mem idx =>
      serialize_elements_stores_returns rest (i + 1) sf blocks mem so idx ck
    simp only [serialize_elements, serialize_elements_stores]
    exact returns_bind _ _ _ _ h1 (fun ⟨_, _⟩ => h2 _ _)
theorem serialize_properties_stores_returns : ∀ (ps : List (String × Value)) (sf : Bool)
    (blocks : Nat → String → Memory) (mem : Memory) (so idx : Nat) (ck : Bool)
    (r : Memory × Nat),
    serialize_properties_stores blocks mem so idx ps ck sf = .ok r →
    serialize_properties mem so idx ps false sf = .ok r
  | [], sf, blocks, mem, so, idx, ck => by
    simp only [serialize_properties, serialize_properties_stores]
    exact returns_of_erased _ _ rfl
  | (k, v) :: rest, sf, blocks, mem, so, idx, ck => by
    have h1 := serialize_stores_returns v sf blocks mem so idx (some k) ck
    have h2 := fun mem idx => serialize_properties_stores_returns rest sf blocks mem so idx ck
    simp only [serialize_properties, serialize_properties_stores]
    split
    · exact returns_bind _ _ _ _ h1 (fun ⟨_, _⟩ => h2 _ _)
    · exact h2 _ _
end

/-! ## The names the key validator is handed -/

mutual
theorem hasInvalidName_any : ∀ (v : Value) (name : Option String) (sf : Bool),
    hasInvalidName name v sf
      = (emittedNames name v sf).any (fun k => decide (check_key k ≠ .ok ()))
  | .Code _ s, name, sf => by
    have ih := hasInvalidName_any s none sf
    simp only [hasInvalidName, emittedNames, List.any_append, ih]
    cases name <;> simp
  | .Array es, name, sf => by
    have ih := hasInvalidNameElements_any es 0 sf
    simp only [hasInvalidName, emittedNames, List.any_append, ih]
    cases name <;> simp
  | .Object _ ps, name, sf => by
    have ih := hasInvalidNameProperties_any ps sf
    simp only [hasInvalidName, emittedNames, List.any_append, ih]
    cases name <;> simp
  | .Long _ _, name, sf => by
    simp only [hasInvalidName, emittedNames]; cases name <;> simp
  | .Timestamp _ _, name, sf => by
    simp only [hasInvalidName, emittedNames]; cases name <;> simp
  | .ObjectID _, name, sf => by
    simp only [hasInvalidName, emittedNames]; cases name <;> simp
  | .Binary _ _, name, sf => by
    simp only [hasInvalidName, emittedNames]; cases name <;> simp
  | .DBRef _ _ _, name, sf => by
    simp only [hasInvalidName, emittedNames]; cases name <;> simp
  | .Double _, name, sf => by
    simp only [hasInvalidName, emittedNames]; cases name <;> simp
  | .Symbol _, name, sf => by
    simp only [hasInvalidName, emittedNames]; cases name <;> simp
  | .String _, name, sf => by
    simp only [hasInvalidName, emittedNames]; cases name <;> simp
  | .MinKey, name, sf => by
    simp only [hasInvalidName, emittedNames]; cases name <;> simp
  | .MaxKey, name, sf => by
    simp only [hasInvalidName, emittedNames]; cases name <;> simp
  | .Null, name, sf => by
    simp only [hasInvalidName, emittedNames]; cases name <;> simp
  | .Undefined, name, sf => by
    simp only [hasInvalidName, emittedNames]; cases name <;> simp
  | .Number _, name, sf => by
    simp only [hasInvalidName, emittedNames]; cases name <;> simp
  | .Boolean _, name, sf => by
    simp only [hasInvalidName, emittedNames]; cases name <;> simp
  | .Date _, name, sf => by
    simp only [hasInvalidName, emittedNames]; cases name <;> simp
  | .RegExp _ _, name, sf => by
    simp only [hasInvalidName, emittedNames]; cases name <;> simp
  | .Function _, name, sf => by
    simp only [hasInvalidName, emittedNames]; cases name <;> simp
theorem hasInvalidNameElements_any : ∀ (es : List Value) (i : Nat) (sf : Bool),
    hasInvalidNameElements es i sf
      = (emittedNamesElements es i sf).any (fun k => decide (check_key k ≠ .ok ()))
  | [], i, sf => by simp [hasInvalidNameElements, emittedNamesElements]
  | v :: rest, i, sf => by
    have h1 := hasInvalidName_any v (some (toString i)) sf
    have h2 := hasInvalidNameElements_any rest (i + 1) sf
    simp only [hasInvalidNameElements, emittedNamesElements, List.any_append, h1, h2]
theorem hasInvalidNameProperties_any : ∀ (ps : List (String × Value)) (sf : Bool),
    hasInvalidNameProperties ps sf
      = (emittedNamesProperties ps sf).any (fun k => decide (check_key k ≠ .ok ()))
  | [], sf => by simp [hasInvalidNameProperties, emittedNamesProperties]
  | (k, v) :: rest, sf => by
    have h1 := hasInvalidName_any v (some k) sf
    have h2 := hasInvalidNameProperties_any rest sf
    simp only [hasInvalidNameProperties, emittedNamesProperties]
    split
    · simp only [List.any_append, h1, h2]
    · exact h2
end

/-- On a name of ASCII characters other than NUL the key validator rejects
exactly the names the specification excludes. -/
theorem check_key_spec (key : String) (h : ∀ c ∈ key.toList, 0 < c.toNat ∧ c.toNat < 128) :
    decide (check_key key ≠ .ok ()) = specInvalidFieldName key := by
  rw [check_key_ascii key h]
  unfold specInvalidFieldName
  by_cases h1 : key.toList.head? = some '$'
  · rw [if_pos h1, decide_eq_true h1]
    simp
  · rw [if_neg h1, decide_eq_false h1]
    by_cases h2 : '.' ∈ key.toList
    · rw [if_pos h2, decide_eq_true h2]
      simp
    · rw [if_neg h2, decide_eq_false h2]
      simp

theorem any_congr_mem {α : Type} (p q : α → Bool) :
    ∀ (l : List α), (∀ a ∈ l, p a = q a) → l.any p = l.any q
  | [], _ => rfl
  | a :: l, h => by
    simp only [List.any_cons, h a (List.mem_cons_self _ _),
      any_congr_mem p q l (fun b hb => h b (List.mem_cons_of_mem _ hb))]

/-- When the names handed to the key validator are made of ASCII characters
other than NUL, a name is rejected exactly when some of them is excluded by
the specification. -/
theorem hasInvalidName_spec (v : Value) (name : Option String) (sf : Bool)
    (hascii : ∀ k ∈ emittedNames name v sf, ∀ c ∈ k.toList, 0 < c.toNat ∧ c.toNat < 128) :
    hasInvalidName name v sf = (emittedNames name v sf).any specInvalidFieldName := by
  rw [hasInvalidName_any]
  exact any_congr_mem _ _ _ (fun k hk => check_key_spec k (hascii k hk))

theorem stores_ok_of_erased {α : Type} (y : Except (EncodeError × Memory) α) (r : α)
    (h : withoutStores y = .ok r) : y = .ok r := by
  cases y with
  | error e => cases h
  | ok a => cases h; rfl

/-- A rejected name makes the call for its element fail with the memory as it
was at the call. -/
theorem serialize_stores_rejected (blocks : Nat → String → Memory) (mem : Memory) (so idx : Nat)
    (key : String) (v : Value) (sf : Bool) (e : EncodeError)
    (hkey : check_key_block (blocks (so + idx) key) key = .error e) :
    serialize_stores blocks mem so idx (some key) v true sf = .error (e, mem) := by
  cases v <;>
    (simp only [serialize_stores, Option.isSome_some, Bool.and_true, if_true, nameString, hkey,
      throwAt]; rfl)

theorem serialize_rejected (mem : Memory) (so idx : Nat) (key : String) (v : Value) (sf : Bool)
    (e : EncodeError) (hkey : check_key key = .error e) :
    serialize mem so idx (some key) v true sf = .error e := by
  cases v <;>
    (simp only [serialize, Option.isSome_some, Bool.and_true, if_true, nameString, hkey]; rfl)

/-- In the loop over the properties of an object, the run fails at the first
emitted property whose name is rejected, with the memory the properties
before it have left. -/
theorem serialize_properties_stores_rejected (blocks : Nat → String → Memory) (key : String)
    (v : Value) (sf : Bool) (e : EncodeError)
    (hkey : ∀ a, check_key_block (blocks a key) key = .error e)
    (hemit : (!IsFunction v || (IsFunction v && sf)) = true) (ps2 : List (String × Value)) :
    ∀ (ps1 : List (String × Value)) (mem : Memory) (so idx : Nat) (r : Memory × Nat),
      serialize_properties_stores blocks mem so idx ps1 true sf = .ok r →
      serialize_properties_stores blocks mem so idx (ps1 ++ (key, v) :: ps2) true sf
        = .error (e, r.1)
  | [], mem, so, idx, r, h => by
    simp only [serialize_properties_stores] at h
    cases h
    simp only [List.nil_append, serialize_properties_stores, hemit, if_true,
      serialize_stores_rejected blocks mem so idx key v sf e (hkey _)]
    rfl
  | (k, w) :: ps1, mem, so, idx, r, h => by
    simp only [List.cons_append, serialize_properties_stores] at h ⊢
    split
    · rename_i hw
      rw [if_pos hw] at h
      cases h1 : serialize_stores blocks mem so idx (some k) w true sf with
      | error e1 => rw [h1] at h; cases h
      | ok r1 =>
        rw [h1] at h
        exact serialize_properties_stores_rejected blocks key v sf e hkey hemit ps2 ps1 _ _ _ r h
    · rename_i hw
      rw [if_neg hw] at h
      exact serialize_properties_stores_rejected blocks key v sf e hkey hemit ps2 ps1 _ _ _ r h

/-- What `BSONSerialize` with key validation does for a value that holds no
object of a wrong class. -/
theorem BSONSerialize_checked (v : Value) (sf : Bool) (heap : Memory)
    (hw : hasWrongClass v = false) :
    (hasInvalidName none v sf = true →
      ∃ e, BSONSerialize heap v true sf = .error e ∧ e.isInvalidFieldName = true)
    ∧ (hasInvalidName none v sf = false →
      BSONSerialize heap v true sf = BSONSerialize heap v false sf
      ∧ ∃ bytes, BSONSerialize heap v false sf = .ok bytes) := by
  have hn : ∃ n, calculate_object_size v sf = .ok n := by
    rcases size_result v sf with ⟨_, h⟩ | ⟨h, _⟩
    · exact h
    · rw [hw] at h; cases h
  obtain ⟨n, hn⟩ := hn
  obtain ⟨r, hr⟩ := serialize_ok_of_size v sf heap 0 0 none hw
  have hk := serialize_keyChecked v sf heap 0 0 none r hr
  constructor
  · intro hinv
    obtain ⟨e, he, hkind⟩ := hk.1 hinv
    exact ⟨e, by simp only [BSONSerialize, hn, he, ok_bind]; rfl, hkind⟩
  · intro hinv
    have he := hk.2 hinv
    refine ⟨by simp only [BSONSerialize, he, hr], ?_⟩
    exact ⟨_, by simp only [BSONSerialize, hn, hr, ok_bind]; rfl⟩

/-! ## The estimate modulo `2 ^ 32` -/

theorem map_bind_size {α : Type} (x : Except EncodeError α) (f : α → Except EncodeError Nat)
    (g : Nat → Nat) : (x >>= f).map g = x >>= fun a => (f a).map g := by
  cases x <;> rfl

mutual
theorem calculate_object_size_uint32_eq : ∀ (v : Value) (sf : Bool),
    calculate_object_size_uint32 v sf
      = (calculate_object_size v sf).map (fun n => n % 4294967296)
  | .Long _ _, sf => rfl
  | .Timestamp _ _, sf => rfl
  | .ObjectID _, sf => rfl
  | .Binary _ data, sf => by
    simp only [calculate_object_size_uint32, calculate_object_size, uint32Add, Nat.zero_add]
    rfl
  | .Code code s, sf => by
    have ih := calculate_object_size_uint32_eq s sf
    simp only [calculate_object_size_uint32, calculate_object_size, ih]
    cases calculate_object_size s sf with
    | error e => rfl
    | ok n =>
      simp only [Except.map, bind, Except.bind, pure, Except.pure, uint32Add, Nat.zero_add]
      congr 1
      omega
  | .DBRef ns oid db, sf => by
    have ih1 := calculate_object_size_uint32_eq ns sf
    have ih2 := calculate_object_size_uint32_eq oid sf
    have ih3 := fun o h => calculate_db_size_uint32_eq db sf o h
    have hlt : ∀ a b, uint32Add a b < 4294967296 := fun a b => Nat.mod_lt _ (by decide)
    simp only [calculate_object_size_uint32, calculate_object_size, ih1, ih2]
    by_cases h1 : (!IsFunction ns || (IsFunction ns && sf)) = true
    · by_cases h2 : (!IsFunction oid || (IsFunction oid && sf)) = true
      · simp only [if_pos h1, if_pos h2]
        cases calculate_object_size ns sf with
        | error e => rfl
        | ok n1 =>
          cases calculate_object_size oid sf with
          | error e => rfl
          | ok n2 =>
            simp only [Except.map, bind, Except.bind, pure, Except.pure]
            rw [ih3 _ (hlt _ _)]
            cases calculate_db_size db sf with
            | error e => rfl
            | ok n3 =>
              simp only [Except.map, uint32Add, Nat.zero_add]
              congr 1
              omega
      · simp only [if_pos h1, if_neg h2]
        cases calculate_object_size ns sf with
        | error e => rfl
        | ok n1 =>
          simp only [Except.map, bind, Except.bind, pure, Except.pure]
          rw [ih3 _ (hlt _ _)]
          cases calculate_db_size db sf with
          | error e => rfl
          | ok n3 =>
            simp only [Except.map, uint32Add, Nat.zero_add]
            congr 1
            omega
    · by_cases h2 : (!IsFunction oid || (IsFunction oid && sf)) = true
      · simp only [if_neg h1, if_pos h2]
        cases calculate_object_size oid sf with
        | error e => rfl
        | ok n2 =>
          simp only [Except.map, bind, Except.bind, pure, Except.pure]
          rw [ih3 _ (hlt _ _)]
          cases calculate_db_size db sf with
          | error e => rfl
          | ok n3 =>
            simp only [Except.map, uint32Add, Nat.zero_add]
            congr 1
            omega
      · simp only [if_neg h1, if_neg h2]
        simp only [Except.map, bind, Except.bind, pure, Except.pure]
        rw [ih3 0 (by decide)]
        cases calculate_db_size db sf with
        | error e => rfl
        | ok n3 =>
          simp only [Except.map, uint32Add, Nat.zero_add]
          congr 1
          omega
  | .MinKey, sf => rfl
  | .MaxKey, sf => rfl
  | .Symbol str, sf => by
    simp only [calculate_object_size_uint32, calculate_object_size, uint32Add, Nat.zero_add]
    rfl
  | .String str, sf => by
    simp only [calculate_object_size_uint32, calculate_object_size, uint32Add, Nat.zero_add]
    rfl
  | .Null, sf => rfl
  | .Undefined, sf => rfl
  | .Double _, sf => rfl
  | .Number _, sf => by
    simp only [calculate_object_size_uint32, calculate_object_size]
    split
    · rfl
    · split <;> rfl
  | .Boolean _, sf => rfl
  | .Date _, sf => rfl
  | .RegExp _ _, sf => by
    simp only [calculate_object_size_uint32, calculate_object_size, uint32Add, Nat.zero_add]
    rfl
  | .Array es, sf => by
    have ih := calculate_array_size_uint32_eq es 0 sf 0 (by decide)
    simp only [calculate_object_size_uint32, calculate_object_size, ih]
    cases calculate_array_size es 0 sf with
    | error e => rfl
    | ok n =>
      simp only [Except.map, bind, Except.bind, pure, Except.pure, uint32Add, Nat.zero_add]
      congr 1
      omega
  | .Function _, sf => by
    simp only [calculate_object_size_uint32, calculate_object_size, uint32Add, Nat.zero_add]
    split <;> rfl
  | .Object c ps, sf => by
    have ih := calculate_properties_size_uint32_eq ps sf 0 (by decide)
    simp only [calculate_object_size_uint32, calculate_object_size, ih]
    split
    · rfl
    · cases calculate_properties_size ps sf with
      | error e => rfl
      | ok n =>
        simp only [Except.map, bind, Except.bind, pure, Except.pure, uint32Add, Nat.zero_add]
        congr 1
        omega
theorem calculate_db_size_uint32_eq : ∀ (db : Option Value) (sf : Bool) (o : Nat),
    o < 4294967296 →
    calculate_db_size_uint32 o db sf
      = (calculate_db_size db sf).map (fun n => (o + n) % 4294967296)
  | none, sf, o, ho => by
    simp only [calculate_db_size_uint32, calculate_db_size, Except.map, pure, Except.pure,
      Nat.add_zero, Nat.mod_eq_of_lt ho]
  | some v, sf, o, ho => by
    have ih := calculate_object_size_uint32_eq v sf
    simp only [calculate_db_size_uint32, calculate_db_size, ih]
    split
    · cases calculate_object_size v sf with
      | error e => rfl
      | ok n =>
        simp only [Except.map, bind, Except.bind, pure, Except.pure, uint32Add]
        congr 1
        omega
    · simp only [Except.map, pure, Except.pure, Nat.add_zero, Nat.mod_eq_of_lt ho]
theorem calculate_array_size_uint32_eq : ∀ (es : List Value) (i : Nat) (sf : Bool) (o : Nat),
    o < 4294967296 →
    calculate_array_size_uint32 o es i sf
      = (calculate_array_size es i sf).map (fun n => (o + n) % 4294967296)
  | [], i, sf, o, ho => by
    simp only [calculate_array_size_uint32, calculate_array_size, Except.map, pure, Except.pure,
      Nat.add_zero, Nat.mod_eq_of_lt ho]
  | v :: rest, i, sf, o, ho => by
    have ih1 := calculate_object_size_uint32_eq v sf
    have ih2 := fun o h => calculate_array_size_uint32_eq rest (i + 1) sf o h
    simp only [calculate_array_size_uint32, calculate_array_size, ih1]
    cases calculate_object_size v sf with
    | error e => rfl
    | ok n =>
      simp only [Except.map, bind, Except.bind, pure, Except.pure]
      rw [ih2 _ (show uint32Add _ _ < 4294967296 from Nat.mod_lt _ (by decide))]
      cases calculate_array_size rest (i + 1) sf with
      | error e => rfl
      | ok m =>
        simp only [Except.map, uint32Add]
        congr 1
        omega
theorem calculate_properties_size_uint32_eq : ∀ (ps : List (String × Value)) (sf : Bool)
    (o : Nat), o < 4294967296 →
    calculate_properties_size_uint32 o ps sf
      = (calculate_properties_size ps sf).map (fun n => (o + n) % 4294967296)
  | [], sf, o, ho => by
    simp only [calculate_properties_size_uint32, calculate_properties_size, Except.map, pure,
      Except.pure, Nat.add_zero, Nat.mod_eq_of_lt ho]
  | (k, v) :: rest, sf, o, ho => by
    have ih1 := calculate_object_size_uint32_eq v sf
    have ih2 := fun o h => calculate_properties_size_uint32_eq rest sf o h
    simp only [calculate_properties_size_uint32, calculate_properties_size, ih1]
    split
    · cases calculate_object_size v sf with
      | error e => rfl
      | ok n =>
        simp only [Except.map, bind, Except.bind, pure, Except.pure]
        rw [ih2 _ (show uint32Add _ _ < 4294967296 from Nat.mod_lt _ (by decide))]
        cases calculate_properties_size rest sf with
        | error e => rfl
        | ok m =>
          simp only [Except.map, uint32Add]
          congr 1
          omega
    · exact ih2 o ho
end

/-! ## The addresses a run of the encoder stores to -/

theorem storesWithin_refl (mem : Memory) (lo hi : Nat) : StoresWithin mem mem lo hi :=
  fun _ _ => rfl

theorem storesWithin_mono (m0 m1 : Memory) (lo1 hi1 lo hi : Nat)
    (h1 : StoresWithin m0 m1 lo1 hi1) (hl : lo ≤ lo1) (hh : hi1 ≤ hi) :
    StoresWithin m0 m1 lo hi := by
  intro a ha
  exact h1 a (by omega)

theorem storesWithin_storeBytes (mem : Memory) (p : Nat) (xs : List Nat) :
    StoresWithin mem (storeBytes mem p xs) p (p + xs.length) := by
  intro a ha
  rw [storeBytes_apply, if_neg (by omega)]

theorem storesWithin_store (mem : Memory) (p b : Nat) :
    StoresWithin mem (store mem p b) p (p + 1) := by
  intro a ha
  simp only [store]
  rw [if_neg (by omega)]

theorem storesWithin_write_int32 (mem : Memory) (p v : Nat) :
    StoresWithin mem (write_int32 mem p v) p (p + 4) := by
  have := storesWithin_storeBytes mem p (leBytes 4 (v % 4294967296))
  rw [leBytes_length] at this
  exact this

/-- A failure of the key check carries the memory of the call. -/
theorem check_error_mem (mem : Memory) (name : Option String) (ck : Bool) (e : EncodeError)
    (m : Memory) (c : Except EncodeError Unit)
    (h : (if (name.isSome && ck) = true then throwAt mem c else pure ()) = .error (e, m)) :
    m = mem := by
  split at h
  · cases c with
    | ok u => cases h
    | error e0 => cases h; rfl
  · cases h

/-- What a returning run for an element under a name has stored, and the
`index` it returns. -/
theorem serialize_stores_ok_within (v : Value) (sf : Bool) (blocks : Nat → String → Memory)
    (mem : Memory) (so idx : Nat) (key : String) (ck : Bool) (r : Memory × Nat) (n : Nat)
    (hs : scopesAreDocuments v sf = true) (hn : calculate_object_size v sf = .ok n)
    (h : serialize_stores blocks mem so idx (some key) v ck sf = .ok r) :
    StoresWithin mem r.1 (so + idx) (so + idx + (Utf8Length key + 2 + n))
    ∧ idx ≤ r.2 ∧ r.2 ≤ idx + (Utf8Length key + 2 + n) := by
  have hser : serialize mem so idx (some key) v false sf = .ok r :=
    serialize_stores_returns v sf blocks mem so idx (some key) ck r h
  have hb := serialize_bytes v sf mem so idx (some key) false r hs hser
  rw [paddingBytes_some, List.append_nil] at hb
  have hlen := (elementBytes_length v sf (some key) n hn hs).1
  have htag : tagAndNameLength (some key) v = Utf8Length key + 2 := by
    simp [tagAndNameLength, nameString]
  rw [htag] at hlen
  rw [hb]
  refine ⟨?_, by simp, by simpa using hlen⟩
  intro a ha
  simp only []
  rw [storeBytes_apply, if_neg (by omega)]

theorem serialize_stores_name_only (v : Value) (hv : validatesNameOnly v = true) (sf : Bool)
    (blocks : Nat → String → Memory) (mem : Memory) (so idx : Nat) (name : Option String)
    (ck : Bool) :
    serialize_stores blocks mem so idx name v ck sf
      = (if (name.isSome && ck) = true then
          throwAt mem
            (check_key_block (blocks (so + idx) (nameString name)) (nameString name))
          else pure ()) >>= fun _ => serialize_stores blocks mem so idx name v false sf := by
  cases v <;> first
    | (simp [validatesNameOnly] at hv; done)
    | (simp only [serialize_stores, Bool.and_false, Bool.false_eq_true, if_false]; rfl)

/-- A run for such a value, when the estimate returns, throws only in the key
check, before any store. -/
theorem serialize_stores_name_only_error (v : Value) (hv : validatesNameOnly v = true)
    (sf : Bool) (blocks : Nat → String → Memory) (mem : Memory) (so idx : Nat)
    (name : Option String) (ck : Bool) (n : Nat)
    (hn : calculate_object_size v sf = .ok n) (e : EncodeError) (m : Memory)
    (h : serialize_stores blocks mem so idx name v ck sf = .error (e, m)) : m = mem := by
  have hw : hasWrongClass v = false := by
    rcases size_result v sf with ⟨h1, _⟩ | ⟨_, c, hc⟩
    · exact h1
    · rw [hc] at hn; cases hn
  obtain ⟨r, hr⟩ := serialize_ok_of_size v sf mem so idx name hw
  have hr2 : serialize_stores blocks mem so idx name v false sf = .ok r := by
    apply stores_ok_of_erased
    rw [serialize_stores_erases v sf blocks mem so idx name false
      (fun _ _ hck => absurd hck Bool.false_ne_true)]
    exact hr
  rw [serialize_stores_name_only v hv, hr2] at h
  rcases (bind_eq_error _ _ _).mp h with h1 | ⟨_, _, h2⟩
  · exact check_error_mem mem name ck e m _ h1
  · cases h2

mutual
/-- A run of `serialize` that throws, for a value whose estimate has returned
`n`, has stored only at the addresses of the `n` bytes of the value and of its
tag and name. -/
theorem serialize_stores_within : ∀ (v : Value) (sf : Bool) (blocks : Nat → String → Memory)
    (mem : Memory) (so idx : Nat) (name : Option String) (ck : Bool) (n : Nat) (e : EncodeError)
    (m : Memory),
    scopesAreDocuments v sf = true → calculate_object_size v sf = .ok n →
    serialize_stores blocks mem so idx name v ck sf = .error (e, m) →
    StoresWithin mem m (so + idx) (so + idx + (tagAndNameLength name v + n))
  | .Long a b, sf, blocks, mem, so, idx, name, ck, n, e, m, _, hn, h => by
    rw [serialize_stores_name_only_error (.Long a b) rfl sf blocks mem so idx name ck n hn e m h]
    exact storesWithin_refl _ _ _
  | .Timestamp a b, sf, blocks, mem, so, idx, name, ck, n, e, m, _, hn, h => by
    rw [serialize_stores_name_only_error (.Timestamp a b) rfl sf blocks mem so idx name ck n hn e
      m h]
    exact storesWithin_refl _ _ _
  | .ObjectID a, sf, blocks, mem, so, idx, name, ck, n, e, m, _, hn, h => by
    rw [serialize_stores_name_only_error (.ObjectID a) rfl sf blocks mem so idx name ck n hn e m h]
    exact storesWithin_refl _ _ _
  | .Binary a b, sf, blocks, mem, so, idx, name, ck, n, e, m, _, hn, h => by
    rw [serialize_stores_name_only_error (.Binary a b) rfl sf blocks mem so idx name ck n hn e m h]
    exact storesWithin_refl _ _ _
  | .DBRef a b c, sf, blocks, mem, so, idx, name, ck, n, e, m, _, hn, h => by
    rw [serialize_stores_name_only_error (.DBRef a b c) rfl sf blocks mem so idx name ck n hn e m h]
    exact storesWithin_refl _ _ _
  | .Double a, sf, blocks, mem, so, idx, name, ck, n, e, m, _, hn, h => by
    rw [serialize_stores_name_only_error (.Double a) rfl sf blocks mem so idx name ck n hn e m h]
    exact storesWithin_refl _ _ _
  | .Symbol a, sf, blocks, mem, so, idx, name, ck, n, e, m, _, hn, h => by
    rw [serialize_stores_name_only_error (.Symbol a) rfl sf blocks mem so idx name ck n hn e m h]
    exact storesWithin_refl _ _ _
  | .String a, sf, blocks, mem, so, idx, name, ck, n, e, m, _, hn, h => by
    rw [serialize_stores_name_only_error (.String a) rfl sf blocks mem so idx name ck n hn e m h]
    exact storesWithin_refl _ _ _
  | .MinKey, sf, blocks, mem, so, idx, name, ck, n, e, m, _, hn, h => by
    rw [serialize_stores_name_only_error (.MinKey) rfl sf blocks mem so idx name ck n hn e m h]
    exact storesWithin_refl _ _ _
  | .MaxKey, sf, blocks, mem, so, idx, name, ck, n, e, m, _, hn, h => by
    rw [serialize_stores_name_only_error (.MaxKey) rfl sf blocks mem so idx name ck n hn e m h]
    exact storesWithin_refl _ _ _
  | .Null, sf, blocks, mem, so, idx, name, ck, n, e, m, _, hn, h => by
    rw [serialize_stores_name_only_error (.Null) rfl sf blocks mem so idx name ck n hn e m h]
    exact storesWithin_refl _ _ _
  | .Undefined, sf, blocks, mem, so, idx, name, ck, n, e, m, _, hn, h => by
    rw [serialize_stores_name_only_error (.Undefined) rfl sf blocks mem so idx name ck n hn e m h]
    exact storesWithin_refl _ _ _
  | .Number a, sf, blocks, mem, so, idx, name, ck, n, e, m, _, hn, h => by
    rw [serialize_stores_name_only_error (.Number a) rfl sf blocks mem so idx name ck n hn e m h]
    exact storesWithin_refl _ _ _
  | .Boolean a, sf, blocks, mem, so, idx, name, ck, n, e, m, _, hn, h => by
    rw [serialize_stores_name_only_error (.Boolean a) rfl sf blocks mem so idx name ck n hn e m h]
    exact storesWithin_refl _ _ _
  | .Date a, sf, blocks, mem, so, idx, name, ck, n, e, m, _, hn, h => by
    rw [serialize_stores_name_only_error (.Date a) rfl sf blocks mem so idx name ck n hn e m h]
    exact storesWithin_refl _ _ _
  | .RegExp a b, sf, blocks, mem, so, idx, name, ck, n, e, m, _, hn, h => by
    rw [serialize_stores_name_only_error (.RegExp a b) rfl sf blocks mem so idx name ck n hn e m h]
    exact storesWithin_refl _ _ _
  | .Function a, sf, blocks, mem, so, idx, name, ck, n, e, m, _, hn, h => by
    rw [serialize_stores_name_only_error (.Function a) rfl sf blocks mem so idx name ck n hn e m h]
    exact storesWithin_refl _ _ _
  | .Code code s, sf, blocks, mem, so, idx, name, ck, n, e, m, hs, hn, h => by
    have ih := fun mem so n => serialize_stores_within s sf blocks mem so 0 none ck n e m
    simp only [scopesAreDocuments, Bool.and_eq_true] at hs
    simp only [calculate_object_size, bind_eq_ok, pure_eq_ok] at hn
    obtain ⟨ns, hns, hsum⟩ := hn
    simp only [serialize_stores, hns, throwAt, writeTagAndName_eq] at h
    rcases (bind_eq_error _ _ _).mp h with h1 | ⟨_, _, h2⟩
    · rw [check_error_mem mem name ck e m _ h1]
      exact storesWithin_refl _ _ _
    · simp only [ok_bind] at h2
      rcases (bind_eq_error _ _ _).mp h2 with h3 | ⟨_, _, h4⟩
      · have h5 := ih _ _ ns hs.2 hns h3
        have hdoc : tagAndNameLength none s = 0 := by
          simp [tagAndNameLength, hs.1.1]
        rw [hdoc] at h5
        have htag : tagAndNameLength name (.Code code s)
            = Utf8Length (nameString name) + 2 := by
          simp [tagAndNameLength, isDocument]
        rw [htag]
        intro a ha
        rw [h5 a (by rw [headerBytes_length]; omega)]
        simp only [store, write_int32, storeBytes_apply, headerBytes_length, leBytes_length,
          cString_length]
        rw [if_neg (by omega), if_neg (by omega), if_neg (by omega), if_neg (by omega)]
      · cases h4
  | .Array es, sf, blocks, mem, so, idx, name, ck, n, e, m, hs, hn, h => by
    have ih := fun mem idx n =>
      serialize_elements_stores_within es 0 sf blocks mem so idx ck n e m
    simp only [scopesAreDocuments] at hs
    have hn0 := hn
    simp only [calculate_object_size, bind_eq_ok, pure_eq_ok] at hn
    obtain ⟨ne, hne, hsum⟩ := hn
    simp only [serialize_stores, hn0, throwAt, writeTagAndName_eq] at h
    rcases (bind_eq_error _ _ _).mp h with h1 | ⟨_, _, h2⟩
    · rw [check_error_mem mem name ck e m _ h1]
      exact storesWithin_refl _ _ _
    · simp only [ok_bind] at h2
      rcases (bind_eq_error _ _ _).mp h2 with h3 | ⟨_, _, h4⟩
      · have h5 := ih _ _ ne hs hne h3
        have h6 := storesWithin_write_int32
          (storeBytes mem (so + idx) (headerBytes BSON_DATA_ARRAY name))
          (so + (idx + (headerBytes BSON_DATA_ARRAY name).length)) n
        have h7 := storesWithin_storeBytes mem (so + idx) (headerBytes BSON_DATA_ARRAY name)
        have htag : tagAndNameLength name (.Array es) = Utf8Length (nameString name) + 2 := by
          simp [tagAndNameLength, isDocument]
        rw [htag]
        rw [headerBytes_length] at h5 h6 h7
        intro a ha
        rw [h5 a (by omega), h6 a (by omega), h7 a (by omega)]
      · cases h4
  | .Object c ps, sf, blocks, mem, so, idx, name, ck, n, e, m, hs, hn, h => by
    have ih := fun mem idx n =>
      serialize_properties_stores_within ps sf blocks mem so idx ck n e m
    simp only [scopesAreDocuments] at hs
    have hwrong : ¬ isWrongClass c ps = true := by
      intro hw
      simp only [calculate_object_size, if_pos hw] at hn
      cases hn
    have hn0 := hn
    simp only [calculate_object_size, if_neg hwrong, bind_eq_ok, pure_eq_ok] at hn
    obtain ⟨np, hnp, hsum⟩ := hn
    simp only [serialize_stores, if_neg hwrong, hn0, throwAt] at h
    rcases (bind_eq_error _ _ _).mp h with h1 | ⟨_, _, h2⟩
    · rw [check_error_mem mem name ck e m _ h1]
      exact storesWithin_refl _ _ _
    · simp only [ok_bind] at h2
      rcases (bind_eq_error _ _ _).mp h2 with h3 | ⟨_, _, h4⟩
      · have h5 := ih _ _ np hs hnp h3
        cases name with
        | none =>
          simp only [Option.isSome_none, Bool.false_eq_true, if_false] at h5
          have h6 := storesWithin_write_int32 mem (so + idx) n
          have htag : tagAndNameLength none (.Object c ps) = 0 := by
            simp [tagAndNameLength, isDocument]
          rw [htag]
          intro a ha
          rw [h5 a (by omega), h6 a (by omega)]
        | some key =>
          simp only [Option.isSome_some, if_true, writeTagAndName_eq] at h5
          have h6 := storesWithin_write_int32
            (storeBytes mem (so + idx) (headerBytes BSON_DATA_OBJECT (some key)))
            (so + (idx + (headerBytes BSON_DATA_OBJECT (some key)).length)) n
          have h7 := storesWithin_storeBytes mem (so + idx)
            (headerBytes BSON_DATA_OBJECT (some key))
          have htag : tagAndNameLength (some key) (.Object c ps) = Utf8Length key + 2 := by
            simp [tagAndNameLength, nameString]
          rw [htag]
          rw [headerBytes_length] at h5 h6 h7
          simp only [nameString] at h5 h6 h7
          intro a ha
          rw [h5 a (by omega), h6 a (by omega), h7 a (by omega)]
      · cases h4
theorem serialize_elements_stores_within : ∀ (es : List Value) (i : Nat) (sf : Bool)
    (blocks : Nat → String → Memory) (mem : Memory) (so idx : Nat) (ck : Bool) (n : Nat)
    (e : EncodeError) (m : Memory),
    scopesAreDocumentsList es sf = true → calculate_array_size es i sf = .ok n →
    serialize_elements_stores blocks mem so idx es i ck sf = .error (e, m) →
    StoresWithin mem m (so + idx) (so + idx + n + 1)
  | [], i, sf, blocks, mem, so, idx, ck, n, e, m, _, _, h => by
    simp only [serialize_elements_stores] at h
    cases h
  | v :: rest, i, sf, blocks, mem, so, idx, ck, n, e, m, hs, hn, h => by
    have ih1 := fun n =>
      serialize_stores_within v sf blocks mem so idx (some (toString i)) ck n e m
    have ih2 := fun mem idx n =>
      serialize_elements_stores_within rest (i + 1) sf blocks mem so idx ck n e m
    simp only [scopesAreDocumentsList, Bool.and_eq_true] at hs
    simp only [calculate_array_size, bind_eq_ok, pure_eq_ok] at hn
    obtain ⟨s, hsv, nrest, hrest, hsum⟩ := hn
    have htag : tagAndNameLength (some (toString i)) v = Utf8Length (toString i) + 2 := by
      simp [tagAndNameLength, nameString]
    rw [strlen_toString] at hsum
    simp only [serialize_elements_stores] at h
    rcases (bind_eq_error _ _ _).mp h with h1 | ⟨r1, hr1, h2⟩
    · have := ih1 s hs.1 hsv h1
      rw [htag] at this
      exact storesWithin_mono _ _ _ _ _ _ this (Nat.le_refl _) (by omega)
    · obtain ⟨hw, hlo, hhi⟩ := serialize_stores_ok_within v sf blocks mem so idx (toString i) ck
        r1 s hs.1 hsv hr1
      have h3 := ih2 _ _ nrest hs.2 hrest h2
      have h4 := storesWithin_store r1.1 (so + r1.2) 0
      intro a ha
      rw [h3 a (by omega), h4 a (by omega), hw a (by omega)]
theorem serialize_properties_stores_within : ∀ (ps : List (String × Value)) (sf : Bool)
    (blocks : Nat → String → Memory) (mem : Memory) (so idx : Nat) (ck : Bool) (n : Nat)
    (e : EncodeError) (m : Memory),
    scopesAreDocumentsProperties ps sf = true → calculate_properties_size ps sf = .ok n →
    serialize_properties_stores blocks mem so idx ps ck sf = .error (e, m) →
    StoresWithin mem m (so + idx) (so + idx + n)
  | [], sf, blocks, mem, so, idx, ck, n, e, m, _, _, h => by
    simp only [serialize_properties_stores] at h
    cases h
  | (k, v) :: rest, sf, blocks, mem, so, idx, ck, n, e, m, hs, hn, h => by
    have ih1 := fun n => serialize_stores_within v sf blocks mem so idx (some k) ck n e m
    have ih2 := fun mem idx n =>
      serialize_properties_stores_within rest sf blocks mem so idx ck n e m
    simp only [scopesAreDocumentsProperties, Bool.and_eq_true] at hs
    simp only [calculate_properties_size] at hn
    simp only [serialize_properties_stores] at h
    have htag : tagAndNameLength (some k) v = Utf8Length k + 2 := by
      simp [tagAndNameLength, nameString]
    by_cases hemit : (!IsFunction v || (IsFunction v && sf)) = true
    · rw [if_pos hemit] at hn h
      simp only [bind_eq_ok, pure_eq_ok] at hn
      obtain ⟨s, hsv, nrest, hrest, hsum⟩ := hn
      rcases (bind_eq_error _ _ _).mp h with h1 | ⟨r1, hr1, h2⟩
      · have := ih1 s hs.1 hsv h1
        rw [htag] at this
        exact storesWithin_mono _ _ _ _ _ _ this (Nat.le_refl _) (by omega)
      · obtain ⟨hw, hlo, hhi⟩ := serialize_stores_ok_within v sf blocks mem so idx k ck r1 s
          hs.1 hsv hr1
        have h3 := ih2 _ _ nrest hs.2 hrest h2
        intro a ha
        rw [h3 a (by omega), hw a (by omega)]
    · rw [if_neg hemit] at hn h
      exact ih2 _ _ n hs.2 hn h
end

/-! ## A document of more than `2 ^ 32` bytes -/

theorem flatMap_replicate_x (n : Nat) :
    ((List.replicate n 'x').flatMap utf8EncodeChar).length = n := by
  induction n with
  | zero => rfl
  | succ n ih =>
    simp only [List.replicate_succ, List.flatMap_cons, List.length_append]
    rw [ih]
    have : (utf8EncodeChar 'x').length = 1 := by decide
    omega

theorem Utf8Length_replicate (n : Nat) : Utf8Length (String.mk (List.replicate n 'x')) = n :=
  flatMap_replicate_x n

theorem thirtyTwoStrings_size (s : String) (sf : Bool) :
    calculate_object_size (thirtyTwoStrings s) sf = .ok (32 * (Utf8Length s + 8) + 5) := by
  have hn : ∀ k : String, Utf8Length k = 1 →
      ∀ rest n, calculate_properties_size rest sf = .ok n →
        calculate_properties_size ((k, .String s) :: rest) sf
          = .ok (Utf8Length s + 8 + n) := by
    intro k hk rest n hrest
    simp only [calculate_properties_size, IsFunction, Bool.not_false, Bool.true_or, if_true,
      calculate_object_size, stringSize_eq, hrest, hk]
    simp only [bind, Except.bind, pure, Except.pure]
  have h0 : calculate_properties_size [] sf = .ok 0 := rfl
  have hw : isWrongClass "Object"
      [("a", .String s), ("b", .String s), ("c", .String s), ("d", .String s),
       ("e", .String s), ("f", .String s), ("g", .String s), ("h", .String s),
       ("i", .String s), ("j", .String s), ("k", .String s), ("l", .String s),
       ("m", .String s), ("n", .String s), ("o", .String s), ("p", .String s),
       ("q", .String s), ("r", .String s), ("s", .String s), ("t", .String s),
       ("u", .String s), ("v", .String s), ("w", .String s), ("x", .String s),
       ("y", .String s), ("z", .String s), ("A", .String s), ("B", .String s),
       ("C", .String s), ("D", .String s), ("E", .String s), ("F", .String s)] = false := by
    simp [isWrongClass, HasRealNamedProperty]
  simp only [thirtyTwoStrings, calculate_object_size, hw, Bool.false_eq_true, if_false]
  have hFF := hn "F" (by decide) _ _ h0
  have hEE := hn "E" (by decide) _ _ hFF
  have hDD := hn "D" (by decide) _ _ hEE
  have hCC := hn "C" (by decide) _ _ hDD
  have hBB := hn "B" (by decide) _ _ hCC
  have hAA := hn "A" (by decide) _ _ hBB
  have hzz := hn "z" (by decide) _ _ hAA
  have hyy := hn "y" (by decide) _ _ hzz
  have hxx := hn "x" (by decide) _ _ hyy
  have hww := hn "w" (by decide) _ _ hxx
  have hvv := hn "v" (by decide) _ _ hww
  have huu := hn "u" (by decide) _ _ hvv
  have htt := hn "t" (by decide) _ _ huu
  have hss := hn "s" (by decide) _ _ htt
  have hrr := hn "r" (by decide) _ _ hss
  have hqq := hn "q" (by decide) _ _ hrr
  have hpp := hn "p" (by decide) _ _ hqq
  have hoo := hn "o" (by decide) _ _ hpp
  have hnn := hn "n" (by decide) _ _ hoo
  have hmm := hn "m" (by decide) _ _ hnn
  have hll := hn "l" (by decide) _ _ hmm
  have hkk := hn "k" (by decide) _ _ hll
  have hjj := hn "j" (by decide) _ _ hkk
  have hii := hn "i" (by decide) _ _ hjj
  have hhh := hn "h" (by decide) _ _ hii
  have hgg := hn "g" (by decide) _ _ hhh
  have hff := hn "f" (by decide) _ _ hgg
  have hee := hn "e" (by decide) _ _ hff
  have hdd := hn "d" (by decide) _ _ hee
  have hcc := hn "c" (by decide) _ _ hdd
  have hbb := hn "b" (by decide) _ _ hcc
  have haa := hn "a" (by decide) _ _ hbb
  rw [haa]
  simp only [bind, Except.bind, pure, Except.pure]
  exact congrArg Except.ok (by omega)

/-- The call of `serialize` for a string under the name `a`: the bytes stored
and the `index` returned. -/
theorem serialize_string_a (s : String) (sf : Bool) (mem : Memory) (so idx : Nat) (ck : Bool) :
    serialize mem so idx (some "a") (.String s) ck sf
      = .ok (storeBytes mem (so + idx)
          ([2, 97, 0] ++ (leBytes 4 ((Utf8Length s + 1) % 4294967296) ++ (WriteUtf8 s ++ [0]))),
          idx + (Utf8Length s + 8)) := by
  obtain ⟨r, hr⟩ := serialize_leaf_ok (.String s) rfl sf mem so idx (some "a")
  have hinv : hasInvalidName (some "a") (.String s) sf = false := by
    simp only [hasInvalidName]
    decide
  have hck : serialize mem so idx (some "a") (.String s) ck sf = .ok r := by
    cases ck with
    | false => exact hr
    | true => exact ((serialize_keyChecked (.String s) sf mem so idx (some "a")) r hr).2 hinv
  have hb := serialize_leaf_bytes (.String s) rfl sf mem so idx (some "a") ck r hck
  rw [paddingBytes_some, List.append_nil] at hb
  rw [hck, hb]
  have he : elementBytes (some "a") (.String s) sf
      = [2, 97, 0] ++ (leBytes 4 ((Utf8Length s + 1) % 4294967296) ++ (WriteUtf8 s ++ [0])) := by
    simp only [elementBytes, stringBytes]
    rfl
  rw [he]
  have hl : ([2, 97, 0] ++ (leBytes 4 ((Utf8Length s + 1) % 4294967296)
      ++ (WriteUtf8 s ++ [0]))).length = Utf8Length s + 8 := by
    simp only [List.length_append, List.length_cons, List.length_nil, leBytes_length, Utf8Length]
    omega
  rw [hl]

/-! ## Declared lengths beyond the bytes of the region -/

/-- `strncpy` with a count beyond the terminator of the source: the bytes up
to the terminator, then NUL up to the count. -/
theorem strncpy_beyond : ∀ (bs tail : List Nat) (n : Nat),
    (∀ b ∈ bs, 0 < b ∧ b < 256) → bs.length < n →
    strncpy (bs ++ 0 :: tail) n = some (bs ++ List.replicate (n - bs.length) 0)
  | [], tail, n, _, hn => by
    simpa using strncpy_nul_head tail n (by simpa using hn)
  | b :: bs, tail, n, hb, hn => by
    cases n with
    | zero => simp at hn
    | succ n =>
      have hb0 := hb b (List.mem_cons_self _ _)
      have hmod : b % 256 = b := Nat.mod_eq_of_lt hb0.2
      have ih := strncpy_beyond bs tail n (fun x hx => hb x (List.mem_cons_of_mem _ hx))
        (by simpa using hn)
      rw [List.cons_append, strncpy, hmod, if_neg (by omega : ¬ b = 0), ih]
      simp

/-- A `String` or `Symbol` element whose length field declares `n` bytes where
the bytes `bs` and one NUL follow, `n` being larger than their number. -/
theorem declared_string_decode (data : List Nat) (index n : Nat) (bs tail : List Nat)
    (hdrop : data.drop index = leBytes 4 n ++ (bs ++ 0 :: tail))
    (hb : ∀ b ∈ bs, 0 < b ∧ b < 256) (hn : bs.length < n)
    (hbound : index + 4 + n < 4294967296) :
    deserialize_scalar BSON_DATA_STRING data index
      = .ok (.String (EncodeUTF8 (bs ++ List.replicate (n - 1 - bs.length) 0)), index + 4 + n)
    ∧ deserialize_scalar BSON_DATA_SYMBOL data index
      = .ok (.Symbol (EncodeUTF8 (bs ++ List.replicate (n - 1 - bs.length) 0)), index + 4 + n)
    := by
  have hsz : deserialize_int32 data index = .ok n :=
    deserialize_int32_drop data index _ _ hdrop (by omega)
  have hd2 : data.drop (index + 4) = bs ++ 0 :: tail := by
    have := drop_add_of_drop data index _ _ hdrop
    simpa [leBytes_length] using this
  have hm1 : (index + 4) % 4294967296 = index + 4 := Nat.mod_eq_of_lt (by omega)
  have hm2 : (index + 4 + n) % 4294967296 = index + 4 + n := Nat.mod_eq_of_lt hbound
  have hsub : uint32Sub n 1 = n - 1 := uint32Sub_eq n 1 (by omega) (by omega)
  have htake : (bs ++ List.replicate (n - bs.length) 0).take (n - 1)
      = bs ++ List.replicate (n - 1 - bs.length) 0 := by
    rw [List.take_append_eq_append_take, List.take_of_length_le (by omega), List.take_replicate]
    have : min (n - 1 - bs.length) (n - bs.length) = n - 1 - bs.length := by omega
    rw [this]
  have hval : decodeStringValue data (index + 4) n
      = .ok (EncodeUTF8 (bs ++ List.replicate (n - 1 - bs.length) 0)) := by
    unfold decodeStringValue
    rw [hd2, strncpy_beyond bs tail n hb hn]
    simp only [hsub]
    rw [if_pos (by simp only [List.length_append, List.length_replicate]; omega), htake]
    rfl
  constructor
  · rw [deserialize_scalar, if_pos rfl]
    simp only [hsz, ok_bind, hm1, hval, hm2]
    rfl
  · have h1 : BSON_DATA_SYMBOL ≠ BSON_DATA_STRING := by decide
    have h2 : BSON_DATA_SYMBOL ≠ BSON_DATA_INT := by decide
    have h3 : BSON_DATA_SYMBOL ≠ BSON_DATA_TIMESTAMP := by decide
    have h4 : BSON_DATA_SYMBOL ≠ BSON_DATA_LONG := by decide
    have h5 : BSON_DATA_SYMBOL ≠ BSON_DATA_NUMBER := by decide
    have h6 : BSON_DATA_SYMBOL ≠ BSON_DATA_MIN_KEY := by decide
    have h7 : BSON_DATA_SYMBOL ≠ BSON_DATA_MAX_KEY := by decide
    have h8 : BSON_DATA_SYMBOL ≠ BSON_DATA_NULL := by decide
    have h9 : BSON_DATA_SYMBOL ≠ BSON_DATA_BOOLEAN := by decide
    have h10 : BSON_DATA_SYMBOL ≠ BSON_DATA_DATE := by decide
    have h11 : BSON_DATA_SYMBOL ≠ BSON_DATA_REGEXP := by decide
    have h12 : BSON_DATA_SYMBOL ≠ BSON_DATA_OID := by decide
    have h13 : BSON_DATA_SYMBOL ≠ BSON_DATA_BINARY := by decide
    rw [deserialize_scalar, if_neg h1, if_neg h2, if_neg h3, if_neg h4, if_neg h5, if_neg h6,
      if_neg h7, if_neg h8, if_neg h9, if_neg h10, if_neg h11, if_neg h12, if_neg h13, if_pos rfl]
    simp only [hsz, ok_bind, hm1, hval, hm2]
    rfl

/-- One iteration of the loop of `deserialize` on a `String` or `Symbol`
element named `a` at offset 4, given what the reads of the iteration return. -/
theorem declared_step_of (data : List Nat) (tag b size next : Nat) (value : Value)
    (htag : tag = BSON_DATA_STRING ∨ tag = BSON_DATA_SYMBOL) (hsize : 4 < size)
    (h8 : deserialize_int8 data 4 = .ok b) (hb : b % 256 = tag)
    (hname : extract_string data 5 = .ok (some [97]))
    (hsc : deserialize_scalar tag data 7 = .ok (value, next))
    (fuel : Nat) (acc : List (String × Value)) (arr : List Value) :
    deserialize_loop (fuel + 1) data false size 4 acc arr
      = deserialize_loop fuel data false size next (objectSet acc "a" value) arr := by
  have hty : isElementType tag = true := by rcases htag with h | h <;> rw [h] <;> rfl
  have h5 : (4 + 1) % 4294967296 = 5 := rfl
  have hl : strlen [97] = 1 := rfl
  have h7 : (5 + 1 + 1) % 4294967296 = 7 := rfl
  have hn1 : tag ≠ BSON_DATA_CODE_W_SCOPE := by rcases htag with h | h <;> rw [h] <;> decide
  have hn2 : tag ≠ BSON_DATA_OBJECT := by rcases htag with h | h <;> rw [h] <;> decide
  have hn3 : tag ≠ BSON_DATA_ARRAY := by rcases htag with h | h <;> rw [h] <;> decide
  have hname2 : EncodeUTF8 [97] = "a" := by decide
  rw [deserialize_loop, if_pos hsize]
  simp only [h8, ok_bind, hb, hty, if_true, h5, hname, hl, h7, if_neg hn1, if_neg hn2,
    if_neg hn3, hsc, hname2, Bool.false_eq_true, if_false]

/-- The region `11 + n | tag "a" | n | bs 00`, whose length field `n` is
larger than the `bs.length + 1` bytes that follow it, is decoded to the
document whose field `a` holds `bs` followed by NUL characters. -/
theorem declared_region_decode (tag : Nat) (htag : tag = BSON_DATA_STRING ∨ tag = BSON_DATA_SYMBOL)
    (bs : List Nat) (n : Nat) (hb : ∀ b ∈ bs, 0 < b ∧ b < 256) (hn : bs.length < n)
    (hbound : 11 + n < 4294967296) (fuel : Nat) :
    BSONDeserialize (fuel + 3) (leBytes 4 (11 + n) ++ (tag :: 97 :: 0 :: (leBytes 4 n ++ (bs ++ [0]))))
      = .ok (.Object "Object"
          [("a", if tag = BSON_DATA_STRING
            then .String (EncodeUTF8 (bs ++ List.replicate (n - 1 - bs.length) 0))
            else .Symbol (EncodeUTF8 (bs ++ List.replicate (n - 1 - bs.length) 0)))]) := by
  have ht256 : tag < 256 := by rcases htag with h | h <;> rw [h] <;> decide
  have hd4 : (leBytes 4 (11 + n) ++ (tag :: 97 :: 0 :: (leBytes 4 n ++ (bs ++ [0])))).drop 4
      = tag :: 97 :: 0 :: (leBytes 4 n ++ (bs ++ [0])) := by
    rw [List.drop_append_of_le_length (by simp [leBytes_length])]
    simp [leBytes_length]
  have hd5 : (leBytes 4 (11 + n) ++ (tag :: 97 :: 0 :: (leBytes 4 n ++ (bs ++ [0])))).drop 5
      = [97] ++ 0 :: (leBytes 4 n ++ (bs ++ [0])) := by
    have := drop_add_of_drop _ 4 [tag] _ hd4
    simpa using this
  have hd7 : (leBytes 4 (11 + n) ++ (tag :: 97 :: 0 :: (leBytes 4 n ++ (bs ++ [0])))).drop 7
      = leBytes 4 n ++ (bs ++ 0 :: []) := by
    have := drop_add_of_drop _ 4 [tag, 97, 0] _ hd4
    simpa using this
  obtain ⟨b, h8, hb8⟩ := deserialize_int8_tag _ 4 tag _ hd4 ht256
  have hname := extract_string_drop _ 5 [97] _ hd5 (by decide)
  obtain ⟨hs1, hs2⟩ := declared_string_decode _ 7 n bs [] hd7 hb hn (by omega)
  unfold BSONDeserialize
  rw [deserialize_of_loop (fuel + 2) _ false (11 + n) _ rfl hbound]
  rcases htag with h | h
  · subst h
    rw [declared_step_of _ BSON_DATA_STRING b (11 + n) (7 + 4 + n) _ (Or.inl rfl) (by omega) h8
      hb8 hname hs1, loop_done _ _ _ _ _ _ _ (by omega)]
    simp [finishObject_single, objectSet]
  · subst h
    rw [declared_step_of _ BSON_DATA_SYMBOL b (11 + n) (7 + 4 + n) _ (Or.inr rfl) (by omega) h8
      hb8 hname hs2, loop_done _ _ _ _ _ _ _ (by omega)]
    have : BSON_DATA_SYMBOL ≠ BSON_DATA_STRING := by decide
    simp [finishObject_single, objectSet, this]

/-! ## The claims -/

/-- C1 (estimate equals the offset the encoder returns): the code breaks it on
an array that holds a function when functions are not serialized.  For the
document `{a: [function () {}]}` the estimator returns 16, counting the label
of the array element, while the encoder skips the element and returns the
offset 13; for `{a: [function () {}], b: 1}` the sizes are 23 and 20. -/
theorem C1_estimate_exceeds_offset_for_function_in_array :
    calculate_object_size (.Object "Object" [("a", .Array [.Function "function () {}"])]) false
        = .ok 16
    ∧ (∀ heap : Memory,
        (serialize heap 0 0 none (.Object "Object" [("a", .Array [.Function "function () {}"])])
          false false).map Prod.snd = .ok 13)
    ∧ calculate_object_size (.Object "Object"
        [("a", .Array [.Function "function () {}"]), ("b", .Number (doubleOfInt 1))]) false
        = .ok 23
    ∧ (∀ heap : Memory,
        (serialize heap 0 0 none (.Object "Object"
          [("a", .Array [.Function "function () {}"]), ("b", .Number (doubleOfInt 1))])
          false false).map Prod.snd = .ok 20) :=
  ⟨rfl, fun _ => rfl, rfl, fun _ => rfl⟩

/-- C3 (the length written at the start of a Document or Array is the number
of bytes emitted for it): the code breaks it for an array that holds a
function when functions are not serialized.  In the encoding of
`{a: [function () {}], b: 1}` the array starts at offset 7 and ends with its
NUL at offset 11, five bytes, while the length written at offset 7 is 8; the
23 bytes produced do not decode: the decoder runs the array over the element
`b` and then leaves the region. -/
theorem C3_array_length_field_exceeds_bytes_written :
    (∀ heap : Memory,
      (serialize heap 0 4 (some "a") (.Array [.Function "function () {}"]) false false).map
        (fun r => (loadBytes r.1 7 4, r.2)) = .ok ([8, 0, 0, 0], 12))
    ∧ (∀ heap : Memory,
        BSONSerialize heap (.Object "Object"
          [("a", .Array [.Function "function () {}"]), ("b", .Number (doubleOfInt 1))])
          false false
        = .ok [23, 0, 0, 0, 4, 97, 0, 8, 0, 0, 0, 0, 16, 98, 0, 1, 0, 0, 0, 0, 0, 0, 0])
    ∧ (∀ fuel : Nat, BSONDeserialize (fuel + 6)
          [23, 0, 0, 0, 4, 97, 0, 8, 0, 0, 0, 0, 16, 98, 0, 1, 0, 0, 0, 0, 0, 0, 0]
        = .error .readOutOfBounds) :=
  ⟨fun _ => rfl, fun _ => rfl, fun _ => rfl⟩

/-- C4 (end to end): the document `{a: 1, b: "hi"}` is encoded as the 22 bytes
`16 00 00 00 | 10 61 00 01 00 00 00 | 02 62 00 03 00 00 00 68 69 00 | 00`,
whatever the allocated block held before; the estimator returns 22 for it;
and the 22 bytes decode, with any fuel from 5 on, to the document with the
fields `a = 1` and `b = "hi"` in that order. -/
theorem C4_encode_decode_example :
    (∀ heap : Memory,
      BSONSerialize heap
        (.Object "Object" [("a", .Number (doubleOfInt 1)), ("b", .String "hi")]) false false
      = .ok [22, 0, 0, 0, 16, 97, 0, 1, 0, 0, 0, 2, 98, 0, 3, 0, 0, 0, 104, 105, 0, 0])
    ∧ calculate_object_size
        (.Object "Object" [("a", .Number (doubleOfInt 1)), ("b", .String "hi")]) false = .ok 22
    ∧ (∀ fuel : Nat,
        BSONDeserialize (fuel + 5)
          [22, 0, 0, 0, 16, 97, 0, 1, 0, 0, 0, 2, 98, 0, 3, 0, 0, 0, 104, 105, 0, 0]
        = .ok (.Object "Object" [("a", .Number (doubleOfInt 1)), ("b", .String "hi")])) :=
  ⟨fun _ => rfl, rfl, fun _ => rfl⟩

/-- C7 (an explicit Int64 is always written as Int64): for every `Long` with
halves `low_bits` and `high_bits`, of any magnitude, under any name and
whatever memory held before, the encoder stores the tag 0x12, the name, a NUL,
the four little-endian bytes of `low_bits` and the four of `high_bits`, once
the key check (when it is enabled) has accepted the name; the estimator
returns 8.  No test on the magnitude is involved. -/
theorem C7_long_is_written_as_int64 (mem : Memory) (serialized_object index : Nat)
    (name : Option String) (low_bits high_bits : Int) (check_key serializeFunctions : Bool) :
    serialize mem serialized_object index name (.Long low_bits high_bits) check_key
        serializeFunctions
      = (if name.isSome && check_key then BSON.check_key (nameString name) else .ok ()).map
          (fun _ => (storeBytes mem (serialized_object + index)
            ([18] ++ WriteUtf8 (nameString name) ++ [0]
              ++ leBytes 4 (toUint32 low_bits) ++ leBytes 4 (toUint32 high_bits)),
            index + (1 + Utf8Length (nameString name) + 1 + 8)))
    ∧ calculate_object_size (.Long low_bits high_bits) serializeFunctions = .ok 8 := by
  refine ⟨?_, rfl⟩
  simp only [serialize, writeTagAndName_eq, write_int32, toUint32_mod]
  have hbytes : (storeBytes
        (storeBytes (storeBytes mem (serialized_object + index) (headerBytes BSON_DATA_LONG name))
          (serialized_object + (index + (headerBytes BSON_DATA_LONG name).length))
          (leBytes 4 (toUint32 low_bits)))
        (serialized_object + (index + (headerBytes BSON_DATA_LONG name).length) + 4)
        (leBytes 4 (toUint32 high_bits)),
      index + (headerBytes BSON_DATA_LONG name).length + 8)
      = (storeBytes mem (serialized_object + index)
          ([18] ++ WriteUtf8 (nameString name) ++ [0]
            ++ leBytes 4 (toUint32 low_bits) ++ leBytes 4 (toUint32 high_bits)),
          index + (1 + Utf8Length (nameString name) + 1 + 8)) := by
    refine Prod.ext ?_ ?_
    · simp only []
      repeat rw [storeBytes_seq]
      · simp [headerBytes, BSON_DATA_LONG]
      all_goals (simp [headerBytes, leBytes_length] <;> omega)
    · simp [headerBytes, Utf8Length]
      omega
  rw [hbytes]
  by_cases hc : (name.isSome && check_key) = true
  · rw [if_pos hc, if_pos hc]
    cases BSON.check_key (nameString name) <;> rfl
  · rw [if_neg hc, if_neg hc]
    rfl

/-- C5 (a generic Number with an integral value is written as Int32 exactly
when the value fits 32 bits): for every finite number without fractional part,
of value `n`, the estimator returns 4 and the encoder stores the tag 0x10, the
name, a NUL and the four little-endian bytes of `n` when
`-2147483648 ≤ n ≤ 2147483647`; otherwise the estimator returns 8 and the
encoder stores the tag 0x01, the name, a NUL and the eight bytes of the double. -/
theorem C5_integral_number_is_int32_iff_in_range (number : Nat)
    (hfinite : doubleExponent number ≠ 2047) (hintegral : doubleHasFraction number = false)
    (mem : Memory) (serialized_object index : Nat) (name : Option String)
    (serializeFunctions : Bool) :
    (-2147483648 ≤ doubleTruncate number ∧ doubleTruncate number ≤ 2147483647 →
      calculate_object_size (.Number number) serializeFunctions = .ok 4
      ∧ serialize mem serialized_object index name (.Number number) false serializeFunctions
          = .ok (storeBytes mem (serialized_object + index)
              ([16] ++ WriteUtf8 (nameString name) ++ [0]
                ++ leBytes 4 (toUint32 (doubleTruncate number))),
              index + (1 + Utf8Length (nameString name) + 1 + 4)))
    ∧ (¬ (-2147483648 ≤ doubleTruncate number ∧ doubleTruncate number ≤ 2147483647) →
      calculate_object_size (.Number number) serializeFunctions = .ok 8
      ∧ serialize mem serialized_object index name (.Number number) false serializeFunctions
          = .ok (storeBytes mem (serialized_object + index)
              ([1] ++ WriteUtf8 (nameString name) ++ [0]
                ++ leBytes 8 (number % 18446744073709551616)),
              index + (1 + Utf8Length (nameString name) + 1 + 8))) := by
  obtain ⟨h1, h2⟩ := number_classification number hfinite hintegral name serializeFunctions
  constructor
  · intro hr
    refine ⟨(h1 hr).1, ?_⟩
    rw [serialize_Number, (h1 hr).2]
    simp [headerBytes, leBytes_length, Utf8Length]
    omega
  · intro hr
    refine ⟨(h2 hr).1, ?_⟩
    rw [serialize_Number, (h2 hr).2]
    simp [headerBytes, leBytes_length, Utf8Length]
    omega

/-- C5, at the four boundary values: 2147483647 and -2147483648 are written as
Int32 (estimate 4), 2147483648 and -2147483649 as Double (estimate 8). -/
theorem C5_integral_number_is_int32_iff_in_range_witness :
    (calculate_object_size (.Number (doubleOfInt 2147483647)) false = .ok 4
      ∧ serialize (fun _ => 0) 0 0 (some "n") (.Number (doubleOfInt 2147483647)) false false
          = .ok (storeBytes (fun _ => 0) (0 + 0)
              ([16] ++ WriteUtf8 (nameString (some "n")) ++ [0]
                ++ leBytes 4 (toUint32 (doubleTruncate (doubleOfInt 2147483647)))),
              0 + (1 + Utf8Length (nameString (some "n")) + 1 + 4)))
    ∧ calculate_object_size (.Number (doubleOfInt (-2147483648))) false = .ok 4
    ∧ calculate_object_size (.Number (doubleOfInt 2147483648)) false = .ok 8
    ∧ calculate_object_size (.Number (doubleOfInt (-2147483649))) false = .ok 8 :=
  ⟨(C5_integral_number_is_int32_iff_in_range (doubleOfInt 2147483647) (by decide) (by decide)
      (fun _ => 0) 0 0 (some "n") false).1 (by decide),
    ((C5_integral_number_is_int32_iff_in_range (doubleOfInt (-2147483648)) (by decide)
      (by decide) (fun _ => 0) 0 0 none false).1 (by decide)).1,
    ((C5_integral_number_is_int32_iff_in_range (doubleOfInt 2147483648) (by decide)
      (by decide) (fun _ => 0) 0 0 none false).2 (by decide)).1,
    ((C5_integral_number_is_int32_iff_in_range (doubleOfInt (-2147483649)) (by decide)
      (by decide) (fun _ => 0) 0 0 none false).2 (by decide)).1⟩

/-- C6 (`decodeLong` gives a plain number exactly within `±2 ^ 53`): when the
eight bytes at `index` are the little-endian halves `low` and `high`, and
`v = high * 2 ^ 32 + (low mod 2 ^ 32)`, `decodeLong` returns the number that
is the double of `v` if `-2 ^ 53 ≤ v ≤ 2 ^ 53`, and the `Long` with the halves
`low` and `high` otherwise; in the first case the double is finite, has no
fractional part and its value is `v`. -/
theorem C6_decodeLong_plain_number_within_2_pow_53 (data : List Nat) (index : Nat)
    (low high : Int)
    (hlow : -2147483648 ≤ low ∧ low ≤ 2147483647)
    (hhigh : -2147483648 ≤ high ∧ high ≤ 2147483647)
    (hdata : (data.drop index).take 8 = leBytes 4 (toUint32 low) ++ leBytes 4 (toUint32 high)) :
    decodeLong data index =
      .ok (if -9007199254740992 ≤ high * 4294967296 + (toUint32 low : Int)
              ∧ high * 4294967296 + (toUint32 low : Int) ≤ 9007199254740992
           then .Number (doubleOfInt (high * 4294967296 + (toUint32 low : Int)))
           else .Long low high)
    ∧ (-9007199254740992 ≤ high * 4294967296 + (toUint32 low : Int)
        ∧ high * 4294967296 + (toUint32 low : Int) ≤ 9007199254740992 →
      doubleExponent (doubleOfInt (high * 4294967296 + (toUint32 low : Int))) ≠ 2047
      ∧ doubleTruncate (doubleOfInt (high * 4294967296 + (toUint32 low : Int)))
          = high * 4294967296 + (toUint32 low : Int)
      ∧ doubleHasFraction (doubleOfInt (high * 4294967296 + (toUint32 low : Int))) = false) :=
  ⟨decodeLong_spec data index low high hlow hhigh hdata,
    fun h => doubleOfInt_exact _ h.1 h.2⟩

/-- C6, on the values `2 ^ 53` (halves 0 and 0x200000), decoded as a plain
number, and `2 ^ 53 + 1` (halves 1 and 0x200000), decoded as a `Long`. -/
theorem C6_decodeLong_plain_number_within_2_pow_53_witness :
    decodeLong [0, 0, 0, 0, 0, 0, 32, 0] 0 = .ok (.Number (doubleOfInt 9007199254740992))
    ∧ decodeLong [1, 0, 0, 0, 0, 0, 32, 0] 0 = .ok (.Long 1 2097152) :=
  ⟨(C6_decodeLong_plain_number_within_2_pow_53 [0, 0, 0, 0, 0, 0, 32, 0] 0 0 2097152
      (by decide) (by decide) (by decide)).1,
    (C6_decodeLong_plain_number_within_2_pow_53 [1, 0, 0, 0, 0, 0, 32, 0] 0 1 2097152
      (by decide) (by decide) (by decide)).1⟩

/-- C8 (the key validator rejects exactly the names that start with a dollar
sign or contain a dot): the code breaks it on names with characters from
U+0100 on.  `check_key` copies the name in the `BINARY` encoding, the low
byte of every UTF-16 code unit, and tests these bytes as a C string.
Whatever the block held: the name U+0124, which neither starts with a dollar
sign nor contains a dot, is rejected as starting with a dollar sign (its low
byte is 0x24); the name U+012E is rejected as containing a dot (0x2E); the
name U+0100 `.b`, which contains a dot and no NUL, is accepted (the low byte
0x00 of its first character ends the scan).  The name U+00E9, whose two
UTF-8 bytes leave one byte of the block unwritten before the NUL, is rejected
when the block held 0x2E there and accepted when it held NUL.  For every
name of ASCII characters other than NUL the validator follows the claim,
whatever the block held: the name is rejected if and only if it is not empty
and its first character is a dollar sign or it contains a dot, and the
failure is of kind `InvalidFieldName`. -/
theorem C8_key_validator_tests_low_bytes :
    ((∀ block : Memory, check_key_block block "Ĥ" = .error (.keyStartsWithDollar "Ĥ"))
      ∧ "Ĥ".toList.head? ≠ some '$' ∧ '.' ∉ "Ĥ".toList)
    ∧ ((∀ block : Memory, check_key_block block "Į" = .error (.keyContainsDot "Į"))
      ∧ "Į".toList.head? ≠ some '$' ∧ '.' ∉ "Į".toList)
    ∧ ((∀ block : Memory, check_key_block block "Ā.b" = .ok ())
      ∧ '.' ∈ "Ā.b".toList ∧ hasNoNul "Ā.b" = true)
    ∧ (check_key_block (fun _ => 46) "é" = .error (.keyContainsDot "é")
      ∧ check_key_block (fun _ => 0) "é" = .ok () ∧ '.' ∉ "é".toList)
    ∧ (∀ (block : Memory) (key : String), (∀ c ∈ key.toList, 0 < c.toNat ∧ c.toNat < 128) →
        (check_key_block block key ≠ .ok ()
          ↔ key.toList ≠ [] ∧ (key.toList.head? = some '$' ∨ '.' ∈ key.toList))
        ∧ (∀ e, check_key_block block key = .error e → e.isInvalidFieldName = true)) := by
  refine ⟨⟨fun block => ?_, by decide, by decide⟩, ⟨fun block => ?_, by decide, by decide⟩,
    ⟨fun block => ?_, by decide, by decide⟩, ⟨by decide, by decide, by decide⟩, ?_⟩
  · simp only [check_key_block, key_str_bytes]
    rfl
  · simp only [check_key_block, key_str_bytes]
    rfl
  · simp only [check_key_block, key_str_bytes]
    rfl
  · intro block key hascii
    rw [check_key_block_written block key (fun c hc => (hascii c hc).2),
      check_key_ascii key hascii]
    constructor
    · cases hk : key.toList with
      | nil => simp
      | cons c cs =>
        by_cases h1 : c = '$'
        · simp [h1]
        · by_cases h2 : '.' ∈ c :: cs
          · simp [h1, h2]
          · simp [h1, h2]
    · intro e he
      split at he
      · cases he; rfl
      · split at he
        · cases he; rfl
        · cases he

/-- C8 on the names `$bad` and `has.dot`, rejected, and `ok` and the empty
name, accepted, whatever the block held (here the byte 0x2E everywhere). -/
theorem C8_key_validator_tests_low_bytes_witness :
    check_key_block (fun _ => 46) "$bad" ≠ .ok ()
    ∧ check_key_block (fun _ => 46) "has.dot" ≠ .ok ()
    ∧ ¬ (check_key_block (fun _ => 46) "ok" ≠ .ok ())
    ∧ ¬ (check_key_block (fun _ => 46) "" ≠ .ok ()) :=
  ⟨((C8_key_validator_tests_low_bytes.2.2.2.2 (fun _ => 46) "$bad" (by decide)).1).mpr
      (by decide),
    ((C8_key_validator_tests_low_bytes.2.2.2.2 (fun _ => 46) "has.dot" (by decide)).1).mpr
      (by decide),
    fun h => absurd
      (((C8_key_validator_tests_low_bytes.2.2.2.2 (fun _ => 46) "ok" (by decide)).1).mp h)
      (by decide),
    fun h => absurd
      (((C8_key_validator_tests_low_bytes.2.2.2.2 (fun _ => 46) "" (by decide)).1).mp h)
      (by decide)⟩

/-- C9 (key validation in the encoder): the code breaks it on names with
characters from U+0100 on, by the defect of C8.  The document whose only field
is named U+0100 `.b`, a name without NUL that contains a dot, is encoded with
validation on, whatever the block of the validator held: `check_key` tests
the low bytes of the UTF-16 code units, and the low byte 0x00 of the first
character ends the scan before the dot.

`serialize_stores` is the run of `serialize` with the memory at a throw kept
and with what the blocks of the validator held given by `blocks`; where
validation is off, or the names handed to the validator are made of
characters below U+0080, it is the run of `serialize` whatever the blocks
held.

Where the names handed to the validator are made of ASCII characters other
than NUL, `BSONSerialize` with validation on behaves as follows.  When the
value holds an object of a wrong class, it fails with the wrong-class message
of the estimate, which runs first, whatever the names are.  Otherwise it
fails with an `InvalidFieldName` failure when some name of an emitted element,
at any depth reached through objects, array elements and scope objects,
starts with a dollar sign or contains a dot, and returns the bytes of the
encoding without validation when none does.

The failure is raised before any store for the element: the call of
`serialize` for an element under such a name fails with the memory as it was
at the call, and in the loop over the properties of an object the failure
carries the memory the properties before it have left.  With validation off
no failure of `serialize` or `BSONSerialize` is of kind `InvalidFieldName`. -/
theorem C9_key_validation_in_the_encoder :
    ((∀ heap : Memory,
        BSONSerialize heap (.Object "Object" [("Ā.b", .Number (doubleOfInt 1))]) true false
          = .ok [15, 0, 0, 0, 16, 196, 128, 46, 98, 0, 1, 0, 0, 0, 0])
      ∧ specInvalidFieldName "Ā.b" = true ∧ hasNoNul "Ā.b" = true
      ∧ (∀ block : Memory, check_key_block block "Ā.b" = .ok ())
      ∧ (∀ (blocks : Nat → String → Memory) (heap : Memory),
          ∃ r, serialize_stores blocks heap 0 0 none
              (.Object "Object" [("Ā.b", .Number (doubleOfInt 1))]) true false = .ok r
            ∧ loadBytes r.1 0 15 = [15, 0, 0, 0, 16, 196, 128, 46, 98, 0, 1, 0, 0, 0, 0]))
    ∧ (∀ (blocks : Nat → String → Memory) (mem : Memory) (serialized_object index : Nat)
        (name : Option String) (value : Value) (check_key serializeFunctions : Bool),
        (check_key = true → ∀ k ∈ emittedNames name value serializeFunctions,
          ∀ c ∈ k.toList, c.toNat < 128) →
        withoutStores
            (serialize_stores blocks mem serialized_object index name value check_key
              serializeFunctions)
          = serialize mem serialized_object index name value check_key serializeFunctions)
    ∧ (∀ (value : Value) (serializeFunctions : Bool) (heap : Memory),
        (∀ k ∈ emittedNames none value serializeFunctions,
          ∀ c ∈ k.toList, 0 < c.toNat ∧ c.toNat < 128) →
        (∀ k ∈ emittedNames none value serializeFunctions,
          ∀ block : Memory, check_key_block block k = check_key k)
        ∧ (hasWrongClass value = true →
            ∃ c, ∀ check_key : Bool,
              BSONSerialize heap value check_key serializeFunctions = .error (.wrongClass c))
        ∧ (hasWrongClass value = false →
            ((∃ k ∈ emittedNames none value serializeFunctions, specInvalidFieldName k = true) →
              ∃ e, BSONSerialize heap value true serializeFunctions = .error e
                ∧ e.isInvalidFieldName = true)
            ∧ ((∀ k ∈ emittedNames none value serializeFunctions,
                  specInvalidFieldName k = false) →
              BSONSerialize heap value true serializeFunctions
                  = BSONSerialize heap value false serializeFunctions
                ∧ ∃ bytes, BSONSerialize heap value false serializeFunctions = .ok bytes)))
    ∧ (∀ (blocks : Nat → String → Memory) (mem : Memory) (serialized_object index : Nat)
        (key : String) (value : Value) (serializeFunctions : Bool),
        (∀ c ∈ key.toList, 0 < c.toNat ∧ c.toNat < 128) → specInvalidFieldName key = true →
        ∃ e, e.isInvalidFieldName = true
          ∧ serialize_stores blocks mem serialized_object index (some key) value true
              serializeFunctions = .error (e, mem)
          ∧ serialize mem serialized_object index (some key) value true serializeFunctions
              = .error e
          ∧ ∀ (before after : List (String × Value)) (r : Memory × Nat),
              (!IsFunction value || (IsFunction value && serializeFunctions)) = true →
              serialize_properties_stores blocks mem serialized_object index before true
                  serializeFunctions = .ok r →
              serialize_properties_stores blocks mem serialized_object index
                  (before ++ (key, value) :: after) true serializeFunctions = .error (e, r.1))
    ∧ (∀ (blocks : Nat → String → Memory) (mem : Memory) (serialized_object index : Nat)
        (name : Option String) (value : Value) (serializeFunctions : Bool) (e : EncodeError)
        (m : Memory),
        serialize_stores blocks mem serialized_object index name value false serializeFunctions
            = .error (e, m) →
        e.isInvalidFieldName = false)
    ∧ (∀ (mem : Memory) (serialized_object index : Nat) (name : Option String) (value : Value)
        (serializeFunctions : Bool) (e : EncodeError),
        serialize mem serialized_object index name value false serializeFunctions = .error e →
        e.isInvalidFieldName = false)
    ∧ (∀ (heap : Memory) (value : Value) (serializeFunctions : Bool) (e : EncodeError),
        BSONSerialize heap value false serializeFunctions = .error e →
        e.isInvalidFieldName = false) := by
  have hlow : ∀ block : Memory, check_key_block block "Ā.b" = .ok () := by
    intro block
    simp only [check_key_block, key_str_bytes]
    rfl
  have herase : ∀ (blocks : Nat → String → Memory) (mem : Memory) (so idx : Nat)
      (name : Option String) (value : Value) (ck sf : Bool),
      (ck = true → ∀ k ∈ emittedNames name value sf, ∀ c ∈ k.toList, c.toNat < 128) →
      withoutStores (serialize_stores blocks mem so idx name value ck sf)
        = serialize mem so idx name value ck sf := by
    intro blocks mem so idx name value ck sf hascii
    exact serialize_stores_erases value sf blocks mem so idx name ck
      (fun k hk hck a => check_key_block_written _ k (hascii hck k hk))
  refine ⟨⟨fun _ => rfl, by decide, by decide, hlow, fun blocks heap => ?_⟩, herase, ?_, ?_, ?_,
    ?_, ?_⟩
  · have hser : ∃ r, serialize heap 0 0 none
        (.Object "Object" [("Ā.b", .Number (doubleOfInt 1))]) true false = .ok r
        ∧ loadBytes r.1 0 15 = [15, 0, 0, 0, 16, 196, 128, 46, 98, 0, 1, 0, 0, 0, 0] :=
      ⟨_, rfl, rfl⟩
    obtain ⟨r, hr, hb⟩ := hser
    refine ⟨r, stores_ok_of_erased _ _ ?_, hb⟩
    rw [serialize_stores_erases _ _ blocks heap 0 0 none true ?_, hr]
    intro k hk _ a
    have hk1 : k = "Ā.b" := by
      simp only [emittedNames, emittedNamesProperties] at hk
      simpa [IsFunction] using hk
    rw [hk1, hlow]
    rfl
  · intro value sf heap hascii
    refine ⟨fun k hk block =>
      check_key_block_written block k (fun c hc => (hascii k hk c hc).2), ?_, ?_⟩
    · intro hw
      rcases size_result value sf with ⟨h, _⟩ | ⟨_, c, hc⟩
      · rw [hw] at h; cases h
      · exact ⟨c, fun ck => BSONSerialize_error_of_size _ _ _ hc heap ck⟩
    · intro hw
      obtain ⟨h1, h2⟩ := BSONSerialize_checked value sf heap hw
      rw [hasInvalidName_spec value none sf hascii] at h1 h2
      constructor
      · rintro ⟨k, hk, hinv⟩
        exact h1 (List.any_eq_true.mpr ⟨k, hk, hinv⟩)
      · intro hall
        apply h2
        rw [List.any_eq_false]
        intro k hk
        rw [hall k hk]
        exact Bool.false_ne_true
  · intro blocks mem so idx key value sf hascii hinv
    have hrej : ∃ e, check_key key = .error e := by
      have h := check_key_spec key hascii
      rw [hinv] at h
      cases hk : check_key key with
      | error e => exact ⟨e, rfl⟩
      | ok u =>
        rw [hk] at h
        simp at h
    obtain ⟨e, he⟩ := hrej
    have hb : ∀ a, check_key_block (blocks a key) key = .error e := by
      intro a
      rw [check_key_block_written _ key (fun c hc => (hascii c hc).2), he]
    have hst := serialize_stores_rejected blocks mem so idx key value sf e (hb _)
    refine ⟨e, check_key_error key e he, hst,
      serialize_rejected mem so idx key value sf e he, ?_⟩
    · intro before after r hemit hr
      exact serialize_properties_stores_rejected blocks key value sf e hb hemit after before mem
        so idx r hr
  · intro blocks mem so idx name value sf e m h
    have h1 := herase blocks mem so idx name value false sf
      (fun hck => absurd hck Bool.false_ne_true)
    rw [h] at h1
    exact serialize_noKeyFailure value sf mem so idx name e h1.symm
  · intro mem so idx name value sf
    exact serialize_noKeyFailure value sf mem so idx name
  · intro heap value sf
    unfold BSONSerialize
    exact noKeyFailure_bind _ _ (calculate_object_size_noKeyFailure value sf)
      (fun _ => noKeyFailure_bind _ _ (serialize_noKeyFailure value sf heap 0 0 none)
        (fun _ => noKeyFailure_pure _))

/-- C9 on the document `{a: {$bad: 1}}`, whose names are ASCII: with
validation on the encoding fails on the nested name; and on the element
`$bad: 1` alone: the call fails with the memory as it was, whatever the block
of the validator held (here the byte 0x2E everywhere). -/
theorem C9_key_validation_in_the_encoder_witness :
    (∃ e, BSONSerialize (fun _ => 0)
        (.Object "Object" [("a", .Object "Object" [("$bad", .Number (doubleOfInt 1))])])
        true false = .error e ∧ e.isInvalidFieldName = true)
    ∧ (∃ e, e.isInvalidFieldName = true
        ∧ serialize_stores (fun _ _ _ => 46) (fun _ => 7) 0 4 (some "$bad")
            (.Number (doubleOfInt 1)) true false
          = .error (e, fun _ => 7)) :=
  ⟨((C9_key_validation_in_the_encoder.2.2.1
      (.Object "Object" [("a", .Object "Object" [("$bad", .Number (doubleOfInt 1))])]) false
      (fun _ => 0) (by decide)).2.2 (by decide)).1 ⟨"$bad", by decide, by decide⟩,
    (C9_key_validation_in_the_encoder.2.2.2.1 (fun _ _ _ => 46) (fun _ => 7) 0 4 "$bad"
      (.Number (doubleOfInt 1)) false (by decide) (by decide)).imp (fun _ h => ⟨h.1, h.2.1⟩)⟩

/-- C10, as stated, fails when functions are not serialized: the array
`[function () {}, 1]`, encoded under the name `a` with `serializeFunctions`
false, gives the 15 bytes `04 61 00 | 0f 00 00 00 | 10 31 00 01 00 00 00 | 00`,
whatever memory held before: nothing is stored for the function, and the only
element emitted, the first and so the one counted 0, carries the name `1`
(byte 0x31), not `0`. -/
theorem C10_first_emitted_element_is_named_1 :
    (∀ heap : Memory,
      (serialize heap 0 0 (some "a")
          (.Array [.Function "function () {}", .Number (doubleOfInt 1)]) false false).map
        (fun r => (loadBytes r.1 0 r.2, r.2))
      = .ok ([4, 97, 0, 15, 0, 0, 0, 16, 49, 0, 1, 0, 0, 0, 0], 15))
    ∧ elementBytes (some "0") (.Function "function () {}") false = [] :=
  ⟨fun _ => rfl, rfl⟩

/-- C10, amended (array elements are named by their position).  When the
encoding of an array of at most `2 ^ 31` elements succeeds, the bytes stored
are the tag 0x04, the name, a NUL, the four bytes of the size, then for each
position `k` in ascending order the bytes of the element at `k` encoded under
the decimal string of `k`, then a NUL.  The bytes of the element at `k` start
with a tag, the decimal string of `k` and a NUL, unless the element is a
function and `serializeFunctions` is false, in which case nothing is stored
for it.  So with `serializeFunctions` true, or with no function among the
elements, every position is emitted and the names are `0`, `1`, `2`, ...
without a gap. -/
theorem C10_array_elements_are_named_by_position (elements : List Value)
    (serializeFunctions check_key : Bool) (mem : Memory) (serialized_object index : Nat)
    (name : Option String) (r : Memory × Nat)
    (hlength : elements.length ≤ 2147483648)
    (hscopes : scopesAreDocumentsList elements serializeFunctions = true)
    (h : serialize mem serialized_object index name (.Array elements) check_key serializeFunctions
          = .ok r) :
    r.1 = storeBytes mem (serialized_object + index)
        (headerBytes BSON_DATA_ARRAY name
          ++ (leBytes 4 (objectSize (.Array elements) serializeFunctions % 4294967296)
          ++ (((elements.enum).map
                (fun (p : Nat × Value) =>
                  elementBytes (some (toString p.1)) p.2 serializeFunctions)).flatten
          ++ [0])))
    ∧ (∀ (k : Nat) (e : Value), elements[k]? = some e →
        (IsFunction e = true ∧ serializeFunctions = false →
          elementBytes (some (toString k)) e serializeFunctions = [])
        ∧ (IsFunction e = false ∨ serializeFunctions = true →
          ∃ tag payload, elementBytes (some (toString k)) e serializeFunctions
            = tag :: (WriteUtf8 (toString k) ++ 0 :: payload)))
    ∧ (serializeFunctions = true ∨ (∀ e ∈ elements, IsFunction e = false) →
        ∀ (k : Nat) (e : Value), elements[k]? = some e →
          ∃ tag payload, elementBytes (some (toString k)) e serializeFunctions
            = tag :: (WriteUtf8 (toString k) ++ 0 :: payload)) := by
  have hbytes := serialize_bytes (.Array elements) serializeFunctions mem serialized_object index
    name check_key r (by simpa [scopesAreDocuments] using hscopes) h
  refine ⟨?_, ?_, ?_⟩
  · rw [hbytes]
    simp only [elementBytes, paddingBytes, isDocument, Bool.and_false, Bool.false_eq_true,
      if_false, List.append_nil, elementsBytes_eq_flatten, List.enum]
  · intro k e _
    refine ⟨fun hf => ?_, fun hf => elementBytes_header _ e _ hf⟩
    rw [hf.2]
    exact elementBytes_function _ e hf.1
  · intro hall k e hk
    refine elementBytes_header _ e _ ?_
    rcases hall with hall | hall
    · exact Or.inr hall
    · exact Or.inl (hall e (List.getElem?_mem hk))

/-- C10, amended, on the array `[10, "x", true]` under the name `a`, with
`serializeFunctions` false and with it true: the names emitted are `0`, `1`,
`2` (bytes 0x30, 0x31, 0x32), in that order. -/
theorem C10_array_elements_are_named_by_position_witness :
    (∃ r, serialize (fun _ => 0) 0 0 (some "a")
        (.Array [.Number (doubleOfInt 10), .String "x", .Boolean true]) false false = .ok r
      ∧ r.1 = storeBytes (fun _ => 0) (0 + 0)
          (headerBytes BSON_DATA_ARRAY (some "a")
            ++ (leBytes 4 (objectSize
                  (.Array [.Number (doubleOfInt 10), .String "x", .Boolean true]) false
                  % 4294967296)
            ++ ((([Value.Number (doubleOfInt 10), .String "x", .Boolean true].enum).map
                  (fun (p : Nat × Value) =>
                    elementBytes (some (toString p.1)) p.2 false)).flatten
            ++ [0])))
      ∧ loadBytes r.1 0 r.2
          = [4, 97, 0, 25, 0, 0, 0, 16, 48, 0, 10, 0, 0, 0, 2, 49, 0, 2, 0, 0, 0, 120, 0,
              8, 50, 0, 1, 0])
    ∧ (∃ r, serialize (fun _ => 0) 0 0 (some "a")
        (.Array [.Number (doubleOfInt 10), .String "x", .Boolean true]) false true = .ok r
      ∧ loadBytes r.1 0 r.2
          = [4, 97, 0, 25, 0, 0, 0, 16, 48, 0, 10, 0, 0, 0, 2, 49, 0, 2, 0, 0, 0, 120, 0,
              8, 50, 0, 1, 0]) := by
  have hok : ∃ r, serialize (fun _ => 0) 0 0 (some "a")
      (.Array [.Number (doubleOfInt 10), .String "x", .Boolean true]) false false = .ok r
      ∧ loadBytes r.1 0 r.2
          = [4, 97, 0, 25, 0, 0, 0, 16, 48, 0, 10, 0, 0, 0, 2, 49, 0, 2, 0, 0, 0, 120, 0,
              8, 50, 0, 1, 0] := ⟨_, rfl, rfl⟩
  obtain ⟨r, hr, hload⟩ := hok
  exact ⟨⟨r, hr, (C10_array_elements_are_named_by_position
    [.Number (doubleOfInt 10), .String "x", .Boolean true] false false (fun _ => 0) 0 0
    (some "a") r (by decide) rfl hr).1, hload⟩, ⟨_, rfl, rfl⟩⟩

set_option maxRecDepth 8000 in
/-- C2, as stated, fails: the document `{a: Long(1, 0)}`, an explicit Int64 of
value 1, is encoded as `10 00 00 00 | 12 61 00 01 00 00 00 00 00 00 00 | 00`
and these bytes decode to `{a: 1}` with a plain number, a different value; the
document `{a: Double(1.5)}` with the explicit-double marker decodes to a plain
number too, and `{a: undefined}` decodes to `{a: null}`.  Further, negative
zero decodes to zero, the string `x`, NUL, `y` decodes to `x`, NUL, NUL, the
`Timestamp` of value `2 ^ 53 + 1` (halves 1 and 0x200000) decodes to the one
of value `2 ^ 53`, and the plain document `{$ref: "c", $id: 1}` decodes to a
`DBRef`. -/
theorem C2_decode_of_encode_differs :
    ((∀ heap : Memory, BSONSerialize heap (.Object "Object" [("a", .Long 1 0)]) false false
        = .ok [16, 0, 0, 0, 18, 97, 0, 1, 0, 0, 0, 0, 0, 0, 0, 0])
      ∧ (∀ fuel : Nat, BSONDeserialize (fuel + 4) [16, 0, 0, 0, 18, 97, 0, 1, 0, 0, 0, 0, 0, 0, 0, 0]
        = .ok (.Object "Object" [("a", .Number (doubleOfInt 1))]))
      ∧ Value.Object "Object" [("a", .Number (doubleOfInt 1))]
          ≠ .Object "Object" [("a", .Long 1 0)])
    ∧ ((∀ heap : Memory,
        BSONSerialize heap (.Object "Object" [("a", .Double 4609434218613702656)]) false false
        = .ok [16, 0, 0, 0, 1, 97, 0, 0, 0, 0, 0, 0, 0, 248, 63, 0])
      ∧ (∀ fuel : Nat, BSONDeserialize (fuel + 4) [16, 0, 0, 0, 1, 97, 0, 0, 0, 0, 0, 0, 0, 248, 63, 0]
        = .ok (.Object "Object" [("a", .Number 4609434218613702656)])))
    ∧ ((∀ heap : Memory, BSONSerialize heap (.Object "Object" [("a", .Undefined)]) false false
        = .ok [8, 0, 0, 0, 10, 97, 0, 0])
      ∧ (∀ fuel : Nat, BSONDeserialize (fuel + 4) [8, 0, 0, 0, 10, 97, 0, 0]
        = .ok (.Object "Object" [("a", .Null)])))
    ∧ ((∀ heap : Memory,
        BSONSerialize heap (.Object "Object" [("a", .Number 9223372036854775808)]) false false
        = .ok [12, 0, 0, 0, 16, 97, 0, 0, 0, 0, 0, 0])
      ∧ (∀ fuel : Nat, BSONDeserialize (fuel + 4) [12, 0, 0, 0, 16, 97, 0, 0, 0, 0, 0, 0]
        = .ok (.Object "Object" [("a", .Number 0)])))
    ∧ ((∀ heap : Memory,
        BSONSerialize heap (.Object "Object" [("a", .String "x\x00y")]) false false
        = .ok [16, 0, 0, 0, 2, 97, 0, 4, 0, 0, 0, 120, 0, 121, 0, 0])
      ∧ (∀ fuel : Nat,
        BSONDeserialize (fuel + 4) [16, 0, 0, 0, 2, 97, 0, 4, 0, 0, 0, 120, 0, 121, 0, 0]
        = .ok (.Object "Object" [("a", .String "x\x00\x00")])))
    ∧ ((∀ heap : Memory,
        BSONSerialize heap (.Object "Object" [("a", .Timestamp 1 2097152)]) false false
        = .ok [16, 0, 0, 0, 17, 97, 0, 1, 0, 0, 0, 0, 0, 32, 0, 0])
      ∧ (∀ fuel : Nat,
        BSONDeserialize (fuel + 4) [16, 0, 0, 0, 17, 97, 0, 1, 0, 0, 0, 0, 0, 32, 0, 0]
        = .ok (.Object "Object" [("a", .Timestamp 0 2097152)])))
    ∧ ((∀ heap : Memory,
        BSONSerialize heap
          (.Object "Object" [("$ref", .String "c"), ("$id", .Number (doubleOfInt 1))])
          false false
        = .ok [26, 0, 0, 0, 2, 36, 114, 101, 102, 0, 2, 0, 0, 0, 99, 0, 16, 36, 105, 100, 0,
            1, 0, 0, 0, 0])
      ∧ (∀ fuel : Nat,
        BSONDeserialize (fuel + 5)
          [26, 0, 0, 0, 2, 36, 114, 101, 102, 0, 2, 0, 0, 0, 99, 0, 16, 36, 105, 100, 0,
            1, 0, 0, 0, 0]
        = .ok (.DBRef (.String "c") (.Number (doubleOfInt 1)) none))) :=
  ⟨⟨fun _ => rfl, fun _ => rfl, by simp⟩, ⟨fun _ => rfl, fun _ => rfl⟩,
    ⟨fun _ => rfl, fun _ => rfl⟩, ⟨fun _ => rfl, fun _ => rfl⟩, ⟨fun _ => rfl, fun _ => rfl⟩,
    ⟨fun _ => rfl, fun _ => rfl⟩, ⟨fun _ => rfl, fun _ => rfl⟩⟩

/-- C2, amended (decoding the encoding gives the value back on plain
documents).  Let a root document be a plain object whose values are, at any
depth: null; booleans; numbers other than negative zero; strings and symbols
without NUL; `Long`s with 32-bit halves and a value outside `-2 ^ 53 .. 2 ^ 53`;
`Timestamp`s with 32-bit halves and a value within `-2 ^ 53 .. 2 ^ 53`; object
ids of 24 lower-case hexadecimal digits; binaries of bytes with a subtype
below 256; dates of a finite whole number of milliseconds of magnitude below
`2 ^ 53` other than negative zero; regular expressions with a source without
NUL and the flags `i` and `m` at most; `MinKey`; `MaxKey`; arrays of such
values; plain objects of such values; `DBRef`s of such values; and `Code`s
with a source without NUL and such a plain object as scope.  In every plain
object the names hold no NUL, are distinct, are not `toHexString`, and are not
both `$ref` and `$id`.  If the estimated size is below `2 ^ 32` and, when key
validation is on, no name is rejected, then for either setting of
`serializeFunctions` and whatever the allocated block held, the encoder
returns bytes, as many as the estimated size, and the decoder, with any fuel
from that number on, returns the document from them. -/
theorem C2_decode_of_encode_on_plain_documents (properties : List (String × Value))
    (heap : Memory) (check_key serializeFunctions : Bool)
    (hclass : roundTrips (.Object "Object" properties) = true)
    (hsize : objectSize (.Object "Object" properties) serializeFunctions < 4294967296)
    (hkeys : check_key = true →
      hasInvalidName none (.Object "Object" properties) serializeFunctions = false) :
    ∃ bytes, BSONSerialize heap (.Object "Object" properties) check_key serializeFunctions
        = .ok bytes
      ∧ bytes.length = objectSize (.Object "Object" properties) serializeFunctions
      ∧ ∀ fuel, bytes.length ≤ fuel →
          BSONDeserialize fuel bytes = .ok (.Object "Object" properties) := by
  obtain ⟨henc, hn⟩ := BSONSerialize_class properties heap check_key serializeFunctions hclass
    hsize hkeys
  have hlen : (leBytes 4 (objectSize (.Object "Object" properties) serializeFunctions)
      ++ (propertiesBytes properties serializeFunctions ++ [0])).length
      = objectSize (.Object "Object" properties) serializeFunctions := by
    simp [leBytes_length]
    omega
  refine ⟨_, henc, hlen, ?_⟩
  intro fuel hfuel
  rw [hlen] at hfuel
  exact BSONDeserialize_class properties serializeFunctions _ fuel hclass hn hsize hfuel

/-- C2, amended, on the document `{a: 1, b: "hi", c: [true, null, 2.5],
d: {e: -7, f: "é"}, g: Date(1000), h: /ab/i, k: Binary(0, 01 02 ff),
t: Timestamp(5, 0), o: ObjectID(0123456789abcdef01234567),
r: DBRef("coll", ObjectID(0123456789abcdef01234567)), s: Code("return x", {x: 1})}`
with key validation on: the bytes the encoder returns decode to the document. -/
theorem C2_decode_of_encode_on_plain_documents_witness :
    ∃ bytes, BSONSerialize (fun _ => 0)
        (.Object "Object" [("a", .Number (doubleOfInt 1)), ("b", .String "hi"),
          ("c", .Array [.Boolean true, .Null, .Number 4612811918334230528]),
          ("d", .Object "Object" [("e", .Number (doubleOfInt (-7))), ("f", .String "é")]),
          ("g", .Date (doubleOfInt 1000)), ("h", .RegExp "ab" 2),
          ("k", .Binary 0 [1, 2, 255]), ("t", .Timestamp 5 0),
          ("o", .ObjectID "0123456789abcdef01234567"),
          ("r", .DBRef (.String "coll") (.ObjectID "0123456789abcdef01234567") none),
          ("s", .Code "return x" (.Object "Object" [("x", .Number (doubleOfInt 1))]))])
        true false = .ok bytes
      ∧ BSONDeserialize bytes.length bytes
        = .ok (.Object "Object" [("a", .Number (doubleOfInt 1)), ("b", .String "hi"),
          ("c", .Array [.Boolean true, .Null, .Number 4612811918334230528]),
          ("d", .Object "Object" [("e", .Number (doubleOfInt (-7))), ("f", .String "é")]),
          ("g", .Date (doubleOfInt 1000)), ("h", .RegExp "ab" 2),
          ("k", .Binary 0 [1, 2, 255]), ("t", .Timestamp 5 0),
          ("o", .ObjectID "0123456789abcdef01234567"),
          ("r", .DBRef (.String "coll") (.ObjectID "0123456789abcdef01234567") none),
          ("s", .Code "return x" (.Object "Object" [("x", .Number (doubleOfInt 1))]))]) := by
  obtain ⟨bytes, h1, _, h3⟩ := C2_decode_of_encode_on_plain_documents
    [("a", .Number (doubleOfInt 1)), ("b", .String "hi"),
          ("c", .Array [.Boolean true, .Null, .Number 4612811918334230528]),
          ("d", .Object "Object" [("e", .Number (doubleOfInt (-7))), ("f", .String "é")]),
          ("g", .Date (doubleOfInt 1000)), ("h", .RegExp "ab" 2),
          ("k", .Binary 0 [1, 2, 255]), ("t", .Timestamp 5 0),
          ("o", .ObjectID "0123456789abcdef01234567"),
          ("r", .DBRef (.String "coll") (.ObjectID "0123456789abcdef01234567") none),
          ("s", .Code "return x" (.Object "Object" [("x", .Number (doubleOfInt 1))]))]
    (fun _ => 0) true false (by decide) (by decide) (fun _ => by decide)
  exact ⟨bytes, h1, h3 _ (Nat.le_refl _)⟩

/-- C11 (arrays decode to the same sequence).  Let `elements` be numbers of
integers of the 32-bit range, strings without NUL and booleans, and let the
array be the field `key` of a root document, where `key` holds no NUL, is not
the reserved `toHexString`, and passes the key validator when validation is
on, and the estimated size is below `2 ^ 32`.  Then `BSONSerialize` returns
bytes, and `BSONDeserialize` on these bytes, with any fuel from their number
on, returns the document whose field `key` is the array of the same
elements: the same length and the same element at every position. -/
theorem C11_array_decodes_to_same_elements (elements : List Value) (key : String)
    (heap : Memory) (check_key serializeFunctions : Bool)
    (helements : ∀ e ∈ elements, isInt32StringOrBoolean e = true)
    (hnul : hasNoNul key = true) (hreserved : key ≠ "toHexString")
    (hvalid : check_key = true → BSON.check_key key = .ok ())
    (hsize : objectSize (.Object "Object" [(key, .Array elements)]) serializeFunctions
      < 4294967296) :
    ∃ bytes, BSONSerialize heap (.Object "Object" [(key, .Array elements)]) check_key
        serializeFunctions = .ok bytes
      ∧ ∀ fuel, bytes.length ≤ fuel →
          ∃ decoded, BSONDeserialize fuel bytes = .ok (.Object "Object" [(key, .Array decoded)])
            ∧ decoded.length = elements.length
            ∧ ∀ i : Nat, decoded[i]? = elements[i]? := by
  have hclass : roundTrips (.Object "Object" [(key, .Array elements)]) = true := by
    have hne : (key == "toHexString") = false := by simpa using hreserved
    have hpair : (key == "$ref" && key == "$id") = false := by
      by_cases h : key = "$ref"
      · subst h; decide
      · simp [h]
    simp [roundTrips, isWrongClass, HasRealNamedProperty, keysRoundTrip, objectHas,
      roundTripsProperties, hnul, hne, hpair, leaves_roundTripsList elements helements]
  have hkeys : check_key = true →
      hasInvalidName none (.Object "Object" [(key, .Array elements)]) serializeFunctions
        = false := by
    intro hck
    simp [hasInvalidName, hasInvalidNameProperties, IsFunction, hvalid hck,
      leaves_hasInvalidNameElements elements 0 serializeFunctions helements]
  obtain ⟨henc, hn⟩ := BSONSerialize_class [(key, .Array elements)] heap check_key
    serializeFunctions hclass hsize hkeys
  have hlen : (leBytes 4 (objectSize (.Object "Object" [(key, .Array elements)])
        serializeFunctions)
      ++ (propertiesBytes [(key, .Array elements)] serializeFunctions ++ [0])).length
      = objectSize (.Object "Object" [(key, .Array elements)]) serializeFunctions := by
    simp [leBytes_length]
    omega
  refine ⟨_, henc, ?_⟩
  intro fuel hfuel
  rw [hlen] at hfuel
  exact ⟨elements, BSONDeserialize_class [(key, .Array elements)] serializeFunctions _ fuel
    hclass hn hsize hfuel, rfl, fun _ => rfl⟩

/-- C11 on the array `[10, "x", true]` stored as the field `a`, with key
validation on: the bytes the encoder returns decode to `{a: [10, "x", true]}`. -/
theorem C11_array_decodes_to_same_elements_witness :
    ∃ bytes, BSONSerialize (fun _ => 0)
        (.Object "Object" [("a", .Array [.Number (doubleOfInt 10), .String "x", .Boolean true])])
        true false = .ok bytes
      ∧ ∃ decoded, BSONDeserialize bytes.length bytes
          = .ok (.Object "Object" [("a", .Array decoded)])
        ∧ decoded.length = 3
        ∧ ∀ i : Nat, decoded[i]? = [Value.Number (doubleOfInt 10), .String "x", .Boolean true][i]? := by
  obtain ⟨bytes, h1, h2⟩ := C11_array_decodes_to_same_elements
    [.Number (doubleOfInt 10), .String "x", .Boolean true] "a" (fun _ => 0) true false
    (by decide) (by decide) (by decide) (fun _ => by decide) (by decide)
  exact ⟨bytes, h1, h2 _ (Nat.le_refl _)⟩

/-- C13, as stated, fails: the 33 bytes `21 00 00 00 | 02 "$ref" 00 02 00 00
00 "c" 00 | 10 "$id" 00 01 00 00 00 | 10 "x" 00 02 00 00 00 | 00`, which
`BSONSerialize` returns for the document `{$ref: "c", $id: 1, x: 2}`, hold the
names `$ref` and `$id` together with the field `x`, and they are decoded to
`DBRef("c", 1)`, not to the plain document: the field `x` is dropped. -/
theorem C13_document_with_other_field_is_promoted :
    BSONSerialize (fun _ => 0)
        (.Object "Object" [("$ref", .String "c"), ("$id", .Number (doubleOfInt 1)),
          ("x", .Number (doubleOfInt 2))]) false false
      = .ok [33, 0, 0, 0, 2, 36, 114, 101, 102, 0, 2, 0, 0, 0, 99, 0, 16, 36, 105, 100, 0,
          1, 0, 0, 0, 16, 120, 0, 2, 0, 0, 0, 0]
    ∧ (∀ fuel : Nat, BSONDeserialize (fuel + 6)
        [33, 0, 0, 0, 2, 36, 114, 101, 102, 0, 2, 0, 0, 0, 99, 0, 16, 36, 105, 100, 0,
          1, 0, 0, 0, 16, 120, 0, 2, 0, 0, 0, 0]
      = .ok (.DBRef (.String "c") (.Number (doubleOfInt 1)) none))
    ∧ Value.DBRef (.String "c") (.Number (doubleOfInt 1)) none
      ≠ .Object "Object" [("$ref", .String "c"), ("$id", .Number (doubleOfInt 1)),
          ("x", .Number (doubleOfInt 2))] :=
  ⟨by decide, fun _ => rfl, by simp⟩

/-- C13, amended (promotion to a `DBRef` of every document that has the
names of a reference, whatever else it holds).  For every document that has
the names `$ref` and `$id`, whatever other names it has, whose names hold no
NUL, are distinct and are not the reserved `toHexString`, and whose values
decode to themselves, the bytes `BSONSerialize` returns without key validation
decode to the `DBRef` built from the values of `$ref`, `$id` and `$db`: the
decoder tests only that the two names are present, and the other properties
are not in what it returns. -/
theorem C13_reference_with_other_fields_decodes_to_DBRef (ps : List (String × Value))
    (heap : Memory) (serializeFunctions : Bool)
    (href : objectHas ps "$ref" = true) (hid : objectHas ps "$id" = true)
    (hvalues : roundTripsProperties ps = true)
    (hnul : ∀ p ∈ ps, hasNoNul p.1 = true) (hnodup : (ps.map Prod.fst).Nodup)
    (hreserved : objectHas ps "toHexString" = false)
    (hsize : objectSize (.Object "Object" ps) serializeFunctions < 4294967296) :
    ∃ bytes, BSONSerialize heap (.Object "Object" ps) false serializeFunctions = .ok bytes
      ∧ ∀ fuel, bytes.length ≤ fuel →
          BSONDeserialize fuel bytes
            = .ok (.DBRef (objectGet ps "$ref") (objectGet ps "$id")
                (if objectHas ps "$db" = true then some (objectGet ps "$db") else none)) := by
  have hw : isWrongClass "Object" ps = false := by
    have hhex : HasRealNamedProperty ps "toHexString" = false := hreserved
    simp only [isWrongClass, hhex]
    decide
  obtain ⟨hn, _⟩ := object_facts "Object" ps serializeFunctions hvalues hw
  rw [objectSize_eq _ _ _ hn] at hsize
  rw [← finishObject_reference ps href hid]
  exact reference_at_root ps heap serializeFunctions hvalues hnul hnodup hw hsize

/-- C13, amended, on the document `{$ref: "c", $id: 1, x: 2}`: the 33 bytes
of its encoding decode to `DBRef("c", 1)`, in which the field `x` is lost. -/
theorem C13_reference_with_other_fields_decodes_to_DBRef_witness :
    BSONSerialize (fun _ => 0)
        (.Object "Object" [("$ref", .String "c"), ("$id", .Number (doubleOfInt 1)),
          ("x", .Number (doubleOfInt 2))]) false false
      = .ok [33, 0, 0, 0, 2, 36, 114, 101, 102, 0, 2, 0, 0, 0, 99, 0, 16, 36, 105, 100, 0,
          1, 0, 0, 0, 16, 120, 0, 2, 0, 0, 0, 0]
    ∧ BSONDeserialize 33
        [33, 0, 0, 0, 2, 36, 114, 101, 102, 0, 2, 0, 0, 0, 99, 0, 16, 36, 105, 100, 0,
          1, 0, 0, 0, 16, 120, 0, 2, 0, 0, 0, 0]
      = .ok (.DBRef (.String "c") (.Number (doubleOfInt 1)) none) := by
  obtain ⟨bytes, h1, h2⟩ := C13_reference_with_other_fields_decodes_to_DBRef
    [("$ref", .String "c"), ("$id", .Number (doubleOfInt 1)), ("x", .Number (doubleOfInt 2))]
    (fun _ => 0) false (by decide) (by decide) (by decide) (by decide) (by decide) (by decide)
    (by decide)
  have henc : BSONSerialize (fun _ => 0)
        (.Object "Object" [("$ref", .String "c"), ("$id", .Number (doubleOfInt 1)),
          ("x", .Number (doubleOfInt 2))]) false false
      = .ok [33, 0, 0, 0, 2, 36, 114, 101, 102, 0, 2, 0, 0, 0, 99, 0, 16, 36, 105, 100, 0,
          1, 0, 0, 0, 16, 120, 0, 2, 0, 0, 0, 0] := by decide
  rw [henc] at h1
  cases h1
  exact ⟨henc, h2 33 (by decide)⟩

/-- C14 (the tag table).  The constants of the source have the values of the
table.  For every value written under a name, the first byte `serialize`
stores for the element is `wireTag` of the value, the constant of its wire
type (the scope objects inside the value being documents of a size below
`2 ^ 32`).  Every branch of the decoder that reads a value without a nested
call returns, when it returns, a value of the wire type of the tag it is
entered with, `deserialize` returns an array in array mode (tag 0x04) and a
document or its `DBRef` in document mode (tag 0x03).  And for each of the
eighteen wire types a document `{a: v}` is encoded with the tag of the table
at the byte after the length, and these bytes are decoded by the branch of
that tag to a value of that wire type. -/
theorem C14_tag_bytes_of_encoder_and_decoder :
    (BSON_DATA_NUMBER = 0x01 ∧ BSON_DATA_STRING = 0x02 ∧ BSON_DATA_OBJECT = 0x03
      ∧ BSON_DATA_ARRAY = 0x04 ∧ BSON_DATA_BINARY = 0x05 ∧ BSON_DATA_OID = 0x07
      ∧ BSON_DATA_BOOLEAN = 0x08 ∧ BSON_DATA_DATE = 0x09 ∧ BSON_DATA_NULL = 0x0A
      ∧ BSON_DATA_REGEXP = 0x0B ∧ BSON_DATA_CODE = 0x0D ∧ BSON_DATA_SYMBOL = 0x0E
      ∧ BSON_DATA_CODE_W_SCOPE = 0x0F ∧ BSON_DATA_INT = 0x10 ∧ BSON_DATA_TIMESTAMP = 0x11
      ∧ BSON_DATA_LONG = 0x12 ∧ BSON_DATA_MAX_KEY = 0x7F ∧ BSON_DATA_MIN_KEY = 0xFF)
    ∧ (∀ (value : Value) (serializeFunctions : Bool) (mem : Memory)
        (serialized_object index : Nat) (key : String) (check_key : Bool) (r : Memory × Nat),
        scopesAreDocuments value serializeFunctions = true →
        serialize mem serialized_object index (some key) value check_key serializeFunctions
          = .ok r →
        (IsFunction value = false ∨ serializeFunctions = true) →
        r.1 (serialized_object + index) = wireTag value)
    ∧ (∀ (type : Nat) (data : List Nat) (index : Nat) (v : Value) (i : Nat),
        deserialize_scalar type data index = .ok (v, i) → tagDecodesTo type v = true)
    ∧ (∀ (fuel : Nat) (data : List Nat) (v : Value),
        deserialize fuel data true = .ok v → tagDecodesTo 0x04 v = true)
    ∧ (∀ (fuel : Nat) (data : List Nat) (v : Value),
        deserialize fuel data false = .ok v → tagDecodesTo 0x03 v = true)
    ∧ ((∀ heap : Memory, BSONSerialize heap (.Object "Object" [("a", (.Double 4609434218613702656))]) false false
          = .ok [16, 0, 0, 0, 1, 97, 0, 0, 0, 0, 0, 0, 0, 248, 63, 0])
      ∧ [16, 0, 0, 0, 1, 97, 0, 0, 0, 0, 0, 0, 0, 248, 63, 0][4]? = some 0x01
      ∧ ∀ fuel : Nat, BSONDeserialize (fuel + 8) [16, 0, 0, 0, 1, 97, 0, 0, 0, 0, 0, 0, 0, 248, 63, 0]
          = .ok (.Object "Object" [("a", (.Number 4609434218613702656))]))
    ∧ ((∀ heap : Memory, BSONSerialize heap (.Object "Object" [("a", (.String "x"))]) false false
          = .ok [14, 0, 0, 0, 2, 97, 0, 2, 0, 0, 0, 120, 0, 0])
      ∧ [14, 0, 0, 0, 2, 97, 0, 2, 0, 0, 0, 120, 0, 0][4]? = some 0x02
      ∧ ∀ fuel : Nat, BSONDeserialize (fuel + 8) [14, 0, 0, 0, 2, 97, 0, 2, 0, 0, 0, 120, 0, 0]
          = .ok (.Object "Object" [("a", (.String "x"))]))
    ∧ ((∀ heap : Memory, BSONSerialize heap (.Object "Object" [("a", (.Object "Object" []))]) false false
          = .ok [13, 0, 0, 0, 3, 97, 0, 5, 0, 0, 0, 0, 0])
      ∧ [13, 0, 0, 0, 3, 97, 0, 5, 0, 0, 0, 0, 0][4]? = some 0x03
      ∧ ∀ fuel : Nat, BSONDeserialize (fuel + 8) [13, 0, 0, 0, 3, 97, 0, 5, 0, 0, 0, 0, 0]
          = .ok (.Object "Object" [("a", (.Object "Object" []))]))
    ∧ ((∀ heap : Memory, BSONSerialize heap (.Object "Object" [("a", (.Array []))]) false false
          = .ok [13, 0, 0, 0, 4, 97, 0, 5, 0, 0, 0, 0, 0])
      ∧ [13, 0, 0, 0, 4, 97, 0, 5, 0, 0, 0, 0, 0][4]? = some 0x04
      ∧ ∀ fuel : Nat, BSONDeserialize (fuel + 8) [13, 0, 0, 0, 4, 97, 0, 5, 0, 0, 0, 0, 0]
          = .ok (.Object "Object" [("a", (.Array []))]))
    ∧ ((∀ heap : Memory, BSONSerialize heap (.Object "Object" [("a", (.Binary 0 [7]))]) false false
          = .ok [14, 0, 0, 0, 5, 97, 0, 1, 0, 0, 0, 0, 7, 0])
      ∧ [14, 0, 0, 0, 5, 97, 0, 1, 0, 0, 0, 0, 7, 0][4]? = some 0x05
      ∧ ∀ fuel : Nat, BSONDeserialize (fuel + 8) [14, 0, 0, 0, 5, 97, 0, 1, 0, 0, 0, 0, 7, 0]
          = .ok (.Object "Object" [("a", (.Binary 0 [7]))]))
    ∧ ((∀ heap : Memory, BSONSerialize heap (.Object "Object" [("a", (.ObjectID "0123456789abcdef01234567"))]) false false
          = .ok [20, 0, 0, 0, 7, 97, 0, 1, 35, 69, 103, 137, 171, 205, 239, 1, 35, 69, 103, 0])
      ∧ [20, 0, 0, 0, 7, 97, 0, 1, 35, 69, 103, 137, 171, 205, 239, 1, 35, 69, 103, 0][4]? = some 0x07
      ∧ ∀ fuel : Nat, BSONDeserialize (fuel + 8) [20, 0, 0, 0, 7, 97, 0, 1, 35, 69, 103, 137, 171, 205, 239, 1, 35, 69, 103, 0]
          = .ok (.Object "Object" [("a", (.ObjectID "0123456789abcdef01234567"))]))
    ∧ ((∀ heap : Memory, BSONSerialize heap (.Object "Object" [("a", (.Boolean true))]) false false
          = .ok [9, 0, 0, 0, 8, 97, 0, 1, 0])
      ∧ [9, 0, 0, 0, 8, 97, 0, 1, 0][4]? = some 0x08
      ∧ ∀ fuel : Nat, BSONDeserialize (fuel + 8) [9, 0, 0, 0, 8, 97, 0, 1, 0]
          = .ok (.Object "Object" [("a", (.Boolean true))]))
    ∧ ((∀ heap : Memory, BSONSerialize heap (.Object "Object" [("a", (.Date (doubleOfInt 1000)))]) false false
          = .ok [16, 0, 0, 0, 9, 97, 0, 232, 3, 0, 0, 0, 0, 0, 0, 0])
      ∧ [16, 0, 0, 0, 9, 97, 0, 232, 3, 0, 0, 0, 0, 0, 0, 0][4]? = some 0x09
      ∧ ∀ fuel : Nat, BSONDeserialize (fuel + 8) [16, 0, 0, 0, 9, 97, 0, 232, 3, 0, 0, 0, 0, 0, 0, 0]
          = .ok (.Object "Object" [("a", (.Date (doubleOfInt 1000)))]))
    ∧ ((∀ heap : Memory, BSONSerialize heap (.Object "Object" [("a", .Null)]) false false
          = .ok [8, 0, 0, 0, 10, 97, 0, 0])
      ∧ [8, 0, 0, 0, 10, 97, 0, 0][4]? = some 0x0A
      ∧ ∀ fuel : Nat, BSONDeserialize (fuel + 8) [8, 0, 0, 0, 10, 97, 0, 0]
          = .ok (.Object "Object" [("a", .Null)]))
    ∧ ((∀ heap : Memory, BSONSerialize heap (.Object "Object" [("a", (.RegExp "x" 2))]) false false
          = .ok [12, 0, 0, 0, 11, 97, 0, 120, 0, 105, 0, 0])
      ∧ [12, 0, 0, 0, 11, 97, 0, 120, 0, 105, 0, 0][4]? = some 0x0B
      ∧ ∀ fuel : Nat, BSONDeserialize (fuel + 8) [12, 0, 0, 0, 11, 97, 0, 120, 0, 105, 0, 0]
          = .ok (.Object "Object" [("a", (.RegExp "x" 2))]))
    ∧ ((∀ heap : Memory, BSONSerialize heap (.Object "Object" [("a", (.Function "f"))]) false true
          = .ok [14, 0, 0, 0, 13, 97, 0, 2, 0, 0, 0, 102, 0, 0])
      ∧ [14, 0, 0, 0, 13, 97, 0, 2, 0, 0, 0, 102, 0, 0][4]? = some 0x0D
      ∧ ∀ fuel : Nat, BSONDeserialize (fuel + 8) [14, 0, 0, 0, 13, 97, 0, 2, 0, 0, 0, 102, 0, 0]
          = .ok (.Object "Object" [("a", (.Code "f" (.Object "Object" [])))]))
    ∧ ((∀ heap : Memory, BSONSerialize heap (.Object "Object" [("a", (.Symbol "s"))]) false false
          = .ok [14, 0, 0, 0, 14, 97, 0, 2, 0, 0, 0, 115, 0, 0])
      ∧ [14, 0, 0, 0, 14, 97, 0, 2, 0, 0, 0, 115, 0, 0][4]? = some 0x0E
      ∧ ∀ fuel : Nat, BSONDeserialize (fuel + 8) [14, 0, 0, 0, 14, 97, 0, 2, 0, 0, 0, 115, 0, 0]
          = .ok (.Object "Object" [("a", (.Symbol "s"))]))
    ∧ ((∀ heap : Memory, BSONSerialize heap (.Object "Object" [("a", (.Code "f" (.Object "Object" [])))]) false false
          = .ok [23, 0, 0, 0, 15, 97, 0, 15, 0, 0, 0, 2, 0, 0, 0, 102, 0, 5, 0, 0, 0, 0, 0])
      ∧ [23, 0, 0, 0, 15, 97, 0, 15, 0, 0, 0, 2, 0, 0, 0, 102, 0, 5, 0, 0, 0, 0, 0][4]? = some 0x0F
      ∧ ∀ fuel : Nat, BSONDeserialize (fuel + 8) [23, 0, 0, 0, 15, 97, 0, 15, 0, 0, 0, 2, 0, 0, 0, 102, 0, 5, 0, 0, 0, 0, 0]
          = .ok (.Object "Object" [("a", (.Code "f" (.Object "Object" [])))]))
    ∧ ((∀ heap : Memory, BSONSerialize heap (.Object "Object" [("a", (.Number (doubleOfInt 7)))]) false false
          = .ok [12, 0, 0, 0, 16, 97, 0, 7, 0, 0, 0, 0])
      ∧ [12, 0, 0, 0, 16, 97, 0, 7, 0, 0, 0, 0][4]? = some 0x10
      ∧ ∀ fuel : Nat, BSONDeserialize (fuel + 8) [12, 0, 0, 0, 16, 97, 0, 7, 0, 0, 0, 0]
          = .ok (.Object "Object" [("a", (.Number (doubleOfInt 7)))]))
    ∧ ((∀ heap : Memory, BSONSerialize heap (.Object "Object" [("a", (.Timestamp 5 0))]) false false
          = .ok [16, 0, 0, 0, 17, 97, 0, 5, 0, 0, 0, 0, 0, 0, 0, 0])
      ∧ [16, 0, 0, 0, 17, 97, 0, 5, 0, 0, 0, 0, 0, 0, 0, 0][4]? = some 0x11
      ∧ ∀ fuel : Nat, BSONDeserialize (fuel + 8) [16, 0, 0, 0, 17, 97, 0, 5, 0, 0, 0, 0, 0, 0, 0, 0]
          = .ok (.Object "Object" [("a", (.Timestamp 5 0))]))
    ∧ ((∀ heap : Memory, BSONSerialize heap (.Object "Object" [("a", (.Long 0 4194304))]) false false
          = .ok [16, 0, 0, 0, 18, 97, 0, 0, 0, 0, 0, 0, 0, 64, 0, 0])
      ∧ [16, 0, 0, 0, 18, 97, 0, 0, 0, 0, 0, 0, 0, 64, 0, 0][4]? = some 0x12
      ∧ ∀ fuel : Nat, BSONDeserialize (fuel + 8) [16, 0, 0, 0, 18, 97, 0, 0, 0, 0, 0, 0, 0, 64, 0, 0]
          = .ok (.Object "Object" [("a", (.Long 0 4194304))]))
    ∧ ((∀ heap : Memory, BSONSerialize heap (.Object "Object" [("a", .MaxKey)]) false false
          = .ok [8, 0, 0, 0, 127, 97, 0, 0])
      ∧ [8, 0, 0, 0, 127, 97, 0, 0][4]? = some 0x7F
      ∧ ∀ fuel : Nat, BSONDeserialize (fuel + 8) [8, 0, 0, 0, 127, 97, 0, 0]
          = .ok (.Object "Object" [("a", .MaxKey)]))
    ∧ ((∀ heap : Memory, BSONSerialize heap (.Object "Object" [("a", .MinKey)]) false false
          = .ok [8, 0, 0, 0, 255, 97, 0, 0])
      ∧ [8, 0, 0, 0, 255, 97, 0, 0][4]? = some 0xFF
      ∧ ∀ fuel : Nat, BSONDeserialize (fuel + 8) [8, 0, 0, 0, 255, 97, 0, 0]
          = .ok (.Object "Object" [("a", .MinKey)])) :=
  ⟨by decide,
    fun value sf mem so idx key ck r hscopes hr h =>
      serialize_first_byte value sf mem so idx key ck r hscopes hr h,
    fun type data index v i h => deserialize_scalar_kind type data index v i h,
    fun fuel data v h => (deserialize_kind fuel).1 data true v h,
    fun fuel data v h => (deserialize_kind fuel).1 data false v h,
    ⟨fun _ => rfl, rfl, fun _ => rfl⟩,
    ⟨fun _ => rfl, rfl, fun _ => rfl⟩,
    ⟨fun _ => rfl, rfl, fun _ => rfl⟩,
    ⟨fun _ => rfl, rfl, fun _ => rfl⟩,
    ⟨fun _ => rfl, rfl, fun _ => rfl⟩,
    ⟨fun _ => rfl, rfl, fun _ => rfl⟩,
    ⟨fun _ => rfl, rfl, fun _ => rfl⟩,
    ⟨fun _ => rfl, rfl, fun _ => rfl⟩,
    ⟨fun _ => rfl, rfl, fun _ => rfl⟩,
    ⟨fun _ => rfl, rfl, fun _ => rfl⟩,
    ⟨fun _ => rfl, rfl, fun _ => rfl⟩,
    ⟨fun _ => rfl, rfl, fun _ => rfl⟩,
    ⟨fun _ => rfl, rfl, fun _ => rfl⟩,
    ⟨fun _ => rfl, rfl, fun _ => rfl⟩,
    ⟨fun _ => rfl, rfl, fun _ => rfl⟩,
    ⟨fun _ => rfl, rfl, fun _ => rfl⟩,
    ⟨fun _ => rfl, rfl, fun _ => rfl⟩,
    ⟨fun _ => rfl, rfl, fun _ => rfl⟩⟩

/-- C14 on the element `a: 7`: `serialize` succeeds, and the byte it stores
first is 0x10. -/
theorem C14_tag_bytes_of_encoder_and_decoder_witness :
    scopesAreDocuments (.Number (doubleOfInt 7)) false = true
    ∧ (∃ r, serialize (fun _ => 0) 0 0 (some "a") (.Number (doubleOfInt 7)) true false = .ok r
        ∧ r.1 (0 + 0) = wireTag (.Number (doubleOfInt 7)))
    ∧ wireTag (.Number (doubleOfInt 7)) = 0x10
    ∧ deserialize_scalar 0x10 [7, 0, 0, 0] 0 = .ok (.Number (doubleOfInt 7), 4)
    ∧ tagDecodesTo 0x10 (.Number (doubleOfInt 7)) = true :=
  ⟨rfl, ⟨_, rfl, C14_tag_bytes_of_encoder_and_decoder.2.1 (.Number (doubleOfInt 7)) false
      (fun _ => 0) 0 0 "a" true _ rfl rfl (Or.inl rfl)⟩, by decide, rfl,
    C14_tag_bytes_of_encoder_and_decoder.2.2.1 0x10 [7, 0, 0, 0] 0 (.Number (doubleOfInt 7)) 4
      rfl⟩

/-- C15 (an unterminated name gives "Invalid C String found."): the code
breaks it.  `extract_string` looks for the terminator with `strchr(.., 0)`,
which finds the terminating NUL itself and never returns `NULL`, so the test
for `NULL` never holds: with any fuel, on any bytes, in either mode,
`deserialize` does not fail with "Invalid C String found.".  When the bytes
after the tag of the first element hold no NUL up to the end of the region,
the scan for the terminator leaves the region, which the embedding reports as
`readOutOfBounds` and the source leaves undefined.  So it is on the nine
bytes `09 00 00 00 | 02 | 61 62 63 64`. -/
theorem C15_invalid_c_string_is_never_reported :
    (∀ (fuel : Nat) (data : List Nat) (is_array_item : Bool),
        deserialize fuel data is_array_item ≠ .error .invalidCString)
    ∧ (∀ (data : List Nat) (offset : Nat), extract_string data offset ≠ .ok none)
    ∧ (∀ (size tag : Nat) (rest : List Nat) (fuel : Nat),
        size < 4294967296 → 4 < size → isElementType tag = true → tag < 256 →
        (∀ b ∈ rest, b % 256 ≠ 0) →
        BSONDeserialize (fuel + 2) (leBytes 4 size ++ tag :: rest) = .error .readOutOfBounds)
    ∧ (∀ fuel : Nat,
        BSONDeserialize (fuel + 2) [9, 0, 0, 0, 2, 97, 98, 99, 100] = .error .readOutOfBounds) :=
  ⟨fun fuel data isArr => (noCString_deserialize fuel).1 data isArr, extract_string_ne_none,
    unterminated_name, fun _ => rfl⟩

/-- C15 on the bytes `09 00 00 00 | 02 | 61 62 63 64`, through the general
statement: the size is 9, the tag 0x02, and no byte after it is NUL. -/
theorem C15_invalid_c_string_is_never_reported_witness :
    BSONDeserialize (0 + 2) (leBytes 4 9 ++ 2 :: [97, 98, 99, 100]) = .error .readOutOfBounds :=
  C15_invalid_c_string_is_never_reported.2.2.1 9 2 [97, 98, 99, 100] 0 (by decide) (by decide)
    (by decide) (by decide) (by decide)

/-- C16, as stated, fails (a region shorter than its declared length, or a
length field that exceeds the bytes remaining, does not make the decoder
fail).  `deserialize` receives the pointer alone and compares `index` with the
declared size only.  The 13 bytes `10 00 00 00 | 02 61 00 | 05 00 00 00 |
78 00` declare a total length of 16 and a string of 5 bytes where 2 remain;
`strncpy` stops reading at the NUL, so no load leaves the region, and the
decoder returns the document `{a: "x\0\0\0"}`.  The same holds with the tag
of a `Symbol`. -/
theorem C16_inconsistent_lengths_are_decoded :
    ([16, 0, 0, 0, 2, 97, 0, 5, 0, 0, 0, 120, 0].length = 13
      ∧ deserialize_int32 [16, 0, 0, 0, 2, 97, 0, 5, 0, 0, 0, 120, 0] 0 = .ok 16
      ∧ deserialize_int32 [16, 0, 0, 0, 2, 97, 0, 5, 0, 0, 0, 120, 0] 7 = .ok 5
      ∧ ∀ fuel : Nat, BSONDeserialize (fuel + 3) [16, 0, 0, 0, 2, 97, 0, 5, 0, 0, 0, 120, 0]
          = .ok (.Object "Object" [("a", .String "x\x00\x00\x00")]))
    ∧ ([16, 0, 0, 0, 14, 97, 0, 5, 0, 0, 0, 120, 0].length = 13
      ∧ deserialize_int32 [16, 0, 0, 0, 14, 97, 0, 5, 0, 0, 0, 120, 0] 0 = .ok 16
      ∧ deserialize_int32 [16, 0, 0, 0, 14, 97, 0, 5, 0, 0, 0, 120, 0] 7 = .ok 5
      ∧ ∀ fuel : Nat, BSONDeserialize (fuel + 3) [16, 0, 0, 0, 14, 97, 0, 5, 0, 0, 0, 120, 0]
          = .ok (.Object "Object" [("a", .Symbol "x\x00\x00\x00")])) :=
  ⟨⟨rfl, rfl, rfl, fun _ => rfl⟩, ⟨rfl, rfl, rfl, fun _ => rfl⟩⟩

/-- C16, amended (no length is compared with the bytes that remain).  On no
bytes and with no fuel does `BSONDeserialize` fail with the message of a
malformed input.  For every sequence `bs` of bytes other than NUL and every
declared string length `n` larger than their number, the region `11 + n | tag
"a" 00 | n | bs 00`, with the tag of a `String` or of a `Symbol`, has `12 +
bs.length` bytes, declares `11 + n` of them and a string of `n` bytes where
`bs.length + 1` remain, and is decoded to the document whose field `a` holds
`bs` followed by `n - 1 - bs.length` NUL characters. -/
theorem C16_lengths_are_not_compared :
    (∀ (fuel : Nat) (data : List Nat), BSONDeserialize fuel data ≠ .error .invalidCString)
    ∧ (∀ (tag : Nat) (bs : List Nat) (n fuel : Nat),
        tag = BSON_DATA_STRING ∨ tag = BSON_DATA_SYMBOL →
        (∀ b ∈ bs, 0 < b ∧ b < 256) → bs.length < n → 11 + n < 4294967296 →
        (leBytes 4 (11 + n) ++ (tag :: 97 :: 0 :: (leBytes 4 n ++ (bs ++ [0])))).length
            = 12 + bs.length
        ∧ deserialize_int32
            (leBytes 4 (11 + n) ++ (tag :: 97 :: 0 :: (leBytes 4 n ++ (bs ++ [0])))) 0
            = .ok (11 + n)
        ∧ deserialize_int32
            (leBytes 4 (11 + n) ++ (tag :: 97 :: 0 :: (leBytes 4 n ++ (bs ++ [0])))) 7
            = .ok n
        ∧ BSONDeserialize (fuel + 3)
            (leBytes 4 (11 + n) ++ (tag :: 97 :: 0 :: (leBytes 4 n ++ (bs ++ [0]))))
          = .ok (.Object "Object"
              [("a", if tag = BSON_DATA_STRING
                then .String (EncodeUTF8 (bs ++ List.replicate (n - 1 - bs.length) 0))
                else .Symbol (EncodeUTF8 (bs ++ List.replicate (n - 1 - bs.length) 0)))])) := by
  refine ⟨fun fuel data => (noCString_deserialize fuel).1 data false, ?_⟩
  intro tag bs n fuel htag hb hn hbound
  refine ⟨by simp [leBytes_length]; omega, ?_, ?_,
    declared_region_decode tag htag bs n hb hn hbound fuel⟩
  · exact deserialize_int32_drop _ 0 (11 + n) _ rfl hbound
  · refine deserialize_int32_drop _ 7 n (bs ++ [0]) ?_ (by omega)
    have hd4 : (leBytes 4 (11 + n) ++ (tag :: 97 :: 0 :: (leBytes 4 n ++ (bs ++ [0])))).drop 4
        = [tag, 97, 0] ++ (leBytes 4 n ++ (bs ++ [0])) := by
      rw [List.drop_append_of_le_length (by simp [leBytes_length])]
      simp [leBytes_length]
    have := drop_add_of_drop _ 4 [tag, 97, 0] _ hd4
    simpa using this

/-- C16, amended, on the bytes `78 79` under the declared string length 9: the
14 bytes `14 00 00 00 | 02 61 00 | 09 00 00 00 | 78 79 00` declare 20 bytes
and a string of 9, and are decoded to `{a: "xy\0\0\0\0\0\0"}`. -/
theorem C16_lengths_are_not_compared_witness :
    [20, 0, 0, 0, 2, 97, 0, 9, 0, 0, 0, 120, 121, 0].length = 12 + 2
    ∧ BSONDeserialize (0 + 3) [20, 0, 0, 0, 2, 97, 0, 9, 0, 0, 0, 120, 121, 0]
      = .ok (.Object "Object" [("a", .String "xy\x00\x00\x00\x00\x00\x00")]) :=
  ⟨(C16_lengths_are_not_compared.2 BSON_DATA_STRING [120, 121] 9 0 (Or.inl rfl) (by decide)
      (by decide) (by decide)).1,
    (C16_lengths_are_not_compared.2 BSON_DATA_STRING [120, 121] 9 0 (Or.inl rfl) (by decide)
      (by decide) (by decide)).2.2.2⟩

/-- C18 (a failed encoding leaves the buffer as it was): the code returns the
error only for a rejected key.  For every object, `SerializeWithBufferAndIndex`
leaves every byte of the buffer as it was when the estimate or `serialize`
fails.  A failure of `serialize` inside the `try` block is caught and handed
back as the host exception, and it is always of kind `InvalidFieldName`.  A
failure of the estimate, which is every failure of kind
`ReservedTypeMismatch`, is thrown before the `try` block and leaves the
method uncaught: it is not returned.  So it is on the empty object whose
constructor name is `exports.Long`. -/
theorem C18_wrong_class_is_thrown_outside_try (heap data : Memory) (object : Value)
    (check_key : Bool) (index : Nat) (serializeFunctions : Bool) :
    (∀ e, calculate_object_size object serializeFunctions = .error e →
        SerializeWithBufferAndIndex heap data object check_key index serializeFunctions
          = (.uncaught e, data) ∧ e.isReservedTypeMismatch = true)
    ∧ (∀ n e, calculate_object_size object serializeFunctions = .ok n →
        serialize heap 0 0 none object check_key serializeFunctions = .error e →
        SerializeWithBufferAndIndex heap data object check_key index serializeFunctions
          = (.hostException e, data) ∧ e.isInvalidFieldName = true)
    ∧ (∀ e, BSONSerialize heap object check_key serializeFunctions = .error e →
        (SerializeWithBufferAndIndex heap data object check_key index serializeFunctions).2
          = data
        ∧ ∀ n, (SerializeWithBufferAndIndex heap data object check_key index
          serializeFunctions).1 ≠ .returned n)
    ∧ SerializeWithBufferAndIndex heap data (.Object "exports.Long" []) check_key index
        serializeFunctions = (.uncaught (.wrongClass "exports.Long"), data) := by
  have h1 : ∀ e, calculate_object_size object serializeFunctions = .error e →
      SerializeWithBufferAndIndex heap data object check_key index serializeFunctions
        = (.uncaught e, data) ∧ e.isReservedTypeMismatch = true := by
    intro e he
    refine ⟨?_, size_error_kind _ _ _ he⟩
    simp only [SerializeWithBufferAndIndex, he]
  have h2 : ∀ n e, calculate_object_size object serializeFunctions = .ok n →
      serialize heap 0 0 none object check_key serializeFunctions = .error e →
      SerializeWithBufferAndIndex heap data object check_key index serializeFunctions
        = (.hostException e, data) ∧ e.isInvalidFieldName = true := by
    intro n e hn he
    refine ⟨by simp only [SerializeWithBufferAndIndex, hn, he], ?_⟩
    have hw : hasWrongClass object = false := by
      rcases size_result object serializeFunctions with ⟨h, _⟩ | ⟨_, c, hc⟩
      · exact h
      · rw [hc] at hn; cases hn
    obtain ⟨r, hr⟩ := serialize_ok_of_size object serializeFunctions heap 0 0 none hw
    cases check_key with
    | false => rw [hr] at he; cases he
    | true =>
      have hk := serialize_keyChecked object serializeFunctions heap 0 0 none r hr
      cases hinv : hasInvalidName none object serializeFunctions with
      | false => rw [hk.2 hinv] at he; cases he
      | true =>
        obtain ⟨e2, he2, hkind⟩ := hk.1 hinv
        rw [he2] at he
        cases he
        exact hkind
  refine ⟨h1, h2, ?_, ?_⟩
  · intro e he
    cases hn : calculate_object_size object serializeFunctions with
    | error e1 =>
      rw [(h1 e1 hn).1]
      exact ⟨rfl, fun n h => by cases h⟩
    | ok n =>
      cases hs : serialize heap 0 0 none object check_key serializeFunctions with
      | error e1 =>
        rw [(h2 n e1 hn hs).1]
        exact ⟨rfl, fun n h => by cases h⟩
      | ok r =>
        simp only [BSONSerialize, hn, hs, ok_bind] at he
        cases he
  · rfl

/-- C18 on the document `{$a: 1}` with key validation on: the estimate is 13,
`serialize` fails on the key, the failure is handed back as the host
exception, and the buffer is as it was. -/
theorem C18_wrong_class_is_thrown_outside_try_witness :
    calculate_object_size (.Object "Object" [("$a", .Number (doubleOfInt 1))]) false = .ok 13
    ∧ serialize (fun _ => 0) 0 0 none (.Object "Object" [("$a", .Number (doubleOfInt 1))]) true
        false = .error (.keyStartsWithDollar "$a")
    ∧ SerializeWithBufferAndIndex (fun _ => 0) (fun _ => 7)
        (.Object "Object" [("$a", .Number (doubleOfInt 1))]) true 0 false
        = (.hostException (.keyStartsWithDollar "$a"), fun _ => 7) :=
  ⟨by decide, rfl,
    ((C18_wrong_class_is_thrown_outside_try (fun _ => 0) (fun _ => 7)
      (.Object "Object" [("$a", .Number (doubleOfInt 1))]) true 0 false).2.1 13
      (.keyStartsWithDollar "$a") (by decide) rfl).1⟩

/-- C19 (fixed payload sizes of the estimator).  Whatever they hold, and with
either setting of `serializeFunctions`, `calculate_object_size` returns 0 for
null, undefined, `MinKey` and `MaxKey`, 1 for a boolean, 8 for a `Double`, a
`Long`, a `Timestamp` and a date, and 12 for an `ObjectID`; for a number that
is finite, has no fractional part and lies within the 32-bit range, the number
the encoder writes with the tag 0x10 and four bytes of payload, it returns 4. -/
theorem C19_estimate_of_fixed_width_values (serializeFunctions : Bool) :
    calculate_object_size .Null serializeFunctions = .ok 0
    ∧ calculate_object_size .Undefined serializeFunctions = .ok 0
    ∧ calculate_object_size .MinKey serializeFunctions = .ok 0
    ∧ calculate_object_size .MaxKey serializeFunctions = .ok 0
    ∧ (∀ b : Bool, calculate_object_size (.Boolean b) serializeFunctions = .ok 1)
    ∧ (∀ value : Nat, calculate_object_size (.Double value) serializeFunctions = .ok 8)
    ∧ (∀ low_bits high_bits : Int,
        calculate_object_size (.Long low_bits high_bits) serializeFunctions = .ok 8)
    ∧ (∀ low_bits high_bits : Int,
        calculate_object_size (.Timestamp low_bits high_bits) serializeFunctions = .ok 8)
    ∧ (∀ time : Nat, calculate_object_size (.Date time) serializeFunctions = .ok 8)
    ∧ (∀ oid : String, calculate_object_size (.ObjectID oid) serializeFunctions = .ok 12)
    ∧ (∀ number : Nat, doubleExponent number ≠ 2047 → doubleHasFraction number = false →
        -2147483648 ≤ doubleTruncate number → doubleTruncate number ≤ 2147483647 →
        calculate_object_size (.Number number) serializeFunctions = .ok 4
        ∧ ∀ (mem : Memory) (serialized_object index : Nat) (name : Option String),
            serialize mem serialized_object index name (.Number number) false serializeFunctions
              = .ok (storeBytes mem (serialized_object + index)
                  (headerBytes 16 name ++ leBytes 4 (toUint32 (doubleTruncate number))),
                index + (Utf8Length (nameString name) + 2) + 4)) := by
  refine ⟨rfl, rfl, rfl, rfl, fun _ => rfl, fun _ => rfl, fun _ _ => rfl, fun _ _ => rfl,
    fun _ => rfl, fun _ => rfl, ?_⟩
  intro number hfinite hintegral h1 h2
  obtain ⟨hsize, hbytes⟩ :=
    (number_classification number hfinite hintegral none serializeFunctions).1 ⟨h1, h2⟩
  refine ⟨hsize, ?_⟩
  intro mem so idx name
  have hb := ((number_classification number hfinite hintegral name serializeFunctions).1
    ⟨h1, h2⟩).2
  rw [serialize_Number, hb]
  simp [headerBytes_length, leBytes_length]
  omega

/-- C19 on the number 7 (bit pattern 0x401C000000000000): the estimate is 4
and the element written under the name `a` is `10 61 00 07 00 00 00`. -/
theorem C19_estimate_of_fixed_width_values_witness :
    doubleExponent 4619567317775286272 ≠ 2047
    ∧ doubleHasFraction 4619567317775286272 = false
    ∧ doubleTruncate 4619567317775286272 = 7
    ∧ calculate_object_size (.Number 4619567317775286272) false = .ok 4
    ∧ serialize (fun _ => 0) 0 0 (some "a") (.Number 4619567317775286272) false false
        = .ok (storeBytes (fun _ => 0) (0 + 0)
            (headerBytes 16 (some "a") ++ leBytes 4 (toUint32 (doubleTruncate 4619567317775286272))),
          0 + (Utf8Length (nameString (some "a")) + 2) + 4) :=
  have h := (C19_estimate_of_fixed_width_values false).2.2.2.2.2.2.2.2.2.2 4619567317775286272
    (by decide) (by decide) (by decide) (by decide)
  ⟨by decide, by decide, by decide, h.1, h.2 (fun _ => 0) 0 0 (some "a")⟩

/-- C20 (strings and symbols).  For every string the estimate of the string
and of the `Symbol` holding it is its UTF-8 length plus 5, and the encoder
stores for it, after the tag and the name, the four bytes of the UTF-8 length
plus 1 (as a 32-bit little-endian value), the UTF-8 bytes of the string and
one NUL, and advances by the UTF-8 length plus 5; when the UTF-8 length plus 1
is below `2 ^ 32` the four bytes read back as that number. -/
theorem C20_string_estimate_and_length_field (s : String) (serializeFunctions : Bool) :
    calculate_object_size (.String s) serializeFunctions = .ok (Utf8Length s + 5)
    ∧ calculate_object_size (.Symbol s) serializeFunctions = .ok (Utf8Length s + 5)
    ∧ (∀ (mem : Memory) (serialized_object index : Nat) (name : Option String),
        serialize mem serialized_object index name (.String s) false serializeFunctions
          = .ok (storeBytes mem (serialized_object + index)
              (headerBytes 2 name
                ++ (leBytes 4 ((Utf8Length s + 1) % 4294967296) ++ (WriteUtf8 s ++ [0]))),
            index + (Utf8Length (nameString name) + 2) + (Utf8Length s + 5)))
    ∧ (∀ (mem : Memory) (serialized_object index : Nat) (name : Option String),
        serialize mem serialized_object index name (.Symbol s) false serializeFunctions
          = .ok (storeBytes mem (serialized_object + index)
              (headerBytes 14 name
                ++ (leBytes 4 ((Utf8Length s + 1) % 4294967296) ++ (WriteUtf8 s ++ [0]))),
            index + (Utf8Length (nameString name) + 2) + (Utf8Length s + 5)))
    ∧ (WriteUtf8 s).length = Utf8Length s
    ∧ (Utf8Length s + 1 < 4294967296 →
        leValue (leBytes 4 ((Utf8Length s + 1) % 4294967296)) = Utf8Length s + 1) := by
  refine ⟨?_, ?_, ?_, ?_, rfl, ?_⟩
  · simp only [calculate_object_size, stringSize_eq]; rfl
  · simp only [calculate_object_size, stringSize_eq]; rfl
  · intro mem so idx name
    rw [serialize_leaf (.String s) rfl]
    simp only [Bool.and_false, Bool.false_eq_true, if_false, elementBytes, stringBytes]
    refine congrArg Except.ok (Prod.ext rfl ?_)
    simp [headerBytes_length, leBytes_length, Utf8Length]
    omega
  · intro mem so idx name
    rw [serialize_leaf (.Symbol s) rfl]
    simp only [Bool.and_false, Bool.false_eq_true, if_false, elementBytes, stringBytes]
    refine congrArg Except.ok (Prod.ext rfl ?_)
    simp [headerBytes_length, leBytes_length, Utf8Length]
    omega
  · intro h
    rw [Nat.mod_eq_of_lt h]
    exact leValue_leBytes 4 _ (by simpa using h)

/-- C20 on the string `hé`, of UTF-8 length 3: the length prefix reads back as 4. -/
theorem C20_string_estimate_and_length_field_witness :
    Utf8Length "hé" + 1 < 4294967296
    ∧ leValue (leBytes 4 ((Utf8Length "hé" + 1) % 4294967296)) = Utf8Length "hé" + 1
    ∧ Utf8Length "hé" = 3 :=
  ⟨by decide, (C20_string_estimate_and_length_field "hé" false).2.2.2.2.2 (by decide),
    by decide⟩

/-- C22 (the `Code` wrapper with its scope).  Let the scope object of a
`Code` be a document whose estimate is below `2 ^ 32` (and so for the scopes
nested in it), and let `serialize` return.  Then the estimate of the `Code`
is 4 + 4 + the length of the source as a C string + 1 + the estimate of the
scope; after the tag and the name the encoder stores the four bytes of that
number, the four bytes of the source length + 1, the source, a NUL and as
many bytes for the scope as its estimate, and advances by the estimate.  For
a source without NUL the length of the C string is the UTF-8 length, and
when the total is below `2 ^ 32` the two 32-bit values read back as the
total and the source length + 1. -/
theorem C22_code_with_scope_sizes (code : String) (scope_object : Value)
    (serializeFunctions : Bool) (mem : Memory) (serialized_object index : Nat)
    (name : Option String) (check_key : Bool) (r : Memory × Nat)
    (hscopes : scopesAreDocuments (.Code code scope_object) serializeFunctions = true)
    (hr : serialize mem serialized_object index name (.Code code scope_object) check_key
      serializeFunctions = .ok r) :
    calculate_object_size (.Code code scope_object) serializeFunctions
      = .ok (4 + 4 + strlen (WriteUtf8 code) + 1 + objectSize scope_object serializeFunctions)
    ∧ calculate_object_size scope_object serializeFunctions
      = .ok (objectSize scope_object serializeFunctions)
    ∧ (∃ scopeBytes : List Nat,
        scopeBytes.length = objectSize scope_object serializeFunctions
        ∧ r = (storeBytes mem (serialized_object + index)
            (headerBytes 15 name
              ++ (leBytes 4 ((4 + 4 + strlen (WriteUtf8 code) + 1
                    + objectSize scope_object serializeFunctions) % 4294967296)
              ++ (leBytes 4 ((strlen (WriteUtf8 code) + 1) % 4294967296)
              ++ (cString (WriteUtf8 code) ++ (0 :: scopeBytes))))),
          index + (Utf8Length (nameString name) + 2)
            + (4 + 4 + strlen (WriteUtf8 code) + 1
                + objectSize scope_object serializeFunctions)))
    ∧ (cString (WriteUtf8 code)).length = strlen (WriteUtf8 code)
    ∧ (hasNoNul code = true →
        strlen (WriteUtf8 code) = Utf8Length code ∧ cString (WriteUtf8 code) = WriteUtf8 code)
    ∧ (4 + 4 + strlen (WriteUtf8 code) + 1 + objectSize scope_object serializeFunctions
          < 4294967296 →
        leValue (leBytes 4 ((4 + 4 + strlen (WriteUtf8 code) + 1
            + objectSize scope_object serializeFunctions) % 4294967296))
          = 4 + 4 + strlen (WriteUtf8 code) + 1 + objectSize scope_object serializeFunctions
        ∧ leValue (leBytes 4 ((strlen (WriteUtf8 code) + 1) % 4294967296))
          = strlen (WriteUtf8 code) + 1) := by
  have hscopes2 := hscopes
  simp only [scopesAreDocuments, Bool.and_eq_true, decide_eq_true_eq] at hscopes2
  obtain ⟨⟨hdoc, hsize⟩, hnested⟩ := hscopes2
  have hn : ∃ n, calculate_object_size scope_object serializeFunctions = .ok n := by
    simp only [serialize, writeTagAndName_eq, bind_eq_ok] at hr
    obtain ⟨_, _, n, hn, _⟩ := hr
    exact ⟨n, hn⟩
  obtain ⟨n, hn⟩ := hn
  have hos := objectSize_eq _ _ _ hn
  have hb := serialize_bytes (.Code code scope_object) serializeFunctions mem serialized_object
    index name check_key r hscopes hr
  have hpad : ∀ i, paddingBytes name (.Code code scope_object) serializeFunctions i = [] := by
    intro i
    simp [paddingBytes, isDocument]
  rw [hpad, List.append_nil] at hb
  have hlen := (elementBytes_length scope_object serializeFunctions none n hn hnested).1
  have htag : tagAndNameLength none scope_object = 0 := by
    simp [tagAndNameLength, hdoc]
  rw [htag, Nat.zero_add] at hlen
  have hsl : (elementBytes none scope_object serializeFunctions
      ++ List.replicate (objectSize scope_object serializeFunctions
          - (elementBytes none scope_object serializeFunctions).length) 0).length
      = objectSize scope_object serializeFunctions := by
    rw [List.length_append, List.length_replicate, hos]
    omega
  refine ⟨?_, by rw [hos]; exact hn, ⟨_, hsl, ?_⟩, rfl, ?_, ?_⟩
  · simp only [calculate_object_size, hn, ok_bind, hos]
    refine congrArg Except.ok ?_
    omega
  · rw [hb]
    refine Prod.ext rfl ?_
    simp only [elementBytes, List.length_append, headerBytes_length, leBytes_length,
      List.length_cons, hsl, cString_length]
    omega
  · intro hnul
    have hbounds := WriteUtf8_bounds code (hasNoNul_spec code hnul)
    have h1 := strlen_nonzero _ hbounds
    refine ⟨h1, ?_⟩
    unfold cString
    exact takeWhile_nonzero _ hbounds
  · intro hlt
    rw [Nat.mod_eq_of_lt hlt, Nat.mod_eq_of_lt (by omega)]
    exact ⟨leValue_leBytes 4 _ (by norm_num; omega), leValue_leBytes 4 _ (by norm_num; omega)⟩

/-- C22 on `Code("f", {x: 1})` under the name `a`: the estimate is 22, and
the 25 bytes stored are `0f 61 00 | 16 00 00 00 | 02 00 00 00 | 66 00 |
0c 00 00 00 10 78 00 01 00 00 00 00`. -/
theorem C22_code_with_scope_sizes_witness :
    scopesAreDocuments (.Code "f" (.Object "Object" [("x", .Number (doubleOfInt 1))])) false = true
    ∧ calculate_object_size (.Code "f" (.Object "Object" [("x", .Number (doubleOfInt 1))])) false
        = .ok 22
    ∧ (∃ r, serialize (fun _ => 0) 0 0 (some "a")
          (.Code "f" (.Object "Object" [("x", .Number (doubleOfInt 1))])) false false = .ok r
        ∧ r.2 = 25
        ∧ loadBytes r.1 0 25 = [15, 97, 0, 22, 0, 0, 0, 2, 0, 0, 0, 102, 0,
            12, 0, 0, 0, 16, 120, 0, 1, 0, 0, 0, 0]) := by
  have h := C22_code_with_scope_sizes "f" (.Object "Object" [("x", .Number (doubleOfInt 1))])
    false (fun _ => 0) 0 0 (some "a") false _ (by decide) rfl
  exact ⟨by decide, h.1, _, rfl, by decide, by decide⟩

/-- C23 (a string is decoded from exactly the `L - 1` bytes after its length,
NUL bytes included, so a string with U+0000 survives): the code breaks it.
For every `String` and `Symbol` element whose declared length `L >= 1` is
followed by `L` payload bytes, the branch copies the payload with `strncpy`,
which stops at the first NUL and fills the rest with NUL: the decoded string
is the UTF-8 decoding of the first `L - 1` bytes of `strncpyResult payload`,
and the cursor advances by `4 + L`.  When no NUL is among the first `L - 1`
payload bytes this is the decoding of exactly these bytes.  The document
`{a: "x\0y"}` is encoded to 16 bytes whose string payload is `78 00 79 00`,
and these bytes decode to `{a: "x\0\0"}`, where the decoding of the three
bytes is `"x\0y"`; the same holds for the `Symbol`. -/
theorem C23_string_is_cut_at_first_nul (data : List Nat) (index : Nat) (payload tail : List Nat)
    (hdrop : data.drop index = leBytes 4 payload.length ++ (payload ++ tail))
    (hpos : 1 ≤ payload.length) (hbound : index + 4 + payload.length < 4294967296) :
    deserialize_scalar BSON_DATA_STRING data index
      = .ok (.String (EncodeUTF8 ((strncpyResult payload).take (payload.length - 1))),
          index + 4 + payload.length)
    ∧ deserialize_scalar BSON_DATA_SYMBOL data index
      = .ok (.Symbol (EncodeUTF8 ((strncpyResult payload).take (payload.length - 1))),
          index + 4 + payload.length)
    ∧ ((∀ b ∈ payload.take (payload.length - 1), b % 256 ≠ 0) →
        EncodeUTF8 ((strncpyResult payload).take (payload.length - 1))
          = EncodeUTF8 (payload.take (payload.length - 1)))
    ∧ (BSONSerialize (fun _ => 0) (.Object "Object" [("a", .String "x\x00y")]) false false
          = .ok [16, 0, 0, 0, 2, 97, 0, 4, 0, 0, 0, 120, 0, 121, 0, 0]
        ∧ (∀ fuel : Nat,
            BSONDeserialize (fuel + 4) [16, 0, 0, 0, 2, 97, 0, 4, 0, 0, 0, 120, 0, 121, 0, 0]
              = .ok (.Object "Object" [("a", .String "x\x00\x00")]))
        ∧ EncodeUTF8 [120, 0, 121] = "x\x00y" ∧ "x\x00\x00" ≠ "x\x00y")
    ∧ (BSONSerialize (fun _ => 0) (.Object "Object" [("a", .Symbol "x\x00y")]) false false
          = .ok [16, 0, 0, 0, 14, 97, 0, 4, 0, 0, 0, 120, 0, 121, 0, 0]
        ∧ ∀ fuel : Nat,
            BSONDeserialize (fuel + 4) [16, 0, 0, 0, 14, 97, 0, 4, 0, 0, 0, 120, 0, 121, 0, 0]
              = .ok (.Object "Object" [("a", .Symbol "x\x00\x00")])) := by
  obtain ⟨h1, h2⟩ := string_decode_payload data index payload tail hdrop hpos hbound
  exact ⟨h1, h2, strncpyResult_take payload _ (by omega),
    ⟨by decide, fun _ => rfl, by decide, by decide⟩, ⟨by decide, fun _ => rfl⟩⟩

/-- C23 on the payload `78 00 79 00` after the length 4: the string branch
returns `"x\0\0"` and the cursor 8. -/
theorem C23_string_is_cut_at_first_nul_witness :
    deserialize_scalar BSON_DATA_STRING [4, 0, 0, 0, 120, 0, 121, 0] 0
      = .ok (.String "x\x00\x00", 8) :=
  (C23_string_is_cut_at_first_nul [4, 0, 0, 0, 120, 0, 121, 0] 0 [120, 0, 121, 0] [] rfl
    (by decide) (by decide)).1

/-- C24 (the decoder consumes the length and the source of a `Code` element,
so the fields after it are decoded as without it and no other field
appears): the code breaks it.  Whenever the branch of tag 0x0D returns, the
cursor it returns is the one after the 4 bytes of the length: the source
bytes are not skipped.  For every function serialized under a name (name and
source without NUL), the element has `4 + L` bytes after its name, with `L`
the declared length; the branch returns the code with an empty scope and the
cursor `4` after the name, the bytes there are the source, and the loop of
`deserialize` goes on reading the first source byte as the tag of the next
element.  The document `{f: function "f\nx", b: 1}`, encoded with functions
serialized, decodes to `{f: Code("f\nx"), x: null, b: 1}`: the line feed of
the source is read as the tag 0x0A of a null named `x`. -/
theorem C24_code_leaves_cursor_before_source (key source : String) (fuel : Nat)
    (data : List Nat) (size index : Nat) (acc : List (String × Value)) (arr : List Value)
    (tail : List Nat) (hkey : hasNoNul key = true) (hsrc : hasNoNul source = true)
    (hdrop : data.drop index = elementBytes (some key) (.Function source) true ++ tail)
    (hlt : index < size)
    (hbound : index + (elementBytes (some key) (.Function source) true).length < 4294967296) :
    (∀ (bytes : List Nat) (cursor : Nat) (v : Value) (i : Nat),
        deserialize_scalar BSON_DATA_CODE bytes cursor = .ok (v, i) →
        i = (cursor + 4) % 4294967296)
    ∧ (elementBytes (some key) (.Function source) true).length
        = Utf8Length key + 2 + 4 + (Utf8Length source + 1)
    ∧ data.drop (index + (Utf8Length key + 2) + 4) = WriteUtf8 source ++ 0 :: tail
    ∧ deserialize_scalar BSON_DATA_CODE data (index + (Utf8Length key + 2))
        = .ok (.Code source (.Object "Object" []), index + (Utf8Length key + 2) + 4)
    ∧ deserialize_loop (fuel + 1) data false size index acc arr
        = deserialize_loop fuel data false size (index + (Utf8Length key + 2) + 4)
            (objectSet acc key (.Code source (.Object "Object" []))) arr
    ∧ BSONSerialize (fun _ => 0)
          (.Object "Object" [("f", .Function "f\nx"), ("b", .Number (doubleOfInt 1))]) false true
        = .ok [23, 0, 0, 0, 13, 102, 0, 4, 0, 0, 0, 102, 10, 120, 0, 16, 98, 0, 1, 0, 0, 0, 0]
    ∧ (∀ n : Nat, BSONDeserialize (n + 7)
          [23, 0, 0, 0, 13, 102, 0, 4, 0, 0, 0, 102, 10, 120, 0, 16, 98, 0, 1, 0, 0, 0, 0]
        = .ok (.Object "Object" [("f", .Code "f\nx" (.Object "Object" [])), ("x", .Null),
            ("b", .Number (doubleOfInt 1))])) := by
  obtain ⟨h1, h2, h3, h4⟩ := loop_step_function key source fuel data false size index acc arr
    tail hkey hsrc hdrop hlt hbound
  refine ⟨code_cursor, h1, h2, h3, ?_, by decide, fun _ => rfl⟩
  simpa using h4

/-- C24 on the bytes of `{f: function "f\nx", b: 1}`: after the element `f` at
offset 4 the loop goes on at offset 11, the first byte of the source. -/
theorem C24_code_leaves_cursor_before_source_witness :
    deserialize_loop (6 + 1)
        [23, 0, 0, 0, 13, 102, 0, 4, 0, 0, 0, 102, 10, 120, 0, 16, 98, 0, 1, 0, 0, 0, 0]
        false 23 4 [] []
      = deserialize_loop 6
          [23, 0, 0, 0, 13, 102, 0, 4, 0, 0, 0, 102, 10, 120, 0, 16, 98, 0, 1, 0, 0, 0, 0]
          false 23 (4 + (Utf8Length "f" + 2) + 4)
          (objectSet [] "f" (.Code "f\nx" (.Object "Object" []))) [] :=
  (C24_code_leaves_cursor_before_source "f" "f\nx" 6
    [23, 0, 0, 0, 13, 102, 0, 4, 0, 0, 0, 102, 10, 120, 0, 16, 98, 0, 1, 0, 0, 0, 0] 23 4 [] []
    [16, 98, 0, 1, 0, 0, 0, 0] (by decide) (by decide) (by decide) (by decide)
    (by decide)).2.2.2.2.1

/-- C25 as stated fails: the scope of the code in `{a: Code("f", {b: undefined})}`
is encoded as `{b: null}`, so the 26 bytes of the document decode to
`{a: Code("f", {b: null})}`, whose scope is not the original scope. -/
theorem C25_scope_is_not_always_the_original :
    BSONSerialize (fun _ => 0)
        (.Object "Object" [("a", .Code "f" (.Object "Object" [("b", .Undefined)]))]) false false
      = .ok [26, 0, 0, 0, 15, 97, 0, 18, 0, 0, 0, 2, 0, 0, 0, 102, 0, 8, 0, 0, 0, 10, 98, 0, 0, 0]
    ∧ (∀ fuel : Nat, BSONDeserialize (fuel + 7)
          [26, 0, 0, 0, 15, 97, 0, 18, 0, 0, 0, 2, 0, 0, 0, 102, 0, 8, 0, 0, 0, 10, 98, 0, 0, 0]
        = .ok (.Object "Object" [("a", .Code "f" (.Object "Object" [("b", .Null)]))]))
    ∧ Value.Object "Object" [("b", .Null)] ≠ Value.Object "Object" [("b", .Undefined)] :=
  ⟨by decide, fun _ => rfl, by simp⟩

/-- C25, amended: for every code with scope the encoder writes whose scope is
a document of an estimated size below `2 ^ 32`, the size the decoder computes
for the scope region, `total - sourceLen - 8` on the two lengths the element
declares, is the estimated size of the scope, which is the length header of
the encoded scope.  When the scope is a plain object of the class that is
decoded to itself, the scope region holds exactly the encoded scope, the loop
of `deserialize` decodes the element to the code, cut at its first NUL, with
the original scope, and goes on at the byte after the element. -/
theorem C25_scope_size_and_cursor (code key : String) (scope : Value)
    (serializeFunctions : Bool) :
    (scopesAreDocuments (.Code code scope) serializeFunctions = true →
      elementBytes (some key) (.Code code scope) serializeFunctions
        = headerBytes BSON_DATA_CODE_W_SCOPE (some key)
          ++ (leBytes 4 ((4 + 4 + strlen (WriteUtf8 code) + 1
                + objectSize scope serializeFunctions) % 4294967296)
          ++ (leBytes 4 ((strlen (WriteUtf8 code) + 1) % 4294967296)
          ++ (cString (WriteUtf8 code) ++ (0 :: (elementBytes none scope serializeFunctions
          ++ List.replicate (objectSize scope serializeFunctions
                - (elementBytes none scope serializeFunctions).length) 0)))))
      ∧ uint32Sub (uint32Sub ((4 + 4 + strlen (WriteUtf8 code) + 1
              + objectSize scope serializeFunctions) % 4294967296)
            ((strlen (WriteUtf8 code) + 1) % 4294967296)) 8
          = objectSize scope serializeFunctions
      ∧ ∃ rest, elementBytes none scope serializeFunctions
          = leBytes 4 (objectSize scope serializeFunctions) ++ rest
          ∧ leValue (leBytes 4 (objectSize scope serializeFunctions))
              = objectSize scope serializeFunctions)
    ∧ (roundTrips scope = true → isPlainObject scope = true → hasNoNul key = true →
        ∀ (fuel : Nat) (data : List Nat) (size index : Nat) (acc : List (String × Value))
          (arr : List Value) (tail : List Nat),
        data.drop index
          = elementBytes (some key) (.Code code scope) serializeFunctions ++ tail →
        index < size →
        index + (elementBytes (some key) (.Code code scope) serializeFunctions).length
          < 4294967296 →
        (elementBytes none scope serializeFunctions).length ≤ fuel →
        (elementBytes none scope serializeFunctions).length
          = objectSize scope serializeFunctions
        ∧ deserialize fuel (elementBytes none scope serializeFunctions) false = .ok scope
        ∧ deserialize_loop (fuel + 1) data false size index acc arr
          = deserialize_loop fuel data false size
              (index + (elementBytes (some key) (.Code code scope) serializeFunctions).length)
              (objectSet acc key (.Code (EncodeUTF8 (cString (WriteUtf8 code))) scope)) arr)
    ∧ (hasNoNul code = true → EncodeUTF8 (cString (WriteUtf8 code)) = code) := by
  refine ⟨?_, ?_, ?_⟩
  · intro hs
    simp only [scopesAreDocuments, Bool.and_eq_true, decide_eq_true_eq] at hs
    obtain ⟨⟨hdoc, hsize⟩, _⟩ := hs
    refine ⟨by simp only [elementBytes], scope_size _ _ hsize, ?_⟩
    have hv := leValue_leBytes 4 (objectSize scope serializeFunctions) (by norm_num; omega)
    cases scope <;> first
      | (simp [isDocument] at hdoc; done)
      | exact ⟨_, by simp only [elementBytes, Option.isSome_none, Bool.false_eq_true, if_false,
          List.nil_append, Nat.mod_eq_of_lt hsize]; rfl, hv⟩
  · intro hrt hdoc hkey fuel data size index acc arr tail hdrop hlt hbound hfuel
    obtain ⟨h1, h2, h3⟩ := decode_step_code code key scope serializeFunctions fuel data false size
      index acc arr tail hkey hrt hdoc hdrop hlt hbound hfuel
    refine ⟨h1, ?_, by simpa using h3⟩
    have := decode_document scope serializeFunctions fuel [] hrt hdoc (by omega) hfuel
    simpa using this
  · intro h
    rw [cString_of_hasNoNul code h, EncodeUTF8_WriteUtf8]

/-- C25 on `Code("f", {x: 1})` under the name `a`: the element declares the
lengths 22 and 2, the decoder computes 12 for the scope, the length header of
`{x: 1}`, and the loop goes on 25 bytes further with the code and its scope. -/
theorem C25_scope_size_and_cursor_witness :
    uint32Sub (uint32Sub 22 2) 8 = 12
    ∧ deserialize_loop (12 + 1)
        [30, 0, 0, 0, 15, 97, 0, 22, 0, 0, 0, 2, 0, 0, 0, 102, 0, 12, 0, 0, 0, 16, 120, 0, 1, 0,
          0, 0, 0, 0] false 30 4 [] []
      = deserialize_loop 12
          [30, 0, 0, 0, 15, 97, 0, 22, 0, 0, 0, 2, 0, 0, 0, 102, 0, 12, 0, 0, 0, 16, 120, 0, 1, 0,
            0, 0, 0, 0] false 30 29
          [("a", .Code "f" (.Object "Object" [("x", .Number (doubleOfInt 1))]))] [] :=
  ⟨((C25_scope_size_and_cursor "f" "a" (.Object "Object" [("x", .Number (doubleOfInt 1))])
      false).1 (by decide)).2.1,
    (((C25_scope_size_and_cursor "f" "a" (.Object "Object" [("x", .Number (doubleOfInt 1))])
      false).2.1 (by decide) (by decide) (by decide) 12
      [30, 0, 0, 0, 15, 97, 0, 22, 0, 0, 0, 2, 0, 0, 0, 102, 0, 12, 0, 0, 0, 16, 120, 0, 1, 0,
        0, 0, 0, 0] 30 4 [] [] [0] (by decide) (by decide) (by decide) (by decide)).2.2)⟩

/-- C26 (a binary).  For every subtype `s` in 0..255 and every sequence of
bytes `b`, the empty one and those holding zero bytes included, the estimator
returns `|b| + 5`; under any name the encoder stores the tag 0x05, the name, a
NUL, the four little-endian bytes of `|b|`, the byte `s` and the bytes of `b`,
and these four bytes read back as `|b|` when it is below `2 ^ 32`; the branch
of the decoder on the bytes after the name returns `Binary{s, b}` and the
cursor `5 + |b|` further; and the document `{key: Binary{s, b}}` is encoded to
bytes that decode to it, with any fuel from their number on. -/
theorem C26_binary_bytes_estimate_and_decode (sub_type : Nat) (bytes : List Nat)
    (hs : sub_type < 256) (hb : ∀ b ∈ bytes, b < 256) (serializeFunctions : Bool) :
    calculate_object_size (.Binary sub_type bytes) serializeFunctions = .ok (bytes.length + 5)
    ∧ (∀ (mem : Memory) (serialized_object index : Nat) (name : Option String),
        serialize mem serialized_object index name (.Binary sub_type bytes) false
            serializeFunctions
          = .ok (storeBytes mem (serialized_object + index)
              ([5] ++ WriteUtf8 (nameString name) ++ [0]
                ++ leBytes 4 (bytes.length % 4294967296) ++ [sub_type] ++ bytes),
              index + (1 + Utf8Length (nameString name) + 1 + 4 + 1 + bytes.length)))
    ∧ (bytes.length < 4294967296 →
        leValue (leBytes 4 (bytes.length % 4294967296)) = bytes.length)
    ∧ (∀ (data : List Nat) (index : Nat) (tail : List Nat),
        data.drop index = leBytes 4 (bytes.length % 4294967296) ++ [sub_type] ++ bytes ++ tail →
        index + 5 + bytes.length < 4294967296 →
        deserialize_scalar BSON_DATA_BINARY data index
          = .ok (.Binary sub_type bytes, index + 5 + bytes.length))
    ∧ (∀ (key : String) (heap : Memory), hasNoNul key = true → key ≠ "toHexString" →
        Utf8Length key + 2 + (bytes.length + 5) + 5 < 4294967296 →
        ∃ out, BSONSerialize heap (.Object "Object" [(key, .Binary sub_type bytes)]) false
            serializeFunctions = .ok out
          ∧ out.length = Utf8Length key + 2 + (bytes.length + 5) + 5
          ∧ ∀ fuel, out.length ≤ fuel →
              BSONDeserialize fuel out = .ok (.Object "Object" [(key, .Binary sub_type bytes)]))
    := by
  have hrt : roundTrips (.Binary sub_type bytes) = true := by
    simp only [roundTrips, Bool.and_eq_true, decide_eq_true_eq, List.all_eq_true]
    exact ⟨hs, hb⟩
  refine ⟨by simp only [calculate_object_size]; rfl, ?_, ?_, ?_, ?_⟩
  · intro mem so idx name
    rw [serialize_leaf (.Binary sub_type bytes) rfl]
    simp [elementBytes, headerBytes, leBytes_length, Utf8Length, BSON_DATA_BINARY, pure,
      Except.pure, bind, Except.bind]
    omega
  · intro h
    rw [Nat.mod_eq_of_lt h]
    exact leValue_leBytes 4 _ (by norm_num; omega)
  · intro data index tail hdrop hbound
    have := binary_decode sub_type bytes hs hb data index tail
      (by rw [hdrop]; simp) (by simp [leBytes_length]; omega)
    rw [this]
    simp [leBytes_length]
    omega
  · intro key heap hkey hres hsize
    have hL : (elementBytes (some key) (.Binary sub_type bytes) serializeFunctions).length
        = Utf8Length key + 2 + (bytes.length + 5) := by
      simp [elementBytes, headerBytes_length, leBytes_length, nameString]
      omega
    obtain ⟨h1, h2⟩ := single_field_roundtrip key (.Binary sub_type bytes) heap
      serializeFunctions hrt hkey hres (by rw [hL]; exact hsize)
    refine ⟨_, h1, ?_, fun fuel hfuel => h2 fuel ?_⟩
    · simp only [List.length_append, leBytes_length, List.length_singleton, hL]
      omega
    · simp only [List.length_append, leBytes_length, List.length_singleton] at hfuel
      omega

/-- C26 on the subtype 0 with the bytes `01 00 02`, and on the subtype 255 with
no bytes: the estimates are 8 and 5, and the branch of the decoder returns the
binaries. -/
theorem C26_binary_bytes_estimate_and_decode_witness :
    (calculate_object_size (.Binary 0 [1, 0, 2]) false = .ok (3 + 5)
      ∧ deserialize_scalar BSON_DATA_BINARY [3, 0, 0, 0, 0, 1, 0, 2] 0
          = .ok (.Binary 0 [1, 0, 2], 0 + 5 + 3)
      ∧ ∃ out, BSONSerialize (fun _ => 0) (.Object "Object" [("a", .Binary 0 [1, 0, 2])])
            false false = .ok out
          ∧ out.length = Utf8Length "a" + 2 + (3 + 5) + 5
          ∧ ∀ fuel, out.length ≤ fuel →
              BSONDeserialize fuel out = .ok (.Object "Object" [("a", .Binary 0 [1, 0, 2])]))
    ∧ (calculate_object_size (.Binary 255 []) false = .ok (0 + 5)
      ∧ deserialize_scalar BSON_DATA_BINARY [0, 0, 0, 0, 255] 0
          = .ok (.Binary 255 [], 0 + 5 + 0)) :=
  ⟨⟨(C26_binary_bytes_estimate_and_decode 0 [1, 0, 2] (by decide) (by decide) false).1,
    (C26_binary_bytes_estimate_and_decode 0 [1, 0, 2] (by decide) (by decide) false).2.2.2.1
      [3, 0, 0, 0, 0, 1, 0, 2] 0 [] rfl (by decide),
    (C26_binary_bytes_estimate_and_decode 0 [1, 0, 2] (by decide) (by decide) false).2.2.2.2
      "a" (fun _ => 0) (by decide) (by decide) (by decide)⟩,
   ⟨(C26_binary_bytes_estimate_and_decode 255 [] (by decide) (by decide) false).1,
    (C26_binary_bytes_estimate_and_decode 255 [] (by decide) (by decide) false).2.2.2.1
      [0, 0, 0, 0, 255] 0 [] rfl (by decide)⟩⟩

/-- C27 (the string of an ObjectId).  For every twelve payload bytes, the
branch of tag 0x07 returns the ObjectId whose string is `oidToHex` of the
bytes, and the cursor 12 further.  The string has exactly 24 characters, each
one of `0`-`9` and `a`-`f`; its characters `2i` and `2i + 1` are the digits of
the high and of the low four bits of byte `i`, the digit of a value below 16
being the character that `hexDigitValue` reads as that value; and two
payloads of twelve bytes with the same string are equal. -/
theorem C27_object_id_hex_string (payload : List Nat) (hlen : payload.length = 12)
    (hb : ∀ b ∈ payload, b < 256) :
    (∀ (data : List Nat) (index : Nat) (tail : List Nat),
        data.drop index = payload ++ tail → index + 12 < 4294967296 →
        deserialize_scalar BSON_DATA_OID data index
          = .ok (.ObjectID (oidToHex payload), index + 12))
    ∧ (oidToHex payload).length = 24
    ∧ (∀ c ∈ (oidToHex payload).toList,
        (48 ≤ c.toNat ∧ c.toNat ≤ 57) ∨ (97 ≤ c.toNat ∧ c.toNat ≤ 102))
    ∧ (∀ (i b : Nat), i < 12 → payload[i]? = some b →
        (oidToHex payload).toList[2 * i]? = some (hexDigit (b / 16))
        ∧ (oidToHex payload).toList[2 * i + 1]? = some (hexDigit (b % 16)))
    ∧ (∀ n : Nat, n < 16 → hexDigitValue (hexDigit n) = n)
    ∧ (∀ other : List Nat, other.length = 12 → (∀ b ∈ other, b < 256) →
        oidToHex other = oidToHex payload → other = payload) := by
  refine ⟨fun data index tail hdrop hbound =>
      oid_decode_bytes payload hlen hb data index tail hdrop hbound, ?_, ?_, ?_,
    fun n hn => (hexDigitValue_hexDigit n hn).1, ?_⟩
  · show (oidToHex payload).toList.length = 24
    rw [oidToHex_length, hlen]
  · intro c hc
    have := oidToHex_digits payload c hc
    simpa [isLowerHexDigit] using this
  · intro i b _ hi
    have hlt : b < 256 := hb b (List.mem_iff_getElem?.2 ⟨i, hi⟩)
    have := oidToHex_at payload i b hi
    rwa [Nat.mod_eq_of_lt hlt] at this
  · intro other _ hob h
    rw [← hexPairs_oidToHex other hob, ← hexPairs_oidToHex payload hb, h]

/-- C27 on the bytes `00 01 02 03 04 05 06 07 08 09 ab cd`: the string is
`00010203040506070809abcd` and the cursor 12. -/
theorem C27_object_id_hex_string_witness :
    deserialize_scalar BSON_DATA_OID [0, 1, 2, 3, 4, 5, 6, 7, 8, 9, 171, 205] 0
      = .ok (.ObjectID "00010203040506070809abcd", 12) :=
  (C27_object_id_hex_string [0, 1, 2, 3, 4, 5, 6, 7, 8, 9, 171, 205] rfl (by decide)).1
    [0, 1, 2, 3, 4, 5, 6, 7, 8, 9, 171, 205] 0 [] rfl (by decide)

/-- C28 (a `Timestamp` is decoded to the two 32-bit halves of its eight
bytes, so every `Timestamp{l, h}` survives encode and decode): the code
breaks it.  `BSON::decodeTimestamp` hands the constructor `Number::New(value)`,
the double nearest to the 64-bit value, so the eight bytes reach the
`Timestamp` only through that double: the values `2 ^ 53 + 1` and `2 ^ 53`
have the same double, the payloads `01 00 00 00 00 00 20 00` and
`00 00 00 00 00 00 20 00` decode to the same `Timestamp{0, 0x200000}`, and
`{a: Timestamp{1, 0x200000}}` is encoded to 16 bytes that decode to
`{a: Timestamp{0, 0x200000}}`; the payload of increment 1 at second
1300000000 decodes to increment 0.  When the halves `l` and `h` are 32-bit values
and `h * 2 ^ 32 + (l mod 2 ^ 32)` lies within `-2 ^ 53 .. 2 ^ 53`, the branch
returns `Timestamp{l, h}` and the cursor 8 further, and the document
`{key: Timestamp{l, h}}` is encoded to bytes that decode to it. -/
theorem C28_timestamp_goes_through_a_double :
    (∀ (low high : Int),
        -2147483648 ≤ low ∧ low ≤ 2147483647 → -2147483648 ≤ high ∧ high ≤ 2147483647 →
        -9007199254740992 ≤ high * 4294967296 + (toUint32 low : Int)
          ∧ high * 4294967296 + (toUint32 low : Int) ≤ 9007199254740992 →
        (∀ (data : List Nat) (index : Nat) (tail : List Nat),
          data.drop index = leBytes 4 (toUint32 low) ++ leBytes 4 (toUint32 high) ++ tail →
          index + 8 < 4294967296 →
          deserialize_scalar BSON_DATA_TIMESTAMP data index
            = .ok (.Timestamp low high, index + 8))
        ∧ (∀ (key : String) (heap : Memory) (serializeFunctions : Bool),
            hasNoNul key = true → key ≠ "toHexString" →
            Utf8Length key + 2 + 8 + 5 < 4294967296 →
            ∃ out, BSONSerialize heap (.Object "Object" [(key, .Timestamp low high)]) false
                serializeFunctions = .ok out
              ∧ ∀ fuel, out.length ≤ fuel →
                  BSONDeserialize fuel out = .ok (.Object "Object" [(key, .Timestamp low high)])))
    ∧ doubleOfInt 9007199254740993 = doubleOfInt 9007199254740992
    ∧ decodeTimestamp 9007199254740993 = decodeTimestamp 9007199254740992
    ∧ deserialize_scalar BSON_DATA_TIMESTAMP [1, 0, 0, 0, 0, 0, 32, 0] 0
        = .ok (.Timestamp 0 2097152, 8)
    ∧ deserialize_scalar BSON_DATA_TIMESTAMP [0, 0, 0, 0, 0, 0, 32, 0] 0
        = .ok (.Timestamp 0 2097152, 8)
    ∧ deserialize_scalar BSON_DATA_TIMESTAMP [1, 0, 0, 0, 0, 109, 124, 77] 0
        = .ok (.Timestamp 0 1300000000, 8)
    ∧ BSONSerialize (fun _ => 0) (.Object "Object" [("a", .Timestamp 1 2097152)]) false false
        = .ok [16, 0, 0, 0, 17, 97, 0, 1, 0, 0, 0, 0, 0, 32, 0, 0]
    ∧ (∀ fuel : Nat,
        BSONDeserialize (fuel + 4) [16, 0, 0, 0, 17, 97, 0, 1, 0, 0, 0, 0, 0, 32, 0, 0]
          = .ok (.Object "Object" [("a", .Timestamp 0 2097152)]))
    ∧ Value.Timestamp 0 2097152 ≠ Value.Timestamp 1 2097152 := by
  refine ⟨?_, by decide, rfl, rfl, rfl, rfl, by decide, fun _ => rfl, by simp⟩
  intro low high hlow hhigh hin
  constructor
  · intro data index tail hdrop hbound
    have := timestamp_decode low high hlow hhigh hin data index tail hdrop
      (by simp [leBytes_length]; omega)
    rw [this]
    simp [leBytes_length]
  · intro key heap sf hkey hres hsize
    have hrt : roundTrips (.Timestamp low high) = true := by
      simp only [roundTrips, timestampRoundTrips, Bool.and_eq_true, decide_eq_true_eq]
      exact ⟨⟨hlow, hhigh⟩, hin⟩
    have hL : (elementBytes (some key) (.Timestamp low high) sf).length
        = Utf8Length key + 2 + 8 := by
      simp [elementBytes, headerBytes_length, leBytes_length, nameString]
    obtain ⟨h1, h2⟩ := single_field_roundtrip key (.Timestamp low high) heap sf hrt hkey hres
      (by rw [hL]; exact hsize)
    refine ⟨_, h1, fun fuel hfuel => h2 fuel ?_⟩
    simp only [List.length_append, leBytes_length, List.length_singleton] at hfuel
    omega

/-- C28 on the halves 5 and 0: the branch returns `Timestamp{5, 0}` and the
cursor 8. -/
theorem C28_timestamp_goes_through_a_double_witness :
    deserialize_scalar BSON_DATA_TIMESTAMP [5, 0, 0, 0, 0, 0, 0, 0] 0
      = .ok (.Timestamp 5 0, 0 + 8) :=
  (C28_timestamp_goes_through_a_double.1 5 0 (by decide) (by decide) (by decide)).1
    [5, 0, 0, 0, 0, 0, 0, 0] 0 [] rfl (by decide)

/-- C29 (a 32-bit integer).  For every four payload bytes `b0 .. b3`, the
branch of tag 0x10 returns the number of the signed two's-complement
little-endian value `b0 + 2^8 b1 + 2^16 b2 + 2^24 b3`, minus `2^32` when
`b3 >= 128`, a double that holds this value exactly, and the cursor 4
further.  For every integer `n` with `-2^31 <= n <= 2^31 - 1`, the estimator
returns 4 for the number `n`, the encoder stores the tag 0x10, the name, a NUL
and the four little-endian bytes of `n`, the branch of the decoder on these
bytes returns the number `n`, and the document `{key: n}` is encoded to bytes
that decode to it. -/
theorem C29_int32_is_signed_little_endian :
    (∀ (b0 b1 b2 b3 : Nat), b0 < 256 → b1 < 256 → b2 < 256 → b3 < 256 →
      ∀ (data : List Nat) (index : Nat) (tail : List Nat),
        data.drop index = [b0, b1, b2, b3] ++ tail → index + 4 < 4294967296 →
        deserialize_scalar BSON_DATA_INT data index
          = .ok (.Number (doubleOfInt ((b0 : Int) + 256 * b1 + 65536 * b2 + 16777216 * b3
              - (if 128 ≤ b3 then 4294967296 else 0))), index + 4)
        ∧ doubleExponent (doubleOfInt ((b0 : Int) + 256 * b1 + 65536 * b2 + 16777216 * b3
              - (if 128 ≤ b3 then 4294967296 else 0))) ≠ 2047
        ∧ doubleTruncate (doubleOfInt ((b0 : Int) + 256 * b1 + 65536 * b2 + 16777216 * b3
              - (if 128 ≤ b3 then 4294967296 else 0)))
            = (b0 : Int) + 256 * b1 + 65536 * b2 + 16777216 * b3
              - (if 128 ≤ b3 then 4294967296 else 0)
        ∧ doubleHasFraction (doubleOfInt ((b0 : Int) + 256 * b1 + 65536 * b2 + 16777216 * b3
              - (if 128 ≤ b3 then 4294967296 else 0))) = false)
    ∧ (∀ n : Int, -2147483648 ≤ n → n ≤ 2147483647 →
        (∀ serializeFunctions : Bool,
          calculate_object_size (.Number (doubleOfInt n)) serializeFunctions = .ok 4)
        ∧ (∀ (mem : Memory) (serialized_object index : Nat) (name : Option String)
            (serializeFunctions : Bool),
            serialize mem serialized_object index name (.Number (doubleOfInt n)) false
                serializeFunctions
              = .ok (storeBytes mem (serialized_object + index)
                  ([16] ++ WriteUtf8 (nameString name) ++ [0] ++ leBytes 4 (toUint32 n)),
                  index + (1 + Utf8Length (nameString name) + 1 + 4)))
        ∧ (∀ (data : List Nat) (index : Nat) (tail : List Nat),
            data.drop index = leBytes 4 (toUint32 n) ++ tail → index + 4 < 4294967296 →
            deserialize_scalar BSON_DATA_INT data index = .ok (.Number (doubleOfInt n), index + 4))
        ∧ (∀ (key : String) (heap : Memory) (serializeFunctions : Bool),
            hasNoNul key = true → key ≠ "toHexString" →
            Utf8Length key + 2 + 4 + 5 < 4294967296 →
            ∃ out, BSONSerialize heap (.Object "Object" [(key, .Number (doubleOfInt n))]) false
                serializeFunctions = .ok out
              ∧ out.length = Utf8Length key + 2 + 4 + 5
              ∧ ∀ fuel, out.length ≤ fuel →
                  BSONDeserialize fuel out
                    = .ok (.Object "Object" [(key, .Number (doubleOfInt n))]))) := by
  constructor
  · intro b0 b1 b2 b3 h0 h1 h2 h3 data index tail hdrop hbound
    have hdec := int32_decode_bytes [b0, b1, b2, b3] rfl
      (by
        intro b hb
        simp only [List.mem_cons, List.mem_singleton, List.not_mem_nil, or_false] at hb
        rcases hb with h | h | h | h <;> omega)
      data index tail hdrop hbound
    rw [int32_value b0 b1 b2 b3 h0 h1 h2 h3] at hdec
    have hex := doubleOfInt_exact ((b0 : Int) + 256 * b1 + 65536 * b2 + 16777216 * b3
        - (if 128 ≤ b3 then 4294967296 else 0))
      (by split <;> omega) (by split <;> omega)
    exact ⟨hdec, hex.1, hex.2.1, hex.2.2⟩
  · intro n h1 h2
    refine ⟨fun sf => (int32_number n h1 h2 none sf).1, ?_, ?_, ?_⟩
    · intro mem so idx name sf
      rw [serialize_Number, (int32_number n h1 h2 name sf).2]
      simp [headerBytes, leBytes_length, Utf8Length]
      omega
    · intro data index tail hdrop hbound
      have hdec := int32_decode_bytes (leBytes 4 (toUint32 n)) (leBytes_length _ _)
        (leBytes_lt _ _) data index tail hdrop hbound
      rw [leValue_leBytes 4 _ (by have := toUint32_lt n; norm_num; omega),
        toInt32_toUint32 n h1 h2] at hdec
      exact hdec
    · intro key heap sf hkey hres hsize
      have hrt : roundTrips (.Number (doubleOfInt n)) = true := by
        have := doubleOfInt_bounds n (by omega) (by omega)
        simp only [roundTrips, numberRoundTrips, Bool.and_eq_true, decide_eq_true_eq, bne_iff_ne]
        exact this
      have hL : (elementBytes (some key) (.Number (doubleOfInt n)) sf).length
          = Utf8Length key + 2 + 4 := by
        simp only [elementBytes, (int32_number n h1 h2 (some key) sf).2, List.length_append,
          headerBytes_length, leBytes_length, nameString]
      obtain ⟨e1, e2⟩ := single_field_roundtrip key (.Number (doubleOfInt n)) heap sf hrt hkey
        hres (by rw [hL]; exact hsize)
      refine ⟨_, e1, ?_, fun fuel hfuel => e2 fuel ?_⟩
      · simp only [List.length_append, leBytes_length, List.length_singleton, hL]
        omega
      · simp only [List.length_append, leBytes_length, List.length_singleton] at hfuel
        omega

/-- C29 on the bytes `fe ff ff ff`, decoded to -2, and on the integer
`-2147483648`, whose bytes `00 00 00 80` decode to it. -/
theorem C29_int32_is_signed_little_endian_witness :
    deserialize_scalar BSON_DATA_INT [254, 255, 255, 255] 0
        = .ok (.Number (doubleOfInt (-2)), 0 + 4)
    ∧ deserialize_scalar BSON_DATA_INT [0, 0, 0, 128] 0
        = .ok (.Number (doubleOfInt (-2147483648)), 0 + 4) :=
  ⟨(C29_int32_is_signed_little_endian.1 254 255 255 255 (by decide) (by decide) (by decide)
      (by decide) [254, 255, 255, 255] 0 [] rfl (by decide)).1,
    (C29_int32_is_signed_little_endian.2 (-2147483648) (by decide) (by decide)).2.2.1
      [0, 0, 0, 128] 0 [] rfl (by decide)⟩

/-- C30, as stated, fails.  The array `a` of a document whose only element,
the integer 7, is named `2` (a gap) is decoded to `[undefined, undefined, 7]`;
named `x` (no number), to `[7]`; the elements 7 and 8 both named `0` (a
repeat) are decoded to `[8]`; and 7 named `1` followed by 8 named `0` (out of
order) are decoded to `[8, 7]`.  In no case does the decoder fail. -/
theorem C30_misnamed_array_elements_are_decoded :
    (∀ fuel : Nat, BSONDeserialize (fuel + 7)
          [19, 0, 0, 0, 4, 97, 0, 11, 0, 0, 0, 16, 50, 0, 7, 0, 0, 0, 0]
        = .ok (.Object "Object"
            [("a", .Array [.Undefined, .Undefined, .Number (doubleOfInt 7)])]))
    ∧ (∀ fuel : Nat, BSONDeserialize (fuel + 7)
          [19, 0, 0, 0, 4, 97, 0, 11, 0, 0, 0, 16, 120, 0, 7, 0, 0, 0, 0]
        = .ok (.Object "Object" [("a", .Array [.Number (doubleOfInt 7)])]))
    ∧ (∀ fuel : Nat, BSONDeserialize (fuel + 7)
          [26, 0, 0, 0, 4, 97, 0, 19, 0, 0, 0, 16, 48, 0, 7, 0, 0, 0, 16, 48, 0, 8, 0, 0, 0, 0, 0]
        = .ok (.Object "Object" [("a", .Array [.Number (doubleOfInt 8)])]))
    ∧ (∀ fuel : Nat, BSONDeserialize (fuel + 7)
          [26, 0, 0, 0, 4, 97, 0, 19, 0, 0, 0, 16, 49, 0, 7, 0, 0, 0, 16, 48, 0, 8, 0, 0, 0, 0, 0]
        = .ok (.Object "Object"
            [("a", .Array [.Number (doubleOfInt 8), .Number (doubleOfInt 7)])])) :=
  ⟨fun _ => rfl, fun _ => rfl, fun _ => rfl, fun _ => rfl⟩

/-- C30, amended (in array mode the decoder places each element at the
position its name parses to, and checks no running position).  In array mode
the name is handed to `atoi` and the element is set at the result, whatever
the number of elements read so far.  For every element without nested values
that the encoder writes under a name without NUL whose `atoi` is `p`, with
`0 <= p < 2^31`, the loop of `deserialize` goes on with the element set at
position `p` of the array, for every array accumulated before; it does not
fail.  So the array `a` of a document whose only element, the integer 7, is
named `2` decodes to `[undefined, undefined, 7]`; named `x`, to `[7]`; the
elements 7 and 8 both named `0` decode to `[8]`; and 7 named `1` followed by
8 named `0` decode to `[8, 7]`. -/
theorem C30_array_names_are_not_checked :
    (∀ (v : Value) (serializeFunctions : Bool) (key : String) (fuel : Nat) (data : List Nat)
        (size index : Nat) (acc : List (String × Value)) (arr : List Value) (tail : List Nat),
        isLeaf v = true → roundTrips v = true → hasNoNul key = true →
        0 ≤ atoi (WriteUtf8 key) → atoi (WriteUtf8 key) < 2147483648 →
        data.drop index = elementBytes (some key) v serializeFunctions ++ tail →
        index < size →
        index + (elementBytes (some key) v serializeFunctions).length < 4294967296 →
        deserialize_loop (fuel + 1) data true size index acc arr
          = deserialize_loop fuel data true size
              (index + (elementBytes (some key) v serializeFunctions).length) acc
              (arraySet arr (atoi (WriteUtf8 key)).toNat v))
    ∧ (∀ fuel : Nat, BSONDeserialize (fuel + 7)
          [19, 0, 0, 0, 4, 97, 0, 11, 0, 0, 0, 16, 50, 0, 7, 0, 0, 0, 0]
        = .ok (.Object "Object"
            [("a", .Array [.Undefined, .Undefined, .Number (doubleOfInt 7)])]))
    ∧ (∀ fuel : Nat, BSONDeserialize (fuel + 7)
          [19, 0, 0, 0, 4, 97, 0, 11, 0, 0, 0, 16, 120, 0, 7, 0, 0, 0, 0]
        = .ok (.Object "Object" [("a", .Array [.Number (doubleOfInt 7)])]))
    ∧ (∀ fuel : Nat, BSONDeserialize (fuel + 7)
          [26, 0, 0, 0, 4, 97, 0, 19, 0, 0, 0, 16, 48, 0, 7, 0, 0, 0, 16, 48, 0, 8, 0, 0, 0, 0, 0]
        = .ok (.Object "Object" [("a", .Array [.Number (doubleOfInt 8)])]))
    ∧ (∀ fuel : Nat, BSONDeserialize (fuel + 7)
          [26, 0, 0, 0, 4, 97, 0, 19, 0, 0, 0, 16, 49, 0, 7, 0, 0, 0, 16, 48, 0, 8, 0, 0, 0, 0, 0]
        = .ok (.Object "Object"
            [("a", .Array [.Number (doubleOfInt 8), .Number (doubleOfInt 7)])])) := by
  refine ⟨?_, fun _ => rfl, fun _ => rfl, fun _ => rfl, fun _ => rfl⟩
  intro v sf key fuel data size index acc arr tail hleaf hrt hkey h0 h1 hdrop hlt hbound
  have hstep := decode_step_leaf v hleaf sf key fuel data true size index acc arr tail hrt hkey
    hdrop hlt hbound
  have hp : toUint32 (atoi (WriteUtf8 key)) = (atoi (WriteUtf8 key)).toNat := by
    unfold toUint32
    rw [Int.emod_eq_of_lt h0 (by omega)]
  rw [hstep, hp]
  rfl

/-- C30, amended, on the element 7 named `2` after no element: the loop goes
on with the array `[undefined, undefined, 7]`. -/
theorem C30_array_names_are_not_checked_witness :
    deserialize_loop (3 + 1) [12, 0, 0, 0, 16, 50, 0, 7, 0, 0, 0, 0] true 12 4 [] []
      = deserialize_loop 3 [12, 0, 0, 0, 16, 50, 0, 7, 0, 0, 0, 0] true 12
          (4 + (elementBytes (some "2") (.Number (doubleOfInt 7)) false).length) []
          (arraySet [] (atoi (WriteUtf8 "2")).toNat (.Number (doubleOfInt 7))) :=
  C30_array_names_are_not_checked.1 (.Number (doubleOfInt 7)) false "2" 3
    [12, 0, 0, 0, 16, 50, 0, 7, 0, 0, 0, 0] 12 4 [] [] [0] (by decide) (by decide) (by decide)
    (by decide) (by decide) (by decide) (by decide) (by decide)

/-- C31 (a buffer of exactly the estimated size is never overrun): the code
breaks it for a document whose sizes add up to `2 ^ 32` or more.
`calculate_object_size` returns a `uint32_t`: what it returns is the sum of
the sizes modulo `2 ^ 32` (`calculate_object_size_uint32`).  For the document
whose thirty-two fields `a` to `z` and `A` to `F` hold one string of `2 ^ 27 -
8` bytes the sum is `2 ^ 32 + 5` and the estimate returned is 5; the first
call of the property loop, for the field `a` at offset 4, returns the offset
`2 ^ 27 + 4` and has stored the tag at offset 4, the name at offset 5, and the
length and the bytes of the string up to offset `2 ^ 27 + 3`, whatever the
memory held: all but the first of these stores are at offsets from the
estimate on.

Where the sum stays below `2 ^ 32` (the scope of every `Code` inside being a
document, as in the values of the specification) the estimate returned is the
sum `n`, and a run of `serialize` from offset 0 of a block, with either
setting of the key validation and of `serializeFunctions` and whatever the
blocks of the key validator held, changes no address before the block or from
offset `n` on, whether it returns or throws; when it returns, the block holds
the `n` bytes of `documentEncoding` and the offset returned is at most `n`.
`serialize_stores` is the run of `serialize` with the memory at a throw
kept. -/
theorem C31_estimate_wraps_and_block_is_overrun :
    (∀ (s : String) (serializeFunctions : Bool), Utf8Length s = 134217720 →
        calculate_object_size (thirtyTwoStrings s) serializeFunctions = .ok 4294967301
        ∧ calculate_object_size_uint32 (thirtyTwoStrings s) serializeFunctions = .ok 5
        ∧ ∀ (blocks : Nat → String → Memory) (mem : Memory) (serialized_object : Nat)
            (check_key : Bool),
            ∃ r, serialize_stores blocks mem serialized_object 4 (some "a") (.String s) check_key
                serializeFunctions = .ok r
              ∧ r.2 = 134217732
              ∧ r.1 = storeBytes mem (serialized_object + 4)
                  ([2, 97, 0] ++ (leBytes 4 134217721 ++ (WriteUtf8 s ++ [0])))
              ∧ r.1 (serialized_object + 5) = 97
              ∧ ∀ i, i < 134217720 →
                  r.1 (serialized_object + 11 + i) = (WriteUtf8 s).getD i 0 % 256)
    ∧ (∀ (value : Value) (serializeFunctions : Bool),
        calculate_object_size_uint32 value serializeFunctions
          = (calculate_object_size value serializeFunctions).map (fun n => n % 4294967296))
    ∧ (∀ (value : Value) (serializeFunctions : Bool) (blocks : Nat → String → Memory)
        (mem : Memory) (serialized_object : Nat) (check_key : Bool) (n : Nat),
        isDocument value = true → scopesAreDocuments value serializeFunctions = true →
        calculate_object_size value serializeFunctions = .ok n → n < 4294967296 →
        calculate_object_size_uint32 value serializeFunctions = .ok n
        ∧ (∀ r, serialize_stores blocks mem serialized_object 0 none value check_key
              serializeFunctions = .ok r →
            r.1 = storeBytes mem serialized_object (documentEncoding value serializeFunctions)
            ∧ (documentEncoding value serializeFunctions).length = n
            ∧ (∀ a, a < serialized_object ∨ serialized_object + n ≤ a → r.1 a = mem a)
            ∧ r.2 ≤ n)
        ∧ (∀ e m, serialize_stores blocks mem serialized_object 0 none value check_key
              serializeFunctions = .error (e, m) →
            ∀ a, a < serialized_object ∨ serialized_object + n ≤ a → m a = mem a)) := by
  refine ⟨?_, calculate_object_size_uint32_eq, ?_⟩
  · intro s sf hs
    have hsize := thirtyTwoStrings_size s sf
    rw [hs] at hsize
    refine ⟨hsize, ?_, ?_⟩
    · rw [calculate_object_size_uint32_eq, hsize]
      rfl
    · intro blocks mem so ck
      have hser := serialize_string_a s sf mem so 4 ck
      rw [hs] at hser
      have hst : serialize_stores blocks mem so 4 (some "a") (.String s) ck sf
          = .ok (storeBytes mem (so + 4)
              ([2, 97, 0] ++ (leBytes 4 (134217721 % 4294967296) ++ (WriteUtf8 s ++ [0]))),
            134217732) := by
        apply stores_ok_of_erased
        rw [serialize_stores_erases (.String s) sf blocks mem so 4 (some "a") ck ?_]
        · exact hser
        · intro k hk _ a
          have hk1 : k = "a" := by
            simp only [emittedNames] at hk
            simpa using hk
          rw [hk1]
          exact check_key_block_written _ "a" (by decide)
      have hW : (WriteUtf8 s).length = 134217720 := hs
      refine ⟨_, hst, rfl, rfl, ?_, ?_⟩
      · show storeBytes mem (so + 4) _ (so + 5) = 97
        rw [storeBytes_apply, if_pos (by
          simp only [List.length_append, List.length_cons, List.length_nil, leBytes_length, hW]
          omega)]
        have : so + 5 - (so + 4) = 1 := by omega
        rw [this]
        rfl
      · intro i hi
        show storeBytes mem (so + 4) _ (so + 11 + i) = _
        rw [storeBytes_apply, if_pos (by
          simp only [List.length_append, List.length_cons, List.length_nil, leBytes_length, hW]
          omega)]
        have : so + 11 + i - (so + 4) = 7 + i := by omega
        rw [this]
        rw [List.getD_append_right _ _ _ _ (by simp only [List.length_cons, List.length_nil]; omega),
          List.getD_append_right _ _ _ _ (by
            simp only [List.length_cons, List.length_nil, leBytes_length]; omega)]
        rw [List.getD_append _ _ _ _ (by
          simp only [List.length_cons, List.length_nil, leBytes_length, hW]; omega)]
        congr 2
        simp only [List.length_cons, List.length_nil, leBytes_length]
        omega
  · intro value sf blocks mem so ck n hdoc hscopes hn hlt
    have hu : calculate_object_size_uint32 value sf = .ok n := by
      rw [calculate_object_size_uint32_eq, hn]
      simp only [Except.map, Nat.mod_eq_of_lt hlt]
    have htag : tagAndNameLength none value = 0 := by simp [tagAndNameLength, hdoc]
    refine ⟨hu, ?_, ?_⟩
    · intro r hr
      have hser : serialize mem so 0 none value false sf = .ok r :=
        serialize_stores_returns value sf blocks mem so 0 none ck r hr
      have hos := objectSize_eq value sf n hn
      obtain ⟨hle, hlen, hb⟩ := root_bytes value hdoc sf mem so false r hscopes
        (by rw [hos]; exact hlt) hser
      rw [hos] at hle hlen
      refine ⟨by rw [hb], hlen, ?_, by rw [hb]; exact hle⟩
      intro a ha
      rw [hb]
      simp only []
      rw [storeBytes_apply, if_neg (by rw [hlen]; omega)]
    · intro e m h a ha
      have := serialize_stores_within value sf blocks mem so 0 none ck n e m hscopes hn h
      rw [htag] at this
      exact this a (by omega)

/-- C31 on a string of `2 ^ 27 - 8` letters `x`, for which the estimate
returned is 5; on the document `{a: [function]}` with functions not
serialized, whose estimate 16 exceeds the 13 bytes stored: the byte at offset
16 is as it was; and on the document `{a: 1, $b: 2}` with key validation on,
whose estimate is 20: the run throws at the name `$b` after the stores for
`a`, and the byte at offset 20 is as it was.  The blocks of the validator
hold the byte 0x2E everywhere. -/
theorem C31_estimate_wraps_and_block_is_overrun_witness :
    calculate_object_size_uint32
        (thirtyTwoStrings (String.mk (List.replicate 134217720 'x'))) false = .ok 5
    ∧ (∃ r, serialize_stores (fun _ _ _ => 46) (fun _ => 7) 0 0 none
          (.Object "Object" [("a", .Array [.Function "f"])]) true false = .ok r
        ∧ r.2 = 13 ∧ r.1 15 = 0 ∧ r.1 16 = 7)
    ∧ (∃ e m, serialize_stores (fun _ _ _ => 46) (fun _ => 7) 0 0 none
          (.Object "Object" [("a", .Number (doubleOfInt 1)), ("$b", .Number (doubleOfInt 2))])
          true false = .error (e, m)
        ∧ e = .keyStartsWithDollar "$b" ∧ m 4 = 16 ∧ m 11 = 7 ∧ m 20 = 7) :=
  ⟨(C31_estimate_wraps_and_block_is_overrun.1 (String.mk (List.replicate 134217720 'x')) false
      (Utf8Length_replicate 134217720)).2.1,
    ⟨_, rfl, rfl, rfl,
      ((C31_estimate_wraps_and_block_is_overrun.2.2
        (.Object "Object" [("a", .Array [.Function "f"])]) false (fun _ _ _ => 46) (fun _ => 7) 0
        true 16 (by decide) (by decide) (by decide) (by decide)).2.1 _ rfl).2.2.1 16
        (Or.inr (by decide))⟩,
    ⟨_, _, rfl, rfl, rfl, rfl,
      (C31_estimate_wraps_and_block_is_overrun.2.2
        (.Object "Object" [("a", .Number (doubleOfInt 1)), ("$b", .Number (doubleOfInt 2))])
        false (fun _ _ _ => 46) (fun _ => 7) 0 true 20 (by decide) (by decide) (by decide)
        (by decide)).2.2
        _ _ rfl 20 (Or.inr (by decide))⟩⟩

/-- C32 (the third test of the number classifier decides nothing).  With `^`
the bitwise exclusive or, `2^53` is 55 and `-2^53` is -53; every integer that
passes the third test `l <= 55 && l >= -53` lies between `BSON_INT32_MIN` and
`BSON_INT32_MAX`, so it passes the test before it.  For every number, under
any name, `serialize` stores the bytes of `numberBytes`, which has the three
branches fraction, 32-bit range, and otherwise.  Hence every finite number
without fractional part whose value is outside `-2147483648 .. 2147483647`
is stored as the tag 0x01, the name, a NUL and the eight bytes of the double,
and its estimate is 8. -/
theorem C32_xor_test_is_unreachable :
    (Int.xor 2 53 = 55 ∧ Int.xor (-2) 53 = -53)
    ∧ (∀ l : Int, l ≤ Int.xor 2 53 ∧ l ≥ Int.xor (-2) 53 →
        l ≤ BSON_INT32_MAX ∧ l ≥ BSON_INT32_MIN)
    ∧ (∀ (mem : Memory) (serialized_object index : Nat) (name : Option String) (number : Nat)
        (serializeFunctions : Bool),
        serialize mem serialized_object index name (.Number number) false serializeFunctions
          = .ok (storeBytes mem (serialized_object + index) (numberBytes name number),
              index + (numberBytes name number).length))
    ∧ (∀ (number : Nat), doubleExponent number ≠ 2047 → doubleHasFraction number = false →
        ¬ (-2147483648 ≤ doubleTruncate number ∧ doubleTruncate number ≤ 2147483647) →
        ∀ (mem : Memory) (serialized_object index : Nat) (name : Option String)
          (serializeFunctions : Bool),
          calculate_object_size (.Number number) serializeFunctions = .ok 8
          ∧ serialize mem serialized_object index name (.Number number) false serializeFunctions
              = .ok (storeBytes mem (serialized_object + index)
                  ([1] ++ WriteUtf8 (nameString name) ++ [0]
                    ++ leBytes 8 (number % 18446744073709551616)),
                  index + (1 + Utf8Length (nameString name) + 1 + 8))) := by
  have hx : Int.xor 2 53 = 55 ∧ Int.xor (-2) 53 = -53 := by decide
  refine ⟨hx, ?_, ?_, ?_⟩
  · intro l hl
    rw [hx.1, hx.2] at hl
    have hmin : BSON_INT32_MIN = -2147483648 := by decide
    have hmax : BSON_INT32_MAX = 2147483647 := by decide
    rw [hmin, hmax]
    omega
  · intro mem so idx name number sf
    exact serialize_Number mem so idx name number sf
  · intro number hfinite hintegral hout mem so idx name sf
    obtain ⟨e1, e2⟩ := (number_classification number hfinite hintegral name sf).2 hout
    refine ⟨e1, ?_⟩
    rw [serialize_Number, e2]
    simp [headerBytes, leBytes_length, Utf8Length]
    omega

/-- C32 on the integers 2147483648 and -2147483649: the estimate is 8, and
the first is stored under the name `n` with the tag 0x01 and its eight bytes. -/
theorem C32_xor_test_is_unreachable_witness :
    (calculate_object_size (.Number (doubleOfInt 2147483648)) false = .ok 8
      ∧ serialize (fun _ => 0) 0 0 (some "n") (.Number (doubleOfInt 2147483648)) false false
          = .ok (storeBytes (fun _ => 0) (0 + 0)
              ([1] ++ WriteUtf8 (nameString (some "n")) ++ [0]
                ++ leBytes 8 (doubleOfInt 2147483648 % 18446744073709551616)),
              0 + (1 + Utf8Length (nameString (some "n")) + 1 + 8)))
    ∧ calculate_object_size (.Number (doubleOfInt (-2147483649))) false = .ok 8
    ∧ (55 ≤ BSON_INT32_MAX ∧ (55 : Int) ≥ BSON_INT32_MIN) :=
  ⟨C32_xor_test_is_unreachable.2.2.2 (doubleOfInt 2147483648) (by decide) (by decide)
      (by decide) (fun _ => 0) 0 0 (some "n") false,
    (C32_xor_test_is_unreachable.2.2.2 (doubleOfInt (-2147483649)) (by decide) (by decide)
      (by decide) (fun _ => 0) 0 0 none false).1,
    C32_xor_test_is_unreachable.2.1 55 (by decide)⟩

/-- C33 (a `DBRef` is written as its document).  For every `DBRef` with a
namespace, an id and an optional db, the estimator returns for it what it
returns for the plain document with the fields `$ref`, `$id` and, only when
db is present, `$db`, in that order (failures included).  Under every name and
from every index, `serialize` gives for the `DBRef`, once the key check of its
own name has passed when validation is enabled, what it gives for that
document with key validation disabled: the same memory and the same index.
The bytes of the element are those of the element of the document, and under
a name the first of them is the tag 0x03.  So `{r: DBRef("c", 1, "d")}` and
`{r: {$ref: "c", $id: 1, $db: "d"}}` are encoded to the same 45 bytes. -/
theorem C33_dbref_is_written_as_its_document (ns oid : Value) (db : Option Value)
    (serializeFunctions : Bool) :
    calculate_object_size (.DBRef ns oid db) serializeFunctions
      = calculate_object_size (dbRefDocument ns oid db) serializeFunctions
    ∧ (∀ (mem : Memory) (serialized_object index : Nat) (name : Option String),
        serialize mem serialized_object index name (.DBRef ns oid db) false serializeFunctions
          = serialize mem serialized_object index name (dbRefDocument ns oid db) false
              serializeFunctions)
    ∧ (∀ (mem : Memory) (serialized_object index : Nat) (name : Option String),
        serialize mem serialized_object index name (.DBRef ns oid db) true serializeFunctions
          = (if name.isSome then check_key (nameString name) else pure ()) >>= fun _ =>
              serialize mem serialized_object index name (dbRefDocument ns oid db) false
                serializeFunctions)
    ∧ (∀ name : Option String,
        elementBytes name (.DBRef ns oid db) serializeFunctions
          = elementBytes name (dbRefDocument ns oid db) serializeFunctions)
    ∧ (∀ key : String, ∃ rest,
        elementBytes (some key) (.DBRef ns oid db) serializeFunctions = 0x03 :: rest)
    ∧ dbRefDocument (.String "c") (.Number (doubleOfInt 1)) (some (.String "d"))
        = .Object "Object" [("$ref", .String "c"), ("$id", .Number (doubleOfInt 1)),
            ("$db", .String "d")]
    ∧ dbRefDocument (.String "c") (.Number (doubleOfInt 1)) none
        = .Object "Object" [("$ref", .String "c"), ("$id", .Number (doubleOfInt 1))]
    ∧ BSONSerialize (fun _ => 0)
        (.Object "Object" [("r", .DBRef (.String "c") (.Number (doubleOfInt 1))
          (some (.String "d")))]) true false
        = .ok [45, 0, 0, 0, 3, 114, 0, 37, 0, 0, 0, 2, 36, 114, 101, 102, 0, 2, 0, 0, 0, 99, 0,
            16, 36, 105, 100, 0, 1, 0, 0, 0, 2, 36, 100, 98, 0, 2, 0, 0, 0, 100, 0, 0, 0]
    ∧ BSONSerialize (fun _ => 0)
        (.Object "Object" [("r", .Object "Object" [("$ref", .String "c"),
          ("$id", .Number (doubleOfInt 1)), ("$db", .String "d")])]) false false
        = .ok [45, 0, 0, 0, 3, 114, 0, 37, 0, 0, 0, 2, 36, 114, 101, 102, 0, 2, 0, 0, 0, 99, 0,
            16, 36, 105, 100, 0, 1, 0, 0, 0, 2, 36, 100, 98, 0, 2, 0, 0, 0, 100, 0, 0, 0] := by
  refine ⟨calculate_dbRefDocument ns oid db serializeFunctions, ?_, ?_,
    elementBytes_dbRefDocument ns oid db serializeFunctions,
    fun key => ⟨_, rfl⟩, rfl, rfl, by decide, by decide⟩
  · intro mem so idx name
    have := serialize_dbRefDocument ns oid db serializeFunctions mem so idx name false
    simpa using this
  · intro mem so idx name
    have := serialize_dbRefDocument ns oid db serializeFunctions mem so idx name true
    simpa using this

/-- C35 as stated fails: the document whose only field is the function-valued
`toHexString` is taken for an object of a wrapper class, so its estimate and
its encoding fail, where the document without that field, the empty document,
has the estimate 5 and is encoded to five bytes. -/
theorem C35_function_named_toHexString :
    withoutFunctions [("toHexString", .Function "f")] = []
    ∧ calculate_object_size (.Object "Object" [("toHexString", .Function "f")]) false
        = .error (.wrongClass "Object")
    ∧ calculate_object_size (.Object "Object" []) false = .ok 5
    ∧ BSONSerialize (fun _ => 0) (.Object "Object" [("toHexString", .Function "f")]) false false
        = .error (.wrongClass "Object")
    ∧ BSONSerialize (fun _ => 0) (.Object "Object" []) false false = .ok [5, 0, 0, 0, 0] :=
  ⟨rfl, rfl, rfl, rfl, rfl⟩

/-- C35, amended: when functions are not serialized, for every document none
of whose function-valued fields is named `toHexString`, the estimate is that
of the document without its function-valued fields, and under every name,
from every index and with either setting of the key validation `serialize`
gives for it what it gives for the document without them, failures included,
so the names of the removed fields are not validated; `BSONSerialize` returns
the same bytes for both.  The fields kept are those that are no function, in
their order. -/
theorem C35_function_fields_contribute_nothing (constructorString : String)
    (properties : List (String × Value))
    (h : ∀ p ∈ properties, IsFunction p.2 = true → p.1 ≠ "toHexString") :
    calculate_object_size (.Object constructorString properties) false
      = calculate_object_size (.Object constructorString (withoutFunctions properties)) false
    ∧ (∀ (mem : Memory) (serialized_object index : Nat) (name : Option String)
        (check_key : Bool),
        serialize mem serialized_object index name (.Object constructorString properties)
            check_key false
          = serialize mem serialized_object index name
              (.Object constructorString (withoutFunctions properties)) check_key false)
    ∧ (∀ (heap : Memory) (check_key : Bool),
        BSONSerialize heap (.Object constructorString properties) check_key false
          = BSONSerialize heap (.Object constructorString (withoutFunctions properties))
              check_key false)
    ∧ propertiesBytes properties false = propertiesBytes (withoutFunctions properties) false
    ∧ withoutFunctions properties = properties.filter (fun p => !IsFunction p.2)
    ∧ (∀ p, p ∈ withoutFunctions properties ↔ p ∈ properties ∧ IsFunction p.2 = false) := by
  have hc := calculate_object_size_withoutFunctions constructorString properties h
  have hs := serialize_withoutFunctions constructorString properties h
  refine ⟨hc, hs, ?_, propertiesBytes_withoutFunctions properties, rfl, ?_⟩
  · intro heap ck
    simp only [BSONSerialize, hc, hs]
  · intro p
    simp [withoutFunctions]

/-- C35 on the document `{$f: function, a: 1}` with key validation: it is
encoded as `{a: 1}`, the name `$f` not being validated. -/
theorem C35_function_fields_contribute_nothing_witness :
    BSONSerialize (fun _ => 0)
        (.Object "Object" [("$f", .Function "g"), ("a", .Number (doubleOfInt 1))]) true false
      = BSONSerialize (fun _ => 0)
        (.Object "Object" (withoutFunctions [("$f", .Function "g"),
          ("a", .Number (doubleOfInt 1))])) true false
    ∧ withoutFunctions [("$f", .Function "g"), ("a", .Number (doubleOfInt 1))]
        = [("a", .Number (doubleOfInt 1))]
    ∧ BSONSerialize (fun _ => 0)
        (.Object "Object" [("$f", .Function "g"), ("a", .Number (doubleOfInt 1))]) true false
      = .ok [12, 0, 0, 0, 16, 97, 0, 1, 0, 0, 0, 0] :=
  ⟨(C35_function_fields_contribute_nothing "Object"
      [("$f", .Function "g"), ("a", .Number (doubleOfInt 1))]
      (by
        intro p hp hf
        simp only [List.mem_cons, List.mem_singleton, List.not_mem_nil, or_false] at hp
        rcases hp with rfl | rfl
        · decide
        · cases hf)).2.2.1 (fun _ => 0) true,
    rfl, by decide⟩

/-- C36 (a regular expression).  For every pattern `p` without NUL and every
set of flags among `i` and `m`, the estimator returns
`patternLen + 1 + |F| + 1`; under any name the encoder stores the tag 0x0B,
the name, a NUL, the UTF-8 bytes of `p`, a NUL, the character `i` when `i` is
set, then `m` when `m` is set, and a NUL, which are that many payload bytes;
the branch of the decoder on these payload bytes returns the regular
expression with the pattern `p` and exactly these flags, and the cursor after
them; and the document `{key: /p/F}` is encoded to bytes that decode to it. -/
theorem C36_regex_bytes_estimate_and_decode (pattern : String) (ignoreCase multiline : Bool)
    (hp : hasNoNul pattern = true) (serializeFunctions : Bool) :
    calculate_object_size (.RegExp pattern (regExpFlags ignoreCase multiline))
        serializeFunctions
      = .ok (Utf8Length pattern + 1
          + ((if ignoreCase then 1 else 0) + (if multiline then 1 else 0)) + 1)
    ∧ (WriteUtf8 pattern ++ [0] ++ (if ignoreCase then [105] else [])
          ++ (if multiline then [109] else []) ++ [0]).length
        = Utf8Length pattern + 1
          + ((if ignoreCase then 1 else 0) + (if multiline then 1 else 0)) + 1
    ∧ (∀ (mem : Memory) (serialized_object index : Nat) (name : Option String),
        serialize mem serialized_object index name
            (.RegExp pattern (regExpFlags ignoreCase multiline)) false serializeFunctions
          = .ok (storeBytes mem (serialized_object + index)
              ([11] ++ WriteUtf8 (nameString name) ++ [0]
                ++ (WriteUtf8 pattern ++ [0] ++ (if ignoreCase then [105] else [])
                  ++ (if multiline then [109] else []) ++ [0])),
              index + (1 + Utf8Length (nameString name) + 1
                + (Utf8Length pattern + 1
                  + ((if ignoreCase then 1 else 0) + (if multiline then 1 else 0)) + 1))))
    ∧ (∀ (data : List Nat) (index : Nat) (tail : List Nat),
        data.drop index
          = (WriteUtf8 pattern ++ [0] ++ (if ignoreCase then [105] else [])
              ++ (if multiline then [109] else []) ++ [0]) ++ tail →
        index + (Utf8Length pattern + 1
          + ((if ignoreCase then 1 else 0) + (if multiline then 1 else 0)) + 1) < 4294967296 →
        deserialize_scalar BSON_DATA_REGEXP data index
          = .ok (.RegExp pattern (regExpFlags ignoreCase multiline),
              index + (Utf8Length pattern + 1
                + ((if ignoreCase then 1 else 0) + (if multiline then 1 else 0)) + 1)))
    ∧ (∀ (key : String) (heap : Memory), hasNoNul key = true → key ≠ "toHexString" →
        Utf8Length key + 2 + (Utf8Length pattern + 1
          + ((if ignoreCase then 1 else 0) + (if multiline then 1 else 0)) + 1) + 5
            < 4294967296 →
        ∃ out, BSONSerialize heap
              (.Object "Object" [(key, .RegExp pattern (regExpFlags ignoreCase multiline))])
              false serializeFunctions = .ok out
          ∧ ∀ fuel, out.length ≤ fuel →
              BSONDeserialize fuel out
                = .ok (.Object "Object"
                    [(key, .RegExp pattern (regExpFlags ignoreCase multiline))])) := by
  have hlen : (WriteUtf8 pattern ++ [0] ++ (if ignoreCase then [105] else [])
        ++ (if multiline then [109] else []) ++ [0]).length
      = Utf8Length pattern + 1
        + ((if ignoreCase then 1 else 0) + (if multiline then 1 else 0)) + 1 := by
    cases ignoreCase <;> cases multiline <;> simp [Utf8Length]
  have hrt : roundTrips (.RegExp pattern (regExpFlags ignoreCase multiline)) = true := by
    simp only [roundTrips, hp, Bool.true_and]
    cases ignoreCase <;> cases multiline <;> rfl
  refine ⟨?_, hlen, ?_, ?_, ?_⟩
  · cases ignoreCase <;> cases multiline <;> rfl
  · intro mem so idx name
    rw [serialize_leaf (.RegExp pattern (regExpFlags ignoreCase multiline)) rfl]
    simp only [Bool.and_false, Bool.false_eq_true, if_false, elementBytes, regExpBytes_flags]
    refine congrArg Except.ok (Prod.ext ?_ ?_)
    · simp [headerBytes, BSON_DATA_REGEXP]
    · simp only [List.length_append, headerBytes_length, hlen]
      cases ignoreCase <;> cases multiline <;> simp [Utf8Length] <;> omega
  · intro data index tail hdrop hbound
    have := regexp_decode pattern (regExpFlags ignoreCase multiline) hp
      (regExpFlags_cases ignoreCase multiline) data index tail
      (by rw [regExpBytes_flags]; exact hdrop) (by rw [regExpBytes_flags, hlen]; exact hbound)
    rw [this, regExpBytes_flags, hlen]
  · intro key heap hkey hres hsize
    have hL : (elementBytes (some key) (.RegExp pattern (regExpFlags ignoreCase multiline))
          serializeFunctions).length
        = Utf8Length key + 2 + (Utf8Length pattern + 1
          + ((if ignoreCase then 1 else 0) + (if multiline then 1 else 0)) + 1) := by
      simp only [elementBytes, regExpBytes_flags, List.length_append, headerBytes_length, hlen,
        nameString]
    obtain ⟨h1, h2⟩ := single_field_roundtrip key
      (.RegExp pattern (regExpFlags ignoreCase multiline)) heap serializeFunctions hrt hkey hres
      (by rw [hL]; exact hsize)
    refine ⟨_, h1, fun fuel hfuel => h2 fuel ?_⟩
    simp only [List.length_append, leBytes_length, List.length_singleton] at hfuel
    omega

/-- C36 on the pattern `ab` with the flags `i` and `m`: the estimate is 6 and
the payload `61 62 00 69 6d 00` decodes to the regular expression. -/
theorem C36_regex_bytes_estimate_and_decode_witness :
    calculate_object_size (.RegExp "ab" (regExpFlags true true)) false
      = .ok (Utf8Length "ab" + 1 + ((if true then 1 else 0) + (if true then 1 else 0)) + 1)
    ∧ deserialize_scalar BSON_DATA_REGEXP [97, 98, 0, 105, 109, 0] 0
      = .ok (.RegExp "ab" 6, 6) :=
  ⟨(C36_regex_bytes_estimate_and_decode "ab" true true (by decide) false).1,
    (C36_regex_bytes_estimate_and_decode "ab" true true (by decide) false).2.2.2.1
      [97, 98, 0, 105, 109, 0] 0 [] rfl (by decide)⟩

/-- C37 (the two code tags).  The wire tag of every `Code` is 0x0F, whatever
its scope, the empty document included: `serialize` stores 0x0F as the first
byte of the element.  The estimate of a `Code` is `4 + 4 + sourceLen + 1` plus
the estimate of its scope, `sourceLen` being the length of the source as a C
string (its UTF-8 length when it holds no NUL), which is `sourceLen + 14` for
the empty scope.  The wire tag of a value is 0x0D exactly when the value is a
host function; when functions are not serialized `serialize` stores nothing
for a function and returns the index it was given, and when they are it stores
the tag 0x0D, the name and the source as a string; so a first byte 0x0D of an
element that was written comes from a function with `serializeFunctions` set.
Whenever the branch of tag 0x0D of the decoder returns, it returns a `Code`
whose scope is the empty document, and for the bytes of a function source
without NUL it returns the `Code` of that source. -/
theorem C37_code_wrapper_is_written_with_scope :
    (∀ (code : String) (scope_object : Value),
        wireTag (.Code code scope_object) = 0x0F
        ∧ ∀ (key : String) (serializeFunctions : Bool), ∃ rest,
            elementBytes (some key) (.Code code scope_object) serializeFunctions = 0x0F :: rest)
    ∧ (∀ (code : String) (scope_object : Value) (key : String) (serializeFunctions : Bool)
        (mem : Memory) (serialized_object index : Nat) (check_key : Bool) (r : Memory × Nat),
        scopesAreDocuments (.Code code scope_object) serializeFunctions = true →
        serialize mem serialized_object index (some key) (.Code code scope_object) check_key
          serializeFunctions = .ok r →
        r.1 (serialized_object + index) = 0x0F)
    ∧ (∀ (code : String) (scope_object : Value) (serializeFunctions : Bool) (s : Nat),
        calculate_object_size scope_object serializeFunctions = .ok s →
        calculate_object_size (.Code code scope_object) serializeFunctions
          = .ok (4 + 4 + strlen (WriteUtf8 code) + 1 + s))
    ∧ (∀ (code : String) (serializeFunctions : Bool),
        calculate_object_size (.Object "Object" []) serializeFunctions = .ok 5
        ∧ calculate_object_size (.Code code (.Object "Object" [])) serializeFunctions
            = .ok (strlen (WriteUtf8 code) + 14)
        ∧ (hasNoNul code = true → strlen (WriteUtf8 code) = Utf8Length code))
    ∧ (∀ v : Value, wireTag v = 0x0D ↔ IsFunction v = true)
    ∧ (∀ (source : String) (mem : Memory) (serialized_object index : Nat) (name : Option String),
        serialize mem serialized_object index name (.Function source) false false
          = .ok (mem, index))
    ∧ (∀ (source : String) (mem : Memory) (serialized_object index : Nat) (name : Option String),
        serialize mem serialized_object index name (.Function source) false true
          = .ok (storeBytes mem (serialized_object + index)
              (headerBytes 0x0D name ++ stringBytes source),
              index + (headerBytes 0x0D name ++ stringBytes source).length))
    ∧ (∀ (v : Value) (key : String) (serializeFunctions : Bool) (mem : Memory)
        (serialized_object index : Nat) (check_key : Bool) (r : Memory × Nat),
        scopesAreDocuments v serializeFunctions = true →
        serialize mem serialized_object index (some key) v check_key serializeFunctions = .ok r →
        IsFunction v = false ∨ serializeFunctions = true →
        r.1 (serialized_object + index) = 0x0D →
        IsFunction v = true ∧ serializeFunctions = true)
    ∧ (∀ (data : List Nat) (index : Nat) (v : Value) (i : Nat),
        deserialize_scalar BSON_DATA_CODE data index = .ok (v, i) →
        ∃ code, v = .Code code (.Object "Object" []))
    ∧ (∀ (source : String) (data : List Nat) (index : Nat) (tail : List Nat),
        hasNoNul source = true → data.drop index = stringBytes source ++ tail →
        index + 4 + Utf8Length source + 1 < 4294967296 →
        deserialize_scalar BSON_DATA_CODE data index
          = .ok (.Code source (.Object "Object" []), index + 4)) := by
  refine ⟨fun code scope => ⟨rfl, fun key sf => ⟨_, rfl⟩⟩, ?_, ?_, ?_, wireTag_code_iff, ?_, ?_, ?_,
    code_result, ?_⟩
  · intro code scope key sf mem so idx ck r hs hr
    exact serialize_first_byte (.Code code scope) sf mem so idx key ck r hs hr (Or.inl rfl)
  · intro code scope sf s hs
    simp only [calculate_object_size, hs, ok_bind]
    refine congrArg Except.ok ?_
    omega
  · intro code sf
    have h5 : calculate_object_size (.Object "Object" []) sf = .ok 5 := rfl
    refine ⟨h5, ?_, fun h => strlen_nonzero _ (WriteUtf8_bounds code (hasNoNul_spec code h))⟩
    simp only [calculate_object_size, h5, ok_bind]
    rfl
  · intro source mem so idx name
    rw [serialize_leaf (.Function source) rfl]
    simp [elementBytes, storeBytes, pure, Except.pure, bind, Except.bind]
  · intro source mem so idx name
    rw [serialize_leaf (.Function source) rfl]
    simp [elementBytes, pure, Except.pure, bind, Except.bind, BSON_DATA_CODE]
  · intro v key sf mem so idx ck r hs hr hw h13
    rw [serialize_first_byte v sf mem so idx key ck r hs hr hw] at h13
    have hf := (wireTag_code_iff v).1 h13
    refine ⟨hf, ?_⟩
    rcases hw with h | h
    · rw [hf] at h; cases h
    · exact h
  · intro source data index tail hsrc hdrop hbound
    exact code_decode source hsrc data index tail hdrop hbound

/-- C37 on the code `f` with the empty scope: the estimate is 15, and under
the name `a` the first byte stored is 0x0F. -/
theorem C37_code_wrapper_is_written_with_scope_witness :
    calculate_object_size (.Code "f" (.Object "Object" [])) false = .ok (4 + 4 + 1 + 1 + 5)
    ∧ (∀ r, serialize (fun _ => 0) 0 0 (some "a") (.Code "f" (.Object "Object" [])) false false
          = .ok r → r.1 (0 + 0) = 0x0F)
    ∧ (∃ r, serialize (fun _ => 0) 0 0 (some "a") (.Code "f" (.Object "Object" [])) false false
          = .ok r) :=
  ⟨C37_code_wrapper_is_written_with_scope.2.2.1 "f" (.Object "Object" []) false 5 rfl,
    fun r hr => C37_code_wrapper_is_written_with_scope.2.1 "f" (.Object "Object" []) "a" false
      (fun _ => 0) 0 0 false r (by decide) hr,
    ⟨_, rfl⟩⟩

/-- C38 (the decoder terminates on every finite byte sequence, the cursor
advancing at least one byte in each iteration): the code breaks it.  The
cursor is a `uint32_t` and the string branch adds the declared length to it
without a check.  On the sixteen bytes `10 00 00 00 | 02 61 00 | f9 ff ff ff |
00 00 00 00 00` the element `a` at offset 4 declares a string of `2 ^ 32 - 7`
bytes; `strncpy` stops reading at the NUL that follows, and the cursor after
the element is `11 + (2 ^ 32 - 7)` modulo `2 ^ 32`, which is 4 again.  So one
iteration of the loop leaves the cursor where it was, and with every amount
of fuel the embedding runs out of it: the loop of the source does not end. -/
theorem C38_cursor_wraps_and_loop_does_not_end :
    deserialize_int32 [16, 0, 0, 0, 2, 97, 0, 249, 255, 255, 255, 0, 0, 0, 0, 0] 7
        = .ok (4294967296 - 7)
    ∧ (11 + (4294967296 - 7)) % 4294967296 = 4
    ∧ (∃ value, ∀ (fuel : Nat) (return_data : List (String × Value))
        (return_array : List Value),
        deserialize_loop (fuel + 1)
            [16, 0, 0, 0, 2, 97, 0, 249, 255, 255, 255, 0, 0, 0, 0, 0] false 16 4 return_data
            return_array
          = deserialize_loop fuel
              [16, 0, 0, 0, 2, 97, 0, 249, 255, 255, 255, 0, 0, 0, 0, 0] false 16 4
              (objectSet return_data "a" value) return_array)
    ∧ (∀ fuel : Nat,
        BSONDeserialize fuel [16, 0, 0, 0, 2, 97, 0, 249, 255, 255, 255, 0, 0, 0, 0, 0]
          = .error .outOfFuel) := by
  have hstep := wrapping_step_of [16, 0, 0, 0, 2, 97, 0, 249, 255, 255, 255, 0, 0, 0, 0, 0] 2 _
    (Or.inl rfl) rfl rfl
    (wrapping_string [16, 0, 0, 0, 2, 97, 0, 249, 255, 255, 255, 0, 0, 0, 0, 0] rfl
      [0, 0, 0, 0] rfl)
  exact ⟨rfl, rfl, ⟨_, hstep⟩,
    wrapping_deserialize_of _ _ [2, 97, 0, 249, 255, 255, 255, 0, 0, 0, 0, 0] rfl hstep⟩

/-- C39 (a byte that is no tag).  The tags with a branch in `deserialize` are
those of the table.  For every other byte read as a tag, in either mode, one
iteration of the loop leaves the fields and the array read so far as they are
and goes on one byte further: no error, no field.  Once the cursor has reached
the declared size the loop ends with the value read so far.  So the
terminating NUL of a document whose declared size is the offset after it is
skipped in this way and the loop ends at the declared size; and the nine bytes
`09 00 00 00 | 06 0c 13 00 | 00` decode to the empty document. -/
theorem C39_unknown_tag_is_skipped :
    (∀ t : Nat, isElementType t = true
        ↔ t ∈ [1, 2, 3, 4, 5, 7, 8, 9, 10, 11, 13, 14, 15, 16, 17, 18, 127, 255])
    ∧ (isElementType 0 = false ∧ isElementType 6 = false ∧ isElementType 12 = false
        ∧ isElementType 19 = false)
    ∧ (∀ (fuel : Nat) (data : List Nat) (is_array_item : Bool) (size index : Nat)
        (return_data : List (String × Value)) (return_array : List Value) (b : Nat)
        (tail : List Nat),
        data.drop index = b :: tail → b < 256 → isElementType b = false →
        index < size → size < 4294967296 →
        deserialize_loop (fuel + 1) data is_array_item size index return_data return_array
          = deserialize_loop fuel data is_array_item size (index + 1) return_data return_array)
    ∧ (∀ (fuel : Nat) (data : List Nat) (is_array_item : Bool) (size index : Nat)
        (return_data : List (String × Value)) (return_array : List Value),
        size ≤ index →
        deserialize_loop (fuel + 1) data is_array_item size index return_data return_array
          = .ok (if is_array_item = true then .Array return_array
              else finishObject return_data))
    ∧ (∀ (fuel : Nat) (data : List Nat) (is_array_item : Bool) (size index : Nat)
        (return_data : List (String × Value)) (return_array : List Value) (tail : List Nat),
        data.drop index = 0 :: tail → size = index + 1 → size < 4294967296 →
        deserialize_loop (fuel + 2) data is_array_item size index return_data return_array
            = deserialize_loop (fuel + 1) data is_array_item size size return_data return_array
          ∧ deserialize_loop (fuel + 2) data is_array_item size index return_data return_array
            = .ok (if is_array_item = true then .Array return_array
                else finishObject return_data))
    ∧ (∀ fuel : Nat, BSONDeserialize (fuel + 7) [9, 0, 0, 0, 6, 12, 19, 0, 0]
        = .ok (.Object "Object" [])) := by
  refine ⟨isElementType_iff, by decide, ?_, ?_, ?_, fun _ => rfl⟩
  · intro fuel data isArr size index acc arr b tail hdrop hb htag hlt hsize
    exact loop_skip fuel data isArr size index acc arr b tail hdrop hb htag hlt hsize
  · intro fuel data isArr size index acc arr h
    exact loop_done fuel data isArr size index acc arr h
  · intro fuel data isArr size index acc arr tail hdrop hs hsize
    have h1 := loop_skip (fuel + 1) data isArr size index acc arr 0 tail hdrop (by decide)
      (by decide) (by omega) hsize
    rw [← hs] at h1
    refine ⟨h1, ?_⟩
    rw [h1]
    exact loop_done fuel data isArr size size acc arr (Nat.le_refl _)

/-- C39 on the byte 0x06 at offset 4 of `09 00 00 00 | 06 0c 13 00 | 00`: the
loop goes on at offset 5 with no field. -/
theorem C39_unknown_tag_is_skipped_witness :
    deserialize_loop (5 + 1) [9, 0, 0, 0, 6, 12, 19, 0, 0] false 9 4 [] []
      = deserialize_loop 5 [9, 0, 0, 0, 6, 12, 19, 0, 0] false 9 (4 + 1) [] [] :=
  C39_unknown_tag_is_skipped.2.2.1 5 [9, 0, 0, 0, 6, 12, 19, 0, 0] false 9 4 [] [] 6
    [12, 19, 0, 0] rfl (by decide) (by decide) (by decide) (by decide)

/-- C40 (`serializeWithBufferAndIndex` on success).  For every document with
the estimate `n` (the scope of every code inside being a document, `n` below
`2 ^ 31` and `index + n` at most `2 ^ 32`): when the call returns a number,
`BSONSerialize` with the same arguments returns the encoding, which has `n`
bytes, the first four of them `n` in little-endian; the buffer is left as it
was with these `n` bytes stored from `index` on, so the byte at `index + i` is
byte `i` of the encoding for every `i < n` and every byte before `index` or
from `index + n` on is unchanged; and the number returned is `index + n - 1`. -/
theorem C40_serialize_into_buffer (constructorString : String)
    (properties : List (String × Value)) (serializeFunctions : Bool) (heap data : Memory)
    (check_key : Bool) (index returned : Nat)
    (hscopes : scopesAreDocuments (.Object constructorString properties) serializeFunctions
      = true)
    (hsize : objectSize (.Object constructorString properties) serializeFunctions < 2147483648)
    (hfit : index + objectSize (.Object constructorString properties) serializeFunctions
      ≤ 4294967296)
    (hret : (SerializeWithBufferAndIndex heap data (.Object constructorString properties)
      check_key index serializeFunctions).1 = .returned returned) :
    ∃ bytes, BSONSerialize heap (.Object constructorString properties) check_key
          serializeFunctions = .ok bytes
      ∧ calculate_object_size (.Object constructorString properties) serializeFunctions
          = .ok (objectSize (.Object constructorString properties) serializeFunctions)
      ∧ bytes.length = objectSize (.Object constructorString properties) serializeFunctions
      ∧ bytes.take 4
          = leBytes 4 (objectSize (.Object constructorString properties) serializeFunctions)
      ∧ (SerializeWithBufferAndIndex heap data (.Object constructorString properties)
          check_key index serializeFunctions).2 = storeBytes data index bytes
      ∧ (∀ i, i < objectSize (.Object constructorString properties) serializeFunctions →
          (SerializeWithBufferAndIndex heap data (.Object constructorString properties)
            check_key index serializeFunctions).2 (index + i) = bytes.getD i 0)
      ∧ (∀ a, a < index
            ∨ index + objectSize (.Object constructorString properties) serializeFunctions ≤ a →
          (SerializeWithBufferAndIndex heap data (.Object constructorString properties)
            check_key index serializeFunctions).2 a = data a)
      ∧ returned + 1
          = index + objectSize (.Object constructorString properties) serializeFunctions := by
  have hsize32 : objectSize (.Object constructorString properties) serializeFunctions
      < 4294967296 := by omega
  cases hn : calculate_object_size (.Object constructorString properties) serializeFunctions with
  | error e => simp [SerializeWithBufferAndIndex, hn] at hret
  | ok n =>
    cases hr : serialize heap 0 0 none (.Object constructorString properties) check_key
        serializeFunctions with
    | error e => simp [SerializeWithBufferAndIndex, hn, hr] at hret
    | ok r =>
      obtain ⟨h1, h2⟩ := buffer_bytes constructorString properties serializeFunctions heap data
        check_key index r hscopes hsize32 hr
      obtain ⟨_, hlen, _⟩ := root_bytes (.Object constructorString properties) rfl
        serializeFunctions heap 0 check_key r hscopes hsize32 hr
      obtain ⟨rest, hrest⟩ := documentEncoding_header constructorString properties
        serializeFunctions hsize32
      have hos := objectSize_eq _ _ _ hn
      have hlen2 : ((documentEncoding (.Object constructorString properties)
          serializeFunctions).map (fun b => b % 256)).length
          = objectSize (.Object constructorString properties) serializeFunctions := by
        rw [List.length_map, hlen]
      have h4 : 4 ≤ objectSize (.Object constructorString properties) serializeFunctions := by
        rw [← hlen, hrest]
        simp [leBytes_length]
      rw [h2] at hret ⊢
      simp only [CallResult.returned.injEq] at hret
      refine ⟨_, h1, by rw [hos], hlen2, ?_, rfl, ?_, ?_, ?_⟩
      · rw [hrest, List.map_append, List.take_left' (by simp [leBytes_length]),
          map_mod_eq_self _ (leBytes_lt _ _)]
      · intro i hi
        simp only [storeBytes_apply, hlen2]
        rw [if_pos (by omega)]
        have hb : ∀ b ∈ (documentEncoding (.Object constructorString properties)
            serializeFunctions).map (fun b => b % 256), b < 256 := by
          intro b hb
          simp only [List.mem_map] at hb
          obtain ⟨x, _, rfl⟩ := hb
          omega
        have hi2 : i < ((documentEncoding (.Object constructorString properties)
            serializeFunctions).map (fun b => b % 256)).length := by rw [hlen2]; exact hi
        have e : index + i - index = i := by omega
        rw [e, List.getD_eq_getElem _ _ hi2]
        exact Nat.mod_eq_of_lt (hb _ (List.getElem_mem _))
      · intro a ha
        simp only [storeBytes_apply, hlen2]
        rw [if_neg (by omega)]
      · omega

/-- C40 on the document `{a: 1}` written at index 3 of a buffer that holds 9
everywhere: the call returns 14, the twelve bytes of the encoding are at the
offsets 3 to 14, and the bytes at the offsets 2 and 15 are still 9. -/
theorem C40_serialize_into_buffer_witness :
    (SerializeWithBufferAndIndex (fun _ => 0) (fun _ => 9)
        (.Object "Object" [("a", .Number (doubleOfInt 1))]) false 3 false).1 = .returned 14
    ∧ 14 + 1 = 3 + objectSize (.Object "Object" [("a", .Number (doubleOfInt 1))]) false
    ∧ loadBytes (SerializeWithBufferAndIndex (fun _ => 0) (fun _ => 9)
        (.Object "Object" [("a", .Number (doubleOfInt 1))]) false 3 false).2 2 14
      = [9, 12, 0, 0, 0, 16, 97, 0, 1, 0, 0, 0, 0, 9] :=
  ⟨rfl,
    (C40_serialize_into_buffer "Object" [("a", .Number (doubleOfInt 1))] false (fun _ => 0)
      (fun _ => 9) false 3 14 (by decide) (by decide) (by decide) rfl).elim
      (fun _ h => h.2.2.2.2.2.2.2),
    rfl⟩

end BSON
